import Mathlib

/-!
# Expression semantic analysis of the D front end (`src/expression.c`)

A shallow embedding of the expression node hierarchy and of the per-variant
`semantic()` protocol, followed by theorems about it.

Conventions of the embedding.

* `integer_t` is `unsigned long long` (`mars.h`): a `Nat` below `2 ^ 64`, with
  bitwise operators as `&&&` and `|||`.
* A C++ object that is only ever reached through a pointer and compared by
  identity (`Dsymbol *`, `FuncDeclaration *`, ...) is a `Nat` handle; what the
  code asks of it goes through `Env`, the record of external collaborators
  (`mtype.h`, `dsymbol.h`, `declaration.h`, `scope.h`, ... are not part of the
  sources embedded here).
* `Type *` values are structural (`Typ`); `==` on two `Type *` is structural
  equality (types are merged into unique objects by the type system).
* Mutable state is passed explicitly: `State` holds `global`, the `Scope` that
  `sc` points to, and what was written to `stdout`; `Sem` is the state-and-abort
  monad in which every `semantic()` runs.
* A virtual call `e->semantic(sc)` on a child goes through a parameter
  `sem : Expression → Sem Expression` (open recursion), so each member function
  is embedded on its own and theorems hold for every behaviour of the children.
-/

namespace Dmd

/-! ## Types (`mtype.h`, external) -/

/-- The `ty` tags of `Type` that `expression.c` looks at. -/
inductive TY
  | Tvoid | Tbit | Tint8 | Tuns8 | Tint16 | Tuns16 | Tint32 | Tuns32 | Tint64 | Tuns64
  | Tfloat32 | Tfloat64 | Tfloat80 | Timaginary32 | Timaginary64 | Timaginary80
  | Tcomplex32 | Tcomplex64 | Tcomplex80 | Tascii | Twchar | Tchar
  | Tpointer | Tarray | Tsarray | Taarray | Treference | Tfunction | Tdelegate
  | Tclass | Tstruct | Tenum | Ttypedef
deriving DecidableEq, Repr

/-- The linkage of a function type: `enum LINK` of `mars.h`. -/
inductive LINK
  | LINKdefault | LINKd | LINKc | LINKcpp | LINKwindows | LINKpascal
deriving DecidableEq, Repr

/-- The passing mode of a declared parameter (`Argument::inout`). -/
inductive InOutKind
  | In | Out | InOut
deriving DecidableEq, Repr

mutual
/-- A `Type` object. `sarray` carries the value `tsa->dim->toInteger()` of its
dimension; `function` carries the `TypeFunction` fields the binder reads
(`arguments` may be `NULL`). -/
inductive Typ
  | basic (ty : TY)
  | pointer (next : Typ)
  | darray (next : Typ)
  | sarray (next : Typ) (dim : Nat)
  | aarray (next : Typ) (index : Typ) (key : Typ)
  | reference (next : Typ)
  | function (arguments : Option Arguments) (next : Typ) (varargs : Bool) (linkage : LINK)
  | delegate (next : Typ)
  | classT (sym : Nat)
  | structT (sym : Nat)
  | enumT (sym : Nat) (memtype : Typ)
  | typedefT (sym : Nat) (basetype : Typ)
/-- The declared parameters of a function type: an array of `Argument`. -/
inductive Arguments
  | nil
  | cons (type : Typ) (inout : InOutKind) (rest : Arguments)
end

mutual
/-- Structural comparison of two types. -/
def Typ.beq : Typ → Typ → Bool
  | .basic a, .basic b => decide (a = b)
  | .pointer a, .pointer b => Typ.beq a b
  | .darray a, .darray b => Typ.beq a b
  | .sarray a m, .sarray b n => Typ.beq a b && decide (m = n)
  | .aarray a i k, .aarray b j l => Typ.beq a b && Typ.beq i j && Typ.beq k l
  | .reference a, .reference b => Typ.beq a b
  | .function none a v l, .function none b w m =>
      Typ.beq a b && decide (v = w) && decide (l = m)
  | .function (some p) a v l, .function (some q) b w m =>
      Arguments.beq p q && Typ.beq a b && decide (v = w) && decide (l = m)
  | .delegate a, .delegate b => Typ.beq a b
  | .classT a, .classT b => decide (a = b)
  | .structT a, .structT b => decide (a = b)
  | .enumT s a, .enumT t b => decide (s = t) && Typ.beq a b
  | .typedefT s a, .typedefT t b => decide (s = t) && Typ.beq a b
  | _, _ => false
/-- Structural comparison of two parameter lists. -/
def Arguments.beq : Arguments → Arguments → Bool
  | .nil, .nil => true
  | .cons t i r, .cons u j s => Typ.beq t u && decide (i = j) && Arguments.beq r s
  | _, _ => false
end

mutual
theorem Typ.typ_beq_refl : ∀ a : Typ, Typ.beq a a = true
  | .basic a => by simp [Typ.beq]
  | .pointer a => by simp [Typ.beq, Typ.typ_beq_refl a]
  | .darray a => by simp [Typ.beq, Typ.typ_beq_refl a]
  | .sarray a m => by simp [Typ.beq, Typ.typ_beq_refl a]
  | .aarray a i k => by simp [Typ.beq, Typ.typ_beq_refl a, Typ.typ_beq_refl i, Typ.typ_beq_refl k]
  | .reference a => by simp [Typ.beq, Typ.typ_beq_refl a]
  | .function none a v l => by simp [Typ.beq, Typ.typ_beq_refl a]
  | .function (some p) a v l => by simp [Typ.beq, Typ.typ_beq_refl a, Arguments.args_beq_refl p]
  | .delegate a => by simp [Typ.beq, Typ.typ_beq_refl a]
  | .classT a => by simp [Typ.beq]
  | .structT a => by simp [Typ.beq]
  | .enumT s a => by simp [Typ.beq, Typ.typ_beq_refl a]
  | .typedefT s a => by simp [Typ.beq, Typ.typ_beq_refl a]
theorem Arguments.args_beq_refl : ∀ a : Arguments, Arguments.beq a a = true
  | .nil => by simp [Arguments.beq]
  | .cons t i r => by simp [Arguments.beq, Typ.typ_beq_refl t, Arguments.args_beq_refl r]
end

mutual
theorem Typ.typ_eq_of_beq : ∀ a b : Typ, Typ.beq a b = true → a = b
  | .basic a, b => by cases b <;> simp [Typ.beq]
  | .pointer a, b => by
      cases b <;> simp [Typ.beq]
      exact Typ.typ_eq_of_beq a _
  | .darray a, b => by
      cases b <;> simp [Typ.beq]
      exact Typ.typ_eq_of_beq a _
  | .sarray a m, b => by
      cases b <;> simp [Typ.beq]
      intro h hm; exact ⟨Typ.typ_eq_of_beq a _ h, hm⟩
  | .aarray a i k, b => by
      cases b <;> simp [Typ.beq]
      intro h1 h2 h3
      exact ⟨Typ.typ_eq_of_beq a _ h1, Typ.typ_eq_of_beq i _ h2, Typ.typ_eq_of_beq k _ h3⟩
  | .reference a, b => by
      cases b <;> simp [Typ.beq]
      exact Typ.typ_eq_of_beq a _
  | .function none a v l, b => by
      cases b with
      | function q b w m =>
        cases q <;> simp [Typ.beq]
        intro h1 h2 h3; exact ⟨Typ.typ_eq_of_beq a _ h1, h2, h3⟩
      | _ => simp [Typ.beq]
  | .function (some p) a v l, b => by
      cases b with
      | function q b w m =>
        cases q <;> simp [Typ.beq]
        intro h0 h1 h2 h3
        exact ⟨Arguments.args_eq_of_beq p _ h0, Typ.typ_eq_of_beq a _ h1, h2, h3⟩
      | _ => simp [Typ.beq]
  | .delegate a, b => by
      cases b <;> simp [Typ.beq]
      exact Typ.typ_eq_of_beq a _
  | .classT a, b => by cases b <;> simp [Typ.beq]
  | .structT a, b => by cases b <;> simp [Typ.beq]
  | .enumT s a, b => by
      cases b <;> simp [Typ.beq]
      intro h1 h2; exact ⟨h1, Typ.typ_eq_of_beq a _ h2⟩
  | .typedefT s a, b => by
      cases b <;> simp [Typ.beq]
      intro h1 h2; exact ⟨h1, Typ.typ_eq_of_beq a _ h2⟩
theorem Arguments.args_eq_of_beq : ∀ a b : Arguments, Arguments.beq a b = true → a = b
  | .nil, b => by cases b <;> simp [Arguments.beq]
  | .cons t i r, b => by
      cases b <;> simp [Arguments.beq]
      intro h1 h2 h3
      exact ⟨Typ.typ_eq_of_beq t _ h1, h2, Arguments.args_eq_of_beq r _ h3⟩
end

instance : DecidableEq Typ := fun a b =>
  if h : Typ.beq a b = true then isTrue (Typ.typ_eq_of_beq a b h)
  else isFalse (fun e => h (e ▸ Typ.typ_beq_refl a))

/-- The tag `type->ty`. -/
def Typ.ty : Typ → TY
  | .basic ty => ty
  | .pointer _ => .Tpointer
  | .darray _ => .Tarray
  | .sarray _ _ => .Tsarray
  | .aarray _ _ _ => .Taarray
  | .reference _ => .Treference
  | .function _ _ _ _ => .Tfunction
  | .delegate _ => .Tdelegate
  | .classT _ => .Tclass
  | .structT _ => .Tstruct
  | .enumT _ _ => .Tenum
  | .typedefT _ _ => TY.Ttypedef

/-- The field `type->next` (`NULL` for a type without one). -/
def Typ.next : Typ → Option Typ
  | .pointer n => some n
  | .darray n => some n
  | .sarray n _ => some n
  | .aarray n _ _ => some n
  | .reference n => some n
  | .function _ n _ _ => some n
  | .delegate n => some n
  | _ => none

/-- The length `arguments->dim` of a parameter list. -/
def Arguments.dim : Arguments → Nat
  | .nil => 0
  | .cons _ _ rest => rest.dim + 1

/-- The parameter `arguments->data[i]`. -/
def Arguments.get? : Arguments → Nat → Option (Typ × InOutKind)
  | .nil, _ => none
  | .cons t io _, 0 => some (t, io)
  | .cons _ _ rest, i + 1 => rest.get? i

/-- The static `Type::tvoid`. -/
def Typ.tvoid : Typ := .basic .Tvoid
/-- The static `Type::tint32`. -/
def Typ.tint32 : Typ := .basic .Tint32
/-- The static `Type::tint64`. -/
def Typ.tint64 : Typ := .basic .Tint64
/-- The static `Type::tuns64`. -/
def Typ.tuns64 : Typ := .basic .Tuns64

/-! ## Expression nodes -/

/-- A source location (`struct Loc` of `mars.h`): module handle and line. -/
structure Loc where
  mod : Option Nat
  linnum : Nat
deriving DecidableEq, Repr

/-- An `Identifier *`: identifiers are unique per spelling. -/
abbrev Identifier := String

/-- A `Dsymbol *` (or a pointer to one of its subclasses), compared by identity. -/
abbrev Dsymbol := Nat

/-- The operator tags `enum TOK` that `expression.c` uses. -/
inductive TOK
  | TOKint64 | TOKfloat64 | TOKimaginary | TOKcomplex | TOKidentifier | TOKthis | TOKsuper
  | TOKnull | TOKstring | TOKtypedot | TOKtype | TOKimport | TOKnew | TOKsymoff | TOKvar
  | TOKdeclaration | TOKassert | TOKdot | TOKdotvar | TOKdelegate | TOKdottype | TOKarrow
  | TOKcall | TOKaddress | TOKstar | TOKneg | TOKtilde | TOKnot | TOKdelete | TOKcast
  | TOKrange | TOKarraylength | TOKcomma | TOKarray | TOKplusplus | TOKminusminus
  | TOKassign | TOKaddass | TOKminass | TOKcatass | TOKmulass | TOKdivass | TOKmodass
  | TOKshlass | TOKshrass | TOKushrass | TOKandass | TOKorass | TOKxorass
  | TOKadd | TOKmin | TOKcat | TOKmul | TOKdiv | TOKmod | TOKshl | TOKshr | TOKushr
  | TOKand | TOKor | TOKxor | TOKoror | TOKandand | TOKin | TOKquestion
  | TOKequal | TOKnotequal | TOKidentity | TOKnotidentity | TOKlt | TOKgt | TOKle | TOKge
deriving DecidableEq, Repr

/-- The unary expression classes that add no field to `UnaExp`. -/
inductive UnaClass
  | AssertExp | AddrExp | PtrExp | NegExp | ComExp | NotExp | BoolExp | DeleteExp
  | ArrayLengthExp
deriving DecidableEq, Repr

/-- The binary expression classes that add no field to `BinExp`. -/
inductive BinClass
  | CommaExp | ArrayExp | PostIncExp | PostDecExp | AssignExp | AddAssignExp | MinAssignExp
  | CatAssignExp | MulAssignExp | DivAssignExp | ModAssignExp | ShlAssignExp | ShrAssignExp
  | UshrAssignExp | AndAssignExp | OrAssignExp | XorAssignExp | AddExp | MinExp | CatExp
  | MulExp | DivExp | ModExp | ShlExp | ShrExp | UshrExp | AndExp | OrExp | XorExp
  | OrOrExp | AndAndExp | InExp | CmpExp | EqualExp | IdentityExp
deriving DecidableEq, Repr

/-- An expression node: one constructor per C++ class, each with the fields
`loc` and `type` of `Expression` (`type = none` is the `NULL` of an unanalysed
node) followed by the fields of the class. The classes that add no field to
`UnaExp` or `BinExp` share the constructors `UnaExp` and `BinExp`. Floating
values are kept as uninterpreted bit patterns. -/
inductive Expression
  | IntegerExp (loc : Loc) (type : Option Typ) (value : Nat)
  | RealExp (loc : Loc) (type : Option Typ) (value : Nat)
  | ImaginaryExp (loc : Loc) (type : Option Typ) (value : Nat)
  | ComplexExp (loc : Loc) (type : Option Typ) (value : Nat)
  | IdentifierExp (loc : Loc) (type : Option Typ) (ident : Identifier)
  | ThisExp (loc : Loc) (type : Option Typ)
  | SuperExp (loc : Loc) (type : Option Typ)
  | NullExp (loc : Loc) (type : Option Typ)
  | StringExp (loc : Loc) (type : Option Typ) (string : List Nat) (len : Nat)
      (committed : Nat)
  | TypeDotIdExp (loc : Loc) (type : Option Typ) (ident : Identifier)
  | TypeExp (loc : Loc) (type : Option Typ)
  | ScopeExp (loc : Loc) (type : Option Typ) (sds : Dsymbol)
  | NewExp (loc : Loc) (type : Option Typ) (arguments : Option (List Expression))
      (member : Option Dsymbol)
  | SymOffExp (loc : Loc) (type : Option Typ) (var : Dsymbol) (offset : Nat)
  | VarExp (loc : Loc) (type : Option Typ) (var : Dsymbol)
  | DeclarationExp (loc : Loc) (type : Option Typ) (declaration : Dsymbol)
  | UnaExp (cls : UnaClass) (loc : Loc) (type : Option Typ) (e1 : Expression)
  | DotIdExp (loc : Loc) (type : Option Typ) (e1 : Expression) (ident : Identifier)
  | DotVarExp (loc : Loc) (type : Option Typ) (e1 : Expression) (var : Dsymbol)
  | DelegateExp (loc : Loc) (type : Option Typ) (e1 : Expression) (func : Dsymbol)
  | DotTypeExp (loc : Loc) (type : Option Typ) (e1 : Expression) (sym : Dsymbol)
  | ArrowExp (loc : Loc) (type : Option Typ) (e1 : Expression) (ident : Identifier)
  | CallExp (loc : Loc) (type : Option Typ) (e1 : Expression)
      (arguments : Option (List Expression))
  | CastExp (loc : Loc) (type : Option Typ) (e1 : Expression) (to_ : Typ)
  | ArrayRangeExp (loc : Loc) (type : Option Typ) (e1 : Expression)
      (lwr : Option Expression) (upr : Option Expression)
  | BinExp (cls : BinClass) (loc : Loc) (op : TOK) (type : Option Typ) (e1 : Expression)
      (e2 : Expression)
  | CondExp (loc : Loc) (type : Option Typ) (econd : Expression) (e1 : Expression)
      (e2 : Expression)

namespace Expression

/-- The field `e->type`. -/
def type : Expression → Option Typ
  | IntegerExp _ t _ | RealExp _ t _ | ImaginaryExp _ t _ | ComplexExp _ t _
  | IdentifierExp _ t _ | ThisExp _ t | SuperExp _ t | NullExp _ t | StringExp _ t _ _ _
  | TypeDotIdExp _ t _ | TypeExp _ t | ScopeExp _ t _ | NewExp _ t _ _ | SymOffExp _ t _ _
  | VarExp _ t _ | DeclarationExp _ t _ | UnaExp _ _ t _ | DotIdExp _ t _ _
  | DotVarExp _ t _ _ | DelegateExp _ t _ _ | DotTypeExp _ t _ _ | ArrowExp _ t _ _
  | CallExp _ t _ _ | CastExp _ t _ _ | ArrayRangeExp _ t _ _ _ | BinExp _ _ _ t _ _
  | CondExp _ t _ _ _ => t

/-- The field `e->loc`. -/
def loc : Expression → Loc
  | IntegerExp l _ _ | RealExp l _ _ | ImaginaryExp l _ _ | ComplexExp l _ _
  | IdentifierExp l _ _ | ThisExp l _ | SuperExp l _ | NullExp l _ | StringExp l _ _ _ _
  | TypeDotIdExp l _ _ | TypeExp l _ | ScopeExp l _ _ | NewExp l _ _ _ | SymOffExp l _ _ _
  | VarExp l _ _ | DeclarationExp l _ _ | UnaExp _ l _ _ | DotIdExp l _ _ _
  | DotVarExp l _ _ _ | DelegateExp l _ _ _ | DotTypeExp l _ _ _ | ArrowExp l _ _ _
  | CallExp l _ _ _ | CastExp l _ _ _ | ArrayRangeExp l _ _ _ _ | BinExp _ l _ _ _ _
  | CondExp l _ _ _ _ => l

/-- The assignment `e->type = t`. -/
def setType (t : Option Typ) : Expression → Expression
  | IntegerExp l _ v => IntegerExp l t v
  | RealExp l _ v => RealExp l t v
  | ImaginaryExp l _ v => ImaginaryExp l t v
  | ComplexExp l _ v => ComplexExp l t v
  | IdentifierExp l _ i => IdentifierExp l t i
  | ThisExp l _ => ThisExp l t
  | SuperExp l _ => SuperExp l t
  | NullExp l _ => NullExp l t
  | StringExp l _ s n c => StringExp l t s n c
  | TypeDotIdExp l _ i => TypeDotIdExp l t i
  | TypeExp l _ => TypeExp l t
  | ScopeExp l _ s => ScopeExp l t s
  | NewExp l _ a m => NewExp l t a m
  | SymOffExp l _ v o => SymOffExp l t v o
  | VarExp l _ v => VarExp l t v
  | DeclarationExp l _ d => DeclarationExp l t d
  | UnaExp c l _ e => UnaExp c l t e
  | DotIdExp l _ e i => DotIdExp l t e i
  | DotVarExp l _ e v => DotVarExp l t e v
  | DelegateExp l _ e f => DelegateExp l t e f
  | DotTypeExp l _ e s => DotTypeExp l t e s
  | ArrowExp l _ e i => ArrowExp l t e i
  | CallExp l _ e a => CallExp l t e a
  | CastExp l _ e c => CastExp l t e c
  | ArrayRangeExp l _ e lw up => ArrayRangeExp l t e lw up
  | BinExp c l o _ a b => BinExp c l o t a b
  | CondExp l _ c a b => CondExp l t c a b

/-- The assignment `e->loc = l`. -/
def setLoc (l : Loc) : Expression → Expression
  | IntegerExp _ t v => IntegerExp l t v
  | RealExp _ t v => RealExp l t v
  | ImaginaryExp _ t v => ImaginaryExp l t v
  | ComplexExp _ t v => ComplexExp l t v
  | IdentifierExp _ t i => IdentifierExp l t i
  | ThisExp _ t => ThisExp l t
  | SuperExp _ t => SuperExp l t
  | NullExp _ t => NullExp l t
  | StringExp _ t s n c => StringExp l t s n c
  | TypeDotIdExp _ t i => TypeDotIdExp l t i
  | TypeExp _ t => TypeExp l t
  | ScopeExp _ t s => ScopeExp l t s
  | NewExp _ t a m => NewExp l t a m
  | SymOffExp _ t v o => SymOffExp l t v o
  | VarExp _ t v => VarExp l t v
  | DeclarationExp _ t d => DeclarationExp l t d
  | UnaExp c _ t e => UnaExp c l t e
  | DotIdExp _ t e i => DotIdExp l t e i
  | DotVarExp _ t e v => DotVarExp l t e v
  | DelegateExp _ t e f => DelegateExp l t e f
  | DotTypeExp _ t e s => DotTypeExp l t e s
  | ArrowExp _ t e i => ArrowExp l t e i
  | CallExp _ t e a => CallExp l t e a
  | CastExp _ t e c => CastExp l t e c
  | ArrayRangeExp _ t e lw up => ArrayRangeExp l t e lw up
  | BinExp c _ o t a b => BinExp c l o t a b
  | CondExp _ t c a b => CondExp l t c a b

/-- The operator of a unary class, as its constructor passes it to `UnaExp`. -/
def UnaClass.op : UnaClass → TOK
  | .AssertExp => .TOKassert
  | .AddrExp => .TOKaddress
  | .PtrExp => .TOKstar
  | .NegExp => .TOKneg
  | .ComExp => .TOKtilde
  | .NotExp => .TOKnot
  | .BoolExp => .TOKnot
  | .DeleteExp => .TOKdelete
  | .ArrayLengthExp => .TOKarraylength

/-- The field `e->op`, as the constructor of each class sets it. -/
def op : Expression → TOK
  | IntegerExp _ _ _ => .TOKint64
  | RealExp _ _ _ => .TOKfloat64
  | ImaginaryExp _ _ _ => .TOKimaginary
  | ComplexExp _ _ _ => .TOKcomplex
  | IdentifierExp _ _ _ => .TOKidentifier
  | ThisExp _ _ => .TOKthis
  | SuperExp _ _ => .TOKsuper
  | NullExp _ _ => .TOKnull
  | StringExp _ _ _ _ _ => .TOKstring
  | TypeDotIdExp _ _ _ => .TOKtypedot
  | TypeExp _ _ => .TOKtype
  | ScopeExp _ _ _ => .TOKimport
  | NewExp _ _ _ _ => .TOKnew
  | SymOffExp _ _ _ _ => .TOKsymoff
  | VarExp _ _ _ => .TOKvar
  | DeclarationExp _ _ _ => .TOKdeclaration
  | UnaExp c _ _ _ => UnaClass.op c
  | DotIdExp _ _ _ _ => .TOKdot
  | DotVarExp _ _ _ _ => .TOKdotvar
  | DelegateExp _ _ _ _ => .TOKdelegate
  | DotTypeExp _ _ _ _ => .TOKdottype
  | ArrowExp _ _ _ _ => .TOKarrow
  | CallExp _ _ _ _ => .TOKcall
  | CastExp _ _ _ _ => .TOKcast
  | ArrayRangeExp _ _ _ _ _ => .TOKrange
  | BinExp _ _ o _ _ _ => o
  | CondExp _ _ _ _ _ => .TOKquestion

end Expression

/-! ## State and the analysis monad -/

/-- The command line switches `struct Param` that `expression.c` reads. -/
structure Param where
  useDeprecated : Bool
deriving DecidableEq, Repr

/-- The part of `struct Global` that `expression.c` touches. `errors` is an
`unsigned`: it is kept below `2 ^ 32`. -/
structure Global where
  params : Param
  errors : Nat
deriving DecidableEq, Repr

/-- The fields of the `Scope` object `sc` points to that `expression.c` reads
or writes. `callSuper` is an `unsigned` set of `CSX` bits; `noctor` and
`incontract` are tested against zero only. -/
structure Scope where
  func : Option Dsymbol
  callSuper : Nat
  noctor : Nat
  incontract : Nat
deriving DecidableEq, Repr

/-- The mutable state an analysis call runs against. -/
structure State where
  global : Global
  sc : Scope
  stdout : String
deriving DecidableEq, Repr

/-- How a computation ended: normally, with the process ended by `fatal()`,
stopped by a failed `assert`, or stopped by a dereference of `NULL`. -/
inductive Result (α : Type)
  | ok (a : α) (s : State)
  | exit (s : State)
  | assertFailed (s : State)
  | nullDeref (s : State)

/-- A computation over `State` that may end the process. -/
def Sem (α : Type) : Type := State → Result α

namespace Sem

/-- Sequencing: the continuation runs only after a normal return. -/
def bind {α β : Type} (x : Sem α) (f : α → Sem β) : Sem β := fun s =>
  match x s with
  | .ok a s' => f a s'
  | .exit s' => .exit s'
  | .assertFailed s' => .assertFailed s'
  | .nullDeref s' => .nullDeref s'

instance : Monad Sem where
  pure a := fun s => .ok a s
  bind := bind

/-- Read the state. -/
def get : Sem State := fun s => .ok s s

/-- The statement `printf(...)`, the text already formatted. -/
def printf (text : String) : Sem Unit := fun s =>
  .ok () { s with stdout := s.stdout ++ text }

/-- An update of the scope object `*sc`. -/
def modifySc (f : Scope → Scope) : Sem Unit := fun s => .ok () { s with sc := f s.sc }

/-- An update of the object `global`. -/
def modifyGlobal (f : Global → Global) : Sem Unit := fun s =>
  .ok () { s with global := f s.global }

/-- A failed `assert`. -/
def assertFail {α : Type} : Sem α := fun s => .assertFailed s

/-- A member access through a pointer that is `NULL`. -/
def nullDeref {α : Type} : Sem α := fun s => .nullDeref s

/-- The use `p->...` of a pointer `p` that may be `NULL`. -/
def deref {α : Type} : Option α → Sem α
  | some a => fun s => .ok a s
  | none => fun s => .nullDeref s

end Sem

/-- Modelled from the spec: `fatal()`, declared in `mars.h` and defined outside
these sources. Spec, section 7: the reporting primitive "increments a global
error counter, and then immediately aborts the entire analysis pass -- it does
not return control to the caller". -/
def fatal {α : Type} : Sem α := fun s => .exit s

/-! ## External collaborators -/

/-- The dynamic class of a symbol, as the `dynamic_cast`s of `expression.c`
probe it. -/
inductive DsymbolClass
  | EnumMember | VarDeclaration | FuncDeclaration | CtorDeclaration | ClassDeclaration
  | Import | TemplateInstance | WithScopeSymbol | ScopeDsymbol | Declaration | Dsymbol
deriving DecidableEq, Repr

namespace DsymbolClass

/-- Whether `dynamic_cast<FuncDeclaration *>` succeeds. -/
def isFuncDeclaration : DsymbolClass → Bool
  | FuncDeclaration | CtorDeclaration => true
  | _ => false

/-- Whether `dynamic_cast<Declaration *>` succeeds. -/
def isDeclaration : DsymbolClass → Bool
  | VarDeclaration | FuncDeclaration | CtorDeclaration | Declaration => true
  | _ => false

/-- Whether `dynamic_cast<ScopeDsymbol *>` succeeds. -/
def isScopeDsymbol : DsymbolClass → Bool
  | ClassDeclaration | TemplateInstance | WithScopeSymbol | ScopeDsymbol => true
  | _ => false

end DsymbolClass

/-- What `expression.c` consumes from the rest of the compiler: the type
system, the symbol table, overload resolution, conversions, the constants of
`scope.h`, and the virtual members of `Expression` reached through a child node.
Every field is a parameter of the embedding. -/
structure Env where
  /-- Embeds `Loc::toChars()`. -/
  locToChars : Loc → String
  /-- Embeds `Type::semantic(loc, sc)`. -/
  typeSemantic : Typ → Loc → Sem Typ
  /-- Embeds `Type::toBasetype()`. -/
  toBasetype : Typ → Typ
  /-- Embeds `Type::toChars()`. -/
  typeToChars : Typ → String
  /-- Embeds `Type::print()`: the text it writes. -/
  typePrint : Typ → String
  /-- Embeds `Type::arrayOf()`. -/
  arrayOf : Typ → Typ
  /-- Embeds `Type::isintegral()`. -/
  isintegral : Typ → Bool
  /-- Embeds `Type::isfloating()`. -/
  isfloating : Typ → Bool
  /-- Embeds `Type::getProperty(loc, ident)`. -/
  getProperty : Typ → Loc → Identifier → Sem Expression
  /-- Embeds `Type::dotExp(sc, e, ident)`. -/
  dotExp : Typ → Expression → Identifier → Sem Expression
  /-- Embeds `Scope::search(ident, &scopesym)`: the symbol and the scope symbol it was found in. -/
  search : Scope → Identifier → Option (Dsymbol × Option Dsymbol)
  /-- Embeds `ScopeDsymbol::search(ident)`. -/
  sdsSearch : Dsymbol → Identifier → Option Dsymbol
  /-- The dynamic class of a symbol. -/
  dynClass : Dsymbol → DsymbolClass
  /-- Embeds `Dsymbol::toAlias()`. -/
  toAlias : Dsymbol → Dsymbol
  /-- Embeds `Dsymbol::isDeprecated()`. -/
  isDeprecated : Dsymbol → Bool
  /-- Embeds `Dsymbol::kind()`. -/
  kind : Dsymbol → String
  /-- Embeds `Dsymbol::toChars()`. -/
  symToChars : Dsymbol → String
  /-- Embeds `Dsymbol::needThis()`. -/
  needThis : Dsymbol → Bool
  /-- Embeds `Dsymbol::getType()`. -/
  getType : Dsymbol → Option Typ
  /-- Embeds `Dsymbol::parent`. -/
  parent : Dsymbol → Option Dsymbol
  /-- Embeds `Declaration::type`. -/
  declType : Dsymbol → Option Typ
  /-- Embeds `Declaration::isConst()`. -/
  isConst : Dsymbol → Bool
  /-- Embeds `Declaration::isParameter()`. -/
  isParameter : Dsymbol → Bool
  /-- Embeds `VarDeclaration::init`, when it is an `ExpInitializer`: its `exp`. -/
  initExp : Dsymbol → Option Expression
  /-- Embeds `EnumMember::value`. -/
  enumValue : Dsymbol → Expression
  /-- Embeds `FuncDeclaration::vthis`. -/
  vthis : Dsymbol → Option Dsymbol
  /-- Embeds `FuncDeclaration::isConstructor()`. -/
  isConstructor : Dsymbol → Bool
  /-- Embeds `FuncDeclaration::overloadResolve(loc, arguments)`. -/
  overloadResolve : Dsymbol → Loc → Option (List Expression) → Sem Dsymbol
  /-- Embeds `ClassDeclaration::baseClass`. -/
  baseClass : Dsymbol → Option Dsymbol
  /-- Embeds `ClassDeclaration::ctor`. -/
  ctor : Dsymbol → Option Dsymbol
  /-- Embeds `ClassDeclaration::isBaseOf(cd, NULL)`. -/
  isBaseOf : Dsymbol → Dsymbol → Bool
  /-- Embeds `ClassDeclaration::isInterface()`. -/
  isInterface : Dsymbol → Bool
  /-- Embeds `Import::pkg`. -/
  importPkg : Dsymbol → Dsymbol
  /-- Embeds `WithScopeSymbol::withstate->wthis`. -/
  wthis : Dsymbol → Dsymbol
  /-- Embeds `accessCheck(loc, sc, e, d)`. -/
  accessCheck : Loc → Expression → Dsymbol → Sem Unit
  /-- Embeds `Expression::implicitCastTo(t)`. -/
  implicitCastTo : Expression → Typ → Sem Expression
  /-- Embeds `Expression::castTo(t)`. -/
  castTo : Expression → Typ → Sem Expression
  /-- Embeds `Expression::integralPromotions()`. -/
  integralPromotions : Expression → Sem Expression
  /-- Embeds `Expression::optimize(WANTvalue)`. -/
  optimize : Expression → Expression
  /-- Embeds `UnaExp::op_overload(sc)` and `BinExp::op_overload(sc)`. -/
  op_overload : Expression → Sem (Option Expression)
  /-- Embeds `BinExp::typeCombine()`: the fields `type`, `e1` and `e2` of the
  node after the call. -/
  typeCombine : Expression → Sem (Option Typ × Expression × Expression)
  /-- Embeds `BinExp::scaleFactor()`. -/
  scaleFactor : Expression → Sem Expression
  /-- Embeds `Expression::implicitConvTo(t)`, tested against zero. -/
  implicitConvTo : Expression → Typ → Bool
  /-- Embeds `Scope::mergeCallSuper(loc, cs)`. -/
  mergeCallSuper : Loc → Nat → Sem Unit
  /-- Embeds `Type::checkBoolean()`. -/
  typeCheckBoolean : Typ → Bool
  /-- Embeds `Type::isscalar()`. -/
  isscalar : Typ → Bool
  /-- Embeds `Type::isreal()`. -/
  isreal : Typ → Bool
  /-- Embeds `Type::isimaginary()`. -/
  isimaginary : Typ → Bool
  /-- Embeds `Type::iscomplex()`. -/
  iscomplex : Typ → Bool
  /-- Embeds `Type::tshiftcnt`. -/
  tshiftcnt : Typ
  /-- Embeds `Type::size()`. -/
  typeSize : Typ → Nat
  /-- Embeds `Type::tboolean`. -/
  tboolean : Typ
  /-- Embeds `Id::typeinfo`. -/
  idTypeinfo : Identifier
  /-- Embeds `FuncDeclaration::genCfunc(treturn, name)`. -/
  genCfunc : Typ → String → Dsymbol
  /-- The value `BinExp::typeCombine()` returns, for the node in its state after
  the call: `none` when it is the node itself. -/
  typeCombineValue : Expression → Option Expression
  /-- The virtual call `e->semantic(sc)` on another node. -/
  semantic : Expression → Sem Expression
  /-- The virtual call `e->modifiableLvalue(sc)` on another node. -/
  modifiableLvalue : Expression → Sem Expression
  /-- The virtual call `e->toChars()` on another node. -/
  expToChars : Expression → String
  /-- Embeds `Type::tindex`. -/
  tindex : Typ
  /-- Embeds `Id::size`. -/
  idSize : Identifier
  /-- Embeds `CSXthis_ctor` of `scope.h`. -/
  CSXthis_ctor : Nat
  /-- Embeds `CSXsuper_ctor` of `scope.h`. -/
  CSXsuper_ctor : Nat
  /-- Embeds `CSXthis` of `scope.h`. -/
  CSXthis : Nat
  /-- Embeds `CSXsuper` of `scope.h`. -/
  CSXsuper : Nat
  /-- Embeds `CSXlabel` of `scope.h`. -/
  CSXlabel : Nat
  /-- Embeds `CSXany_ctor` of `scope.h`. -/
  CSXany_ctor : Nat

/-! ## `Expression` -/

/-- Embeds `%d` of an `unsigned` and `%lld` of an `integer_t`: the `w`-bit pattern
`n` read as a signed integer, in decimal. -/
def fmtSigned (w : Nat) (n : Nat) : String :=
  if n % 2 ^ w < 2 ^ (w - 1) then Nat.repr (n % 2 ^ w)
  else "-" ++ Nat.repr (2 ^ w - n % 2 ^ w)

/-- Embeds `Expression::error(format, ...)`, with `msg` the text `vprintf` writes. -/
def Expression.error {α : Type} (env : Env) (loc : Loc) (msg : String) : Sem α := do
  let p := env.locToChars loc
  if p ≠ "" then
    Sem.printf (p ++ ": ")
  Sem.printf msg
  Sem.printf "\n"
  Sem.modifyGlobal fun g => { g with errors := (g.errors + 1) % 2 ^ 32 }
  fatal

/-- Embeds `Expression::checkDeprecated(s)`. -/
def Expression.checkDeprecated (env : Env) (loc : Loc) (s : Dsymbol) : Sem Unit := do
  let st ← Sem.get
  if !st.global.params.useDeprecated && env.isDeprecated s then
    Expression.error env loc (env.kind s ++ " " ++ env.symToChars s ++ " is deprecated")

/-- Embeds `Expression::semantic(sc)`, the default of the classes that do not override it. -/
def Expression.semantic (env : Env) (e : Expression) : Sem Expression :=
  match e.type with
  | some t => do
      let t ← env.typeSemantic t e.loc
      pure (e.setType (some t))
  | none => pure (e.setType (some Typ.tvoid))

/-! ## `IntegerExp` -/

/-- Embeds `IntegerExp::semantic(sc)`. -/
def IntegerExp.semantic (env : Env) (loc : Loc) (type : Option Typ) (value : Nat) :
    Sem Expression :=
  match type with
  | none =>
      -- Determine what the type of this number is
      let number := value
      if number &&& 0x8000000000000000 ≠ 0 then
        pure (.IntegerExp loc (some Typ.tuns64) value)
      else if number &&& 0xFFFFFFFF80000000 ≠ 0 then
        pure (.IntegerExp loc (some Typ.tint64) value)
      else
        pure (.IntegerExp loc (some Typ.tint32) value)
  | some t => do
      let t ← env.typeSemantic t loc
      pure (.IntegerExp loc (some t) value)

/-! ## A concrete world for examples -/

/-- A small concrete instance of the external collaborators, on which the
definitions can be evaluated: types analyse to themselves, conversions retype
the node, nothing is deprecated, every lookup fails, children analyse to
themselves; the `CSX` bits are pairwise distinct. -/
def Env.base : Env where
  locToChars := fun _ => ""
  typeSemantic := fun t _ => pure t
  toBasetype := fun t => t
  typeToChars := fun _ => "type"
  typePrint := fun _ => "type\n"
  arrayOf := fun t => .darray t
  isintegral := fun t => decide (t = .basic .Tint32 ∨ t = .basic .Tint64 ∨ t = .basic .Tuns64)
  isfloating := fun t => decide (t = .basic .Tfloat64)
  getProperty := fun t loc _ => pure (.TypeExp loc (some t))
  dotExp := fun _ e _ => pure e
  search := fun _ _ => none
  sdsSearch := fun _ _ => none
  dynClass := fun _ => .Dsymbol
  toAlias := fun s => s
  isDeprecated := fun _ => false
  kind := fun _ => "symbol"
  symToChars := fun _ => "sym"
  needThis := fun _ => false
  getType := fun _ => none
  parent := fun _ => none
  declType := fun _ => none
  isConst := fun _ => false
  isParameter := fun _ => false
  initExp := fun _ => none
  enumValue := fun _ => .IntegerExp ⟨none, 0⟩ (some Typ.tint32) 0
  vthis := fun _ => none
  isConstructor := fun _ => false
  overloadResolve := fun f _ _ => pure f
  baseClass := fun _ => none
  ctor := fun _ => none
  isBaseOf := fun _ _ => false
  isInterface := fun _ => false
  importPkg := fun s => s
  wthis := fun s => s
  accessCheck := fun _ _ _ => pure ()
  implicitCastTo := fun e t => pure (e.setType (some t))
  castTo := fun e t => pure (e.setType (some t))
  integralPromotions := fun e => pure e
  optimize := fun e => e
  op_overload := fun _ => pure none
  typeCombine := fun e =>
    match e with
    | .BinExp _ _ _ _ e1 e2 => pure (e1.type, e1, e2)
    | .CondExp _ _ _ e1 e2 => pure (e1.type, e1, e2)
    | e => pure (e.type, e, e)
  scaleFactor := fun e => pure e
  implicitConvTo := fun e t => decide (e.type = some t)
  mergeCallSuper := fun _ cs => Sem.modifySc fun sc => { sc with callSuper := sc.callSuper ||| cs }
  typeCheckBoolean := fun t => decide (t.ty ≠ .Tvoid)
  isscalar := fun t =>
    decide (t = .basic .Tint32 ∨ t = .basic .Tint64 ∨ t = .basic .Tuns64 ∨
      t = .basic .Tfloat64 ∨ t.ty = .Tpointer)
  isreal := fun t => decide (t = .basic .Tfloat64)
  isimaginary := fun _ => false
  iscomplex := fun _ => false
  tshiftcnt := .basic .Tuns8
  typeSize := fun t =>
    match t.ty with
    | .Tint64 | .Tuns64 | .Tfloat64 | .Timaginary64 => 8
    | .Tint32 | .Tuns32 | .Tfloat32 | .Timaginary32 | .Tpointer => 4
    | .Tint16 | .Tuns16 | .Twchar => 2
    | _ => 1
  tboolean := .basic .Tbit
  idTypeinfo := "typeinfo"
  genCfunc := fun _ name =>
    if name = "_adEq" then 40 else if name = "_adEqBit" then 41
    else if name = "_adCmp" then 42 else if name = "_adCmpChar" then 43
    else if name = "_adCmpBit" then 44 else 45
  typeCombineValue := fun _ => none
  semantic := fun e => pure e
  modifiableLvalue := fun e => pure e
  expToChars := fun _ => "exp"
  tindex := .basic .Tuns32
  idSize := "size"
  CSXthis_ctor := 1
  CSXsuper_ctor := 2
  CSXthis := 4
  CSXsuper := 8
  CSXlabel := 0x10
  CSXany_ctor := 0x40

/-- A location used in examples: line 7 of module 0. -/
def Loc.example : Loc := ⟨some 0, 7⟩

/-- A starting state used in examples: no error yet, deprecated features not
allowed, a scope outside any function, nothing printed. -/
def State.initial : State where
  global := { params := { useDeprecated := false }, errors := 0 }
  sc := { func := none, callSuper := 0, noctor := 0, incontract := 0 }
  stdout := ""

/-! ## Analysis passes -/

/-- The computations an analysis pass is made of: a normal return, a failed
`assert`, a step that returns and leaves the object `global` alone (a read or
write of a node or of the scope, output, a well-behaved collaborator), the
reporting primitive `Expression::error`, and the sequencing of such
computations. -/
inductive Pass (env : Env) : {α : Type} → Sem α → Prop
  | ret {α : Type} (a : α) : Pass env (pure a : Sem α)
  | assertFail {α : Type} : Pass env (Sem.assertFail : Sem α)
  | deref {α : Type} (p : Option α) : Pass env (Sem.deref p)
  | step {α : Type} (x : Sem α)
      (h : ∀ s, ∃ a s', x s = .ok a s' ∧ s'.global = s.global) : Pass env x
  | error {α : Type} (loc : Loc) (msg : String) : Pass env (Expression.error env loc msg : Sem α)
  | seq {α β : Type} (x : Sem α) (f : α → Sem β) :
      Pass env x → (∀ a, Pass env (f a)) → Pass env (x >>= f)

/-- The text `Expression::error` writes for the message `msg` at `loc`. -/
def Expression.errorText (env : Env) (loc : Loc) (msg : String) : String :=
  (if env.locToChars loc ≠ "" then env.locToChars loc ++ ": " else "") ++ msg ++ "\n"

/-- The state `Expression::error` leaves behind when it ends the process. -/
def Expression.errorState (env : Env) (loc : Loc) (msg : String) (s : State) : State :=
  { s with
    stdout := s.stdout ++ Expression.errorText env loc msg
    global := { s.global with errors := (s.global.errors + 1) % 2 ^ 32 } }

/-- A world in which symbol `1` is deprecated. -/
def Env.deprecated1 : Env :=
  { Env.base with isDeprecated := fun s => decide (s = 1) }

/-! ## Helpers of `Expression` -/

/-- Embeds `Type::pointerTo()`: the pointer type to `t`. -/
def Typ.pointerTo (t : Typ) : Typ := .pointer t

/-- The constructor `VarExp::VarExp(loc, var)`: the node takes the type of the
declaration. -/
def VarExp.ctor (env : Env) (loc : Loc) (var : Dsymbol) : Expression :=
  .VarExp loc (env.declType var) var

/-- The constructor `DotTypeExp::DotTypeExp(loc, e, s)`: the node takes `s->getType()`. -/
def DotTypeExp.ctor (env : Env) (loc : Loc) (e : Expression) (s : Dsymbol) : Expression :=
  .DotTypeExp loc (env.getType s) e s

/-- The constructor `PtrExp::PtrExp(loc, e)`: typed `e->type->next` when `e` is typed. -/
def PtrExp.ctor (loc : Loc) (e : Expression) : Expression :=
  .UnaExp .PtrExp loc (match e.type with
    | some t => t.next
    | none => none) e

/-- Embeds `Expression::copy()`: a bitwise duplicate of the node. -/
def Expression.copy (e : Expression) : Expression := e

/-- Embeds `Expression::deref()`. -/
def Expression.deref (e : Expression) : Sem Expression := do
  let t ← Sem.deref e.type
  if t.ty = .Treference then
    pure ((PtrExp.ctor e.loc e).setType t.next)
  else
    pure e

/-- Embeds `Expression::checkToPointer()`. -/
def Expression.checkToPointer (e : Expression) : Sem Expression := do
  let t ← Sem.deref e.type
  -- If C array or function, convert to function pointer
  if t.ty = .Tsarray then do
    let n ← Sem.deref t.next
    pure (.UnaExp .AddrExp e.loc (some n.pointerTo) e)
  else
    pure e

/-- Embeds `Expression::checkArithmetic()`. -/
def Expression.checkArithmetic (env : Env) (e : Expression) : Sem Unit := do
  let t ← Sem.deref e.type
  if !env.isintegral t && !env.isfloating t then
    Expression.error env e.loc ("'" ++ env.expToChars e ++ "' is not an arithmetic type")

/-! ## `ThisExp`, `NullExp`, `VarExp`, `DotVarExp`, `CastExp`, `NegExp` -/

/-- Embeds `ThisExp::semantic(sc)`. -/
def ThisExp.semantic (env : Env) (loc : Loc) (_type : Option Typ) : Sem Expression := do
  let st ← Sem.get
  let fd := st.sc.func
  let e ← (match fd with
    | none =>
        (Expression.error env loc "'this' is only allowed in member functions" :
          Sem Expression)
    | some fd =>
        match env.vthis fd with
        | none => Expression.error env loc ("no 'this' in '" ++ env.symToChars fd ++ "'")
        | some vthis => pure (Expression.ThisExp loc (env.declType vthis)))
  Sem.modifySc fun sc => { sc with callSuper := sc.callSuper ||| env.CSXthis }
  pure e

/-- Embeds `NullExp::semantic(sc)`. -/
def NullExp.semantic (loc : Loc) (type : Option Typ) : Sem Expression :=
  -- NULL is the same as (void *)0
  match type with
  | none => pure (.NullExp loc (some Typ.tvoid.pointerTo))
  | some t => pure (.NullExp loc (some t))

/-- Embeds `VarExp::semantic(sc)`. -/
def VarExp.semantic (env : Env) (loc : Loc) (type : Option Typ) (var : Dsymbol) :
    Sem Expression :=
  if env.isConst var ∧ env.dynClass var = .VarDeclaration then
    match env.initExp var with
    | some exp => if exp.type = type then pure exp else pure (.VarExp loc type var)
    | none => pure (.VarExp loc type var)
  else
    pure (.VarExp loc type var)

/-- Embeds `DotVarExp::semantic(sc)`. -/
def DotVarExp.semantic (env : Env) (loc : Loc) (type : Option Typ) (e1 : Expression)
    (var : Dsymbol) : Sem Expression :=
  match type with
  | none => do
      let e1 ← env.semantic e1
      let var := env.toAlias var
      if !(env.dynClass var).isDeclaration then Sem.nullDeref
      else
      match env.declType var with
      | none => Sem.assertFail
      | some t => do
          env.accessCheck loc e1 var
          pure (.DotVarExp loc (some t) e1 var)
  | some t => pure (.DotVarExp loc (some t) e1 var)

/-- Embeds `CastExp::semantic(sc)`. -/
def CastExp.semantic (env : Env) (loc : Loc) (type : Option Typ) (e1 : Expression)
    (to_ : Typ) : Sem Expression :=
  match type with
  | some t => pure (.CastExp loc (some t) e1 to_)
  | none => do
      let e1 ← env.semantic e1
      let to_ ← env.typeSemantic to_ loc
      env.castTo e1 to_

/-- Embeds `NegExp::semantic(sc)`. -/
def NegExp.semantic (env : Env) (loc : Loc) (type : Option Typ) (e1 : Expression) :
    Sem Expression :=
  match type with
  | none => do
      let e1 ← env.semantic e1
      match ← env.op_overload (.UnaExp .NegExp loc none e1) with
      | some e => pure e
      | none => do
          Expression.checkArithmetic env e1
          pure (.UnaExp .NegExp loc e1.type e1)
  | some t => pure (.UnaExp .NegExp loc (some t) e1)

/-! ## `IdentifierExp` -/

/-- Embeds `DotTypeExp::semantic(sc)`. -/
def DotTypeExp.semantic (e : Expression) : Sem Expression := pure e

/-- The tail of `IdentifierExp::semantic(sc)`, from the `Import` probe to the
final error, for the resolved symbol `s`. -/
def IdentifierExp.semanticTail (env : Env) (loc : Loc) (s : Dsymbol) : Sem Expression :=
  if env.dynClass s = .Import then
    Expression.semantic env (.ScopeExp loc none (env.importPkg s))
  else
    match env.getType s with
    | some t => pure (.TypeExp loc (some t))
    | none =>
        if env.dynClass s = .TemplateInstance then
          pure (.ScopeExp loc none s)
        else
          Expression.error env loc
            (env.kind s ++ " '" ++ env.symToChars s ++ "' is not a variable")

/-- Embeds `IdentifierExp::semantic(sc)`. -/
def IdentifierExp.semantic (env : Env) (loc : Loc) (_type : Option Typ) (ident : Identifier) :
    Sem Expression := do
  let st ← Sem.get
  match env.search st.sc ident with
  | some (s, scopesym) =>
      let s := env.toAlias s
      Expression.checkDeprecated env loc s
      -- See if it was a with class
      match scopesym.filter (fun w => env.dynClass w = .WithScopeSymbol) with
      | some withsym =>
          -- Same as wthis.ident
          let e := VarExp.ctor env loc (env.wthis withsym)
          let e := Expression.DotIdExp loc none e ident
          env.semantic e
      | none =>
      let thiscd : Option Dsymbol :=
        match st.sc.func with
        | some func => (env.parent func).filter (fun p => env.dynClass p = .ClassDeclaration)
        | none => none
      if env.needThis s then
        -- Supply an implicit 'this', as in this.ident
        DotVarExp.semantic env loc none (.ThisExp loc none) s
      else if env.dynClass s = .EnumMember then
        env.semantic (env.enumValue s)
      else if env.dynClass s = .VarDeclaration then
        let type := env.declType s
        let constInit : Option Expression :=
          if env.isConst s then (env.initExp s).filter (fun exp => exp.type = type) else none
        match constInit with
        | some exp =>
            -- make copy so we can change loc
            pure (exp.copy.setLoc loc)
        | none => (VarExp.ctor env loc s).deref
      else if (env.dynClass s).isFuncDeclaration then
        pure (VarExp.ctor env loc s)
      else
      match (if env.dynClass s = .ClassDeclaration then thiscd else none) with
      | some cd =>
          if env.isBaseOf s cd then do
            let func ← Sem.deref st.sc.func
            if env.needThis func then
              -- We need to add an implicit 'this' if cd is this class or a base class.
              DotTypeExp.semantic (DotTypeExp.ctor env loc (.ThisExp loc none) s)
            else IdentifierExp.semanticTail env loc s
          else IdentifierExp.semanticTail env loc s
      | none => IdentifierExp.semanticTail env loc s
  | none => Expression.error env loc ("undefined identifier " ++ ident)

/-! ## `DotIdExp` -/

/-- Embeds `DotIdExp::semantic(sc)`. -/
def DotIdExp.semantic (env : Env) (loc : Loc) (type : Option Typ) (e1 : Expression)
    (ident : Identifier) : Sem Expression := do
  -- UnaExp::semantic(sc)
  let e1 ← env.semantic e1
  match e1 with
  | .ScopeExp _ _ sds =>
      -- also used for template alias's
      match env.sdsSearch sds ident with
      | some s =>
          let s := env.toAlias s
          Expression.checkDeprecated env loc s
          if env.dynClass s = .EnumMember then
            env.semantic (env.enumValue s)
          else if env.dynClass s = .VarDeclaration then
            let type := env.declType s
            let constInit : Option Expression :=
              if env.isConst s then (env.initExp s).filter (fun exp => exp.type = type)
              else none
            match constInit with
            | some exp =>
                -- make copy so we can change loc
                pure (exp.copy.setLoc loc)
            | none => (VarExp.ctor env loc s).deref
          else if (env.dynClass s).isFuncDeclaration then
            pure (VarExp.ctor env loc s)
          else if (env.dynClass s).isScopeDsymbol then
            pure (.ScopeExp loc none s)
          else
            -- BUG: handle other cases like in IdentifierExp::semantic()
            Sem.assertFail
      | none =>
          Expression.error env loc
            ("undefined identifier " ++ env.expToChars (.DotIdExp loc type e1 ident))
  | _ => do
      let t ← Sem.deref e1.type
      if t.ty = .Tpointer ∧ ident ≠ env.idSize then
        let e := (PtrExp.ctor loc e1).setType t.next
        let et ← Sem.deref e.type
        env.dotExp et e ident
      else do
        let e ← env.dotExp t e1 ident
        env.semantic e

/-! ## `IntegerExp::toInteger` -/

/-- The conversion `(d_intW) value` stored back into an `integer_t`: the low
`w` bits of `v`, sign-extended to 64 bits. -/
def signExtend (w : Nat) (v : Nat) : Nat :=
  if v % 2 ^ w < 2 ^ (w - 1) then v % 2 ^ w else v % 2 ^ w + (2 ^ 64 - 2 ^ w)

/-- The loop of `IntegerExp::toInteger()`: the value normalised to the type
`t`, or `none` where the `default:` case is reached. -/
def IntegerExp.normalize : Typ → Nat → Option Nat
  | .basic .Tbit, value => some (value &&& 1)
  | .basic .Tint8, value => some (signExtend 8 value)
  | .basic .Tascii, value => some (value % 2 ^ 8)
  | .basic .Tuns8, value => some (value % 2 ^ 8)
  | .basic .Tint16, value => some (signExtend 16 value)
  | .basic .Twchar, value => some (value % 2 ^ 16)
  | .basic .Tuns16, value => some (value % 2 ^ 16)
  | .basic .Tint32, value => some (signExtend 32 value)
  | .pointer _, value => some (value % 2 ^ 32)
  | .basic .Tpointer, value => some (value % 2 ^ 32)
  | .basic .Tuns32, value => some (value % 2 ^ 32)
  | .basic .Tint64, value => some (signExtend 64 value)
  | .basic .Tuns64, value => some (value % 2 ^ 64)
  | .enumT _ memtype, value => IntegerExp.normalize memtype value
  | .typedefT _ basetype, value => IntegerExp.normalize basetype value
  | _, _ => none

/-- Embeds `IntegerExp::toChars()`: `%lld` of the value. -/
def IntegerExp.toChars (value : Nat) : String := fmtSigned 64 value

/-- Embeds `IntegerExp::toInteger()`: the returned value, and the node with its
`value` field updated. -/
def IntegerExp.toInteger (env : Env) (loc : Loc) (type : Option Typ) (value : Nat) :
    Sem (Nat × Expression) :=
  match type with
  | none => pure (value, .IntegerExp loc none value)
  | some t =>
      match IntegerExp.normalize t value with
      | some v => pure (v, .IntegerExp loc (some t) v)
      | none => do
          Sem.printf (IntegerExp.toChars value ++ "\n")
          Sem.printf (env.typePrint t)
          Sem.assertFail

/-! ## `ArrayExp` -/

/-- The dimension `tsa->dim->toInteger()` of a `TypeSArray`. -/
def Typ.dim : Typ → Option Nat
  | .sarray _ d => some d
  | _ => none

/-- The `Tsarray` case of `ArrayExp::semantic(sc)`, after `BinExp::semantic`. -/
def ArrayExp.semanticSArray (env : Env) (loc : Loc) (t1 : Typ) (e1 e2 : Expression) :
    Sem Expression := do
  let e2 ← env.implicitCastTo e2 env.tindex
  let next ← Sem.deref t1.next
  if (env.toBasetype next).ty = .Tbit then
    pure (.BinExp .ArrayExp loc .TOKarray t1.next e1 e2)
  else do
    -- Do compile time array bounds checking if possible
    let e2 := env.optimize e2
    match e2 with
    | .IntegerExp l t v => do
        let (index, e2) ← IntegerExp.toInteger env l t v
        let length ← Sem.deref t1.dim
        if index < 0 ∨ index ≥ length then
          Expression.error env loc
            ("array index [" ++ fmtSigned 64 index ++ "] is outside array bounds [0 .. "
              ++ fmtSigned 64 length ++ "]")
        else
          pure (.BinExp .ArrayExp loc .TOKarray t1.next e1 e2)
    | _ => pure (.BinExp .ArrayExp loc .TOKarray t1.next e1 e2)

/-- Embeds `ArrayExp::semantic(sc)`. -/
def ArrayExp.semantic (env : Env) (loc : Loc) (type : Option Typ) (e1 e2 : Expression) :
    Sem Expression := do
  -- BinExp::semantic(sc)
  let e1 ← env.semantic e1
  let e2 ← env.semantic e2
  -- Note that unlike C we do not implement the int[ptr]
  let t ← Sem.deref e1.type
  let t1 := env.toBasetype t
  match t1.ty with
  | .Tpointer | .Tarray => do
      let e2 ← env.implicitCastTo e2 env.tindex
      pure (.BinExp .ArrayExp loc .TOKarray t1.next e1 e2)
  | .Tsarray => ArrayExp.semanticSArray env loc t1 e1 e2
  | .Taarray =>
      match t1 with
      | .aarray next index key => do
          let e1 ← env.modifiableLvalue e1
          let e2 ← env.implicitCastTo e2 index
          let e2 ← env.implicitCastTo e2 key
          pure (.BinExp .ArrayExp loc .TOKarray (some next) e1 e2)
      | _ => Sem.nullDeref
  | _ => do
      let _ ← (Expression.error env loc
        (env.expToChars e1 ++ " must be an array or pointer type, not " ++ env.typeToChars t)
        : Sem Unit)
      pure (.BinExp .ArrayExp loc .TOKarray type e1 e2)

/-! ## Argument binding (`CallExp`, `NewExp`) -/

/-- The static `Type::tfloat64`. -/
def Typ.tfloat64 : Typ := .basic .Tfloat64
/-- The static `Type::timaginary64`. -/
def Typ.timaginary64 : Typ := .basic .Timaginary64

/-- The length `arguments ? arguments->dim : 0` of an argument array. -/
def argsDim (arguments : Option (List Expression)) : Nat :=
  match arguments with
  | some a => a.length
  | none => 0

/-- The length `tf->arguments ? tf->arguments->dim : 0` of a parameter array. -/
def protoDim (arguments : Option Arguments) : Nat :=
  match arguments with
  | some a => a.dim
  | none => 0

/-- The body of the argument loop of `CallExp::semantic` and of
`NewExp::semantic` for the argument `arg` at position `i`. -/
def bindArgument (env : Env) (params : Option Arguments) (nproto : Nat) (linkage : LINK)
    (i : Nat) (arg : Expression) : Sem Expression :=
  if i < nproto then do
    let ps ← Sem.deref params
    let p ← Sem.deref (ps.get? i)
    let arg ← env.implicitCastTo arg p.1
    let arg ← (if p.2 = .Out ∨ p.2 = .InOut then env.modifiableLvalue arg else pure arg)
    -- Convert static arrays to pointers
    let t ← Sem.deref arg.type
    if t.ty = .Tsarray then arg.checkToPointer else pure arg
  else do
    -- Promote bytes, words, etc., to ints
    let arg ← env.integralPromotions arg
    -- If not D linkage, promote floats to doubles
    let arg ← (if linkage ≠ .LINKd then do
        let t ← Sem.deref arg.type
        match t.ty with
        | .Tfloat32 => env.castTo arg Typ.tfloat64
        | .Timaginary32 => env.castTo arg Typ.timaginary64
        | _ => pure arg
      else pure arg)
    -- Convert static arrays to dynamic arrays
    let t ← Sem.deref arg.type
    if t.ty = .Tsarray then env.castTo arg (env.arrayOf t) else pure arg

/-- The argument loop `for (i = 0; i < nargs; i++)`, from position `i` on. -/
def bindArguments (env : Env) (params : Option Arguments) (nproto : Nat) (linkage : LINK) :
    Nat → List Expression → Sem (List Expression)
  | _, [] => pure []
  | i, arg :: rest => do
      let arg ← bindArgument env params nproto linkage i arg
      let rest ← bindArguments env params nproto linkage (i + 1) rest
      pure (arg :: rest)

/-- The loop `for (i = 0; i < arguments->dim; i++) arg = arg->semantic(sc)`. -/
def semanticArguments (env : Env) : List Expression → Sem (List Expression)
  | [] => pure []
  | arg :: rest => do
      let arg ← env.semantic arg
      let rest ← semanticArguments env rest
      pure (arg :: rest)

/-- The analysis of an argument array that may be `NULL`. -/
def semanticArgs (env : Env) (arguments : Option (List Expression)) :
    Sem (Option (List Expression)) :=
  match arguments with
  | some a => do
      let a ← semanticArguments env a
      pure (some a)
  | none => pure none

/-- The binding of an argument array that may be `NULL` (it is not `NULL` when
`nargs` is positive). -/
def bindArgs (env : Env) (params : Option Arguments) (nproto : Nat) (linkage : LINK)
    (arguments : Option (List Expression)) : Sem (Option (List Expression)) :=
  match arguments with
  | some a => do
      let a ← bindArguments env params nproto linkage 0 a
      pure (some a)
  | none => pure none

/-! ## `CallExp` -/

/-- The part of `CallExp::semantic(sc)` from the label `Lcheckargs` on, for the
function type `tf` of the callee. -/
def CallExp.checkargs (env : Env) (loc : Loc) (e1 : Expression)
    (arguments : Option (List Expression)) (tf : Typ) : Sem Expression :=
  match tf with
  | .function params next varargs linkage => do
      let nargs := argsDim arguments
      let nproto := protoDim params
      if nargs ≠ nproto then
        if nargs < nproto ∨ !varargs then
          Expression.error env loc
            ("expected " ++ fmtSigned 32 nproto ++ " arguments to function, not "
              ++ fmtSigned 32 nargs ++ "\n")
      -- BUG: combine this with argument processing code in NewExp::semantic()
      -- to ensure identical behavior
      let arguments ← bindArgs env params nproto linkage arguments
      pure (.CallExp loc (some next) e1 arguments)
  | _ => Sem.assertFail

/-- The class `cd = dynamic_cast<ClassDeclaration *>(sc->func->parent)` of the
enclosing function, `NULL` outside a function. -/
def Scope.classOfFunc (env : Env) (sc : Scope) : Option Dsymbol :=
  match sc.func with
  | some func => (env.parent func).filter (fun p => env.dynClass p = .ClassDeclaration)
  | none => none

/-- The branch `e1->op == TOKsuper` of `CallExp::semantic(sc)`: a base class
constructor call. Returns the new `e1` and `t1`. -/
def CallExp.superCall (env : Env) (loc : Loc) (e1 : Expression)
    (arguments : Option (List Expression)) : Sem (Expression × Option Typ) := do
  let st ← Sem.get
  let cd := Scope.classOfFunc env st.sc
  let ok : Option (Dsymbol × Dsymbol) :=
    match cd, st.sc.func with
    | some cd, some func =>
        match env.baseClass cd with
        | some base => if env.isConstructor func then some (cd, base) else none
        | none => none
    | _, _ => none
  match ok with
  | none => Expression.error env loc "super class constructor call must be in a constructor"
  | some (_, base) =>
      match env.ctor base with
      | none =>
          Expression.error env loc
            ("no super class constructor for " ++ env.symToChars base)
      | some f => do
          let st ← Sem.get
          if st.sc.noctor ≠ 0 ∨ st.sc.callSuper &&& env.CSXlabel ≠ 0 then
            Expression.error env loc "constructor calls not allowed in loops or after labels"
          if st.sc.callSuper &&& (env.CSXsuper_ctor ||| env.CSXthis_ctor) ≠ 0 then
            Expression.error env loc "multiple constructor calls"
          Sem.modifySc fun sc =>
            { sc with callSuper := sc.callSuper ||| (env.CSXany_ctor ||| env.CSXsuper_ctor) }
          let f ← env.overloadResolve f loc arguments
          let e1 ← DotVarExp.semantic env e1.loc none e1 f
          pure (e1, e1.type)

/-- The branch `e1->op == TOKthis` of `CallExp::semantic(sc)`: a same class
constructor call. Returns the new `e1` and `t1`. -/
def CallExp.thisCall (env : Env) (loc : Loc) (e1 : Expression)
    (arguments : Option (List Expression)) : Sem (Expression × Option Typ) := do
  let st ← Sem.get
  let cd := Scope.classOfFunc env st.sc
  let ok : Option (Dsymbol × Dsymbol) :=
    match cd, st.sc.func with
    | some cd, some func => if env.isConstructor func then some (cd, func) else none
    | _, _ => none
  match ok with
  | none => Expression.error env loc "class constructor call must be in a constructor"
  | some (cd, _) => do
      let st ← Sem.get
      if st.sc.noctor ≠ 0 ∨ st.sc.callSuper &&& env.CSXlabel ≠ 0 then
        Expression.error env loc "constructor calls not allowed in loops or after labels"
      if st.sc.callSuper &&& (env.CSXsuper_ctor ||| env.CSXthis_ctor) ≠ 0 then
        Expression.error env loc "multiple constructor calls"
      Sem.modifySc fun sc =>
        { sc with callSuper := sc.callSuper ||| (env.CSXany_ctor ||| env.CSXthis_ctor) }
      let f ← Sem.deref (env.ctor cd)
      let f ← env.overloadResolve f loc arguments
      let e1 ← DotVarExp.semantic env e1.loc none e1 f
      let t1 := e1.type
      -- BUG: this should really be done by checking the static call graph
      let st ← Sem.get
      if some f = st.sc.func then
        Expression.error env loc "cyclic constructor call"
      pure (e1, t1)

/-- Modelled from the spec: `Array::shift(ptr)` of the root library, defined
outside these sources. Spec, call target resolution: "rewrite
`receiver.name(args)` to `name(receiver, args)`": the pointer is inserted in
front of the elements of the array. -/
def Array.shift (a : List Expression) (ptr : Expression) : List Expression := ptr :: a

/-- The rewrite `array.id(args)` into `id(array, args)` at the head of
`CallExp::semantic(sc)`. Returns the new `e1` and `arguments`. -/
def CallExp.arrayCall (env : Env) (e1 : Expression) (arguments : Option (List Expression)) :
    Sem (Expression × Option (List Expression)) :=
  if e1.op = .TOKdot then
    -- BUG: we should handle array.a.b.c.e(args) too
    match e1 with
    | .DotIdExp dloc dtype de1 ident => do
        let de1 ← env.semantic de1
        match de1.type with
        | some t =>
            let e1ty := t.ty
            if e1ty = .Tarray ∨ e1ty = .Tsarray ∨ e1ty = .Taarray then
              -- if (!arguments) arguments = new Array();
              pure (.IdentifierExp dloc none ident, some (Array.shift (arguments.getD []) de1))
            else
              pure (.DotIdExp dloc dtype de1 ident, arguments)
        | none => pure (.DotIdExp dloc dtype de1 ident, arguments)
    | _ => Sem.assertFail
  else
    pure (e1, arguments)

/-- The callee resolution of `CallExp::semantic(sc)`: the `if`/`else if` chain
between the analysis of the arguments and the label `Lcheckargs`. Returns the
new `e1` and the function type `tf`, or the node to return at once. -/
def CallExp.resolve (env : Env) (loc : Loc) (e1 : Expression)
    (arguments : Option (List Expression)) : Sem (Expression × Typ ⊕ Expression) := do
  let t1 : Option Typ := e1.type.map env.toBasetype
  let dotvarFunc ← (if e1.op = .TOKdotvar then do
      let t ← Sem.deref t1
      pure (decide (t.ty = .Tfunction))
    else pure false)
  let r : Expression × Option Typ ⊕ Expression × Typ ⊕ Expression ←
    (if dotvarFunc then
      -- Do overload resolution
      match e1 with
      | .DotVarExp dloc _ de1 var =>
          if (env.dynClass var).isFuncDeclaration then do
            let f ← env.overloadResolve var loc arguments
            pure (.inl (.DotVarExp dloc (env.declType f) de1 f, env.declType f))
          else Sem.assertFail
      | _ => Sem.nullDeref
    else if e1.op = .TOKsuper then do
      let r ← CallExp.superCall env loc e1 arguments
      pure (.inl r)
    else if e1.op = .TOKthis then do
      let r ← CallExp.thisCall env loc e1 arguments
      pure (.inl r)
    else
      match t1 with
      | none => do
          let _ ← (Expression.error env loc
            ("function expected before (), not '" ++ env.expToChars e1 ++ "'") : Sem Unit)
          pure (.inr (.inr (.CallExp loc none e1 arguments)))
      | some t =>
          if t.ty ≠ .Tfunction then
            if t.ty = .Tdelegate then
              match t.next with
              | some (.function a n v l) => pure (.inr (.inl (e1, .function a n v l)))
              | _ => Sem.assertFail
            else do
              let ptrToFunc ← (if t.ty = .Tpointer then do
                  let n ← Sem.deref t.next
                  pure (decide (n.ty = .Tfunction))
                else pure false)
              if ptrToFunc then
                pure (.inl ((PtrExp.ctor loc e1).setType t.next, t.next))
              else do
                let et ← Sem.deref e1.type
                let _ ← (Expression.error env loc
                  ("function expected before (), not '" ++ env.typeToChars et ++ "'")
                  : Sem Unit)
                pure (.inr (.inr (.CallExp loc none e1 arguments)))
          else if e1.op = .TOKvar then
            -- Do overload resolution
            match e1 with
            | .VarExp vloc _ var =>
                if (env.dynClass var).isFuncDeclaration then do
                  let f ← env.overloadResolve var loc arguments
                  pure (.inl (.VarExp vloc (env.declType f) f, env.declType f))
                else Sem.assertFail
            | _ => Sem.nullDeref
          else pure (.inl (e1, some t)))
  match r with
  | .inl (e1, t1) =>
      match t1 with
      | some (.function a n v l) => pure (.inl (e1, .function a n v l))
      | _ => Sem.assertFail
  | .inr r => pure r

/-- Embeds `CallExp::semantic(sc)`. -/
def CallExp.semantic (env : Env) (loc : Loc) (type : Option Typ) (e1 : Expression)
    (arguments : Option (List Expression)) : Sem Expression :=
  match type with
  | some t => pure (.CallExp loc (some t) e1 arguments)    -- semantic() already run
  | none => do
      -- Transform array.id(args) into id(array,args)
      let (e1, arguments) ← CallExp.arrayCall env e1 arguments
      match e1 with
      | .BinExp cls cloc .TOKcomma ctype ce1 ce2 =>
          let e1 := ce2.setType ctype
          env.semantic (.BinExp cls cloc .TOKcomma none ce1 (.CallExp loc none e1 arguments))
      | _ => do
          let e1 ← (if e1.op = .TOKthis ∨ e1.op = .TOKsuper then
              -- semantic() run later for these
              pure e1
            else env.semantic e1)
          let arguments ← semanticArgs env arguments
          match ← CallExp.resolve env loc e1 arguments with
          | .inl (e1, tf) => CallExp.checkargs env loc e1 arguments tf
          | .inr e => pure e

/-! ## `NewExp` -/

/-- The body of the argument loop of `NewExp::semantic(sc)` (constructor
arguments) for the argument `arg` at position `i`, as that function writes it. -/
def NewExp.bindArgument (env : Env) (params : Option Arguments) (nproto : Nat)
    (linkage : LINK) (i : Nat) (arg : Expression) : Sem Expression :=
  if i < nproto then do
    let ps ← Sem.deref params
    let p ← Sem.deref (ps.get? i)
    let arg ← env.implicitCastTo arg p.1
    let arg ← (if p.2 = .Out ∨ p.2 = .InOut then env.modifiableLvalue arg else pure arg)
    -- Convert static arrays to pointers
    let t ← Sem.deref arg.type
    if t.ty = .Tsarray then arg.checkToPointer else pure arg
  else do
    -- Promote bytes, words, etc., to ints
    let arg ← env.integralPromotions arg
    -- If not D linkage, promote floats to doubles
    let arg ← (if linkage ≠ .LINKd then do
        let t ← Sem.deref arg.type
        match t.ty with
        | .Tfloat32 => env.castTo arg Typ.tfloat64
        | .Timaginary32 => env.castTo arg Typ.timaginary64
        | _ => pure arg
      else pure arg)
    -- Convert static arrays to dynamic arrays
    let t ← Sem.deref arg.type
    if t.ty = .Tsarray then env.castTo arg (env.arrayOf t) else pure arg

/-- The loop `for (i = 0; i < nargs; i++)` of `NewExp::semantic(sc)`, from
position `i` on. -/
def NewExp.bindArguments (env : Env) (params : Option Arguments) (nproto : Nat)
    (linkage : LINK) : Nat → List Expression → Sem (List Expression)
  | _, [] => pure []
  | i, arg :: rest => do
      let arg ← NewExp.bindArgument env params nproto linkage i arg
      let rest ← NewExp.bindArguments env params nproto linkage (i + 1) rest
      pure (arg :: rest)

/-- The loop of `NewExp::semantic(sc)` on an argument array that may be `NULL`
(it is not `NULL` when `nargs` is positive). -/
def NewExp.bindArgs (env : Env) (params : Option Arguments) (nproto : Nat) (linkage : LINK)
    (arguments : Option (List Expression)) : Sem (Option (List Expression)) :=
  match arguments with
  | some a => do
      let a ← NewExp.bindArguments env params nproto linkage 0 a
      pure (some a)
  | none => pure none

/-- The argument count check and the argument loop of `NewExp::semantic(sc)`,
for the type `tf` of the constructor `f` that overload resolution selected. -/
def NewExp.checkargs (env : Env) (loc : Loc) (f : Dsymbol)
    (arguments : Option (List Expression)) (tf : Typ) : Sem Expression :=
  match tf with
  | .function params next varargs linkage => do
      let nargs := argsDim arguments
      let nproto := protoDim params
      if nargs ≠ nproto then
        if nargs < nproto ∨ !varargs then
          Expression.error env loc
            ("expected " ++ fmtSigned 32 nproto ++ " arguments to constructor, not "
              ++ fmtSigned 32 nargs ++ "\n")
      let arguments ← NewExp.bindArgs env params nproto linkage arguments
      pure (.NewExp loc (some next) arguments (some f))
  | _ => Sem.nullDeref

/-- The `Tclass` case of `NewExp::semantic(sc)` for the class `cd` of the
analysed type. -/
def NewExp.semanticClass (env : Env) (loc : Loc) (type : Typ) (cd : Dsymbol)
    (arguments : Option (List Expression)) : Sem Expression := do
  if env.isInterface cd then
    Expression.error env loc ("cannot create instance of interface " ++ env.symToChars cd)
  match env.ctor cd with
  | some f => do
      let f ← env.overloadResolve f loc arguments
      if !env.isConstructor f then Sem.assertFail
      else if env.dynClass f ≠ .CtorDeclaration then Sem.assertFail
      else do
        let tf ← Sem.deref (env.declType f)
        NewExp.checkargs env loc f arguments tf
  | none => do
      if argsDim arguments ≠ 0 then
        Expression.error env loc ("no constructor for " ++ env.symToChars cd)
      pure (.NewExp loc (some type) arguments none)

/-- Embeds `NewExp::semantic(sc)`. -/
def NewExp.semantic (env : Env) (loc : Loc) (type : Option Typ)
    (arguments : Option (List Expression)) (member : Option Dsymbol) : Sem Expression := do
  let type ← Sem.deref type
  let type ← env.typeSemantic type loc
  let tb := env.toBasetype type
  let arguments ← semanticArgs env arguments
  if tb.ty = .Tclass then
    match tb with
    | .classT cd =>
        if env.dynClass cd ≠ .ClassDeclaration then Sem.nullDeref
        else NewExp.semanticClass env loc type cd arguments
    | _ => Sem.nullDeref
  else if tb.ty = .Tarray ∧ argsDim arguments ≠ 0 then
    match arguments with
    | some (arg :: rest) => do
        let arg ← env.implicitCastTo arg env.tindex
        pure (.NewExp loc (some type) (some (arg :: rest)) member)
    | _ => pure (.NewExp loc (some type) arguments member)
  else do
    let _ ← (Expression.error env loc
      ("new can only create arrays or class objects, not " ++ env.typeToChars type ++ "'s")
      : Sem Unit)
    pure (.NewExp loc (some type.pointerTo) arguments member)

/-! ## A concrete program for examples -/

/-- The function type of the constructor `this(int)`. -/
def Typ.ctorInt : Typ :=
  .function (some (.cons Typ.tint32 .In .nil)) Typ.tvoid false .LINKd

/-- A world with a few symbols. Class `20` has the constructors `10` (the
enclosing function of the example scope, with `this` variable `11`) and `13`
(`this(int)`, the one overload resolution selects); `5` is a template instance
named `Tmpl`; `6` is an import named `imp` of package `7`, in which `Inner` is
the scope symbol `8`; `12` is the constant `K = 3`. -/
def Env.programCore : Env :=
  { Env.base with
    search := fun _ ident =>
      if ident = "Tmpl" then some (5, none)
      else if ident = "imp" then some (6, none)
      else if ident = "K" then some (12, none)
      else none
    sdsSearch := fun sds ident => if sds = 7 ∧ ident = "Inner" then some 8 else none
    dynClass := fun s =>
      if s = 5 then .TemplateInstance
      else if s = 6 then .Import
      else if s = 8 then .ScopeDsymbol
      else if s = 10 ∨ s = 13 then .CtorDeclaration
      else if s = 11 ∨ s = 12 then .VarDeclaration
      else if s = 20 then .ClassDeclaration
      else .Dsymbol
    importPkg := fun _ => 7
    vthis := fun f => if f = 10 ∨ f = 13 then some 11 else none
    declType := fun d =>
      if d = 11 then some (.classT 20)
      else if d = 12 then some Typ.tint32
      else if d = 10 ∨ d = 13 then some Typ.ctorInt
      else none
    isConst := fun d => decide (d = 12)
    initExp := fun d => if d = 12 then some (.IntegerExp ⟨some 0, 1⟩ (some Typ.tint32) 3) else none
    parent := fun f => if f = 10 ∨ f = 13 then some 20 else none
    isConstructor := fun f => decide (f = 10 ∨ f = 13)
    ctor := fun c => if c = 20 then some 10 else none
    overloadResolve := fun _ _ _ => pure 13 }

/-- The world `Env.programCore` in which the virtual call `semantic()` on a
`this` node runs `ThisExp::semantic`; every other node analyses to itself. -/
def Env.program : Env :=
  { Env.programCore with
    semantic := fun e =>
      match e with
      | .ThisExp l t => ThisExp.semantic Env.programCore l t
      | e => pure e }

/-- The example state inside the constructor `10`. -/
def State.inCtor : State :=
  { State.initial with
    sc := { func := some 10, callSuper := 0, noctor := 0, incontract := 0 } }

/-! ## Scope states of the constructor-call discipline -/

/-- The scope of the body of constructor `F` of a class after one accepted
constructor call: still the scope of `F`, not in a loop, no label seen, and a
`this(...)` or `super(...)` call recorded in `callSuper`. -/
def Scope.CtorCallDone (env : Env) (F : Dsymbol) (sc : Scope) : Prop :=
  sc.func = some F ∧ sc.noctor = 0 ∧ sc.callSuper &&& env.CSXlabel = 0 ∧
  sc.callSuper &&& (env.CSXsuper_ctor ||| env.CSXthis_ctor) ≠ 0

/-- A computation that keeps the property `Q` of the scope whenever it returns. -/
def Sem.Preserves {α : Type} (Q : Scope → Prop) (x : Sem α) : Prop :=
  ∀ s a s', x s = .ok a s' → Q s.sc → Q s'.sc

/-- The collaborators and the virtual calls reached from `CallExp::semantic`
keep the property `Q` of the scope whenever they return. -/
structure Env.Preserves (env : Env) (Q : Scope → Prop) : Prop where
  semantic : ∀ e, Sem.Preserves Q (env.semantic e)
  modifiableLvalue : ∀ e, Sem.Preserves Q (env.modifiableLvalue e)
  accessCheck : ∀ l e d, Sem.Preserves Q (env.accessCheck l e d)
  overloadResolve : ∀ f l a, Sem.Preserves Q (env.overloadResolve f l a)
  implicitCastTo : ∀ e t, Sem.Preserves Q (env.implicitCastTo e t)
  castTo : ∀ e t, Sem.Preserves Q (env.castTo e t)
  integralPromotions : ∀ e, Sem.Preserves Q (env.integralPromotions e)

/-- The `CSX` bits involved in constructor calls are nonzero and none of them
is part of the label bit. -/
def Env.CSXDistinct (env : Env) : Prop :=
  env.CSXthis_ctor ≠ 0 ∧ env.CSXsuper_ctor ≠ 0 ∧
  (env.CSXany_ctor ||| env.CSXthis_ctor) &&& env.CSXlabel = 0 ∧
  (env.CSXany_ctor ||| env.CSXsuper_ctor) &&& env.CSXlabel = 0

/-! ## Lvalues -/

/-- Embeds `Expression::toLvalue()`, the member of the classes that do not
override it. -/
def Expression.toLvalueDefault (env : Env) (e : Expression) : Sem Expression := do
  let _ ← (Expression.error env e.loc ("'" ++ env.expToChars e ++ "' is not an lvalue")
    : Sem Unit)
  pure e

/-- The classes that override `toLvalue()`: `IdentifierExp`, `ThisExp`,
`VarExp`, `DotVarExp`, `PtrExp`, `ArrayRangeExp`, `CommaExp`, `ArrayExp` and
`CondExp`. -/
def Expression.overridesToLvalue : Expression → Bool
  | .IdentifierExp _ _ _ => true
  | .ThisExp _ _ => true
  | .VarExp _ _ _ => true
  | .DotVarExp _ _ _ _ => true
  | .UnaExp .PtrExp _ _ _ => true
  | .ArrayRangeExp _ _ _ _ _ => true
  | .BinExp .CommaExp _ _ _ _ _ => true
  | .BinExp .ArrayExp _ _ _ _ _ => true
  | .CondExp _ _ _ _ _ => true
  | _ => false

/-- The virtual call `e->toLvalue()`, dispatched on the class of `e`. The case
`CondExp` embeds `CondExp::toLvalue()`, with `Expression::addressOf()` of each
branch written out: the `toLvalue()` of the branch, the `AddrExp` built around
it, and then the `toLvalue()` of that `AddrExp`, which is
`Expression::toLvalue()`. The case `CommaExp` embeds `CommaExp::toLvalue()`. -/
def Expression.toLvalue (env : Env) : Expression → Sem Expression
  | .IdentifierExp loc type ident => pure (.IdentifierExp loc type ident)
  | .ThisExp loc type => pure (.ThisExp loc type)
  | .VarExp loc type var => pure (.VarExp loc type var)
  | .DotVarExp loc type e1 var => pure (.DotVarExp loc type e1 var)
  | .UnaExp .PtrExp loc type e1 => pure (.UnaExp .PtrExp loc type e1)
  | .ArrayRangeExp loc type e1 lwr upr => pure (.ArrayRangeExp loc type e1 lwr upr)
  | .BinExp .ArrayExp loc op type e1 e2 => pure (.BinExp .ArrayExp loc op type e1 e2)
  | .BinExp .CommaExp loc op type e1 e2 => do
      let e2 ← Expression.toLvalue env e2
      pure (.BinExp .CommaExp loc op type e1 e2)
  | .CondExp loc type econd e1 e2 => do
      -- convert (econd ? e1 : e2) to *(econd ? &e1 : &e2)
      -- e1 = e1->addressOf()
      let a ← Expression.toLvalue env e1
      let t ← Sem.deref e1.type
      let e1 := Expression.UnaExp .AddrExp e1.loc (some t.pointerTo) a
      let e1 ← Expression.toLvalueDefault env e1
      -- e2 = e2->addressOf()
      let a ← Expression.toLvalue env e2
      let t ← Sem.deref e2.type
      let e2 := Expression.UnaExp .AddrExp e2.loc (some t.pointerTo) a
      let e2 ← Expression.toLvalueDefault env e2
      let (_, e1, e2) ← env.typeCombine (.CondExp loc type econd e1 e2)
      pure (.UnaExp .PtrExp loc type (.CondExp loc e2.type econd e1 e2))
  | e => Expression.toLvalueDefault env e

/-- Embeds `Expression::addressOf()`. -/
def Expression.addressOf (env : Env) (e : Expression) : Sem Expression := do
  let a ← Expression.toLvalue env e
  let t ← Sem.deref e.type
  pure (.UnaExp .AddrExp e.loc (some t.pointerTo) a)

/-- Embeds `VarExp::modifiableLvalue(sc)`. -/
def VarExp.modifiableLvalue (env : Env) (loc : Loc) (type : Option Typ) (var : Dsymbol) :
    Sem Expression := do
  let st ← Sem.get
  if st.sc.incontract ≠ 0 ∧ env.isParameter var then
    Expression.error env loc
      ("cannot modify parameter '" ++ env.symToChars var ++ "' in contract")
  let sarrayTyped : Bool :=
    match type with
    | some t => decide (t.ty = .Tsarray)
    | none => false
  if sarrayTyped then
    Expression.error env loc
      ("cannot change reference to static array '" ++ env.symToChars var ++ "'")
  -- See if this expression is a modifiable lvalue (i.e. not const)
  Expression.toLvalue env (.VarExp loc type var)

/-- Embeds `ArrayRangeExp::modifiableLvalue(sc)`. -/
def ArrayRangeExp.modifiableLvalue (env : Env) (e : Expression) : Sem Expression := do
  let _ ← (Expression.error env e.loc
    ("cannot modify range expression " ++ env.expToChars e) : Sem Unit)
  pure e

/-- The virtual call `e->modifiableLvalue(sc)`, dispatched on the class of `e`:
`VarExp` and `ArrayRangeExp` override it, every other class runs
`Expression::modifiableLvalue(sc)`, which is `toLvalue()`. -/
def Expression.modifiableLvalue (env : Env) : Expression → Sem Expression
  | .VarExp loc type var => VarExp.modifiableLvalue env loc type var
  | .ArrayRangeExp loc type e1 lwr upr =>
      ArrayRangeExp.modifiableLvalue env (.ArrayRangeExp loc type e1 lwr upr)
  | e =>
      -- See if this expression is a modifiable lvalue (i.e. not const)
      Expression.toLvalue env e

/-! ## Checks on the type of a node -/

/-- Embeds `Expression::checkScalar()`. -/
def Expression.checkScalar (env : Env) (e : Expression) : Sem Unit := do
  let t ← Sem.deref e.type
  if !env.isscalar t then
    Expression.error env e.loc
      ("'" ++ env.expToChars e ++ "' is not a scalar, it is a " ++ env.typeToChars t)

/-- Embeds `Expression::checkIntegral()`. -/
def Expression.checkIntegral (env : Env) (e : Expression) : Sem Unit := do
  let t ← Sem.deref e.type
  if !env.isintegral t then
    Expression.error env e.loc ("'" ++ env.expToChars e ++ "' is not an integral type")

/-- The virtual call `e->checkBoolean()`, dispatched on the class of `e`:
`DeleteExp`, `AssignExp`, `OrOrExp`, `AndAndExp` and `CondExp` override
`Expression::checkBoolean()`. -/
def Expression.checkBoolean (env : Env) : Expression → Sem Unit
  | .UnaExp .DeleteExp loc _ _ =>
      Expression.error env loc "delete does not give a boolean result"
  | .BinExp .AssignExp loc _ _ _ _ =>
      -- Things like: if (a = b) ... are usually mistakes.
      Expression.error env loc "'=' does not give a boolean result"
  | .BinExp .OrOrExp _ _ _ _ e2 =>
      Expression.checkBoolean env e2
  | .BinExp .AndAndExp _ _ _ _ e2 =>
      Expression.checkBoolean env e2
  | .CondExp _ _ _ e1 e2 => do
      Expression.checkBoolean env e1
      Expression.checkBoolean env e2
  | e => do
      -- Default is 'yes' - do nothing
      let t ← Sem.deref e.type
      if !env.typeCheckBoolean t then
        Expression.error env e.loc (env.typeToChars t ++ " does not have a boolean value")

/-! ## `CondExp` -/

/-- The second half of `CondExp::semantic(sc)`, after the merge of the flow
state: the checks on the condition and the type of the result. -/
def CondExp.semanticType (env : Env) (loc : Loc) (type : Option Typ)
    (econd e1 e2 : Expression) : Sem Expression := do
  let econd ← econd.checkToPointer
  Expression.checkBoolean env econd
  -- If either operand is void, the result is void
  let t1 ← Sem.deref e1.type
  if t1.ty = .Tvoid then
    pure (.CondExp loc (some Typ.tvoid) econd e1 e2)
  else do
    let t2 ← Sem.deref e2.type
    if t2.ty = .Tvoid then
      pure (.CondExp loc (some Typ.tvoid) econd e1 e2)
    else if t1 = t2 then
      pure (.CondExp loc (some t1) econd e1 e2)
    else do
      let (type, e1, e2) ← env.typeCombine (.CondExp loc type econd e1 e2)
      pure (.CondExp loc type econd e1 e2)

/-- Embeds `CondExp::semantic(sc)`. -/
def CondExp.semantic (env : Env) (loc : Loc) (type : Option Typ)
    (econd e1 e2 : Expression) : Sem Expression := do
  let econd ← env.semantic econd
  let cs0 := (← Sem.get).sc.callSuper
  let e1 ← env.semantic e1
  let cs1 := (← Sem.get).sc.callSuper
  Sem.modifySc fun sc => { sc with callSuper := cs0 }
  let e2 ← env.semantic e2
  env.mergeCallSuper loc cs1
  CondExp.semanticType env loc type econd e1 e2

/-! ## Assignment forms -/

/-- The static `Type::tfloat32`. -/
def Typ.tfloat32 : Typ := .basic .Tfloat32
/-- The static `Type::tfloat80`. -/
def Typ.tfloat80 : Typ := .basic .Tfloat80

/-- Embeds `BinExp::semantic(sc)`: the analysed operands. -/
def BinExp.semantic (env : Env) (e1 e2 : Expression) : Sem (Expression × Expression) := do
  let e1 ← env.semantic e1
  let e2 ← env.semantic e2
  pure (e1, e2)

/-- Embeds `BinExp::commonSemanticAssign(sc)`, for a node of class `cls`. -/
def BinExp.commonSemanticAssign (env : Env) (cls : BinClass) (loc : Loc) (op : TOK)
    (type : Option Typ) (e1 e2 : Expression) : Sem Expression :=
  match type with
  | none => do
      let (e1, e2) ← BinExp.semantic env e1 e2
      match ← env.op_overload (.BinExp cls loc op none e1 e2) with
      | some e => pure e
      | none => do
          let e1 ← Expression.modifiableLvalue env e1
          Expression.checkScalar env e1
          let (type, e1, e2) ← env.typeCombine (.BinExp cls loc op e1.type e1 e2)
          Expression.checkArithmetic env e1
          Expression.checkArithmetic env e2
          pure (.BinExp cls loc op type e1 e2)
  | some t => pure (.BinExp cls loc op (some t) e1 e2)

/-- The body shared, word for word, by `PostIncExp::semantic(sc)` and
`PostDecExp::semantic(sc)`, for a node of class `cls`. -/
def PostExp.semantic (env : Env) (cls : BinClass) (loc : Loc) (op : TOK)
    (type : Option Typ) (e1 e2 : Expression) : Sem Expression :=
  match type with
  | none => do
      let (e1, e2) ← BinExp.semantic env e1 e2
      match ← env.op_overload (.BinExp cls loc op none e1 e2) with
      | some e => pure e
      | none => do
          let e1 ← Expression.modifiableLvalue env e1
          Expression.checkScalar env e1
          let t1 ← Sem.deref e1.type
          if t1.ty = .Tpointer then do
            let e ← env.scaleFactor (.BinExp cls loc op none e1 e2)
            pure (e.setType e1.type)
          else do
            let e2 ← env.castTo e2 t1
            pure (.BinExp cls loc op e1.type e1 e2)
  | some t => pure (.BinExp cls loc op (some t) e1 e2)

/-- Embeds `PostIncExp::semantic(sc)`. -/
def PostIncExp.semantic (env : Env) (loc : Loc) (op : TOK) (type : Option Typ)
    (e1 e2 : Expression) : Sem Expression :=
  PostExp.semantic env .PostIncExp loc op type e1 e2

/-- Embeds `PostDecExp::semantic(sc)`. -/
def PostDecExp.semantic (env : Env) (loc : Loc) (op : TOK) (type : Option Typ)
    (e1 e2 : Expression) : Sem Expression :=
  PostExp.semantic env .PostDecExp loc op type e1 e2

/-- The test `((StringExp *)e)->len == 1` that `AssignExp::semantic` makes on a
node whose `op` is `TOKstring`. -/
def StringExp.lenIs1 : Expression → Bool
  | .StringExp _ _ _ len _ => decide (len = 1)
  | _ => false

/-- Embeds `AssignExp::semantic(sc)`. The type `e1->type` that the source hands
to `implicitCastTo` and stores in `type` is read first: a `NULL` there is the
null dereference of its first use. -/
def AssignExp.semantic (env : Env) (loc : Loc) (op : TOK) (_type : Option Typ)
    (e1 e2 : Expression) : Sem Expression := do
  let (e1, e2) ← BinExp.semantic env e1 e2
  let e1 ← (if e1.op = .TOKarraylength then
      -- e1 is not an lvalue, but we let code generator handle it
      match e1 with
      | .UnaExp cls l t ale1 => do
          let ale1 ← Expression.modifiableLvalue env ale1
          pure (.UnaExp cls l t ale1)
      | _ => Sem.nullDeref
    else Expression.toLvalue env e1)
  let t1 ← Sem.deref e1.type
  let e2 ← (if e1.op = .TOKrange then do
      let n1 ← Sem.deref t1.next
      let t2 ← Sem.deref e2.type
      if !(decide (t2.next = some n1) ||
          (decide (n1.ty = .Tchar) && decide (e2.op = .TOKstring))) then
        -- memset
        env.implicitCastTo e2 n1
      else if e2.op = .TOKstring ∧ StringExp.lenIs1 e2 = true then
        -- memset
        env.implicitCastTo e2 n1
      else
        env.implicitCastTo e2 t1
    else env.implicitCastTo e2 t1)
  pure (.BinExp .AssignExp loc op (some t1) e1 e2)

/-- The test of `AddAssignExp::semantic` and `CatAssignExp::semantic` that a
type is a dynamic or a fixed-size array. -/
def Typ.isArrayTy (t : Typ) : Bool := decide (t.ty = .Tarray ∨ t.ty = .Tsarray)

/-- The tail shared by `AddAssignExp::semantic` and `MinAssignExp::semantic`
from `e1->checkScalar()` on, for a node of class `cls`. -/
def AddMinAssign.scalarTail (env : Env) (cls : BinClass) (loc : Loc) (op : TOK)
    (type : Option Typ) (e1 e2 : Expression) : Sem Expression := do
  Expression.checkScalar env e1
  let t1 ← Sem.deref e1.type
  let pointerPlusIntegral ← (if t1.ty = .Tpointer then do
      let t2 ← Sem.deref e2.type
      pure (env.isintegral t2)
    else pure false)
  if pointerPlusIntegral then
    env.scaleFactor (.BinExp cls loc op type e1 e2)
  else do
    let (type, e1, e2) ← env.typeCombine (.BinExp cls loc op e1.type e1 e2)
    Expression.checkArithmetic env e1
    Expression.checkArithmetic env e2
    let t ← Sem.deref type
    if env.isreal t ∨ env.isimaginary t then do
      let t2 ← Sem.deref e2.type
      if !env.isfloating t2 then Sem.assertFail
      else do
        let e2 ← env.castTo e2 t
        pure (.BinExp cls loc op type e1 e2)
    else
      pure (.BinExp cls loc op type e1 e2)

/-- Embeds `AddAssignExp::semantic(sc)`. -/
def AddAssignExp.semantic (env : Env) (loc : Loc) (op : TOK) (type : Option Typ)
    (e1 e2 : Expression) : Sem Expression := do
  let (e1, e2) ← BinExp.semantic env e1 e2
  match ← env.op_overload (.BinExp .AddAssignExp loc op type e1 e2) with
  | some e => pure e
  | none => do
      let e1 ← Expression.modifiableLvalue env e1
      let t1 ← Sem.deref e1.type
      let bothArrays ← (if t1.isArrayTy then do
          let t2 ← Sem.deref e2.type
          if t2.isArrayTy then do
            let n1 ← Sem.deref t1.next
            pure (decide (t2.next = some n1))
          else pure false
        else pure false)
      if bothArrays then
        pure (.BinExp .AddAssignExp loc op e1.type e1 e2)
      else
        AddMinAssign.scalarTail env .AddAssignExp loc op type e1 e2

/-- Embeds `MinAssignExp::semantic(sc)`. -/
def MinAssignExp.semantic (env : Env) (loc : Loc) (op : TOK) (type : Option Typ)
    (e1 e2 : Expression) : Sem Expression := do
  let (e1, e2) ← BinExp.semantic env e1 e2
  match ← env.op_overload (.BinExp .MinAssignExp loc op type e1 e2) with
  | some e => pure e
  | none => do
      let e1 ← Expression.modifiableLvalue env e1
      AddMinAssign.scalarTail env .MinAssignExp loc op type e1 e2

/-- Embeds `CatAssignExp::semantic(sc)`. -/
def CatAssignExp.semantic (env : Env) (loc : Loc) (op : TOK) (type : Option Typ)
    (e1 e2 : Expression) : Sem Expression := do
  let (e1, e2) ← BinExp.semantic env e1 e2
  match ← env.op_overload (.BinExp .CatAssignExp loc op type e1 e2) with
  | some e => pure e
  | none => do
      let e1 ← Expression.modifiableLvalue env e1
      let t1 ← Sem.deref e1.type
      let appendArray ← (if t1.isArrayTy then do
          let t2 ← Sem.deref e2.type
          pure (t2.isArrayTy && env.implicitConvTo e2 t1)
        else pure false)
      if appendArray then do
        -- Append array
        let e2 ← env.castTo e2 t1
        pure (.BinExp .CatAssignExp loc op (some t1) e1 e2)
      else do
        let appendElement ← (if t1.isArrayTy then do
            let n1 ← Sem.deref t1.next
            pure (env.implicitConvTo e2 n1)
          else pure false)
        if appendElement then do
          -- Append element
          let n1 ← Sem.deref t1.next
          let e2 ← env.castTo e2 n1
          pure (.BinExp .CatAssignExp loc op (some t1) e1 e2)
        else do
          let _ ← (Expression.error env loc "Can only concatenate arrays" : Sem Unit)
          pure (.BinExp .CatAssignExp loc op (some Typ.tint32) e1 e2)

/-- The `switch (t1->ty)` of `MulAssignExp::semantic` and
`DivAssignExp::semantic`: the real type of the precision of an imaginary type,
`none` where the `default:` case is reached. -/
def imaginaryToReal (ty : TY) : Option Typ :=
  match ty with
  | .Timaginary32 => some Typ.tfloat32
  | .Timaginary64 => some Typ.tfloat64
  | .Timaginary80 => some Typ.tfloat80
  | _ => none

/-- The prefix shared by `MulAssignExp::semantic`, `DivAssignExp::semantic` and
the three shift assignments, up to the call of `typeCombine()`: the fields
`type`, `e1`, `e2` of the node, or the node `op_overload` returned. -/
def BinExp.assignPrefix (env : Env) (cls : BinClass) (loc : Loc) (op : TOK)
    (type : Option Typ) (e1 e2 : Expression) :
    Sem (Option Typ × Expression × Expression ⊕ Expression) := do
  let (e1, e2) ← BinExp.semantic env e1 e2
  match ← env.op_overload (.BinExp cls loc op type e1 e2) with
  | some e => pure (.inr e)
  | none => do
      let e1 ← Expression.modifiableLvalue env e1
      Expression.checkScalar env e1
      let r ← env.typeCombine (.BinExp cls loc op e1.type e1 e2)
      pure (.inl r)

/-- Embeds `MulAssignExp::semantic(sc)`. -/
def MulAssignExp.semantic (env : Env) (loc : Loc) (op : TOK) (type : Option Typ)
    (e1 e2 : Expression) : Sem Expression := do
  match ← BinExp.assignPrefix env .MulAssignExp loc op type e1 e2 with
  | .inr e => pure e
  | .inl (type, e1, e2) => do
      Expression.checkArithmetic env e1
      Expression.checkArithmetic env e2
      let t2 ← Sem.deref e2.type
      if env.isfloating t2 then do
        let t1 ← Sem.deref e1.type
        if env.isreal t1 then
          if env.isimaginary t2 ∨ env.iscomplex t2 then do
            let e2 ← env.castTo e2 t1
            pure (.BinExp .MulAssignExp loc op type e1 e2)
          else pure (.BinExp .MulAssignExp loc op type e1 e2)
        else if env.isimaginary t1 then
          if env.isimaginary t2 ∨ env.iscomplex t2 then
            match imaginaryToReal t1.ty with
            | some t2 => do
                let e2 ← env.castTo e2 t2
                pure (.BinExp .MulAssignExp loc op type e1 e2)
            | none => Sem.assertFail
          else pure (.BinExp .MulAssignExp loc op type e1 e2)
        else pure (.BinExp .MulAssignExp loc op type e1 e2)
      else pure (.BinExp .MulAssignExp loc op type e1 e2)

/-- Embeds `DivAssignExp::semantic(sc)`. -/
def DivAssignExp.semantic (env : Env) (loc : Loc) (op : TOK) (type : Option Typ)
    (e1 e2 : Expression) : Sem Expression := do
  match ← BinExp.assignPrefix env .DivAssignExp loc op type e1 e2 with
  | .inr e => pure e
  | .inl (type, e1, e2) => do
      Expression.checkArithmetic env e1
      Expression.checkArithmetic env e2
      let t2 ← Sem.deref e2.type
      if env.isimaginary t2 then do
        let t1 ← Sem.deref e1.type
        if env.isreal t1 ∨ env.isimaginary t1 then
          match imaginaryToReal t1.ty with
          | some t2 => do
              let e2 ← env.castTo e2 t2
              pure (.BinExp .AssignExp loc .TOKassign (some t1) e1 e2)
          | none => Sem.assertFail
        else pure (.BinExp .DivAssignExp loc op type e1 e2)
      else pure (.BinExp .DivAssignExp loc op type e1 e2)

/-- The body shared, word for word, by `ShlAssignExp::semantic`,
`ShrAssignExp::semantic` and `UshrAssignExp::semantic`, for a node of class `cls`. -/
def ShiftAssign.semantic (env : Env) (cls : BinClass) (loc : Loc) (op : TOK)
    (type : Option Typ) (e1 e2 : Expression) : Sem Expression := do
  match ← BinExp.assignPrefix env cls loc op type e1 e2 with
  | .inr e => pure e
  | .inl (type, e1, e2) => do
      Expression.checkIntegral env e1
      Expression.checkIntegral env e2
      let e2 ← env.castTo e2 env.tshiftcnt
      pure (.BinExp cls loc op type e1 e2)

/-- The classes of the mutating binary operators: the compound assignments
`op=` and the postfix `++` and `--`. -/
def BinClass.isCompoundAssign : BinClass → Bool
  | .PostIncExp | .PostDecExp | .AddAssignExp | .MinAssignExp | .CatAssignExp
  | .MulAssignExp | .DivAssignExp | .ModAssignExp | .ShlAssignExp | .ShrAssignExp
  | .UshrAssignExp | .AndAssignExp | .OrAssignExp | .XorAssignExp => true
  | _ => false

/-- The virtual call `semantic(sc)` on a node of one of the assignment classes:
`AssignExp`, the compound assignments, `++` and `--` (`ModAssignExp`,
`AndAssignExp`, `OrAssignExp` and `XorAssignExp` are `commonSemanticAssign`).
A node of another binary class goes to the collaborator `env.semantic`. -/
def BinExp.semanticAssign (env : Env) (cls : BinClass) (loc : Loc) (op : TOK)
    (type : Option Typ) (e1 e2 : Expression) : Sem Expression :=
  match cls with
  | .AssignExp => AssignExp.semantic env loc op type e1 e2
  | .PostIncExp => PostIncExp.semantic env loc op type e1 e2
  | .PostDecExp => PostDecExp.semantic env loc op type e1 e2
  | .AddAssignExp => AddAssignExp.semantic env loc op type e1 e2
  | .MinAssignExp => MinAssignExp.semantic env loc op type e1 e2
  | .CatAssignExp => CatAssignExp.semantic env loc op type e1 e2
  | .MulAssignExp => MulAssignExp.semantic env loc op type e1 e2
  | .DivAssignExp => DivAssignExp.semantic env loc op type e1 e2
  | .ModAssignExp => BinExp.commonSemanticAssign env .ModAssignExp loc op type e1 e2
  | .ShlAssignExp => ShiftAssign.semantic env .ShlAssignExp loc op type e1 e2
  | .ShrAssignExp => ShiftAssign.semantic env .ShrAssignExp loc op type e1 e2
  | .UshrAssignExp => ShiftAssign.semantic env .UshrAssignExp loc op type e1 e2
  | .AndAssignExp => BinExp.commonSemanticAssign env .AndAssignExp loc op type e1 e2
  | .OrAssignExp => BinExp.commonSemanticAssign env .OrAssignExp loc op type e1 e2
  | .XorAssignExp => BinExp.commonSemanticAssign env .XorAssignExp loc op type e1 e2
  | cls => env.semantic (.BinExp cls loc op type e1 e2)

/-- The world `Env.program` in which overload resolution always selects the
constructor `10`, the enclosing function of the example scope. -/
def Env.programCyclic : Env :=
  { Env.program with overloadResolve := fun _ _ _ => pure 10 }

/-- The world `Env.program` in which the virtual call `semantic()` on a call
node runs `CallExp::semantic` and on a `this` node `ThisExp::semantic`; every
other node analyses to itself. -/
def Env.programCalls : Env :=
  { Env.program with
    semantic := fun e =>
      match e with
      | .ThisExp l t => ThisExp.semantic Env.programCore l t
      | .CallExp l t e1 arguments => CallExp.semantic Env.program l t e1 arguments
      | e => pure e }

/-- A rendering of nodes for the examples: a variable prints as its name, an
address-of node as `&` and its operand, a slice as its operand and `[]`. -/
def Expression.render (name : Dsymbol → String) : Expression → String
  | .VarExp _ _ var => name var
  | .UnaExp .AddrExp _ _ e1 => "&" ++ Expression.render name e1
  | .ArrayRangeExp _ _ e1 _ _ => Expression.render name e1 ++ "[]"
  | _ => "exp"

/-- The names of the variables of the examples: the parameter `p` (symbol 14)
and the locals `a`, `b`, `c` (symbols 15, 16, 17). -/
def Env.exampleName (d : Dsymbol) : String :=
  if d = 14 then "p" else if d = 15 then "a" else if d = 16 then "b"
  else if d = 17 then "c" else "sym"

/-- The world `Env.program` with the variables of `Env.exampleName`, of which
`p` is a parameter, nodes rendered by `Expression.render`, and a member lookup
that knows the property `size`: 4 on a pointer type, 8 on every other type. -/
def Env.programText : Env :=
  { Env.program with
    symToChars := Env.exampleName
    expToChars := Expression.render Env.exampleName
    isParameter := fun d => decide (d = 14)
    dotExp := fun t e ident =>
      if ident = "size" then
        pure (.IntegerExp e.loc (some Typ.tint32) (if t.ty = .Tpointer then 4 else 8))
      else pure e }

/-- The example state inside a contract of a function. -/
def State.inContract : State :=
  { State.initial with
    sc := { func := none, callSuper := 0, noctor := 0, incontract := 1 } }

/-- The world `Env.programCore` with an enum member `E` (symbol 30) whose value
is the literal `1` written on line 2 of module 0. -/
def Env.programEnum : Env :=
  { Env.programCore with
    search := fun _ ident => if ident = "E" then some (30, none) else none
    dynClass := fun s => if s = 30 then .EnumMember else .Dsymbol
    enumValue := fun _ => .IntegerExp ⟨some 0, 2⟩ (some Typ.tint32) 1 }

/-! ## `IntegerExp::isBool` -/

/-- Embeds `IntegerExp::isBool(result)`: the `int` it returns, tested against
zero; `result` is the argument tested against zero. -/
def IntegerExp.isBool (value : Nat) (result : Bool) : Bool :=
  if result then decide (value ≠ 0) else decide (value = 0)

/-! ## A world with floating types -/

/-- The world `Env.base` in which the three real, imaginary and complex types
are classified as such, and all nine are floating and scalar. -/
def Env.programFloat : Env :=
  { Env.base with
    isreal := fun t => decide (t.ty = .Tfloat32 ∨ t.ty = .Tfloat64 ∨ t.ty = .Tfloat80)
    isimaginary := fun t =>
      decide (t.ty = .Timaginary32 ∨ t.ty = .Timaginary64 ∨ t.ty = .Timaginary80)
    iscomplex := fun t =>
      decide (t.ty = .Tcomplex32 ∨ t.ty = .Tcomplex64 ∨ t.ty = .Tcomplex80)
    isfloating := fun t =>
      decide (t.ty = .Tfloat32 ∨ t.ty = .Tfloat64 ∨ t.ty = .Tfloat80 ∨
        t.ty = .Timaginary32 ∨ t.ty = .Timaginary64 ∨ t.ty = .Timaginary80 ∨
        t.ty = .Tcomplex32 ∨ t.ty = .Tcomplex64 ∨ t.ty = .Tcomplex80)
    isscalar := fun t =>
      decide (t.ty = .Tint32 ∨ t.ty = .Tint64 ∨ t.ty = .Tpointer ∨
        t.ty = .Tfloat32 ∨ t.ty = .Tfloat64 ∨ t.ty = .Tfloat80 ∨
        t.ty = .Timaginary32 ∨ t.ty = .Timaginary64 ∨ t.ty = .Timaginary80 ∨
        t.ty = .Tcomplex32 ∨ t.ty = .Tcomplex64 ∨ t.ty = .Tcomplex80) }

/-! ## `CatExp` -/

/-- Embeds `CatExp::semantic(sc)`. The test of the second branch is written
`e1->type-equals(e2->type)` in the source: the pointer `e1->type` moved back by
the `int` that `equals(e2->type)` returns (`Object::equals` on the node itself,
0 or 1), tested against `NULL`. It is embedded as the test that `e1->type` is
not `NULL`. -/
def CatExp.semantic (env : Env) (loc : Loc) (op : TOK) (type : Option Typ)
    (e1 e2 : Expression) : Sem Expression :=
  match type with
  | none => do
      let (e1, e2) ← BinExp.semantic env e1 e2
      match ← env.op_overload (.BinExp .CatExp loc op none e1 e2) with
      | some e => pure e
      | none => do
          let t1 ← Sem.deref e1.type
          let e1 ← (if t1.ty = .Tsarray then do
              let n ← Sem.deref t1.next
              env.castTo e1 (env.arrayOf n)
            else pure e1)
          let t2 ← Sem.deref e2.type
          let e2 ← (if t2.ty = .Tsarray then do
              let n ← Sem.deref t2.next
              env.castTo e2 (env.arrayOf n)
            else pure e2)
          let (type, e1, e2) ← env.typeCombine (.BinExp .CatExp loc op none e1 e2)
          if e1.op = .TOKstring ∧ e2.op = .TOKstring then
            pure (env.optimize (.BinExp .CatExp loc op type e1 e2))
          else if e1.type.isSome then
            pure (.BinExp .CatExp loc op type e1 e2)
          else do
            let t1 ← Sem.deref e1.type
            let t2 ← Sem.deref e2.type
            let _ ← (Expression.error env loc
              ("Can only concatenate arrays, not (" ++ env.typeToChars t1 ++ " ~ " ++
                env.typeToChars t2 ++ ")") : Sem Unit)
            pure (.BinExp .CatExp loc op (some Typ.tint32) e1 e2)
  | some t => pure (.BinExp .CatExp loc op (some t) e1 e2)

/-! ## `StringExp::compare` -/

/-- The library function `wcscmp` of C on two wide strings, each given by its
code units from the pointer on (the end of the list stands for the terminating
NUL): the sign of the difference of the first pair of code units that differ. -/
def wcscmp : List Nat → List Nat → Int
  | [], [] => 0
  | [], b :: _ => if b = 0 then 0 else -1
  | a :: _, [] => if a = 0 then 0 else 1
  | a :: s1, b :: s2 =>
      if a < b then -1
      else if b < a then 1
      else if a = 0 then 0
      else wcscmp s1 s2

/-- The conversion of an `unsigned` to `int`, and the `int` result of an
`int` operation: the value modulo `2 ^ 32`, read as a signed number. -/
def toInt32 (n : Int) : Int :=
  if n % 2 ^ 32 < 2 ^ 31 then n % 2 ^ 32 else n % 2 ^ 32 - 2 ^ 32

/-- Embeds `StringExp::compare(obj)` for the literal with fields `string` and
`len`: `none` where `assert(se2)` fails. -/
def StringExp.compare (string : List Nat) (len : Nat) (obj : Expression) : Option Int :=
  -- Used to sort case statement expressions so we can do an efficient lookup
  match obj with
  | .StringExp _ _ string2 len2 _ =>
      let s1 := string
      let s2 := string2
      let len1 := toInt32 len
      let len2 := toInt32 len2
      if len1 = len2 then some (wcscmp s1 s2)
      else some (toInt32 (len1 - len2))
  | _ => none

/-! ## `StringExp::toCBuffer` -/

/-- The text `printf("%0wx", c)` writes: `c` in lower-case hexadecimal, padded
with zeros to at least `w` digits. -/
def fmtHex (w : Nat) (c : Nat) : String :=
  String.mk (List.replicate (w - (Nat.toDigits 16 c).length) '0' ++ Nat.toDigits 16 c)

/-- The loop of `StringExp::toCBuffer(buf)` from the code unit `*s` on: the
text written before the closing quote. `isprint` is the library predicate;
code units are below `2 ^ 32`. -/
def StringExp.toCBufferLoop (isprint : Nat → Bool) : List Nat → String
  | [] => ""
  | c :: s =>
      if c = 0 then ""
      else
        (if c = 0x22 then "\\" else "") ++
        (if isprint c then String.singleton (Char.ofNat (c % 256))
          else if c &&& 0xFFFFFF00 ≠ 0 then "\\u" ++ fmtHex 4 c
          else "\\x" ++ fmtHex 2 c) ++
        StringExp.toCBufferLoop isprint s

/-- Embeds `StringExp::toCBuffer(buf)`: the text written to the buffer. -/
def StringExp.toCBuffer (isprint : Nat → Bool) (string : List Nat) : String :=
  "\"" ++ StringExp.toCBufferLoop isprint string ++ "\""

/-- The predicate `isprint` of the "C" locale. -/
def isprintC (c : Nat) : Bool := decide (0x20 ≤ c ∧ c ≤ 0x7E)

/-! ## `BinExp::toCBuffer`, `UnaExp::toCBuffer` -/

/-- The binary classes that define a `toCBuffer` of their own: `ArrayExp`,
`PostIncExp` and `PostDecExp` (and `CondExp`, which has its own constructor). -/
def BinClass.ownToCBuffer : BinClass → Bool
  | .ArrayExp | .PostIncExp | .PostDecExp => true
  | _ => false

/-- The virtual call `e->toCBuffer(buf)`, as the text written: on a node of a
binary class without a `toCBuffer` of its own it is `BinExp::toCBuffer`, on an
identifier `IdentifierExp::toCBuffer`; `tokToChars` is `Token::toChars` and
`other` renders the nodes of every other class. -/
def Expression.toCBuffer (tokToChars : TOK → String) (other : Expression → String) :
    Expression → String
  | .BinExp cls loc op type e1 e2 =>
      if cls.ownToCBuffer then other (.BinExp cls loc op type e1 e2)
      else
        Expression.toCBuffer tokToChars other e1 ++ " " ++ tokToChars op ++ " " ++
          Expression.toCBuffer tokToChars other e2
  | .IdentifierExp _ _ ident => ident
  | e => other e

/-- The spelling of a few tokens, for the examples. -/
def Token.exampleChars : TOK → String
  | .TOKadd => "+"
  | .TOKmin => "-"
  | .TOKmul => "*"
  | .TOKdiv => "/"
  | _ => "?"

/-! ## `AddExp`, `MinExp` -/

/-- The static `Type::tcomplex32`. -/
def Typ.tcomplex32 : Typ := .basic .Tcomplex32
/-- The static `Type::tcomplex64`. -/
def Typ.tcomplex64 : Typ := .basic .Tcomplex64
/-- The static `Type::tcomplex80`. -/
def Typ.tcomplex80 : Typ := .basic .Tcomplex80

/-- The `switch (type->ty)` of `AddExp::semantic` and `MinExp::semantic`: the
complex type of the precision of a real or imaginary type, `none` where the
`default:` case is reached. -/
def realImaginaryToComplex (ty : TY) : Option Typ :=
  match ty with
  | .Tfloat32 | .Timaginary32 => some Typ.tcomplex32
  | .Tfloat64 | .Timaginary64 => some Typ.tcomplex64
  | .Tfloat80 | .Timaginary80 => some Typ.tcomplex80
  | _ => none

/-- The part shared, word for word, by `AddExp::semantic` and
`MinExp::semantic` from `typeCombine()` on, for a node of class `cls`: the
combination of the operand types and the complex result of a real and an
imaginary operand. -/
def AddMin.combine (env : Env) (cls : BinClass) (loc : Loc) (op : TOK)
    (e1 e2 : Expression) : Sem Expression := do
  let (type, e1, e2) ← env.typeCombine (.BinExp cls loc op none e1 e2)
  let t1 ← Sem.deref e1.type
  let mixed ← (if env.isreal t1 ∨ env.isimaginary t1 then do
      let t2 ← Sem.deref e2.type
      pure ((env.isreal t1 && env.isimaginary t2) || (env.isimaginary t1 && env.isreal t2))
    else pure false)
  if mixed then do
    let t ← Sem.deref type
    match realImaginaryToComplex t.ty with
    | some c => pure (.BinExp cls loc op (some c) e1 e2)
    | none => Sem.assertFail
  else
    pure (.BinExp cls loc op type e1 e2)

/-- Embeds `AddExp::semantic(sc)`. Every path through the array test and the
pointer test of the source reads `e2->type`, so both types are read first. -/
def AddExp.semantic (env : Env) (loc : Loc) (op : TOK) (type : Option Typ)
    (e1 e2 : Expression) : Sem Expression :=
  match type with
  | none => do
      let (e1, e2) ← BinExp.semantic env e1 e2
      match ← env.op_overload (.BinExp .AddExp loc op none e1 e2) with
      | some e => pure e
      | none => do
          let t1 ← Sem.deref e1.type
          let t2 ← Sem.deref e2.type
          let bothArrays ← (if t1.isArrayTy && t2.isArrayTy then do
              let n1 ← Sem.deref t1.next
              pure (decide (t2.next = some n1))
            else pure false)
          if bothArrays then
            pure (.BinExp .AddExp loc op e1.type e1 e2)
          else if (t1.ty = .Tpointer ∧ env.isintegral t2) ∨
              (t2.ty = .Tpointer ∧ env.isintegral t1) then
            env.scaleFactor (.BinExp .AddExp loc op none e1 e2)
          else
            AddMin.combine env .AddExp loc op e1 e2
  | some t => pure (.BinExp .AddExp loc op (some t) e1 e2)

/-- Embeds `MinExp::semantic(sc)`. Every path of the source reads `e2->type`
right after `e1->type`, so both types are read first. -/
def MinExp.semantic (env : Env) (loc : Loc) (op : TOK) (type : Option Typ)
    (e1 e2 : Expression) : Sem Expression :=
  match type with
  | some t => pure (.BinExp .MinExp loc op (some t) e1 e2)
  | none => do
      let (e1, e2) ← BinExp.semantic env e1 e2
      match ← env.op_overload (.BinExp .MinExp loc op none e1 e2) with
      | some e => pure e
      | none => do
          let t1 ← Sem.deref e1.type
          let t2 ← Sem.deref e2.type
          if t1.ty = .Tpointer then
            if t2.ty = .Tpointer then do
              -- Need to divide the result by the stride
              -- Replace (ptr - ptr) with (ptr - ptr) / stride
              let (_, e1, e2) ← env.typeCombine (.BinExp .MinExp loc op none e1 e2)
              let t2 ← Sem.deref e2.type
              let n2 ← Sem.deref t2.next
              let stride := signExtend 32 (env.typeSize n2)
              pure (.BinExp .DivExp loc .TOKdiv (some Typ.tint32)
                (.BinExp .MinExp loc op (some Typ.tint32) e1 e2)
                (.IntegerExp ⟨none, 0⟩ (some Typ.tint32) stride))
            else if env.isintegral t2 then
              env.scaleFactor (.BinExp .MinExp loc op none e1 e2)
            else do
              let _ ← (Expression.error env loc "incompatible types for -" : Sem Unit)
              pure (.BinExp .MinExp loc op none e1 e2)
          else if t2.ty = .Tpointer then do
            let _ ← (Expression.error env loc
              ("can't subtract pointer from " ++ env.typeToChars t1) : Sem Unit)
            pure (.BinExp .MinExp loc op e2.type e1 e2)
          else
            AddMin.combine env .MinExp loc op e1 e2

/-- Modelled from the spec: `BinExp::scaleFactor()`, defined outside these
sources. Spec, section 4.4: "Pointer-vs-integral addition/subtraction scales the
integral operand by the pointee's storage size (an explicit multiply/divide
rewrite)": the integral operand `i` of the node becomes the product
`i * stride`, with `stride` the literal of the size of the pointee type, and
the node takes the pointer type. -/
def BinExp.scaleFactorSpec (size : Typ → Nat) : Expression → Expression
  | .BinExp cls loc op type e1 e2 =>
      match e1.type, e2.type with
      | some (.pointer n), _ =>
          .BinExp cls loc op e1.type e1
            (.BinExp .MulExp loc .TOKmul e2.type e2 (.IntegerExp loc e2.type (size n)))
      | _, some (.pointer n) =>
          .BinExp cls loc op e2.type
            (.BinExp .MulExp loc .TOKmul e1.type e1 (.IntegerExp loc e1.type (size n))) e2
      | _, _ => .BinExp cls loc op type e1 e2
  | e => e

/-- The world `Env.base` with the scale-factor rewrite of the spec and 8-byte
`long` and `double`. -/
def Env.programPointer : Env :=
  { Env.base with
    scaleFactor := fun e => pure (BinExp.scaleFactorSpec Env.base.typeSize e) }

/-! ## `MulExp`, `DivExp` -/

/-- Embeds `MulExp::semantic(sc)`. The call `e->semantic(sc)` on the node just
built by `new NegExp(loc, this)` is `NegExp::semantic`. -/
def MulExp.semantic (env : Env) (loc : Loc) (op : TOK) (type : Option Typ)
    (e1 e2 : Expression) : Sem Expression :=
  match type with
  | some t => pure (.BinExp .MulExp loc op (some t) e1 e2)
  | none => do
      let (e1, e2) ← BinExp.semantic env e1 e2
      match ← env.op_overload (.BinExp .MulExp loc op none e1 e2) with
      | some e => pure e
      | none => do
          let (type, e1, e2) ← env.typeCombine (.BinExp .MulExp loc op none e1 e2)
          Expression.checkArithmetic env e1
          Expression.checkArithmetic env e2
          let t ← Sem.deref type
          if env.isfloating t then do
            let t1 ← Sem.deref e1.type
            if env.isreal t1 then
              pure (.BinExp .MulExp loc op e2.type e1 e2)
            else do
              let t2 ← Sem.deref e2.type
              if env.isreal t2 then
                pure (.BinExp .MulExp loc op (some t1) e1 e2)
              else if env.isimaginary t1 then
                if env.isimaginary t2 then
                  match imaginaryToReal t1.ty with
                  | some r =>
                      -- iy * iv = -yv
                      NegExp.semantic env loc none
                        (.BinExp .MulExp loc op (some r) (e1.setType (some r))
                          (e2.setType (some r)))
                  | none => Sem.assertFail
                else
                  pure (.BinExp .MulExp loc op (some t2) e1 e2)    -- t2 is complex
              else if env.isimaginary t2 then
                pure (.BinExp .MulExp loc op (some t1) e1 e2)      -- t1 is complex
              else
                pure (.BinExp .MulExp loc op type e1 e2)
          else
            pure (.BinExp .MulExp loc op type e1 e2)

/-- Embeds `DivExp::semantic(sc)`. -/
def DivExp.semantic (env : Env) (loc : Loc) (op : TOK) (type : Option Typ)
    (e1 e2 : Expression) : Sem Expression :=
  match type with
  | some t => pure (.BinExp .DivExp loc op (some t) e1 e2)
  | none => do
      let (e1, e2) ← BinExp.semantic env e1 e2
      match ← env.op_overload (.BinExp .DivExp loc op none e1 e2) with
      | some e => pure e
      | none => do
          let (type, e1, e2) ← env.typeCombine (.BinExp .DivExp loc op none e1 e2)
          Expression.checkArithmetic env e1
          Expression.checkArithmetic env e2
          let t ← Sem.deref type
          if env.isfloating t then do
            let t1 ← Sem.deref e1.type
            if env.isreal t1 then do
              let t2 ← Sem.deref e2.type
              if env.isimaginary t2 then
                -- x/iv = i(-x/v)
                NegExp.semantic env loc none
                  (.BinExp .DivExp loc op (some t2) e1 (e2.setType (some t1)))
              else
                pure (.BinExp .DivExp loc op (some t2) e1 e2)
            else do
              let t2 ← Sem.deref e2.type
              if env.isreal t2 then
                pure (.BinExp .DivExp loc op (some t1) e1 e2)
              else if env.isimaginary t1 then
                if env.isimaginary t2 then
                  match imaginaryToReal t1.ty with
                  | some r => pure (.BinExp .DivExp loc op (some r) e1 e2)
                  | none => Sem.assertFail
                else
                  pure (.BinExp .DivExp loc op (some t2) e1 e2)    -- t2 is complex
              else if env.isimaginary t2 then
                pure (.BinExp .DivExp loc op (some t1) e1 e2)      -- t1 is complex
              else
                pure (.BinExp .DivExp loc op type e1 e2)
          else
            pure (.BinExp .DivExp loc op type e1 e2)

/-- The virtual call `semantic(sc)` on a node of one of the arithmetic classes
`AddExp`, `MinExp`, `MulExp`, `DivExp`. A node of another binary class goes to
the collaborator `env.semantic`. -/
def BinExp.semanticArith (env : Env) (cls : BinClass) (loc : Loc) (op : TOK)
    (type : Option Typ) (e1 e2 : Expression) : Sem Expression :=
  match cls with
  | .AddExp => AddExp.semantic env loc op type e1 e2
  | .MinExp => MinExp.semantic env loc op type e1 e2
  | .MulExp => MulExp.semantic env loc op type e1 e2
  | .DivExp => DivExp.semantic env loc op type e1 e2
  | cls => env.semantic (.BinExp cls loc op type e1 e2)

/-! ## `AddrExp`, `ComExp`, `ModExp`, the shifts and the bitwise operators -/

/-- Embeds `AddrExp::semantic(sc)`. The call `e->semantic(sc)` on the
`DelegateExp` node just built goes through `env.semantic`. -/
def AddrExp.semantic (env : Env) (loc : Loc) (type : Option Typ) (e1 : Expression) :
    Sem Expression :=
  match type with
  | none => do
      let e1 ← env.semantic e1
      let e1 ← Expression.toLvalue env e1
      let t1 ← Sem.deref e1.type
      -- See if this should really be a delegate
      if e1.op = .TOKdotvar then
        match e1 with
        | .DotVarExp _ _ de1 var =>
            if (env.dynClass var).isFuncDeclaration then
              env.semantic (.DelegateExp loc none de1 var)
            else pure (.UnaExp .AddrExp loc (some t1.pointerTo) e1)
        | _ => Sem.nullDeref
      else pure (.UnaExp .AddrExp loc (some t1.pointerTo) e1)
  | some t => pure (.UnaExp .AddrExp loc (some t) e1)

/-- Embeds `ComExp::semantic(sc)`. -/
def ComExp.semantic (env : Env) (loc : Loc) (type : Option Typ) (e1 : Expression) :
    Sem Expression :=
  match type with
  | none => do
      let e1 ← env.semantic e1
      match ← env.op_overload (.UnaExp .ComExp loc none e1) with
      | some e => pure e
      | none => do
          Expression.checkIntegral env e1
          pure (.UnaExp .ComExp loc e1.type e1)
  | some t => pure (.UnaExp .ComExp loc (some t) e1)

/-- Embeds `ModExp::semantic(sc)`. -/
def ModExp.semantic (env : Env) (loc : Loc) (op : TOK) (type : Option Typ)
    (e1 e2 : Expression) : Sem Expression :=
  match type with
  | some t => pure (.BinExp .ModExp loc op (some t) e1 e2)
  | none => do
      let (e1, e2) ← BinExp.semantic env e1 e2
      match ← env.op_overload (.BinExp .ModExp loc op none e1 e2) with
      | some e => pure e
      | none => do
          let (type, e1, e2) ← env.typeCombine (.BinExp .ModExp loc op none e1 e2)
          Expression.checkArithmetic env e1
          Expression.checkArithmetic env e2
          pure (.BinExp .ModExp loc op type e1 e2)

/-- The body shared, word for word, by `ShlExp::semantic(sc)`,
`ShrExp::semantic(sc)` and `UshrExp::semantic(sc)`, for a node of class `cls`. -/
def ShiftExp.semantic (env : Env) (cls : BinClass) (loc : Loc) (op : TOK)
    (type : Option Typ) (e1 e2 : Expression) : Sem Expression :=
  match type with
  | none => do
      let (e1, e2) ← BinExp.semantic env e1 e2
      match ← env.op_overload (.BinExp cls loc op none e1 e2) with
      | some e => pure e
      | none => do
          Expression.checkIntegral env e1
          Expression.checkIntegral env e2
          let e1 ← env.integralPromotions e1
          let e2 ← env.castTo e2 env.tshiftcnt
          pure (.BinExp cls loc op e1.type e1 e2)
  | some t => pure (.BinExp cls loc op (some t) e1 e2)

/-- Embeds `ShlExp::semantic(sc)`. -/
def ShlExp.semantic (env : Env) (loc : Loc) (op : TOK) (type : Option Typ)
    (e1 e2 : Expression) : Sem Expression :=
  ShiftExp.semantic env .ShlExp loc op type e1 e2

/-- Embeds `ShrExp::semantic(sc)`. -/
def ShrExp.semantic (env : Env) (loc : Loc) (op : TOK) (type : Option Typ)
    (e1 e2 : Expression) : Sem Expression :=
  ShiftExp.semantic env .ShrExp loc op type e1 e2

/-- Embeds `UshrExp::semantic(sc)`. -/
def UshrExp.semantic (env : Env) (loc : Loc) (op : TOK) (type : Option Typ)
    (e1 e2 : Expression) : Sem Expression :=
  ShiftExp.semantic env .UshrExp loc op type e1 e2

/-- The body shared, word for word, by `AndExp::semantic(sc)`,
`OrExp::semantic(sc)` and `XorExp::semantic(sc)`, for a node of class `cls`. -/
def BitExp.semantic (env : Env) (cls : BinClass) (loc : Loc) (op : TOK)
    (type : Option Typ) (e1 e2 : Expression) : Sem Expression :=
  match type with
  | none => do
      let (e1, e2) ← BinExp.semantic env e1 e2
      match ← env.op_overload (.BinExp cls loc op none e1 e2) with
      | some e => pure e
      | none => do
          let (type, e1, e2) ← env.typeCombine (.BinExp cls loc op none e1 e2)
          Expression.checkIntegral env e1
          Expression.checkIntegral env e2
          pure (.BinExp cls loc op type e1 e2)
  | some t => pure (.BinExp cls loc op (some t) e1 e2)

/-- Embeds `AndExp::semantic(sc)`. -/
def AndExp.semantic (env : Env) (loc : Loc) (op : TOK) (type : Option Typ)
    (e1 e2 : Expression) : Sem Expression :=
  BitExp.semantic env .AndExp loc op type e1 e2

/-- Embeds `OrExp::semantic(sc)`. -/
def OrExp.semantic (env : Env) (loc : Loc) (op : TOK) (type : Option Typ)
    (e1 e2 : Expression) : Sem Expression :=
  BitExp.semantic env .OrExp loc op type e1 e2

/-- Embeds `XorExp::semantic(sc)`. -/
def XorExp.semantic (env : Env) (loc : Loc) (op : TOK) (type : Option Typ)
    (e1 e2 : Expression) : Sem Expression :=
  BitExp.semantic env .XorExp loc op type e1 e2

/-! ## `CmpExp`, `EqualExp` -/

/-- The test of `CmpExp::semantic` and `EqualExp::semantic` that the base types
`t1` and `t2` of the operands are both arrays, dynamic or fixed-size, with
`t1->next->equals(t2->next)`. -/
def arraysOfSameElement (t1 t2 : Typ) : Sem Bool :=
  if t1.isArrayTy && t2.isArrayTy then do
    let n1 ← Sem.deref t1.next
    pure (decide (t2.next = some n1))
  else pure false

/-- Embeds `CmpExp::semantic(sc)`. The call `e->semantic(sc)` on the `CmpExp`
node built around the result of an operator overload goes through
`env.semantic`. -/
def CmpExp.semantic (env : Env) (loc : Loc) (op : TOK) (type : Option Typ)
    (e1 e2 : Expression) : Sem Expression :=
  match type with
  | some t => pure (.BinExp .CmpExp loc op (some t) e1 e2)
  | none => do
      let (e1, e2) ← BinExp.semantic env e1 e2
      match ← env.op_overload (.BinExp .CmpExp loc op none e1 e2) with
      | some e =>
          env.semantic (.BinExp .CmpExp loc op none e (.IntegerExp loc (some Typ.tint32) 0))
      | none => do
          let (_, e1, e2) ← env.typeCombine (.BinExp .CmpExp loc op none e1 e2)
          let type := env.tboolean
          -- Special handling for array comparisons
          let t1 := env.toBasetype (← Sem.deref e1.type)
          let t2 := env.toBasetype (← Sem.deref e2.type)
          if ← arraysOfSameElement t1 t2 then do
            let n1 ← Sem.deref t1.next
            let telement := env.toBasetype n1
            let a1 ← env.castTo e1 (env.arrayOf n1)
            let n2 ← Sem.deref t2.next
            let a2 ← env.castTo e2 (env.arrayOf n2)
            let (ec, arguments) ← (if telement.ty = .Tchar then
                pure (VarExp.ctor env loc (env.genCfunc type "_adCmpChar"), [a1, a2])
              else do
                let fd := env.genCfunc type (if telement.ty = .Tbit then "_adCmpBit" else "_adCmp")
                let ec := VarExp.ctor env loc fd
                if telement.ty ≠ .Tbit then do
                  let ti ← env.getProperty (env.toBasetype n1) loc env.idTypeinfo
                  pure (ec, [a1, a2, ti])
                else pure (ec, [a1, a2]))
            let e := Expression.CallExp loc (some Typ.tint32) ec (some arguments)
            pure (.BinExp .CmpExp loc op (some type) e (.IntegerExp loc (some Typ.tint32) 0))
          else
            pure (.BinExp .CmpExp loc op (some type) e1 e2)

/-- Embeds `EqualExp::semantic(sc)`. The call `e->semantic(sc)` on the `NotExp`
node built around the result of an operator overload goes through
`env.semantic`. -/
def EqualExp.semantic (env : Env) (loc : Loc) (op : TOK) (type : Option Typ)
    (e1 e2 : Expression) : Sem Expression :=
  match type with
  | some t => pure (.BinExp .EqualExp loc op (some t) e1 e2)
  | none => do
      let (e1, e2) ← BinExp.semantic env e1 e2
      match ← env.op_overload (.BinExp .EqualExp loc op none e1 e2) with
      | some e =>
          if op = .TOKnotequal then env.semantic (.UnaExp .NotExp e.loc none e)
          else pure e
      | none => do
          let (ctype, e1, e2) ← env.typeCombine (.BinExp .EqualExp loc op none e1 e2)
          let e := env.typeCombineValue (.BinExp .EqualExp loc op ctype e1 e2)
          let type := env.tboolean
          -- Special handling for array comparisons
          let r1 ← Sem.deref e1.type
          let r2 ← Sem.deref e2.type
          let t1 := env.toBasetype r1
          let t2 := env.toBasetype r2
          if ← arraysOfSameElement t1 t2 then do
            let n1 ← Sem.deref t1.next
            let telement := env.toBasetype n1
            let fd := env.genCfunc type (if telement.ty = .Tbit then "_adEqBit" else "_adEq")
            let ec := VarExp.ctor env loc fd
            let a1 ← env.castTo e1 (env.arrayOf n1)
            let n2 ← Sem.deref t2.next
            let a2 ← env.castTo e2 (env.arrayOf n2)
            let arguments ← (if telement.ty ≠ .Tbit then do
                let ti ← env.getProperty telement loc env.idTypeinfo
                pure [a1, a2, ti]
              else pure [a1, a2])
            let e := Expression.CallExp loc (some type) ec (some arguments)
            if op = .TOKnotequal then
              pure (.UnaExp .NotExp loc (some type) e)
            else pure e
          else do
            let (e1, e2) ← (if r1 ≠ r2 ∧ env.isfloating r1 ∧ env.isfloating r2 then do
                -- Cast both to complex
                let e1 ← env.castTo e1 Typ.tcomplex80
                let e2 ← env.castTo e2 Typ.tcomplex80
                pure (e1, e2)
              else pure (e1, e2))
            match e with
            | none => pure (.BinExp .EqualExp loc op (some type) e1 e2)
            | some e => pure e

/-- The world `Env.base` with the runtime helpers named: symbols 40 to 44 are
`_adEq`, `_adEqBit`, `_adCmp`, `_adCmpChar`, `_adCmpBit`. -/
def Env.programHelpers : Env :=
  { Env.base with
    symToChars := fun d =>
      if d = 40 then "_adEq" else if d = 41 then "_adEqBit" else if d = 42 then "_adCmp"
      else if d = 43 then "_adCmpChar" else if d = 44 then "_adCmpBit" else "sym" }

/-! ## `syntaxCopy` -/

mutual
/-- An expression object in memory, at the address `addr`, with the objects its
pointer fields point to. One constructor per `syntaxCopy` member: `leaf` stands
for the classes without expression operands that run `Expression::syntaxCopy`
(`data` is the rest of the object, e.g. the value or the identifier), `una` for
the unary classes that run `UnaExp::syntaxCopy` and `bin` for the binary classes
that run `BinExp::syntaxCopy`. The operand pointers that the members dereference
unconditionally are not `NULL`. -/
inductive Obj
  | leaf (addr : Nat) (loc : Loc) (op : TOK) (type : Option Typ) (data : Nat)
  | declaration (addr : Nat) (loc : Loc) (type : Option Typ) (declaration : Dsymbol)
  | newExp (addr : Nat) (loc : Loc) (type : Typ) (arguments : ObjArray)
      (member : Option Dsymbol)
  | una (addr : Nat) (loc : Loc) (op : TOK) (type : Option Typ) (e1 : Obj) (data : Nat)
  | call (addr : Nat) (loc : Loc) (type : Option Typ) (e1 : Obj) (arguments : ObjArray)
  | cast (addr : Nat) (loc : Loc) (type : Option Typ) (e1 : Obj) (to_ : Typ)
  | range (addr : Nat) (loc : Loc) (type : Option Typ) (e1 : Obj) (lwr : ObjPtr)
      (upr : ObjPtr)
  | bin (addr : Nat) (loc : Loc) (op : TOK) (type : Option Typ) (e1 : Obj) (e2 : Obj)
  | cond (addr : Nat) (loc : Loc) (type : Option Typ) (econd : Obj) (e1 : Obj) (e2 : Obj)
/-- An `Expression *` that may be `NULL`. -/
inductive ObjPtr
  | null
  | ptr (o : Obj)
/-- An `Array *` of expressions that may be `NULL`; the array object has an
address of its own. -/
inductive ObjArray
  | null
  | array (addr : Nat) (elems : ObjList)
/-- The elements `data[0 .. dim]` of an array of expressions. -/
inductive ObjList
  | nil
  | cons (o : Obj) (rest : ObjList)
end

mutual
/-- The addresses of the objects of a tree: its nodes and its argument arrays. -/
def Obj.addrs : Obj → List Nat
  | .leaf a _ _ _ _ => [a]
  | .declaration a _ _ _ => [a]
  | .newExp a _ _ args _ => a :: args.addrs
  | .una a _ _ _ e1 _ => a :: e1.addrs
  | .call a _ _ e1 args => a :: (e1.addrs ++ args.addrs)
  | .cast a _ _ e1 _ => a :: e1.addrs
  | .range a _ _ e1 lwr upr => a :: (e1.addrs ++ (lwr.addrs ++ upr.addrs))
  | .bin a _ _ _ e1 e2 => a :: (e1.addrs ++ e2.addrs)
  | .cond a _ _ econd e1 e2 => a :: (econd.addrs ++ (e1.addrs ++ e2.addrs))
/-- The addresses of the objects behind a pointer. -/
def ObjPtr.addrs : ObjPtr → List Nat
  | .null => []
  | .ptr o => o.addrs
/-- The addresses of an array and of the objects of its elements. -/
def ObjArray.addrs : ObjArray → List Nat
  | .null => []
  | .array a elems => a :: elems.addrs
/-- The addresses of the objects of a list of elements. -/
def ObjList.addrs : ObjList → List Nat
  | .nil => []
  | .cons o rest => o.addrs ++ rest.addrs
end

mutual
/-- Embeds the virtual call `e->syntaxCopy()`, dispatched on the class of `e`:
`Expression::syntaxCopy`, `DeclarationExp::syntaxCopy`, `NewExp::syntaxCopy`,
`UnaExp::syntaxCopy`, `CallExp::syntaxCopy`, `CastExp::syntaxCopy`,
`ArrayRangeExp::syntaxCopy`, `BinExp::syntaxCopy`, `CondExp::syntaxCopy`.
Memory is allocated (`mem.malloc` in `copy()`, `new`) at the first free address
`brk`, which is returned advanced; the operands of a `new` expression are
evaluated from left to right before the allocation. A node made by `copy()`
keeps every field of the original, a node made by `new` has the type `NULL` the
constructor gives it. `tcopy` is `Type::syntaxCopy` and `dcopy` is
`Dsymbol::syntaxCopy`. -/
def Obj.syntaxCopy (tcopy : Typ → Typ) (dcopy : Dsymbol → Dsymbol) : Obj → Nat → Obj × Nat
  | .leaf _ loc op type data, brk =>
      -- return copy();
      (.leaf brk loc op type data, brk + 1)
  | .declaration _ loc _ d, brk =>
      -- return new DeclarationExp(loc, declaration->syntaxCopy(NULL));
      (.declaration brk loc none (dcopy d), brk + 1)
  | .newExp _ loc type args _, brk =>
      -- return new NewExp(loc, type->syntaxCopy(), arraySyntaxCopy(arguments));
      let a := ObjArray.syntaxCopy tcopy dcopy args brk
      (.newExp a.2 loc (tcopy type) a.1 none, a.2 + 1)
  | .una _ loc op type e1 data, brk =>
      -- e = (UnaExp *)copy(); e->e1 = e->e1->syntaxCopy();
      let r := Obj.syntaxCopy tcopy dcopy e1 (brk + 1)
      (.una brk loc op type r.1 data, r.2)
  | .call _ loc _ e1 args, brk =>
      -- return new CallExp(loc, e1->syntaxCopy(), arraySyntaxCopy(arguments));
      let r := Obj.syntaxCopy tcopy dcopy e1 brk
      let a := ObjArray.syntaxCopy tcopy dcopy args r.2
      (.call a.2 loc none r.1 a.1, a.2 + 1)
  | .cast _ loc _ e1 to_, brk =>
      -- return new CastExp(loc, e1->syntaxCopy(), to->syntaxCopy());
      let r := Obj.syntaxCopy tcopy dcopy e1 brk
      (.cast r.2 loc none r.1 (tcopy to_), r.2 + 1)
  | .range _ loc _ e1 lwr upr, brk =>
      -- if (this->lwr) lwr = this->lwr->syntaxCopy();
      let l := ObjPtr.syntaxCopy tcopy dcopy lwr brk
      -- if (this->upr) upr = this->upr->syntaxCopy();
      let u := ObjPtr.syntaxCopy tcopy dcopy upr l.2
      -- return new ArrayRangeExp(loc, e1->syntaxCopy(), lwr, upr);
      let r := Obj.syntaxCopy tcopy dcopy e1 u.2
      (.range r.2 loc none r.1 l.1 u.1, r.2 + 1)
  | .bin _ loc op type e1 e2, brk =>
      -- e = (BinExp *)copy(); e->e1 = e->e1->syntaxCopy(); e->e2 = e->e2->syntaxCopy();
      let r1 := Obj.syntaxCopy tcopy dcopy e1 (brk + 1)
      let r2 := Obj.syntaxCopy tcopy dcopy e2 r1.2
      (.bin brk loc op type r1.1 r2.1, r2.2)
  | .cond _ loc _ econd e1 e2, brk =>
      -- return new CondExp(loc, econd->syntaxCopy(), e1->syntaxCopy(), e2->syntaxCopy());
      let c := Obj.syntaxCopy tcopy dcopy econd brk
      let r1 := Obj.syntaxCopy tcopy dcopy e1 c.2
      let r2 := Obj.syntaxCopy tcopy dcopy e2 r1.2
      (.cond r2.2 loc none c.1 r1.1 r2.1, r2.2 + 1)
/-- The copy `p ? p->syntaxCopy() : NULL` of a pointer that may be `NULL`. -/
def ObjPtr.syntaxCopy (tcopy : Typ → Typ) (dcopy : Dsymbol → Dsymbol) :
    ObjPtr → Nat → ObjPtr × Nat
  | .null, brk => (.null, brk)
  | .ptr o, brk =>
      let r := Obj.syntaxCopy tcopy dcopy o brk
      (.ptr r.1, r.2)
/-- Embeds `Expression::arraySyntaxCopy(exps)`. -/
def ObjArray.syntaxCopy (tcopy : Typ → Typ) (dcopy : Dsymbol → Dsymbol) :
    ObjArray → Nat → ObjArray × Nat
  | .null, brk => (.null, brk)
  | .array _ elems, brk =>
      -- a = new Array(); a->setDim(exps->dim);
      let r := ObjList.syntaxCopy tcopy dcopy elems (brk + 1)
      (.array brk r.1, r.2)
/-- The loop of `Expression::arraySyntaxCopy(exps)`. -/
def ObjList.syntaxCopy (tcopy : Typ → Typ) (dcopy : Dsymbol → Dsymbol) :
    ObjList → Nat → ObjList × Nat
  | .nil, brk => (.nil, brk)
  | .cons o rest, brk =>
      let r := Obj.syntaxCopy tcopy dcopy o brk
      let q := ObjList.syntaxCopy tcopy dcopy rest r.2
      (.cons r.1 q.1, q.2)
end

/-- The field `op` of an object: the classes with a `syntaxCopy` member of their
own have the tag their constructor sets. -/
def Obj.op : Obj → TOK
  | .leaf _ _ op _ _ => op
  | .declaration _ _ _ _ => .TOKdeclaration
  | .newExp _ _ _ _ _ => .TOKnew
  | .una _ _ op _ _ _ => op
  | .call _ _ _ _ _ => .TOKcall
  | .cast _ _ _ _ _ => .TOKcast
  | .range _ _ _ _ _ _ => .TOKrange
  | .bin _ _ op _ _ _ => op
  | .cond _ _ _ _ _ _ => .TOKquestion

mutual
/-- Whether two trees have the same shape, with the same operator tag and the
same source location at every node. -/
def Obj.sameShape : Obj → Obj → Bool
  | .leaf _ l o _ _, .leaf _ l' o' _ _ => decide (l = l') && decide (o = o')
  | .declaration _ l _ _, .declaration _ l' _ _ => decide (l = l')
  | .newExp _ l _ args _, .newExp _ l' _ args' _ => decide (l = l') && args.sameShape args'
  | .una _ l o _ e _, .una _ l' o' _ e' _ =>
      decide (l = l') && decide (o = o') && e.sameShape e'
  | .call _ l _ e args, .call _ l' _ e' args' =>
      decide (l = l') && e.sameShape e' && args.sameShape args'
  | .cast _ l _ e _, .cast _ l' _ e' _ => decide (l = l') && e.sameShape e'
  | .range _ l _ e lwr upr, .range _ l' _ e' lwr' upr' =>
      decide (l = l') && e.sameShape e' && lwr.sameShape lwr' && upr.sameShape upr'
  | .bin _ l o _ e1 e2, .bin _ l' o' _ e1' e2' =>
      decide (l = l') && decide (o = o') && e1.sameShape e1' && e2.sameShape e2'
  | .cond _ l _ c e1 e2, .cond _ l' _ c' e1' e2' =>
      decide (l = l') && c.sameShape c' && e1.sameShape e1' && e2.sameShape e2'
  | _, _ => false
/-- Whether two pointers are both `NULL` or point to trees of the same shape. -/
def ObjPtr.sameShape : ObjPtr → ObjPtr → Bool
  | .null, .null => true
  | .ptr o, .ptr o' => o.sameShape o'
  | _, _ => false
/-- Whether two arrays are both `NULL` or have elements of the same shape. -/
def ObjArray.sameShape : ObjArray → ObjArray → Bool
  | .null, .null => true
  | .array _ elems, .array _ elems' => elems.sameShape elems'
  | _, _ => false
/-- Whether two element lists have the same length and elements of the same shape. -/
def ObjList.sameShape : ObjList → ObjList → Bool
  | .nil, .nil => true
  | .cons o rest, .cons o' rest' => o.sameShape o' && rest.sameShape rest'
  | _, _ => false
end

mutual
/-- The store `p->type = ty` through a pointer `p` to the address `a`, as it
shows in a tree: the node at `a`, if the tree has one, takes the type `ty`. -/
def Obj.storeType (a : Nat) (ty : Typ) : Obj → Obj
  | .leaf b l o t d => .leaf b l o (if b = a then some ty else t) d
  | .declaration b l t d => .declaration b l (if b = a then some ty else t) d
  | .newExp b l t args m =>
      .newExp b l (if b = a then ty else t) (args.storeType a ty) m
  | .una b l o t e d => .una b l o (if b = a then some ty else t) (e.storeType a ty) d
  | .call b l t e args =>
      .call b l (if b = a then some ty else t) (e.storeType a ty) (args.storeType a ty)
  | .cast b l t e to_ => .cast b l (if b = a then some ty else t) (e.storeType a ty) to_
  | .range b l t e lwr upr =>
      .range b l (if b = a then some ty else t) (e.storeType a ty) (lwr.storeType a ty)
        (upr.storeType a ty)
  | .bin b l o t e1 e2 =>
      .bin b l o (if b = a then some ty else t) (e1.storeType a ty) (e2.storeType a ty)
  | .cond b l t c e1 e2 =>
      .cond b l (if b = a then some ty else t) (c.storeType a ty) (e1.storeType a ty)
        (e2.storeType a ty)
/-- The store of `Obj.storeType` below a pointer. -/
def ObjPtr.storeType (a : Nat) (ty : Typ) : ObjPtr → ObjPtr
  | .null => .null
  | .ptr o => .ptr (o.storeType a ty)
/-- The store of `Obj.storeType` below an array. -/
def ObjArray.storeType (a : Nat) (ty : Typ) : ObjArray → ObjArray
  | .null => .null
  | .array b elems => .array b (elems.storeType a ty)
/-- The store of `Obj.storeType` in a list of elements. -/
def ObjList.storeType (a : Nat) (ty : Typ) : ObjList → ObjList
  | .nil => .nil
  | .cons o rest => .cons (o.storeType a ty) (rest.storeType a ty)
end

/-- The tree of `f(x)[lo .. ]` at the addresses 0 to 5: a range node over a
call node with one argument, with a lower bound and no upper bound. -/
def Obj.example : Obj :=
  .range 0 Loc.example (some Typ.tint32)
    (.call 1 Loc.example none (.leaf 2 Loc.example .TOKidentifier none 102)
      (.array 3 (.cons (.leaf 4 Loc.example .TOKidentifier none 120) .nil)))
    (.ptr (.leaf 5 ⟨some 0, 8⟩ .TOKint64 (some Typ.tint32) 1)) .null

/-! ## Theorems -/

/-! ### Bit masks of `IntegerExp::semantic` -/

theorem and_signbit_ne_zero_iff (v : Nat) :
    v &&& 0x8000000000000000 ≠ 0 ↔ v.testBit 63 = true := by
  have hm : (0x8000000000000000 : Nat) = 2 ^ 63 := by norm_num
  rw [hm, Nat.and_two_pow]
  cases v.testBit 63 <;> simp

theorem testBit63_iff (v : Nat) (h : v < 2 ^ 64) : v.testBit 63 = true ↔ 2 ^ 63 ≤ v := by
  constructor
  · intro h1
    by_contra hlt
    have h2 : v.testBit 63 = false := Nat.testBit_lt_two_pow (by omega)
    rw [h2] at h1
    exact absurd h1 (by decide)
  · intro h1
    rw [Nat.testBit_to_div_mod]
    simp only [decide_eq_true_eq]
    omega

theorem and_highmask_ne_zero_iff (v : Nat) (h : v < 2 ^ 63) :
    v &&& 0xFFFFFFFF80000000 ≠ 0 ↔ 2 ^ 31 ≤ v := by
  have hm : (0xFFFFFFFF80000000 : Nat) = (2 ^ 33 - 1) <<< 31 := by decide
  constructor
  · intro h1
    by_contra hlt
    apply h1
    apply Nat.eq_of_testBit_eq
    intro i
    rw [Nat.testBit_and, hm, Nat.testBit_shiftLeft, Nat.testBit_two_pow_sub_one]
    by_cases hi : 31 ≤ i
    · have h2 : v.testBit i = false :=
        Nat.testBit_lt_two_pow
          (lt_of_lt_of_le (by omega) (Nat.pow_le_pow_right (by norm_num) hi))
      simp [h2]
    · simp [hi]
  · intro h1 h0
    obtain ⟨i, hi, hb⟩ := Nat.ge_two_pow_implies_high_bit_true h1
    have hlt : i < 63 := by
      by_contra hge
      have h2 : v.testBit i = false :=
        Nat.testBit_lt_two_pow
          (lt_of_lt_of_le h (Nat.pow_le_pow_right (by norm_num) (by omega)))
      rw [h2] at hb
      exact absurd hb (by decide)
    have h3 := congrArg (fun x => x.testBit i) h0
    simp only [Nat.testBit_and, hm, Nat.testBit_shiftLeft, Nat.testBit_two_pow_sub_one,
      Nat.zero_testBit] at h3
    have h33 : i - 31 < 33 := by omega
    simp [hb, hi, h33] at h3

/-! ### Integer literal type inference -/

/-- C1: for every integer literal with no explicit type and 64-bit value `v`,
`IntegerExp::semantic` returns normally, leaves the state, the location and the
value unchanged, and assigns the type 64-bit unsigned if bit 63 of `v` is set,
otherwise 64-bit signed if `v > 0x7FFFFFFF`, otherwise 32-bit signed. -/
theorem IntegerExp.semantic_infers (env : Env) (loc : Loc) (v : Nat) (s : State)
    (hv : v < 2 ^ 64) :
    IntegerExp.semantic env loc none v s =
      .ok (.IntegerExp loc
        (some (if v.testBit 63 = true then Typ.tuns64
               else if v > 0x7FFFFFFF then Typ.tint64 else Typ.tint32)) v) s := by
  unfold IntegerExp.semantic
  by_cases h63 : v.testBit 63 = true
  · have h1 : v &&& 0x8000000000000000 ≠ 0 := (and_signbit_ne_zero_iff v).2 h63
    simp only [h1, h63, ne_eq, not_false_eq_true, if_true]
    rfl
  · have h1 : ¬ (v &&& 0x8000000000000000 ≠ 0) := fun h => h63 ((and_signbit_ne_zero_iff v).1 h)
    have hlt : v < 2 ^ 63 := by
      by_contra hge
      exact h63 ((testBit63_iff v hv).2 (by omega))
    by_cases h31 : v > 0x7FFFFFFF
    · have h2 : v &&& 0xFFFFFFFF80000000 ≠ 0 := (and_highmask_ne_zero_iff v hlt).2 (by omega)
      simp only [h63, h31, if_true, if_false]
      rw [if_neg h1, if_pos h2]
      rfl
    · have h2 : ¬ (v &&& 0xFFFFFFFF80000000 ≠ 0) := fun h =>
        h31 (by have := (and_highmask_ne_zero_iff v hlt).1 h; omega)
      simp only [h63, h31, if_false]
      rw [if_neg h1, if_neg h2]
      rfl

theorem IntegerExp.semantic_infers_witness :
    ((0x8000000000000000 : Nat) < 2 ^ 64 ∧
      IntegerExp.semantic Env.base Loc.example none 0x8000000000000000 State.initial =
        .ok (.IntegerExp Loc.example (some Typ.tuns64) 0x8000000000000000) State.initial) ∧
    ((0xFFFFFFFF : Nat) < 2 ^ 64 ∧
      IntegerExp.semantic Env.base Loc.example none 0xFFFFFFFF State.initial =
        .ok (.IntegerExp Loc.example (some Typ.tint64) 0xFFFFFFFF) State.initial) ∧
    ((42 : Nat) < 2 ^ 64 ∧
      IntegerExp.semantic Env.base Loc.example none 42 State.initial =
        .ok (.IntegerExp Loc.example (some Typ.tint32) 42) State.initial) := by
  refine ⟨⟨by norm_num, ?_⟩, ⟨by norm_num, ?_⟩, ⟨by norm_num, ?_⟩⟩
  · have h := IntegerExp.semantic_infers Env.base Loc.example 0x8000000000000000
      State.initial (by norm_num)
    rw [if_pos (by decide)] at h
    exact h
  · have h := IntegerExp.semantic_infers Env.base Loc.example 0xFFFFFFFF
      State.initial (by norm_num)
    rw [if_neg (by decide), if_pos (by decide)] at h
    exact h
  · have h := IntegerExp.semantic_infers Env.base Loc.example 42
      State.initial (by norm_num)
    rw [if_neg (by decide), if_neg (by decide)] at h
    exact h

/-- C2, as stated, fails: the literal `0x80000000` has bit 63 clear and does not
need more than 32 bits (`0x80000000 ≤ 0xFFFFFFFF`), yet `IntegerExp::semantic`
infers 64-bit signed, not 32-bit signed. -/
theorem IntegerExp.semantic_needs32_counterexample :
    (0x80000000 : Nat).testBit 63 = false ∧ ¬ ((0x80000000 : Nat) > 0xFFFFFFFF) ∧
    IntegerExp.semantic Env.base Loc.example none 0x80000000 State.initial =
      .ok (.IntegerExp Loc.example (some Typ.tint64) 0x80000000) State.initial ∧
    Typ.tint64 ≠ Typ.tint32 := by
  refine ⟨by decide, by decide, ?_, by decide⟩
  have h1 : ¬ ((0x80000000 : Nat) &&& 0x8000000000000000 ≠ 0) := by decide
  have h2 : (0x80000000 : Nat) &&& 0xFFFFFFFF80000000 ≠ 0 := by decide
  unfold IntegerExp.semantic
  simp only []
  rw [if_neg h1, if_pos h2]
  rfl

/-- C2 (amended): for every integer literal with no explicit type whose bit 63 is
clear, `IntegerExp::semantic` infers 64-bit signed if and only if the value does
not fit the 32-bit signed range (`v > 0x7FFFFFFF`, that is, it needs more than
31 bits), and 32-bit signed otherwise. -/
theorem IntegerExp.semantic_topclear (env : Env) (loc : Loc) (v : Nat) (s : State)
    (hv : v < 2 ^ 64) (htop : v.testBit 63 = false) :
    ∃ t, IntegerExp.semantic env loc none v s = .ok (.IntegerExp loc (some t) v) s ∧
      (t = Typ.tint64 ↔ v > 0x7FFFFFFF) ∧ (t = Typ.tint32 ↔ ¬ v > 0x7FFFFFFF) := by
  have h1 : ¬ (v &&& 0x8000000000000000 ≠ 0) := fun h => by
    rw [(and_signbit_ne_zero_iff v).1 h] at htop
    exact absurd htop (by decide)
  have hlt : v < 2 ^ 63 := by
    by_contra hge
    rw [(testBit63_iff v hv).2 (by omega)] at htop
    exact absurd htop (by decide)
  unfold IntegerExp.semantic
  by_cases h31 : v > 0x7FFFFFFF
  · have h2 : v &&& 0xFFFFFFFF80000000 ≠ 0 := (and_highmask_ne_zero_iff v hlt).2 (by omega)
    refine ⟨Typ.tint64, ?_, ?_, ?_⟩
    · simp only []
      rw [if_neg h1, if_pos h2]
      rfl
    · exact ⟨fun _ => h31, fun _ => rfl⟩
    · exact ⟨fun h => absurd h (by decide), fun h => absurd h31 h⟩
  · have h2 : ¬ (v &&& 0xFFFFFFFF80000000 ≠ 0) := fun h =>
      h31 (by have := (and_highmask_ne_zero_iff v hlt).1 h; omega)
    refine ⟨Typ.tint32, ?_, ?_, ?_⟩
    · simp only []
      rw [if_neg h1, if_neg h2]
      rfl
    · exact ⟨fun h => absurd h (by decide), fun h => absurd h h31⟩
    · exact ⟨fun _ => h31, fun _ => rfl⟩

theorem IntegerExp.semantic_topclear_witness :
    (0x80000000 : Nat) < 2 ^ 64 ∧ (0x80000000 : Nat).testBit 63 = false ∧
    ∃ t, IntegerExp.semantic Env.base Loc.example none 0x80000000 State.initial =
        .ok (.IntegerExp Loc.example (some t) 0x80000000) State.initial ∧
      (t = Typ.tint64 ↔ (0x80000000 : Nat) > 0x7FFFFFFF) ∧
      (t = Typ.tint32 ↔ ¬ (0x80000000 : Nat) > 0x7FFFFFFF) :=
  ⟨by norm_num, by decide,
    IntegerExp.semantic_topclear Env.base Loc.example 0x80000000 State.initial
      (by norm_num) (by decide)⟩

/-! ### The reporting primitive -/

theorem Sem.bind_eq {α β : Type} (x : Sem α) (f : α → Sem β) (s : State) :
    (x >>= f) s = match x s with
      | .ok a s' => f a s'
      | .exit s' => .exit s'
      | .assertFailed s' => .assertFailed s'
      | .nullDeref s' => .nullDeref s' := rfl

theorem Sem.pure_eq {α : Type} (a : α) (s : State) : (pure a : Sem α) s = .ok a s := rfl

theorem Sem.get_bind {β : Type} (f : State → Sem β) (s : State) :
    (Sem.get >>= f) s = f s s := rfl

theorem Expression.error_eq {α : Type} (env : Env) (loc : Loc) (msg : String) (s : State) :
    (Expression.error env loc msg : Sem α) s = .exit (Expression.errorState env loc msg s) := by
  unfold Expression.error Expression.errorState Expression.errorText
  by_cases hp : env.locToChars loc = ""
  · simp [hp, Sem.bind_eq, Sem.printf, Sem.modifyGlobal, fatal, Sem.pure_eq, String.append_assoc]
  · simp [hp, Sem.bind_eq, Sem.printf, Sem.modifyGlobal, fatal, String.append_assoc]

theorem Pass.global_frame (env : Env) {α : Type} (x : Sem α) (hx : Pass env x) :
    ∀ s, match x s with
      | .ok _ s' => s'.global = s.global
      | .exit s' => s'.global.errors = (s.global.errors + 1) % 2 ^ 32
      | .assertFailed s' => s'.global = s.global
      | .nullDeref s' => s'.global = s.global := by
  induction hx with
  | ret a => intro s; rfl
  | assertFail => intro s; rfl
  | deref p => intro s; cases p <;> rfl
  | step x h =>
    intro s
    obtain ⟨a, s', h1, h2⟩ := h s
    rw [h1]; exact h2
  | error loc msg =>
    intro s
    rw [Expression.error_eq]
    rfl
  | seq x f _ _ ihx ihf =>
    intro s
    rw [Sem.bind_eq]
    have h1 := ihx s
    cases hxs : x s with
    | ok a s1 =>
      rw [hxs] at h1
      simp only at h1 ⊢
      have h2 := ihf a s1
      cases hfs : f a s1 with
      | ok b s2 => rw [hfs] at h2; simp only at h2 ⊢; rw [h2, h1]
      | exit s2 => rw [hfs] at h2; simp only at h2 ⊢; rw [h2, h1]
      | assertFailed s2 => rw [hfs] at h2; simp only at h2 ⊢; rw [h2, h1]
      | nullDeref s2 => rw [hfs] at h2; simp only at h2 ⊢; rw [h2, h1]
    | exit s1 => rw [hxs] at h1; exact h1
    | assertFailed s1 => rw [hxs] at h1; exact h1
    | nullDeref s1 => rw [hxs] at h1; exact h1

/-- C5 (fail-fast): from a state whose `unsigned` error counter is not
saturated, every invocation of `Expression::error` writes its message,
increments `global.errors` by exactly one and ends the process without running
any continuation `k`; and every analysis pass (`Pass`) that ends on the error
path leaves the counter at its value before the pass plus one. -/
theorem Expression.error_fail_fast (env : Env) (s : State)
    (hs : s.global.errors + 1 < 2 ^ 32) :
    (∀ (α β : Type) (loc : Loc) (msg : String) (k : α → Sem β),
      (Expression.error env loc msg >>= k) s = .exit (Expression.errorState env loc msg s) ∧
      (Expression.errorState env loc msg s).global.errors = s.global.errors + 1 ∧
      (Expression.errorState env loc msg s).sc = s.sc ∧
      (Expression.errorState env loc msg s).stdout =
        s.stdout ++ Expression.errorText env loc msg) ∧
    (∀ (α : Type) (x : Sem α), Pass env x → ∀ s', x s = .exit s' →
      s'.global.errors = s.global.errors + 1) := by
  constructor
  · intro α β loc msg k
    refine ⟨?_, ?_, rfl, rfl⟩
    · rw [Sem.bind_eq, Expression.error_eq]
    · show (s.global.errors + 1) % 2 ^ 32 = s.global.errors + 1
      exact Nat.mod_eq_of_lt hs
  · intro α x hx s' hxs
    have h := Pass.global_frame env x hx s
    rw [hxs] at h
    simp only at h
    rw [h]
    exact Nat.mod_eq_of_lt hs

theorem Expression.error_fail_fast_witness :
    State.initial.global.errors + 1 < 2 ^ 32 ∧
    (Expression.error Env.base Loc.example "undefined identifier x" >>=
        fun (_ : Unit) => Sem.printf "never printed") State.initial =
      .exit { global := { params := { useDeprecated := false }, errors := 1 },
              sc := State.initial.sc,
              stdout := "undefined identifier x\n" } := by
  refine ⟨by decide, ?_⟩
  have h := ((Expression.error_fail_fast Env.base State.initial (by decide)).1
    Unit Unit Loc.example "undefined identifier x" (fun _ => Sem.printf "never printed")).1
  rw [h]
  rfl

/-! #### The embedded members are analysis passes -/

theorem Pass.of_get (env : Env) : Pass env Sem.get :=
  Pass.step _ (fun s => ⟨s, s, rfl, rfl⟩)

theorem Pass.of_modifySc (env : Env) (f : Scope → Scope) : Pass env (Sem.modifySc f) :=
  Pass.step _ (fun _ => ⟨(), _, rfl, rfl⟩)

theorem Expression.checkDeprecated_pass (env : Env) (loc : Loc) (sym : Dsymbol) :
    Pass env (Expression.checkDeprecated env loc sym) := by
  unfold Expression.checkDeprecated
  refine Pass.seq _ _ (Pass.of_get env) (fun st => ?_)
  by_cases h : (!st.global.params.useDeprecated && env.isDeprecated sym) = true
  · rw [if_pos h]; exact Pass.error _ _
  · rw [if_neg h]; exact Pass.ret _

theorem ThisExp.semantic_pass (env : Env) (loc : Loc) (t : Option Typ) :
    Pass env (ThisExp.semantic env loc t) := by
  unfold ThisExp.semantic
  refine Pass.seq _ _ (Pass.of_get env) (fun st => ?_)
  refine Pass.seq _ _ ?_ (fun e => Pass.seq _ _ (Pass.of_modifySc env _) (fun _ => Pass.ret _))
  cases st.sc.func with
  | none => exact Pass.error _ _
  | some fd =>
    cases hv : env.vthis fd with
    | none => simp only [hv]; exact Pass.error _ _
    | some v => simp only [hv]; exact Pass.ret _

/-! ### Deprecation checks -/

/-- C6, as stated, fails: with the use-deprecated flag off and a deprecated
symbol, `checkDeprecated` goes through `Expression::error`, so the process ends
(the error counter goes from 0 to 1) and no continuation of the caller runs:
the check is fatal. -/
theorem Expression.checkDeprecated_counterexample :
    State.initial.global.params.useDeprecated = false ∧
    Env.deprecated1.isDeprecated 1 = true ∧
    (Expression.checkDeprecated Env.deprecated1 Loc.example 1 >>=
        fun _ => (pure (Expression.VarExp Loc.example none 1) : Sem Expression))
      State.initial =
      .exit { global := { params := { useDeprecated := false }, errors := 1 },
              sc := State.initial.sc,
              stdout := "symbol sym is deprecated\n" } := by
  refine ⟨rfl, rfl, ?_⟩
  rw [Sem.bind_eq]
  unfold Expression.checkDeprecated
  rw [Sem.bind_eq]
  simp only [Sem.get, Env.deprecated1, State.initial, Bool.not_false, Bool.true_and,
    decide_True, if_true]
  rw [Expression.error_eq]
  rfl

/-- C6 (amended): deprecation checks are flag-gated and fatal. For every symbol
`sym`, `checkDeprecated(sym)` reports exactly when the use-deprecated flag is
off and `sym` is deprecated; it then writes "<kind> <name> is deprecated"
through `Expression::error`, which increments the error counter and ends the
process. Otherwise it returns with the state unchanged. -/
theorem Expression.checkDeprecated_eq (env : Env) (loc : Loc) (sym : Dsymbol) (s : State) :
    Expression.checkDeprecated env loc sym s =
      if s.global.params.useDeprecated = false ∧ env.isDeprecated sym = true then
        .exit (Expression.errorState env loc
          (env.kind sym ++ " " ++ env.symToChars sym ++ " is deprecated") s)
      else .ok () s := by
  unfold Expression.checkDeprecated
  rw [Sem.bind_eq]
  simp only [Sem.get]
  cases hu : s.global.params.useDeprecated <;> cases hd : env.isDeprecated sym <;>
    simp [Expression.error_eq, Sem.pure_eq]

/-! ### Invariant I1 -/

theorem IdentifierExp.semantic_templateInstance (env : Env) (loc : Loc) (type : Option Typ)
    (ident : Identifier) (s : State) (s0 sym : Dsymbol) (scopesym : Option Dsymbol)
    (hs : env.search s.sc ident = some (s0, scopesym))
    (ha : env.toAlias s0 = sym)
    (hdep : s.global.params.useDeprecated = true ∨ env.isDeprecated sym = false)
    (hw : scopesym.filter (fun w => env.dynClass w = .WithScopeSymbol) = none)
    (hthis : env.needThis sym = false)
    (hcls : env.dynClass sym = .TemplateInstance)
    (hty : env.getType sym = none) :
    IdentifierExp.semantic env loc type ident s = .ok (.ScopeExp loc none sym) s ∧
    (Expression.ScopeExp loc none sym).type = none := by
  refine ⟨?_, rfl⟩
  have hd : Expression.checkDeprecated env loc sym s = .ok () s := by
    unfold Expression.checkDeprecated
    rw [Sem.get_bind]
    rcases hdep with h | h <;> simp [h, Sem.pure_eq]
  unfold IdentifierExp.semantic
  rw [Sem.get_bind]
  simp only [hs, ha]
  rw [Sem.bind_eq, hd]
  simp only [hw, hthis, hcls, reduceCtorEq, if_false, Bool.false_eq_true,
    DsymbolClass.isFuncDeclaration]
  unfold IdentifierExp.semanticTail
  simp only [hcls, reduceCtorEq, if_false, hty, if_true]
  rfl

/-- C3 (the code at the failing inputs): an identifier that resolves to a
template instance analyses, without error, to a `ScopeExp` whose type is
`NULL`, and so does a member access that resolves to a scope symbol; the
sibling `Import` branch of `IdentifierExp::semantic` runs `semantic()` on its
`ScopeExp`, which types it `void`. Indexing the untyped node then dereferences
the `NULL` type in `ArrayExp::semantic`. -/
theorem IdentifierExp.semantic_scopeExp_untyped :
    IdentifierExp.semantic Env.program Loc.example none "Tmpl" State.initial =
      .ok (.ScopeExp Loc.example none 5) State.initial ∧
    (Expression.ScopeExp Loc.example none 5).type = none ∧
    DotIdExp.semantic Env.program Loc.example none
        (.ScopeExp Loc.example (some Typ.tvoid) 7) "Inner" State.initial =
      .ok (.ScopeExp Loc.example none 8) State.initial ∧
    (Expression.ScopeExp Loc.example none 8).type = none ∧
    IdentifierExp.semantic Env.program Loc.example none "imp" State.initial =
      .ok (.ScopeExp Loc.example (some Typ.tvoid) 7) State.initial ∧
    ArrayExp.semantic Env.program Loc.example none (.ScopeExp Loc.example none 5)
        (.IntegerExp Loc.example (some Typ.tint32) 0) State.initial =
      .nullDeref State.initial := by
  refine ⟨?_, rfl, ?_, rfl, ?_, ?_⟩ <;> rfl

/-! ### Re-analysis of a typed node -/

/-- C4, as stated, fails: `ThisExp::semantic` has no type-presence guard. On a
`this` node that is already typed it sets the `CSXthis` bit of the scope's
call-tracking flags (here `callSuper` goes from 0 to 4). `VarExp::semantic` on
the typed reference to the constant `K` returns the initializer `3`, a
different node. -/
theorem ThisExp.semantic_typed_counterexample :
    (Expression.ThisExp Loc.example (some (.classT 20))).type ≠ none ∧
    ThisExp.semantic Env.program Loc.example (some (.classT 20)) State.inCtor =
      .ok (.ThisExp Loc.example (some (.classT 20)))
        { State.inCtor with
          sc := { func := some 10, callSuper := 4, noctor := 0, incontract := 0 } } ∧
    State.inCtor.sc.callSuper = 0 ∧
    (Expression.VarExp Loc.example (some Typ.tint32) 12).type ≠ none ∧
    VarExp.semantic Env.program Loc.example (some Typ.tint32) 12 State.inCtor =
      .ok (.IntegerExp ⟨some 0, 1⟩ (some Typ.tint32) 3) State.inCtor := by
  refine ⟨?_, rfl, rfl, ?_, rfl⟩
  · intro h; cases h
  · intro h; cases h

/-- C4 (amended): for every variant whose `semantic()` returns at once when
the node's type is set (`NullExp`, `DotVarExp`, `CallExp`, `AddrExp`, `NegExp`,
`ComExp`, `CastExp`, `PostIncExp`, `PostDecExp`, the `commonSemanticAssign`
classes `ModAssignExp`, `AndAssignExp`, `OrAssignExp` and `XorAssignExp`,
`AddExp`, `MinExp`, `CatExp`, `MulExp`, `DivExp`, `ModExp`, `ShlExp`, `ShrExp`,
`UshrExp`, `AndExp`, `OrExp`, `XorExp`, `CmpExp`, `EqualExp`) and for
`DotTypeExp`, whose `semantic()` is `return this`, invoking `semantic()` on a
node whose type is already assigned is a no-op: it returns that same node, with
the same type and children, and leaves the state, the scope's call-tracking
flags included, unchanged. -/
theorem semantic_typed_noop (env : Env) (loc : Loc) (op : TOK) (t : Typ)
    (e1 e2 : Expression) (arguments : Option (List Expression)) (to_ : Typ)
    (var sym : Dsymbol) (s : State) :
    NullExp.semantic loc (some t) s = .ok (.NullExp loc (some t)) s ∧
    DotVarExp.semantic env loc (some t) e1 var s = .ok (.DotVarExp loc (some t) e1 var) s ∧
    DotTypeExp.semantic (.DotTypeExp loc (some t) e1 sym) s =
      .ok (.DotTypeExp loc (some t) e1 sym) s ∧
    CallExp.semantic env loc (some t) e1 arguments s =
      .ok (.CallExp loc (some t) e1 arguments) s ∧
    AddrExp.semantic env loc (some t) e1 s = .ok (.UnaExp .AddrExp loc (some t) e1) s ∧
    NegExp.semantic env loc (some t) e1 s = .ok (.UnaExp .NegExp loc (some t) e1) s ∧
    ComExp.semantic env loc (some t) e1 s = .ok (.UnaExp .ComExp loc (some t) e1) s ∧
    CastExp.semantic env loc (some t) e1 to_ s = .ok (.CastExp loc (some t) e1 to_) s ∧
    PostIncExp.semantic env loc op (some t) e1 e2 s =
      .ok (.BinExp .PostIncExp loc op (some t) e1 e2) s ∧
    PostDecExp.semantic env loc op (some t) e1 e2 s =
      .ok (.BinExp .PostDecExp loc op (some t) e1 e2) s ∧
    BinExp.semanticAssign env .ModAssignExp loc op (some t) e1 e2 s =
      .ok (.BinExp .ModAssignExp loc op (some t) e1 e2) s ∧
    BinExp.semanticAssign env .AndAssignExp loc op (some t) e1 e2 s =
      .ok (.BinExp .AndAssignExp loc op (some t) e1 e2) s ∧
    BinExp.semanticAssign env .OrAssignExp loc op (some t) e1 e2 s =
      .ok (.BinExp .OrAssignExp loc op (some t) e1 e2) s ∧
    BinExp.semanticAssign env .XorAssignExp loc op (some t) e1 e2 s =
      .ok (.BinExp .XorAssignExp loc op (some t) e1 e2) s ∧
    AddExp.semantic env loc op (some t) e1 e2 s =
      .ok (.BinExp .AddExp loc op (some t) e1 e2) s ∧
    MinExp.semantic env loc op (some t) e1 e2 s =
      .ok (.BinExp .MinExp loc op (some t) e1 e2) s ∧
    CatExp.semantic env loc op (some t) e1 e2 s =
      .ok (.BinExp .CatExp loc op (some t) e1 e2) s ∧
    MulExp.semantic env loc op (some t) e1 e2 s =
      .ok (.BinExp .MulExp loc op (some t) e1 e2) s ∧
    DivExp.semantic env loc op (some t) e1 e2 s =
      .ok (.BinExp .DivExp loc op (some t) e1 e2) s ∧
    ModExp.semantic env loc op (some t) e1 e2 s =
      .ok (.BinExp .ModExp loc op (some t) e1 e2) s ∧
    ShlExp.semantic env loc op (some t) e1 e2 s =
      .ok (.BinExp .ShlExp loc op (some t) e1 e2) s ∧
    ShrExp.semantic env loc op (some t) e1 e2 s =
      .ok (.BinExp .ShrExp loc op (some t) e1 e2) s ∧
    UshrExp.semantic env loc op (some t) e1 e2 s =
      .ok (.BinExp .UshrExp loc op (some t) e1 e2) s ∧
    AndExp.semantic env loc op (some t) e1 e2 s =
      .ok (.BinExp .AndExp loc op (some t) e1 e2) s ∧
    OrExp.semantic env loc op (some t) e1 e2 s =
      .ok (.BinExp .OrExp loc op (some t) e1 e2) s ∧
    XorExp.semantic env loc op (some t) e1 e2 s =
      .ok (.BinExp .XorExp loc op (some t) e1 e2) s ∧
    CmpExp.semantic env loc op (some t) e1 e2 s =
      .ok (.BinExp .CmpExp loc op (some t) e1 e2) s ∧
    EqualExp.semantic env loc op (some t) e1 e2 s =
      .ok (.BinExp .EqualExp loc op (some t) e1 e2) s :=
  ⟨rfl, rfl, rfl, rfl, rfl, rfl, rfl, rfl, rfl, rfl, rfl, rfl, rfl, rfl, rfl, rfl, rfl, rfl,
    rfl, rfl, rfl, rfl, rfl, rfl, rfl, rfl, rfl, rfl⟩

/-! ### Argument count -/

theorem Sem.ite_unit_bind {β : Type} (c : Prop) [Decidable c] (x : Sem PUnit)
    (f : PUnit → Sem β) (s : State) :
    ((if c then x else pure PUnit.unit) >>= f) s = if c then (x >>= f) s else f PUnit.unit s := by
  by_cases h : c <;> simp [h, Sem.bind_eq, Sem.pure_eq]

theorem Expression.error_bind {α β : Type} (env : Env) (loc : Loc) (msg : String)
    (f : α → Sem β) (s : State) :
    ((Expression.error env loc msg : Sem α) >>= f) s =
      .exit (Expression.errorState env loc msg s) := by
  rw [Sem.bind_eq, Expression.error_eq]

/-- The loop body of `NewExp::semantic` is that of `CallExp::semantic`. -/
theorem NewExp.bindArgument_eq (env : Env) (params : Option Arguments) (nproto : Nat)
    (linkage : LINK) (i : Nat) (arg : Expression) :
    NewExp.bindArgument env params nproto linkage i arg =
      Dmd.bindArgument env params nproto linkage i arg := by
  rfl

theorem NewExp.bindArguments_eq (env : Env) (params : Option Arguments) (nproto : Nat)
    (linkage : LINK) (args : List Expression) :
    ∀ i, NewExp.bindArguments env params nproto linkage i args =
      Dmd.bindArguments env params nproto linkage i args := by
  induction args with
  | nil => intro i; rfl
  | cons a rest ih =>
      intro i
      simp only [NewExp.bindArguments, Dmd.bindArguments, NewExp.bindArgument_eq, ih]

theorem NewExp.bindArgs_eq (env : Env) (params : Option Arguments) (nproto : Nat)
    (linkage : LINK) (arguments : Option (List Expression)) :
    NewExp.bindArgs env params nproto linkage arguments =
      Dmd.bindArgs env params nproto linkage arguments := by
  cases arguments with
  | none => rfl
  | some a => simp only [NewExp.bindArgs, Dmd.bindArgs, NewExp.bindArguments_eq]

/-- C7: for every callee function type with `N` declared parameters and every
argument list of length `M`, the argument binder of `CallExp::semantic` (from
`Lcheckargs`) and that of `NewExp::semantic` (constructor arguments) end the
pass with "expected N arguments to function/constructor, not M" exactly when
not (`M = N` or (the callee is variadic and `M >= N`)); otherwise no count
error is reported and they go on to bind the arguments in the same state. -/
theorem argument_count_check (env : Env) (loc : Loc) (e1 : Expression) (f : Dsymbol)
    (arguments : Option (List Expression)) (params : Option Arguments) (next : Typ)
    (varargs : Bool) (linkage : LINK) (s : State) :
    CallExp.checkargs env loc e1 arguments (.function params next varargs linkage) s =
      (if argsDim arguments = protoDim params ∨
          (varargs = true ∧ argsDim arguments ≥ protoDim params) then
        (bindArgs env params (protoDim params) linkage arguments >>= fun a =>
          (pure (.CallExp loc (some next) e1 a) : Sem Expression)) s
      else
        .exit (Expression.errorState env loc
          ("expected " ++ fmtSigned 32 (protoDim params) ++ " arguments to function, not "
            ++ fmtSigned 32 (argsDim arguments) ++ "\n") s)) ∧
    NewExp.checkargs env loc f arguments (.function params next varargs linkage) s =
      (if argsDim arguments = protoDim params ∨
          (varargs = true ∧ argsDim arguments ≥ protoDim params) then
        (bindArgs env params (protoDim params) linkage arguments >>= fun a =>
          (pure (.NewExp loc (some next) a (some f)) : Sem Expression)) s
      else
        .exit (Expression.errorState env loc
          ("expected " ++ fmtSigned 32 (protoDim params) ++ " arguments to constructor, not "
            ++ fmtSigned 32 (argsDim arguments) ++ "\n") s)) := by
  constructor
  · unfold CallExp.checkargs
    simp only []
    by_cases h1 : argsDim arguments = protoDim params
    · simp [h1, Sem.bind_eq, Sem.pure_eq]
    · by_cases h2 : argsDim arguments < protoDim params
      · have h3 : ¬ argsDim arguments ≥ protoDim params := by omega
        simp [h1, h2, h3, Expression.error_bind]
      · cases varargs
        · simp [h1, h2, Expression.error_bind]
        · have h3 : protoDim params ≤ argsDim arguments := by omega
          simp [h1, h2, h3, Sem.bind_eq, Sem.pure_eq]
  · unfold NewExp.checkargs
    simp only []
    by_cases h1 : argsDim arguments = protoDim params
    · simp only [h1, ne_eq, not_true_eq_false, if_false, true_or, if_true, Sem.bind_eq,
        Sem.pure_eq]
      rw [NewExp.bindArgs_eq]
    · by_cases h2 : argsDim arguments < protoDim params
      · have h3 : ¬ argsDim arguments ≥ protoDim params := by omega
        simp [h1, h2, h3, Expression.error_bind]
      · cases varargs
        · simp [h1, h2, Expression.error_bind]
        · have h3 : protoDim params ≤ argsDim arguments := by omega
          simp only [h1, h2, h3, ne_eq, not_false_eq_true, if_true, false_or, Bool.not_true,
            Bool.false_eq_true, if_false, ge_iff_le, and_self, or_true, Sem.bind_eq,
            Sem.pure_eq]
          rw [NewExp.bindArgs_eq]

/-! ### Compile-time bounds checking -/

/-- C8, as stated, fails: for a fixed-size array of 5 elements of type `bit`,
indexing with the compile-time constant 7 (outside `[0, 5)`) reports no bounds
error; `ArrayExp::semantic` returns the node typed `bit`. -/
theorem ArrayExp.semantic_bit_counterexample :
    ¬ ((7 : Nat) < 5) ∧
    ArrayExp.semantic Env.base Loc.example none
        (.VarExp Loc.example (some (.sarray (.basic .Tbit) 5)) 1)
        (.IntegerExp Loc.example (some Typ.tint32) 7) State.initial =
      .ok (.BinExp .ArrayExp Loc.example .TOKarray (some (.basic .Tbit))
            (.VarExp Loc.example (some (.sarray (.basic .Tbit) 5)) 1)
            (.IntegerExp Loc.example (some (.basic .Tuns32)) 7)) State.initial :=
  ⟨by decide, rfl⟩

theorem Sem.deref_some {α : Type} (a : α) (s : State) : Sem.deref (some a) s = .ok a s := rfl

/-- C8 (amended): for every fixed-size array receiver of length `L` whose
element base type is not `bit`, and every index that, once converted to the
index type and folded, is an integer constant reading `i` (its value normalised
to its type by `toInteger`), `ArrayExp::semantic` ends the pass with the bounds
error if `i >= L` (an index outside `[0, L)`), and returns the node typed with
the element type, the index normalised, if `i < L`. -/
theorem ArrayExp.semantic_bounds (env : Env) (loc : Loc) (type : Option Typ)
    (e1 e2 e1a e2a e2c : Expression) (s s1 s2 s3 : State) (t next ity : Typ)
    (L v i : Nat) (il : Loc)
    (h1 : env.semantic e1 s = .ok e1a s1)
    (h2 : env.semantic e2 s1 = .ok e2a s2)
    (ht : e1a.type = some t)
    (hb : env.toBasetype t = .sarray next L)
    (hbit : (env.toBasetype next).ty ≠ .Tbit)
    (hc : env.implicitCastTo e2a env.tindex s2 = .ok e2c s3)
    (ho : env.optimize e2c = .IntegerExp il (some ity) v)
    (hn : IntegerExp.normalize ity v = some i) :
    ArrayExp.semantic env loc type e1 e2 s =
      if i ≥ L then
        .exit (Expression.errorState env loc
          ("array index [" ++ fmtSigned 64 i ++ "] is outside array bounds [0 .. "
            ++ fmtSigned 64 L ++ "]") s3)
      else
        .ok (.BinExp .ArrayExp loc .TOKarray (some next) e1a
              (.IntegerExp il (some ity) i)) s3 := by
  unfold ArrayExp.semantic
  rw [Sem.bind_eq, h1]
  simp only []
  rw [Sem.bind_eq, h2]
  simp only []
  rw [Sem.bind_eq, ht, Sem.deref_some]
  simp only [hb, Typ.ty]
  unfold ArrayExp.semanticSArray
  rw [Sem.bind_eq, hc]
  simp only [Typ.next]
  rw [Sem.bind_eq, Sem.deref_some]
  simp only [hbit, if_false, ho]
  unfold IntegerExp.toInteger
  simp only [hn, Typ.dim]
  by_cases hi : i ≥ L
  · simp [Sem.bind_eq, Sem.pure_eq, Sem.deref_some, hi, Expression.error_eq]
  · simp [Sem.bind_eq, Sem.pure_eq, Sem.deref_some, hi]

theorem ArrayExp.semantic_bounds_witness :
    (Env.base.semantic (.VarExp Loc.example (some (.sarray Typ.tint32 5)) 1) State.initial =
        .ok (.VarExp Loc.example (some (.sarray Typ.tint32 5)) 1) State.initial ∧
      Env.base.toBasetype (.sarray Typ.tint32 5) = .sarray Typ.tint32 5 ∧
      (Env.base.toBasetype Typ.tint32).ty ≠ .Tbit ∧
      Env.base.optimize (.IntegerExp Loc.example (some (.basic .Tuns32)) 6) =
        .IntegerExp Loc.example (some (.basic .Tuns32)) 6 ∧
      IntegerExp.normalize (.basic .Tuns32) 6 = some 6) ∧
    ArrayExp.semantic Env.base Loc.example none
        (.VarExp Loc.example (some (.sarray Typ.tint32 5)) 1)
        (.IntegerExp Loc.example (some Typ.tint32) 6) State.initial =
      (if 6 ≥ 5 then
        .exit (Expression.errorState Env.base Loc.example
          ("array index [" ++ fmtSigned 64 6 ++ "] is outside array bounds [0 .. "
            ++ fmtSigned 64 5 ++ "]") State.initial)
      else
        .ok (.BinExp .ArrayExp Loc.example .TOKarray (some Typ.tint32)
              (.VarExp Loc.example (some (.sarray Typ.tint32 5)) 1)
              (.IntegerExp Loc.example (some (.basic .Tuns32)) 6)) State.initial) :=
  ⟨⟨rfl, rfl, by decide, rfl, rfl⟩,
    ArrayExp.semantic_bounds Env.base Loc.example none
      (.VarExp Loc.example (some (.sarray Typ.tint32 5)) 1)
      (.IntegerExp Loc.example (some Typ.tint32) 6)
      (.VarExp Loc.example (some (.sarray Typ.tint32 5)) 1)
      (.IntegerExp Loc.example (some Typ.tint32) 6)
      (.IntegerExp Loc.example (some (.basic .Tuns32)) 6)
      State.initial State.initial State.initial State.initial
      (.sarray Typ.tint32 5) Typ.tint32 (.basic .Tuns32) 5 6 6 Loc.example
      rfl rfl rfl rfl (by decide) rfl rfl rfl⟩

/-- C9, as stated, fails: for a fixed-size `int` array of length 5 and the
constant index 5 the bounds error is reported, but its message is
"array index [5] is outside array bounds [0 .. 5]": it names the index 5 and
writes the range with a closing square bracket; the text `[0 .. 5)` does not
occur in it. -/
theorem ArrayExp.semantic_message_counterexample :
    ∃ s', ArrayExp.semantic Env.base Loc.example none
        (.VarExp Loc.example (some (.sarray Typ.tint32 5)) 1)
        (.IntegerExp Loc.example (some Typ.tint32) 5) State.initial = .exit s' ∧
      s'.stdout = "array index [5] is outside array bounds [0 .. 5]\n" ∧
      ¬ ("[0 .. 5)".data <:+: s'.stdout.data) :=
  ⟨_, rfl, rfl, by decide⟩

/-- C9 (amended): for a fixed-size `int` array of length 5, indexing with the
compile-time constant 5 ends the pass with one error whose message is
"array index [5] is outside array bounds [0 .. 5]" (the index 5, then the
bounds 0 and 5); indexing with the constant 4 succeeds, with the element type
as the type of the node. -/
theorem ArrayExp.semantic_length5 :
    ArrayExp.semantic Env.base Loc.example none
        (.VarExp Loc.example (some (.sarray Typ.tint32 5)) 1)
        (.IntegerExp Loc.example (some Typ.tint32) 5) State.initial =
      .exit { global := { params := { useDeprecated := false }, errors := 1 },
              sc := State.initial.sc,
              stdout := "array index [5] is outside array bounds [0 .. 5]\n" } ∧
    ArrayExp.semantic Env.base Loc.example none
        (.VarExp Loc.example (some (.sarray Typ.tint32 5)) 1)
        (.IntegerExp Loc.example (some Typ.tint32) 4) State.initial =
      .ok (.BinExp .ArrayExp Loc.example .TOKarray (some Typ.tint32)
            (.VarExp Loc.example (some (.sarray Typ.tint32 5)) 1)
            (.IntegerExp Loc.example (some (.basic .Tuns32)) 4)) State.initial :=
  ⟨rfl, rfl⟩

/-! ### Constructor-call discipline: duplicates -/

theorem CallExp.thisCall_after_ctor_call (env : Env) (loc : Loc) (e1 : Expression)
    (arguments : Option (List Expression)) (F cd : Dsymbol) (s : State)
    (hQ : Scope.CtorCallDone env F s.sc)
    (hp : env.parent F = some cd) (hc : env.dynClass cd = .ClassDeclaration)
    (hF : env.isConstructor F = true) :
    CallExp.thisCall env loc e1 arguments s =
      .exit (Expression.errorState env loc "multiple constructor calls" s) := by
  obtain ⟨hf, hn, hl, hm⟩ := hQ
  unfold CallExp.thisCall
  rw [Sem.get_bind]
  simp only [Scope.classOfFunc, hf, hp, Option.filter, hc, decide_True, if_true, hF]
  rw [Sem.get_bind]
  simp only [hn, hl, ne_eq, not_true_eq_false, or_self, if_false]
  rw [Sem.bind_eq]
  simp only [Sem.pure_eq]
  rw [if_pos hm, Expression.error_bind]

theorem CallExp.superCall_after_ctor_call (env : Env) (loc : Loc) (e1 : Expression)
    (arguments : Option (List Expression)) (F cd base f : Dsymbol) (s : State)
    (hQ : Scope.CtorCallDone env F s.sc)
    (hp : env.parent F = some cd) (hc : env.dynClass cd = .ClassDeclaration)
    (hF : env.isConstructor F = true)
    (hb : env.baseClass cd = some base) (hbc : env.ctor base = some f) :
    CallExp.superCall env loc e1 arguments s =
      .exit (Expression.errorState env loc "multiple constructor calls" s) := by
  obtain ⟨hf, hn, hl, hm⟩ := hQ
  unfold CallExp.superCall
  rw [Sem.get_bind]
  simp only [Scope.classOfFunc, hf, hp, Option.filter, hc, decide_True, if_true, hF, hb, hbc]
  rw [Sem.get_bind]
  simp only [hn, hl, ne_eq, not_true_eq_false, or_self, if_false]
  rw [Sem.bind_eq]
  simp only [Sem.pure_eq]
  rw [if_pos hm, Expression.error_bind]

theorem Expression.op_this (l : Loc) (t : Option Typ) :
    (Expression.ThisExp l t).op = .TOKthis := rfl

theorem Expression.op_super (l : Loc) (t : Option Typ) :
    (Expression.SuperExp l t).op = .TOKsuper := rfl

theorem CallExp.semantic_this_exit (env : Env) (loc l : Loc) (t : Option Typ)
    (arguments args : Option (List Expression)) (s s' se : State)
    (ha : semanticArgs env arguments s = .ok args s')
    (hx : CallExp.thisCall env loc (.ThisExp l t) args s' = .exit se) :
    CallExp.semantic env loc none (.ThisExp l t) arguments s = .exit se := by
  unfold CallExp.semantic CallExp.arrayCall
  simp only [Expression.op_this, reduceCtorEq, if_false, Sem.bind_eq, Sem.pure_eq, true_or,
    if_true, ha]
  unfold CallExp.resolve
  simp only [Expression.op_this, reduceCtorEq, if_false, Sem.bind_eq, Sem.pure_eq, true_or,
    if_true, hx, Bool.false_eq_true]

theorem CallExp.semantic_super_exit (env : Env) (loc l : Loc) (t : Option Typ)
    (arguments args : Option (List Expression)) (s s' se : State)
    (ha : semanticArgs env arguments s = .ok args s')
    (hx : CallExp.superCall env loc (.SuperExp l t) args s' = .exit se) :
    CallExp.semantic env loc none (.SuperExp l t) arguments s = .exit se := by
  unfold CallExp.semantic CallExp.arrayCall
  simp only [Expression.op_super, reduceCtorEq, if_false, Sem.bind_eq, Sem.pure_eq, or_true,
    if_true, ha]
  unfold CallExp.resolve
  simp only [Expression.op_super, reduceCtorEq, if_false, Sem.bind_eq, Sem.pure_eq, or_true,
    if_true, hx, Bool.false_eq_true]

/-! #### Computations that keep a property of the scope -/

theorem Sem.Preserves.pure {α : Type} (Q : Scope → Prop) (a : α) :
    Sem.Preserves Q (Pure.pure a : Sem α) := by
  intro s b s' h hq
  cases h
  exact hq

theorem Sem.Preserves.bind {α β : Type} {Q : Scope → Prop} {x : Sem α} {f : α → Sem β}
    (hx : Sem.Preserves Q x) (hf : ∀ a, Sem.Preserves Q (f a)) :
    Sem.Preserves Q (x >>= f) := by
  intro s b s' h hq
  rw [Sem.bind_eq] at h
  cases hxs : x s with
  | ok a s1 =>
    rw [hxs] at h
    exact hf a s1 b s' h (hx s a s1 hxs hq)
  | exit s1 => rw [hxs] at h; cases h
  | assertFailed s1 => rw [hxs] at h; cases h
  | nullDeref s1 => rw [hxs] at h; cases h

theorem Sem.Preserves.error {α : Type} (Q : Scope → Prop) (env : Env) (loc : Loc)
    (msg : String) : Sem.Preserves Q (Expression.error env loc msg : Sem α) := by
  intro s b s' h
  rw [Expression.error_eq] at h
  cases h

theorem Sem.Preserves.deref {α : Type} (Q : Scope → Prop) (p : Option α) :
    Sem.Preserves Q (Sem.deref p) := by
  intro s b s' h hq
  cases p with
  | none => cases h
  | some a => cases h; exact hq

theorem Sem.Preserves.get (Q : Scope → Prop) : Sem.Preserves Q Sem.get := by
  intro s b s' h hq
  cases h
  exact hq

theorem Sem.Preserves.assertFail {α : Type} (Q : Scope → Prop) :
    Sem.Preserves Q (Sem.assertFail : Sem α) := by
  intro s b s' h
  cases h

theorem Sem.Preserves.nullDeref {α : Type} (Q : Scope → Prop) :
    Sem.Preserves Q (Sem.nullDeref : Sem α) := by
  intro s b s' h
  cases h

theorem Sem.Preserves.ite {α : Type} {Q : Scope → Prop} (c : Prop) [Decidable c]
    {x y : Sem α} (hx : Sem.Preserves Q x) (hy : Sem.Preserves Q y) :
    Sem.Preserves Q (if c then x else y) := by
  by_cases h : c
  · rw [if_pos h]; exact hx
  · rw [if_neg h]; exact hy

theorem Expression.checkToPointer_preserves (Q : Scope → Prop) (e : Expression) :
    Sem.Preserves Q e.checkToPointer := by
  unfold Expression.checkToPointer
  refine Sem.Preserves.bind (Sem.Preserves.deref Q _) (fun t => ?_)
  refine Sem.Preserves.ite _ ?_ (Sem.Preserves.pure Q _)
  exact Sem.Preserves.bind (Sem.Preserves.deref Q _) (fun n => Sem.Preserves.pure Q _)

theorem DotVarExp.dotvar_semantic_preserves (env : Env) (Q : Scope → Prop) (hp : env.Preserves Q)
    (loc : Loc) (type : Option Typ) (e1 : Expression) (var : Dsymbol) :
    Sem.Preserves Q (DotVarExp.semantic env loc type e1 var) := by
  unfold DotVarExp.semantic
  cases type with
  | some t => exact Sem.Preserves.pure Q _
  | none =>
    refine Sem.Preserves.bind (hp.semantic e1) (fun e => ?_)
    refine Sem.Preserves.ite _ (Sem.Preserves.nullDeref Q) ?_
    cases env.declType (env.toAlias var) with
    | none => exact Sem.Preserves.assertFail Q
    | some t =>
      exact Sem.Preserves.bind (hp.accessCheck _ _ _) (fun _ => Sem.Preserves.pure Q _)

theorem bindArgument_preserves (env : Env) (Q : Scope → Prop) (hp : env.Preserves Q)
    (params : Option Arguments) (nproto : Nat) (linkage : LINK) (i : Nat) (arg : Expression) :
    Sem.Preserves Q (bindArgument env params nproto linkage i arg) := by
  unfold bindArgument
  refine Sem.Preserves.ite _ ?_ ?_
  · refine Sem.Preserves.bind (Sem.Preserves.deref Q _) (fun ps => ?_)
    refine Sem.Preserves.bind (Sem.Preserves.deref Q _) (fun p => ?_)
    refine Sem.Preserves.bind (hp.implicitCastTo _ _) (fun a => ?_)
    refine Sem.Preserves.bind
      (Sem.Preserves.ite _ (hp.modifiableLvalue _) (Sem.Preserves.pure Q _)) (fun a => ?_)
    refine Sem.Preserves.bind (Sem.Preserves.deref Q _) (fun t => ?_)
    exact Sem.Preserves.ite _ (Expression.checkToPointer_preserves Q _) (Sem.Preserves.pure Q _)
  · refine Sem.Preserves.bind (hp.integralPromotions _) (fun a => ?_)
    refine Sem.Preserves.bind ?_ (fun a => ?_)
    · refine Sem.Preserves.ite _ ?_ (Sem.Preserves.pure Q _)
      refine Sem.Preserves.bind (Sem.Preserves.deref Q _) (fun t => ?_)
      split
      · exact hp.castTo _ _
      · exact hp.castTo _ _
      · exact Sem.Preserves.pure Q _
    · refine Sem.Preserves.bind (Sem.Preserves.deref Q _) (fun t => ?_)
      exact Sem.Preserves.ite _ (hp.castTo _ _) (Sem.Preserves.pure Q _)

theorem bindArguments_preserves (env : Env) (Q : Scope → Prop) (hp : env.Preserves Q)
    (params : Option Arguments) (nproto : Nat) (linkage : LINK) (args : List Expression) :
    ∀ i, Sem.Preserves Q (bindArguments env params nproto linkage i args) := by
  induction args with
  | nil => intro i; exact Sem.Preserves.pure Q _
  | cons a rest ih =>
    intro i
    unfold bindArguments
    refine Sem.Preserves.bind (bindArgument_preserves env Q hp _ _ _ _ _) (fun a => ?_)
    exact Sem.Preserves.bind (ih (i + 1)) (fun r => Sem.Preserves.pure Q _)

theorem bindArgs_preserves (env : Env) (Q : Scope → Prop) (hp : env.Preserves Q)
    (params : Option Arguments) (nproto : Nat) (linkage : LINK)
    (args : Option (List Expression)) :
    Sem.Preserves Q (bindArgs env params nproto linkage args) := by
  unfold bindArgs
  cases args with
  | none => exact Sem.Preserves.pure Q _
  | some a =>
    exact Sem.Preserves.bind (bindArguments_preserves env Q hp _ _ _ a 0)
      (fun r => Sem.Preserves.pure Q _)

theorem semanticArguments_preserves (env : Env) (Q : Scope → Prop) (hp : env.Preserves Q)
    (args : List Expression) : Sem.Preserves Q (semanticArguments env args) := by
  induction args with
  | nil => exact Sem.Preserves.pure Q _
  | cons a rest ih =>
    unfold semanticArguments
    refine Sem.Preserves.bind (hp.semantic a) (fun a => ?_)
    exact Sem.Preserves.bind ih (fun r => Sem.Preserves.pure Q _)

theorem semanticArgs_preserves (env : Env) (Q : Scope → Prop) (hp : env.Preserves Q)
    (args : Option (List Expression)) : Sem.Preserves Q (semanticArgs env args) := by
  unfold semanticArgs
  cases args with
  | none => exact Sem.Preserves.pure Q _
  | some a =>
    exact Sem.Preserves.bind (semanticArguments_preserves env Q hp a)
      (fun r => Sem.Preserves.pure Q _)

theorem CallExp.checkargs_preserves (env : Env) (Q : Scope → Prop) (hp : env.Preserves Q)
    (loc : Loc) (e1 : Expression) (args : Option (List Expression)) (tf : Typ) :
    Sem.Preserves Q (CallExp.checkargs env loc e1 args tf) := by
  unfold CallExp.checkargs
  split
  · refine Sem.Preserves.ite _ (Sem.Preserves.ite _ ?_ ?_) ?_
    · exact Sem.Preserves.bind (Sem.Preserves.error Q env _ _) (fun _ =>
        Sem.Preserves.bind (bindArgs_preserves env Q hp _ _ _ _)
          (fun r => Sem.Preserves.pure Q _))
    · exact Sem.Preserves.bind (Sem.Preserves.pure Q _) (fun _ =>
        Sem.Preserves.bind (bindArgs_preserves env Q hp _ _ _ _)
          (fun r => Sem.Preserves.pure Q _))
    · exact Sem.Preserves.bind (Sem.Preserves.pure Q _) (fun _ =>
        Sem.Preserves.bind (bindArgs_preserves env Q hp _ _ _ _)
          (fun r => Sem.Preserves.pure Q _))
  · exact Sem.Preserves.assertFail Q

/-! #### The flag update of an accepted constructor call -/

theorem or_and_eq_zero (x y l : Nat) (hx : x &&& l = 0) (hy : y &&& l = 0) :
    (x ||| y) &&& l = 0 := by
  apply Nat.eq_of_testBit_eq
  intro i
  have h1 := congrArg (fun n => n.testBit i) hx
  have h2 := congrArg (fun n => n.testBit i) hy
  simp only [Nat.testBit_and, Nat.zero_testBit] at h1 h2
  simp only [Nat.testBit_and, Nat.testBit_or, Nat.zero_testBit]
  cases hxb : x.testBit i <;> cases hyb : y.testBit i <;> cases hlb : l.testBit i <;>
    simp_all

theorem or_bit_and_ne_zero (x a t u : Nat) (ht : t ≠ 0) :
    (x ||| (a ||| t)) &&& (u ||| t) ≠ 0 := by
  obtain ⟨i, hi⟩ := Nat.ne_zero_implies_bit_true ht
  intro h0
  have h1 := congrArg (fun n => n.testBit i) h0
  simp [hi] at h1

theorem or_bit_and_ne_zero_left (x a t u : Nat) (ht : t ≠ 0) :
    (x ||| (a ||| t)) &&& (t ||| u) ≠ 0 := by
  obtain ⟨i, hi⟩ := Nat.ne_zero_implies_bit_true ht
  intro h0
  have h1 := congrArg (fun n => n.testBit i) h0
  simp [hi] at h1

theorem CallExp.thisCall_ok (env : Env) (hd : env.CSXDistinct)
    (hp : ∀ F, env.Preserves (Scope.CtorCallDone env F))
    (loc : Loc) (e1 : Expression) (arguments : Option (List Expression))
    (s s' : State) (r : Expression × Option Typ)
    (h : CallExp.thisCall env loc e1 arguments s = .ok r s') :
    ∃ F cd, Scope.CtorCallDone env F s'.sc ∧ env.parent F = some cd ∧
      env.dynClass cd = .ClassDeclaration ∧ env.isConstructor F = true := by
  unfold CallExp.thisCall at h
  rw [Sem.get_bind] at h
  cases hf : s.sc.func with
  | none =>
    simp only [Scope.classOfFunc, hf] at h
    rw [Expression.error_eq] at h
    cases h
  | some func =>
    cases hpar : env.parent func with
    | none =>
      simp only [Scope.classOfFunc, hf, hpar, Option.filter] at h
      rw [Expression.error_eq] at h
      cases h
    | some cd =>
      by_cases hc : env.dynClass cd = .ClassDeclaration
      · by_cases hF : env.isConstructor func = true
        · simp only [Scope.classOfFunc, hf, hpar, Option.filter, hc, decide_True, hF,
            if_true] at h
          rw [Sem.get_bind] at h
          by_cases c1 : s.sc.noctor ≠ 0 ∨ s.sc.callSuper &&& env.CSXlabel ≠ 0
          · rw [if_pos c1, Expression.error_bind] at h
            cases h
          · rw [if_neg c1, Sem.bind_eq] at h
            simp only [Sem.pure_eq] at h
            by_cases c2 : s.sc.callSuper &&& (env.CSXsuper_ctor ||| env.CSXthis_ctor) ≠ 0
            · rw [if_pos c2, Expression.error_bind] at h
              cases h
            · rw [if_neg c2, Sem.bind_eq] at h
              simp only [Sem.pure_eq] at h
              rw [Sem.bind_eq] at h
              simp only [Sem.modifySc] at h
              have hP := hp func
              refine ⟨func, cd, ?_, hpar, hc, hF⟩
              have htail : Sem.Preserves (Scope.CtorCallDone env func)
                  (Sem.deref (env.ctor cd) >>= fun f => do
                    let f ← env.overloadResolve f loc arguments
                    let e1 ← DotVarExp.semantic env e1.loc none e1 f
                    let st ← Sem.get
                    if some f = st.sc.func then do
                        (Expression.error env loc "cyclic constructor call" : Sem PUnit)
                        pure (e1, e1.type)
                      else do
                        (pure PUnit.unit : Sem PUnit)
                        pure (e1, e1.type)) := by
                refine Sem.Preserves.bind (Sem.Preserves.deref _ _) (fun f => ?_)
                refine Sem.Preserves.bind (hP.overloadResolve _ _ _) (fun f => ?_)
                refine Sem.Preserves.bind (DotVarExp.dotvar_semantic_preserves env _ hP _ _ _ _)
                  (fun e => ?_)
                refine Sem.Preserves.bind (Sem.Preserves.get _) (fun st => ?_)
                refine Sem.Preserves.ite _ ?_ ?_
                · exact Sem.Preserves.bind (Sem.Preserves.error _ env _ _)
                    (fun _ => Sem.Preserves.pure _ _)
                · exact Sem.Preserves.bind (Sem.Preserves.pure _ _)
                    (fun _ => Sem.Preserves.pure _ _)
              refine htail _ _ _ h ?_
              have hn : s.sc.noctor = 0 := by
                by_contra hne
                exact c1 (Or.inl hne)
              have hl : s.sc.callSuper &&& env.CSXlabel = 0 := by
                by_contra hne
                exact c1 (Or.inr hne)
              exact ⟨hf, hn, or_and_eq_zero _ _ _ hl hd.2.2.1,
                or_bit_and_ne_zero _ _ _ _ hd.1⟩
        · simp only [Scope.classOfFunc, hf, hpar, Option.filter, hc, decide_True, hF,
            if_true, Bool.false_eq_true, if_false] at h
          rw [Expression.error_eq] at h
          cases h
      · simp only [Scope.classOfFunc, hf, hpar, Option.filter, hc, decide_False,
          Bool.false_eq_true, if_false] at h
        rw [Expression.error_eq] at h
        cases h

theorem CallExp.semantic_this_ok_inv (env : Env) (loc l : Loc) (t : Option Typ)
    (arguments : Option (List Expression)) (s s1 : State) (r : Expression)
    (h : CallExp.semantic env loc none (.ThisExp l t) arguments s = .ok r s1) :
    ∃ args sa rr sb tf, semanticArgs env arguments s = .ok args sa ∧
      CallExp.thisCall env loc (.ThisExp l t) args sa = .ok rr sb ∧
      CallExp.checkargs env loc rr.1 args tf sb = .ok r s1 := by
  unfold CallExp.semantic CallExp.arrayCall at h
  simp only [Expression.op_this, reduceCtorEq, if_false, Sem.bind_eq, Sem.pure_eq, true_or,
    if_true] at h
  cases ha : semanticArgs env arguments s with
  | ok args sa =>
    rw [ha] at h
    simp only [] at h
    unfold CallExp.resolve at h
    simp only [Expression.op_this, reduceCtorEq, if_false, Sem.bind_eq, Sem.pure_eq, true_or,
      if_true, Bool.false_eq_true] at h
    cases hx : CallExp.thisCall env loc (.ThisExp l t) args sa with
    | ok rr sb =>
      rw [hx] at h
      obtain ⟨re, rt⟩ := rr
      cases rt with
      | none => cases h
      | some ty =>
        cases ty with
        | function a n v k => exact ⟨args, sa, _, sb, _, rfl, hx, h⟩
        | _ => cases h
    | exit sb => rw [hx] at h; cases h
    | assertFailed sb => rw [hx] at h; cases h
    | nullDeref sb => rw [hx] at h; cases h
  | exit sa => rw [ha] at h; cases h
  | assertFailed sa => rw [ha] at h; cases h
  | nullDeref sa => rw [ha] at h; cases h

theorem CallExp.semantic_super_ok_inv (env : Env) (loc l : Loc) (t : Option Typ)
    (arguments : Option (List Expression)) (s s1 : State) (r : Expression)
    (h : CallExp.semantic env loc none (.SuperExp l t) arguments s = .ok r s1) :
    ∃ args sa rr sb tf, semanticArgs env arguments s = .ok args sa ∧
      CallExp.superCall env loc (.SuperExp l t) args sa = .ok rr sb ∧
      CallExp.checkargs env loc rr.1 args tf sb = .ok r s1 := by
  unfold CallExp.semantic CallExp.arrayCall at h
  simp only [Expression.op_super, reduceCtorEq, if_false, Sem.bind_eq, Sem.pure_eq, or_true,
    if_true] at h
  cases ha : semanticArgs env arguments s with
  | ok args sa =>
    rw [ha] at h
    simp only [] at h
    unfold CallExp.resolve at h
    simp only [Expression.op_super, reduceCtorEq, if_false, Sem.bind_eq, Sem.pure_eq, or_true,
      if_true, Bool.false_eq_true] at h
    cases hx : CallExp.superCall env loc (.SuperExp l t) args sa with
    | ok rr sb =>
      rw [hx] at h
      obtain ⟨re, rt⟩ := rr
      cases rt with
      | none => cases h
      | some ty =>
        cases ty with
        | function a n v k => exact ⟨args, sa, _, sb, _, rfl, hx, h⟩
        | _ => cases h
    | exit sb => rw [hx] at h; cases h
    | assertFailed sb => rw [hx] at h; cases h
    | nullDeref sb => rw [hx] at h; cases h
  | exit sa => rw [ha] at h; cases h
  | assertFailed sa => rw [ha] at h; cases h
  | nullDeref sa => rw [ha] at h; cases h

theorem CallExp.superCall_ok (env : Env) (hd : env.CSXDistinct)
    (hp : ∀ F, env.Preserves (Scope.CtorCallDone env F))
    (loc : Loc) (e1 : Expression) (arguments : Option (List Expression))
    (s s' : State) (r : Expression × Option Typ)
    (h : CallExp.superCall env loc e1 arguments s = .ok r s') :
    ∃ F cd, Scope.CtorCallDone env F s'.sc ∧ env.parent F = some cd ∧
      env.dynClass cd = .ClassDeclaration ∧ env.isConstructor F = true := by
  unfold CallExp.superCall at h
  rw [Sem.get_bind] at h
  cases hf : s.sc.func with
  | none =>
    simp only [Scope.classOfFunc, hf] at h
    rw [Expression.error_eq] at h
    cases h
  | some func =>
    cases hpar : env.parent func with
    | none =>
      simp only [Scope.classOfFunc, hf, hpar, Option.filter] at h
      rw [Expression.error_eq] at h
      cases h
    | some cd =>
      by_cases hc : env.dynClass cd = .ClassDeclaration
      · cases hb : env.baseClass cd with
        | none =>
          simp only [Scope.classOfFunc, hf, hpar, Option.filter, hc, decide_True, hb,
            if_true] at h
          rw [Expression.error_eq] at h
          cases h
        | some base =>
          by_cases hF : env.isConstructor func = true
          · simp only [Scope.classOfFunc, hf, hpar, Option.filter, hc, decide_True, hF, hb,
              if_true] at h
            cases hbc : env.ctor base with
            | none =>
              simp only [hbc] at h
              rw [Expression.error_eq] at h
              cases h
            | some f0 =>
              simp only [hbc] at h
              rw [Sem.get_bind] at h
              by_cases c1 : s.sc.noctor ≠ 0 ∨ s.sc.callSuper &&& env.CSXlabel ≠ 0
              · rw [if_pos c1, Expression.error_bind] at h
                cases h
              · rw [if_neg c1, Sem.bind_eq] at h
                simp only [Sem.pure_eq] at h
                by_cases c2 : s.sc.callSuper &&& (env.CSXsuper_ctor ||| env.CSXthis_ctor) ≠ 0
                · rw [if_pos c2, Expression.error_bind] at h
                  cases h
                · rw [if_neg c2, Sem.bind_eq] at h
                  simp only [Sem.pure_eq] at h
                  rw [Sem.bind_eq] at h
                  simp only [Sem.modifySc] at h
                  have hP := hp func
                  refine ⟨func, cd, ?_, hpar, hc, hF⟩
                  have htail : Sem.Preserves (Scope.CtorCallDone env func)
                      (env.overloadResolve f0 loc arguments >>= fun f => do
                        let e1 ← DotVarExp.semantic env e1.loc none e1 f
                        pure (e1, e1.type)) := by
                    refine Sem.Preserves.bind (hP.overloadResolve _ _ _) (fun f => ?_)
                    exact Sem.Preserves.bind (DotVarExp.dotvar_semantic_preserves env _ hP _ _ _ _)
                      (fun e => Sem.Preserves.pure _ _)
                  refine htail _ _ _ h ?_
                  have hn : s.sc.noctor = 0 := by
                    by_contra hne
                    exact c1 (Or.inl hne)
                  have hl : s.sc.callSuper &&& env.CSXlabel = 0 := by
                    by_contra hne
                    exact c1 (Or.inr hne)
                  exact ⟨hf, hn, or_and_eq_zero _ _ _ hl hd.2.2.2,
                    or_bit_and_ne_zero_left _ _ _ _ hd.2.1⟩
          · simp only [Scope.classOfFunc, hf, hpar, Option.filter, hc, decide_True, hF, hb,
              if_true, Bool.false_eq_true, if_false] at h
            rw [Expression.error_eq] at h
            cases h
      · simp only [Scope.classOfFunc, hf, hpar, Option.filter, hc, decide_False,
          Bool.false_eq_true, if_false] at h
        rw [Expression.error_eq] at h
        cases h

theorem or_and_ne_zero (x c m : Nat) (h : x &&& m ≠ 0) : (x ||| c) &&& m ≠ 0 := by
  obtain ⟨i, hi⟩ := Nat.ne_zero_implies_bit_true h
  intro h0
  have h1 := congrArg (fun n => n.testBit i) h0
  simp only [Nat.testBit_and, Nat.testBit_or, Nat.zero_testBit] at h1 hi
  cases hx : x.testBit i <;> cases hm : m.testBit i <;> simp_all

theorem ThisExp.this_semantic_preserves (env : Env) (F : Dsymbol)
    (hl : env.CSXthis &&& env.CSXlabel = 0) (loc : Loc) (t : Option Typ) :
    Sem.Preserves (Scope.CtorCallDone env F) (ThisExp.semantic env loc t) := by
  intro s b s' h hq
  obtain ⟨hf, hn, hlab, hm⟩ := hq
  unfold ThisExp.semantic at h
  rw [Sem.get_bind] at h
  simp only [hf] at h
  cases hv : env.vthis F with
  | none =>
    simp only [hv] at h
    rw [Expression.error_bind] at h
    cases h
  | some v =>
    simp only [hv, Sem.bind_eq, Sem.pure_eq, Sem.modifySc] at h
    cases h
    exact ⟨hf, hn, or_and_eq_zero _ _ _ hlab hl, or_and_ne_zero _ _ _ hm⟩

/-- C10 (duplicates): in a constructor, once one `this(...)` or `super(...)`
constructor call has been analysed successfully (`h1`; this leaves a
constructor-call bit set in the scope's `callSuper`), analysing any further
`this(...)` or `super(...)` call against the resulting scope state, once its
arguments have analysed (`h2`; for `super(...)` a base class constructor must
exist, `hbase`), ends the pass with "multiple constructor calls". The
collaborators are assumed to keep the scope of an accepted constructor call
(`hp`), and the `CSX` bits to be distinct (`hd`). -/
theorem CallExp.semantic_multiple_ctor_calls (env : Env) (hd : env.CSXDistinct)
    (hp : ∀ F, env.Preserves (Scope.CtorCallDone env F))
    (loc1 loc2 l1 l2 : Loc) (t1 t2 : Option Typ) (first second : Expression)
    (hfirst : first = .ThisExp l1 t1 ∨ first = .SuperExp l1 t1)
    (hsecond : second = .ThisExp l2 t2 ∨ second = .SuperExp l2 t2)
    (args1 args2 args2a : Option (List Expression)) (s0 s1 s2 : State) (r : Expression)
    (h1 : CallExp.semantic env loc1 none first args1 s0 = .ok r s1)
    (h2 : semanticArgs env args2 s1 = .ok args2a s2)
    (hbase : second = .SuperExp l2 t2 → ∃ cd base f,
      Scope.classOfFunc env s1.sc = some cd ∧ env.baseClass cd = some base ∧
      env.ctor base = some f) :
    CallExp.semantic env loc2 none second args2 s1 =
      .exit (Expression.errorState env loc2 "multiple constructor calls" s2) := by
  -- the state left by the first call
  have hdone : ∃ F cd, Scope.CtorCallDone env F s1.sc ∧ env.parent F = some cd ∧
      env.dynClass cd = .ClassDeclaration ∧ env.isConstructor F = true := by
    rcases hfirst with rfl | rfl
    · obtain ⟨args, sa, rr, sb, tf, _, hx, hc⟩ :=
        CallExp.semantic_this_ok_inv env loc1 l1 t1 args1 s0 s1 r h1
      obtain ⟨F, cd, hQ, hpar, hcls, hF⟩ := CallExp.thisCall_ok env hd hp _ _ _ _ _ _ hx
      exact ⟨F, cd, CallExp.checkargs_preserves env _ (hp F) _ _ _ _ _ _ _ hc hQ,
        hpar, hcls, hF⟩
    · obtain ⟨args, sa, rr, sb, tf, _, hx, hc⟩ :=
        CallExp.semantic_super_ok_inv env loc1 l1 t1 args1 s0 s1 r h1
      obtain ⟨F, cd, hQ, hpar, hcls, hF⟩ := CallExp.superCall_ok env hd hp _ _ _ _ _ _ hx
      exact ⟨F, cd, CallExp.checkargs_preserves env _ (hp F) _ _ _ _ _ _ _ hc hQ,
        hpar, hcls, hF⟩
  obtain ⟨F, cd, hQ1, hpar, hcls, hF⟩ := hdone
  -- the arguments of the further call keep it
  have hQ2 : Scope.CtorCallDone env F s2.sc :=
    semanticArgs_preserves env _ (hp F) args2 s1 args2a s2 h2 hQ1
  rcases hsecond with rfl | rfl
  · exact CallExp.semantic_this_exit env loc2 l2 t2 args2 args2a s1 s2 _ h2
      (CallExp.thisCall_after_ctor_call env loc2 _ args2a F cd s2 hQ2 hpar hcls hF)
  · obtain ⟨cd', base, f, hcd, hb, hbc⟩ := hbase rfl
    have hcd' : cd' = cd := by
      simp only [Scope.classOfFunc, hQ1.1, hpar, Option.filter, hcls, decide_True,
        if_true] at hcd
      cases hcd
      rfl
    subst hcd'
    exact CallExp.semantic_super_exit env loc2 l2 t2 args2 args2a s1 s2 _ h2
      (CallExp.superCall_after_ctor_call env loc2 _ args2a F cd' base f s2 hQ2 hpar hcls hF
        hb hbc)

theorem Env.program_distinct : Env.program.CSXDistinct := by
  refine ⟨?_, ?_, ?_, ?_⟩ <;> decide

theorem Env.program_preserves (F : Dsymbol) :
    Env.program.Preserves (Scope.CtorCallDone Env.program F) where
  semantic := by
    intro e
    cases e with
    | ThisExp l t => exact ThisExp.this_semantic_preserves Env.programCore F (by decide) l t
    | _ => exact Sem.Preserves.pure _ _
  modifiableLvalue := fun _ => Sem.Preserves.pure _ _
  accessCheck := fun _ _ _ => Sem.Preserves.pure _ _
  overloadResolve := fun _ _ _ => Sem.Preserves.pure _ _
  implicitCastTo := fun _ _ => Sem.Preserves.pure _ _
  castTo := fun _ _ => Sem.Preserves.pure _ _
  integralPromotions := fun _ => Sem.Preserves.pure _ _

theorem CallExp.semantic_multiple_ctor_calls_witness :
    -- the first call `this(1)` in the constructor `10` is accepted
    CallExp.semantic Env.program Loc.example none (.ThisExp Loc.example none)
        (some [.IntegerExp Loc.example (some Typ.tint32) 1]) State.inCtor =
      .ok (.CallExp Loc.example (some Typ.tvoid)
            (.DotVarExp Loc.example (some Typ.ctorInt)
              (.ThisExp Loc.example (some (.classT 20))) 13)
            (some [.IntegerExp Loc.example (some Typ.tint32) 1]))
          { State.inCtor with
            sc := { func := some 10, callSuper := 0x45, noctor := 0, incontract := 0 } } ∧
    -- the second call `this(2)` is refused
    CallExp.semantic Env.program ⟨some 0, 8⟩ none (.ThisExp ⟨some 0, 8⟩ none)
        (some [.IntegerExp ⟨some 0, 8⟩ (some Typ.tint32) 2])
        { State.inCtor with
          sc := { func := some 10, callSuper := 0x45, noctor := 0, incontract := 0 } } =
      .exit { global := { params := { useDeprecated := false }, errors := 1 },
              sc := { func := some 10, callSuper := 0x45, noctor := 0, incontract := 0 },
              stdout := "multiple constructor calls\n" } := by
  have h1 : CallExp.semantic Env.program Loc.example none (.ThisExp Loc.example none)
        (some [.IntegerExp Loc.example (some Typ.tint32) 1]) State.inCtor =
      .ok (.CallExp Loc.example (some Typ.tvoid)
            (.DotVarExp Loc.example (some Typ.ctorInt)
              (.ThisExp Loc.example (some (.classT 20))) 13)
            (some [.IntegerExp Loc.example (some Typ.tint32) 1]))
          { State.inCtor with
            sc := { func := some 10, callSuper := 0x45, noctor := 0, incontract := 0 } } := rfl
  refine ⟨h1, ?_⟩
  have h := CallExp.semantic_multiple_ctor_calls Env.program Env.program_distinct
    Env.program_preserves Loc.example ⟨some 0, 8⟩ Loc.example ⟨some 0, 8⟩ none none
    (.ThisExp Loc.example none) (.ThisExp ⟨some 0, 8⟩ none) (Or.inl rfl) (Or.inl rfl)
    (some [.IntegerExp Loc.example (some Typ.tint32) 1])
    (some [.IntegerExp ⟨some 0, 8⟩ (some Typ.tint32) 2])
    (some [.IntegerExp ⟨some 0, 8⟩ (some Typ.tint32) 2])
    State.inCtor _ _ _ h1 rfl (fun hne => by cases hne)
  rw [h]
  rfl

/-! ### Constructor-call discipline: ordering -/

theorem CallExp.thisCall_forbidden (env : Env) (loc : Loc) (e1 : Expression)
    (arguments : Option (List Expression)) (F cd : Dsymbol) (s : State)
    (hf : s.sc.func = some F) (hp : env.parent F = some cd)
    (hc : env.dynClass cd = .ClassDeclaration) (hF : env.isConstructor F = true)
    (hforbid : s.sc.noctor ≠ 0 ∨ s.sc.callSuper &&& env.CSXlabel ≠ 0) :
    CallExp.thisCall env loc e1 arguments s =
      .exit (Expression.errorState env loc
        "constructor calls not allowed in loops or after labels" s) := by
  unfold CallExp.thisCall
  rw [Sem.get_bind]
  simp only [Scope.classOfFunc, hf, hp, Option.filter, hc, decide_True, if_true, hF]
  rw [Sem.get_bind, if_pos hforbid, Expression.error_bind]

theorem CallExp.superCall_forbidden (env : Env) (loc : Loc) (e1 : Expression)
    (arguments : Option (List Expression)) (F cd base f : Dsymbol) (s : State)
    (hf : s.sc.func = some F) (hp : env.parent F = some cd)
    (hc : env.dynClass cd = .ClassDeclaration) (hF : env.isConstructor F = true)
    (hb : env.baseClass cd = some base) (hbc : env.ctor base = some f)
    (hforbid : s.sc.noctor ≠ 0 ∨ s.sc.callSuper &&& env.CSXlabel ≠ 0) :
    CallExp.superCall env loc e1 arguments s =
      .exit (Expression.errorState env loc
        "constructor calls not allowed in loops or after labels" s) := by
  unfold CallExp.superCall
  rw [Sem.get_bind]
  simp only [Scope.classOfFunc, hf, hp, Option.filter, hc, decide_True, if_true, hF, hb, hbc]
  rw [Sem.get_bind, if_pos hforbid, Expression.error_bind]

/-- C11 (ordering): for every `this(...)` or `super(...)` constructor call
analysed inside a constructor `F` of a class (for `super(...)`, of a class whose
base class has a constructor) while the scope forbids constructor calls
(`noctor` set) or a label has been seen (the label bit of `callSuper` set),
`CallExp::semantic`, once the arguments have analysed, ends the pass with
"constructor calls not allowed in loops or after labels". Nothing is assumed
about the constructor-call bits of `callSuper`: the error is reported whether or
not a constructor call was already recorded, so it takes precedence over
"multiple constructor calls". -/
theorem CallExp.semantic_ctor_call_forbidden (env : Env) (loc l : Loc) (t : Option Typ)
    (callee : Expression) (arguments args : Option (List Expression)) (s s1 : State)
    (F cd : Dsymbol)
    (hcallee : callee = .ThisExp l t ∨ callee = .SuperExp l t)
    (ha : semanticArgs env arguments s = .ok args s1)
    (hf : s1.sc.func = some F) (hp : env.parent F = some cd)
    (hc : env.dynClass cd = .ClassDeclaration) (hF : env.isConstructor F = true)
    (hbase : callee = .SuperExp l t →
      ∃ base f, env.baseClass cd = some base ∧ env.ctor base = some f)
    (hforbid : s1.sc.noctor ≠ 0 ∨ s1.sc.callSuper &&& env.CSXlabel ≠ 0) :
    CallExp.semantic env loc none callee arguments s =
      .exit (Expression.errorState env loc
        "constructor calls not allowed in loops or after labels" s1) := by
  rcases hcallee with rfl | rfl
  · exact CallExp.semantic_this_exit env loc l t arguments args s s1 _ ha
      (CallExp.thisCall_forbidden env loc _ args F cd s1 hf hp hc hF hforbid)
  · obtain ⟨base, f, hb, hbc⟩ := hbase rfl
    exact CallExp.semantic_super_exit env loc l t arguments args s s1 _ ha
      (CallExp.superCall_forbidden env loc _ args F cd base f s1 hf hp hc hF hb hbc hforbid)

theorem CallExp.semantic_ctor_call_forbidden_witness :
    -- in a loop body of the constructor `10`, with a constructor call already recorded
    ((1 : Nat) ≠ 0 ∨ (0x45 : Nat) &&& Env.program.CSXlabel ≠ 0) ∧
    (0x45 : Nat) &&& (Env.program.CSXsuper_ctor ||| Env.program.CSXthis_ctor) ≠ 0 ∧
    CallExp.semantic Env.program Loc.example none (.ThisExp Loc.example none)
        (some [.IntegerExp Loc.example (some Typ.tint32) 1])
        { State.inCtor with
          sc := { func := some 10, callSuper := 0x45, noctor := 1, incontract := 0 } } =
      .exit { global := { params := { useDeprecated := false }, errors := 1 },
              sc := { func := some 10, callSuper := 0x45, noctor := 1, incontract := 0 },
              stdout := "constructor calls not allowed in loops or after labels\n" } := by
  refine ⟨Or.inl (by decide), by decide, ?_⟩
  have h := CallExp.semantic_ctor_call_forbidden Env.program Loc.example Loc.example none
    (.ThisExp Loc.example none) (some [.IntegerExp Loc.example (some Typ.tint32) 1])
    (some [.IntegerExp Loc.example (some Typ.tint32) 1])
    { State.inCtor with
      sc := { func := some 10, callSuper := 0x45, noctor := 1, incontract := 0 } }
    { State.inCtor with
      sc := { func := some 10, callSuper := 0x45, noctor := 1, incontract := 0 } }
    10 20 (Or.inl rfl) rfl rfl rfl rfl rfl (fun hne => by cases hne) (Or.inl (by decide))
  rw [h]
  rfl

/-! ### Constructor-call discipline: cycles -/

theorem CallExp.semantic_this_ok_eq (env : Env) (loc l : Loc) (t : Option Typ)
    (arguments args : Option (List Expression)) (s s1 s3 : State)
    (r : Expression × Option Typ)
    (ha : semanticArgs env arguments s = .ok args s1)
    (hx : CallExp.thisCall env loc (.ThisExp l t) args s1 = .ok r s3) :
    CallExp.semantic env loc none (.ThisExp l t) arguments s =
      match r.2 with
      | some (.function a n v k) => CallExp.checkargs env loc r.1 args (.function a n v k) s3
      | _ => .assertFailed s3 := by
  unfold CallExp.semantic CallExp.arrayCall
  simp only [Expression.op_this, reduceCtorEq, if_false, Sem.bind_eq, Sem.pure_eq, true_or,
    if_true, ha]
  unfold CallExp.resolve
  simp only [Expression.op_this, reduceCtorEq, if_false, Sem.bind_eq, Sem.pure_eq, true_or,
    if_true, hx, Bool.false_eq_true]
  obtain ⟨re, rt⟩ := r
  cases rt with
  | none => rfl
  | some ty => cases ty <;> rfl

theorem CallExp.thisCall_resolved (env : Env) (loc : Loc) (e1 e1a : Expression)
    (arguments : Option (List Expression)) (F cd f0 f : Dsymbol) (s s2 s3 : State)
    (hf : s.sc.func = some F) (hp : env.parent F = some cd)
    (hc : env.dynClass cd = .ClassDeclaration) (hF : env.isConstructor F = true)
    (hn : s.sc.noctor = 0) (hl : s.sc.callSuper &&& env.CSXlabel = 0)
    (hm : s.sc.callSuper &&& (env.CSXsuper_ctor ||| env.CSXthis_ctor) = 0)
    (hctor : env.ctor cd = some f0)
    (hres : env.overloadResolve f0 loc arguments
        { s with sc := { s.sc with
            callSuper := s.sc.callSuper ||| (env.CSXany_ctor ||| env.CSXthis_ctor) } } =
      .ok f s2)
    (hdv : DotVarExp.semantic env e1.loc none e1 f s2 = .ok e1a s3)
    (hf3 : s3.sc.func = some F) :
    CallExp.thisCall env loc e1 arguments s =
      if f = F then .exit (Expression.errorState env loc "cyclic constructor call" s3)
      else .ok (e1a, e1a.type) s3 := by
  unfold CallExp.thisCall
  rw [Sem.get_bind]
  simp only [Scope.classOfFunc, hf, hp, Option.filter, hc, decide_True, if_true, hF]
  rw [Sem.get_bind]
  have c1 : ¬ (s.sc.noctor ≠ 0 ∨ s.sc.callSuper &&& env.CSXlabel ≠ 0) := by
    simp only [hn, hl, ne_eq, not_true_eq_false, or_self, not_false_eq_true]
  have c2 : ¬ (s.sc.callSuper &&& (env.CSXsuper_ctor ||| env.CSXthis_ctor) ≠ 0) := by
    simp only [hm, ne_eq, not_true_eq_false, not_false_eq_true]
  rw [if_neg c1, Sem.bind_eq]
  simp only [Sem.pure_eq]
  rw [if_neg c2, Sem.bind_eq]
  simp only [Sem.pure_eq]
  rw [Sem.bind_eq]
  simp only [Sem.modifySc]
  rw [Sem.bind_eq, hctor, Sem.deref_some]
  simp only []
  rw [Sem.bind_eq, hres]
  simp only []
  rw [Sem.bind_eq, hdv]
  simp only []
  rw [Sem.get_bind]
  simp only [hf3, Option.some.injEq]
  by_cases hfF : f = F
  · rw [if_pos hfF, if_pos hfF, Expression.error_bind]
  · rw [if_neg hfF, if_neg hfF]
    rfl

/-- C12 (cycles): for every same-class constructor call `this(...)` analysed
inside a constructor `F` of a class `cd`, in a scope that allows a constructor
call (no loop, no label, none recorded yet), once the arguments have analysed,
overload resolution on the constructors of `cd` has selected `f` and the member
access `this.f` has analysed: if `f` is `F` itself, `CallExp::semantic` ends the
pass with "cyclic constructor call"; if `f` is a different constructor the
constructor-call rules accept the call and the analysis goes on to bind the
arguments against the type of `f`. -/
theorem CallExp.semantic_cyclic_ctor_call (env : Env) (loc l : Loc) (t : Option Typ)
    (arguments args : Option (List Expression)) (s s1 s2 s3 : State)
    (F cd f0 f : Dsymbol) (e1a : Expression)
    (ha : semanticArgs env arguments s = .ok args s1)
    (hf : s1.sc.func = some F) (hp : env.parent F = some cd)
    (hc : env.dynClass cd = .ClassDeclaration) (hF : env.isConstructor F = true)
    (hn : s1.sc.noctor = 0) (hl : s1.sc.callSuper &&& env.CSXlabel = 0)
    (hm : s1.sc.callSuper &&& (env.CSXsuper_ctor ||| env.CSXthis_ctor) = 0)
    (hctor : env.ctor cd = some f0)
    (hres : env.overloadResolve f0 loc args
        { s1 with sc := { s1.sc with
            callSuper := s1.sc.callSuper ||| (env.CSXany_ctor ||| env.CSXthis_ctor) } } =
      .ok f s2)
    (hdv : DotVarExp.semantic env l none (.ThisExp l t) f s2 = .ok e1a s3)
    (hf3 : s3.sc.func = some F) :
    CallExp.semantic env loc none (.ThisExp l t) arguments s =
      if f = F then .exit (Expression.errorState env loc "cyclic constructor call" s3)
      else
        match e1a.type with
        | some (.function a n v k) =>
            CallExp.checkargs env loc e1a args (.function a n v k) s3
        | _ => .assertFailed s3 := by
  have hx := CallExp.thisCall_resolved env loc (.ThisExp l t) e1a args F cd f0 f s1 s2 s3
    hf hp hc hF hn hl hm hctor hres hdv hf3
  by_cases hfF : f = F
  · rw [if_pos hfF] at hx
    rw [if_pos hfF]
    exact CallExp.semantic_this_exit env loc l t arguments args s s1 _ ha hx
  · rw [if_neg hfF] at hx
    rw [if_neg hfF]
    exact CallExp.semantic_this_ok_eq env loc l t arguments args s s1 s3 _ ha hx

theorem CallExp.semantic_cyclic_ctor_call_witness :
    -- overload resolution selects the enclosing constructor `10`: cyclic
    CallExp.semantic Env.programCyclic Loc.example none (.ThisExp Loc.example none)
        (some [.IntegerExp Loc.example (some Typ.tint32) 1]) State.inCtor =
      .exit { global := { params := { useDeprecated := false }, errors := 1 },
              sc := { func := some 10, callSuper := 0x45, noctor := 0, incontract := 0 },
              stdout := "cyclic constructor call\n" } ∧
    -- overload resolution selects the other constructor `13`: accepted
    CallExp.semantic Env.program Loc.example none (.ThisExp Loc.example none)
        (some [.IntegerExp Loc.example (some Typ.tint32) 1]) State.inCtor =
      .ok (.CallExp Loc.example (some Typ.tvoid)
            (.DotVarExp Loc.example (some Typ.ctorInt)
              (.ThisExp Loc.example (some (.classT 20))) 13)
            (some [.IntegerExp Loc.example (some Typ.tint32) 1]))
          { State.inCtor with
            sc := { func := some 10, callSuper := 0x45, noctor := 0, incontract := 0 } } := by
  constructor
  · have h := CallExp.semantic_cyclic_ctor_call Env.programCyclic Loc.example Loc.example
      none (some [.IntegerExp Loc.example (some Typ.tint32) 1])
      (some [.IntegerExp Loc.example (some Typ.tint32) 1])
      State.inCtor State.inCtor
      { State.inCtor with
        sc := { func := some 10, callSuper := 0x41, noctor := 0, incontract := 0 } }
      { State.inCtor with
        sc := { func := some 10, callSuper := 0x45, noctor := 0, incontract := 0 } }
      10 20 10 10 (.DotVarExp Loc.example (some Typ.ctorInt)
        (.ThisExp Loc.example (some (.classT 20))) 10)
      rfl rfl rfl rfl rfl rfl rfl rfl rfl rfl rfl rfl
    rw [h]
    rfl
  · have h := CallExp.semantic_cyclic_ctor_call Env.program Loc.example Loc.example
      none (some [.IntegerExp Loc.example (some Typ.tint32) 1])
      (some [.IntegerExp Loc.example (some Typ.tint32) 1])
      State.inCtor State.inCtor
      { State.inCtor with
        sc := { func := some 10, callSuper := 0x41, noctor := 0, incontract := 0 } }
      { State.inCtor with
        sc := { func := some 10, callSuper := 0x45, noctor := 0, incontract := 0 } }
      10 20 10 13 (.DotVarExp Loc.example (some Typ.ctorInt)
        (.ThisExp Loc.example (some (.classT 20))) 13)
      rfl rfl rfl rfl rfl rfl rfl rfl rfl rfl rfl rfl
    rw [h]
    rfl

/-! ### Conditional expressions -/

/-- C13: in `CondExp::semantic`, whatever state `s1` the analysis of the first
branch leaves (every effect on `callSuper` included), the second branch is
analysed in `s1` with `callSuper` put back to its value in `s0`, the state in
which the first branch started; the flags `s1.sc.callSuper` of the first branch
come back only afterwards, as the argument of `mergeCallSuper`. -/
theorem CondExp.semantic_branch_flow (env : Env) (loc : Loc) (type : Option Typ)
    (econd e1 e2 econda e1a : Expression) (s s0 s1 : State)
    (hc : env.semantic econd s = .ok econda s0)
    (h1 : env.semantic e1 s0 = .ok e1a s1) :
    CondExp.semantic env loc type econd e1 e2 s =
      (env.semantic e2 >>= fun e2a =>
        env.mergeCallSuper loc s1.sc.callSuper >>= fun _ =>
          CondExp.semanticType env loc type econda e1a e2a)
        { s1 with sc := { s1.sc with callSuper := s0.sc.callSuper } } := by
  unfold CondExp.semantic
  rw [Sem.bind_eq, hc]
  simp only []
  rw [Sem.get_bind, Sem.bind_eq, h1]
  simp only []
  rw [Sem.get_bind, Sem.bind_eq]
  rfl

theorem CondExp.semantic_branch_flow_witness :
    -- `1 ? this(1) : this(2)` in the constructor `10`: both calls are accepted
    CondExp.semantic Env.programCalls Loc.example none
        (.IntegerExp Loc.example (some Typ.tint32) 1)
        (.CallExp Loc.example none (.ThisExp Loc.example none)
          (some [.IntegerExp Loc.example (some Typ.tint32) 1]))
        (.CallExp Loc.example none (.ThisExp Loc.example none)
          (some [.IntegerExp Loc.example (some Typ.tint32) 2]))
        State.inCtor =
      .ok (.CondExp Loc.example (some Typ.tvoid)
            (.IntegerExp Loc.example (some Typ.tint32) 1)
            (.CallExp Loc.example (some Typ.tvoid)
              (.DotVarExp Loc.example (some Typ.ctorInt)
                (.ThisExp Loc.example (some (.classT 20))) 13)
              (some [.IntegerExp Loc.example (some Typ.tint32) 1]))
            (.CallExp Loc.example (some Typ.tvoid)
              (.DotVarExp Loc.example (some Typ.ctorInt)
                (.ThisExp Loc.example (some (.classT 20))) 13)
              (some [.IntegerExp Loc.example (some Typ.tint32) 2])))
          { State.inCtor with
            sc := { func := some 10, callSuper := 0x45, noctor := 0, incontract := 0 } } := by
  have h := CondExp.semantic_branch_flow Env.programCalls Loc.example none
    (.IntegerExp Loc.example (some Typ.tint32) 1)
    (.CallExp Loc.example none (.ThisExp Loc.example none)
      (some [.IntegerExp Loc.example (some Typ.tint32) 1]))
    (.CallExp Loc.example none (.ThisExp Loc.example none)
      (some [.IntegerExp Loc.example (some Typ.tint32) 2]))
    (.IntegerExp Loc.example (some Typ.tint32) 1)
    (.CallExp Loc.example (some Typ.tvoid)
      (.DotVarExp Loc.example (some Typ.ctorInt)
        (.ThisExp Loc.example (some (.classT 20))) 13)
      (some [.IntegerExp Loc.example (some Typ.tint32) 1]))
    State.inCtor State.inCtor
    { State.inCtor with
      sc := { func := some 10, callSuper := 0x45, noctor := 0, incontract := 0 } }
    rfl rfl
  rw [h]
  rfl

/-- C14: for every `CondExp` whose branches have the types `t1` and `t2` after
analysis (and whose condition passes its checks), the node `CondExp::semantic`
returns is typed `void` if `t1` or `t2` is `void`; otherwise `t1` if `t1` and
`t2` are the identical type; otherwise it is the node as the type-combination
engine `typeCombine()` leaves it, with the type that engine produced. -/
theorem CondExp.semantic_result_type (env : Env) (loc : Loc) (type : Option Typ)
    (econd e1 e2 econda e1a e2a econdb : Expression) (s s0 s1 s2 s3 s4 s5 : State)
    (t1 t2 : Typ)
    (hc : env.semantic econd s = .ok econda s0)
    (h1 : env.semantic e1 s0 = .ok e1a s1)
    (h2 : env.semantic e2 { s1 with sc := { s1.sc with callSuper := s0.sc.callSuper } } =
      .ok e2a s2)
    (hm : env.mergeCallSuper loc s1.sc.callSuper s2 = .ok () s3)
    (hp : econda.checkToPointer s3 = .ok econdb s4)
    (hb : Expression.checkBoolean env econdb s4 = .ok () s5)
    (ht1 : e1a.type = some t1) (ht2 : e2a.type = some t2) :
    CondExp.semantic env loc type econd e1 e2 s =
      if t1.ty = .Tvoid ∨ t2.ty = .Tvoid then
        .ok (.CondExp loc (some Typ.tvoid) econdb e1a e2a) s5
      else if t1 = t2 then
        .ok (.CondExp loc (some t1) econdb e1a e2a) s5
      else
        (env.typeCombine (.CondExp loc type econdb e1a e2a) >>= fun r =>
          (pure (.CondExp loc r.1 econdb r.2.1 r.2.2) : Sem Expression)) s5 := by
  unfold CondExp.semantic
  rw [Sem.bind_eq, hc]
  simp only []
  rw [Sem.get_bind, Sem.bind_eq, h1]
  simp only []
  rw [Sem.get_bind, Sem.bind_eq]
  simp only [Sem.modifySc]
  rw [Sem.bind_eq, h2]
  simp only []
  rw [Sem.bind_eq, hm]
  simp only []
  unfold CondExp.semanticType
  rw [Sem.bind_eq, hp]
  simp only []
  rw [Sem.bind_eq, hb]
  simp only []
  rw [Sem.bind_eq, ht1, Sem.deref_some]
  simp only []
  by_cases hv1 : t1.ty = .Tvoid
  · simp only [hv1, true_or, if_true, Sem.pure_eq]
  · simp only [hv1, false_or, if_false]
    rw [Sem.bind_eq, ht2, Sem.deref_some]
    simp only []
    by_cases hv2 : t2.ty = .Tvoid
    · simp only [hv2, if_true, Sem.pure_eq]
    · simp only [hv2, if_false]
      by_cases heq : t1 = t2
      · simp only [heq, if_true, Sem.pure_eq]
      · simp only [heq, if_false]

theorem CondExp.semantic_result_type_witness :
    -- `1 ? 2 : 3L`: the branch types `int` and `long` go to the combination engine
    CondExp.semantic Env.base Loc.example none
        (.IntegerExp Loc.example (some Typ.tint32) 1)
        (.IntegerExp Loc.example (some Typ.tint32) 2)
        (.IntegerExp Loc.example (some Typ.tint64) 3) State.initial =
      (if Typ.tint32.ty = .Tvoid ∨ Typ.tint64.ty = .Tvoid then
        .ok (.CondExp Loc.example (some Typ.tvoid)
          (.IntegerExp Loc.example (some Typ.tint32) 1)
          (.IntegerExp Loc.example (some Typ.tint32) 2)
          (.IntegerExp Loc.example (some Typ.tint64) 3)) State.initial
      else if Typ.tint32 = Typ.tint64 then
        .ok (.CondExp Loc.example (some Typ.tint32)
          (.IntegerExp Loc.example (some Typ.tint32) 1)
          (.IntegerExp Loc.example (some Typ.tint32) 2)
          (.IntegerExp Loc.example (some Typ.tint64) 3)) State.initial
      else
        (Env.base.typeCombine (.CondExp Loc.example none
            (.IntegerExp Loc.example (some Typ.tint32) 1)
            (.IntegerExp Loc.example (some Typ.tint32) 2)
            (.IntegerExp Loc.example (some Typ.tint64) 3)) >>= fun r =>
          (pure (.CondExp Loc.example r.1 (.IntegerExp Loc.example (some Typ.tint32) 1)
            r.2.1 r.2.2) : Sem Expression)) State.initial) ∧
    -- `1 ? 2 : 3`: identical types
    CondExp.semantic Env.base Loc.example none
        (.IntegerExp Loc.example (some Typ.tint32) 1)
        (.IntegerExp Loc.example (some Typ.tint32) 2)
        (.IntegerExp Loc.example (some Typ.tint32) 3) State.initial =
      .ok (.CondExp Loc.example (some Typ.tint32)
        (.IntegerExp Loc.example (some Typ.tint32) 1)
        (.IntegerExp Loc.example (some Typ.tint32) 2)
        (.IntegerExp Loc.example (some Typ.tint32) 3)) State.initial :=
  ⟨CondExp.semantic_result_type Env.base Loc.example none _ _ _ _ _ _ _
      State.initial State.initial State.initial State.initial State.initial State.initial
      State.initial Typ.tint32 Typ.tint64 rfl rfl rfl rfl rfl rfl rfl rfl,
    rfl⟩

/-- The condition `a || (b = 1)` of a conditional expression is rejected:
`OrOrExp::checkBoolean()` hands the test to its right operand, and
`AssignExp::checkBoolean()` reports the assignment. So is `a && (b = 1)`. -/
theorem CondExp.semantic_assign_in_condition :
    CondExp.semantic Env.base Loc.example none
        (.BinExp .OrOrExp Loc.example .TOKoror (some (.basic .Tbit))
          (.VarExp Loc.example (some Typ.tint32) 15)
          (.BinExp .AssignExp ⟨some 0, 9⟩ .TOKassign (some Typ.tint32)
            (.VarExp Loc.example (some Typ.tint32) 16)
            (.IntegerExp Loc.example (some Typ.tint32) 1)))
        (.IntegerExp Loc.example (some Typ.tint32) 1)
        (.IntegerExp Loc.example (some Typ.tint32) 2) State.initial =
      .exit (Expression.errorState Env.base ⟨some 0, 9⟩
        "'=' does not give a boolean result" State.initial) ∧
    CondExp.semantic Env.base Loc.example none
        (.BinExp .AndAndExp Loc.example .TOKandand (some (.basic .Tbit))
          (.VarExp Loc.example (some Typ.tint32) 15)
          (.BinExp .AssignExp ⟨some 0, 9⟩ .TOKassign (some Typ.tint32)
            (.VarExp Loc.example (some Typ.tint32) 16)
            (.IntegerExp Loc.example (some Typ.tint32) 1)))
        (.IntegerExp Loc.example (some Typ.tint32) 1)
        (.IntegerExp Loc.example (some Typ.tint32) 2) State.initial =
      .exit (Expression.errorState Env.base ⟨some 0, 9⟩
        "'=' does not give a boolean result" State.initial) :=
  ⟨rfl, rfl⟩

/-! ### Lvalues -/

theorem Expression.toLvalueDefault_eq (env : Env) (e : Expression) (s : State) :
    Expression.toLvalueDefault env e s =
      .exit (Expression.errorState env e.loc ("'" ++ env.expToChars e ++ "' is not an lvalue") s) := by
  unfold Expression.toLvalueDefault
  rw [Expression.error_bind]

/-- The classes with an identity `toLvalue()`: the call returns the node it was
made on and leaves the state alone. -/
theorem Expression.toLvalue_identity (env : Env) (loc : Loc) (type : Option Typ)
    (e1 e2 : Expression) (var : Dsymbol) (op : TOK) (lwr upr : Option Expression)
    (ident : Identifier) (s : State) :
    Expression.toLvalue env (.VarExp loc type var) s = .ok (.VarExp loc type var) s ∧
    Expression.toLvalue env (.UnaExp .PtrExp loc type e1) s = .ok (.UnaExp .PtrExp loc type e1) s ∧
    Expression.toLvalue env (.DotVarExp loc type e1 var) s = .ok (.DotVarExp loc type e1 var) s ∧
    Expression.toLvalue env (.BinExp .ArrayExp loc op type e1 e2) s =
      .ok (.BinExp .ArrayExp loc op type e1 e2) s ∧
    Expression.toLvalue env (.ArrayRangeExp loc type e1 lwr upr) s =
      .ok (.ArrayRangeExp loc type e1 lwr upr) s ∧
    Expression.toLvalue env (.IdentifierExp loc type ident) s =
      .ok (.IdentifierExp loc type ident) s ∧
    Expression.toLvalue env (.ThisExp loc type) s = .ok (.ThisExp loc type) s := by
  refine ⟨?_, ?_, ?_, ?_, ?_, ?_, ?_⟩ <;> simp [Expression.toLvalue, Sem.pure_eq]

/-- For every conditional whose first branch converts to an lvalue and is typed
`t`, `CondExp::toLvalue()` ends the pass at the `toLvalue()` of the address-of
node it has just built around that branch. -/
theorem CondExp.toLvalue_exit (env : Env) (loc : Loc) (type : Option Typ)
    (econd e1 e2 a : Expression) (t : Typ) (s s1 : State)
    (h1 : Expression.toLvalue env e1 s = .ok a s1) (ht : e1.type = some t) :
    Expression.toLvalue env (.CondExp loc type econd e1 e2) s =
      .exit (Expression.errorState env e1.loc
        ("'" ++ env.expToChars (.UnaExp .AddrExp e1.loc (some t.pointerTo) a) ++
          "' is not an lvalue") s1) := by
  rw [Expression.toLvalue]
  rw [Sem.bind_eq, h1]
  simp only []
  rw [Sem.bind_eq, ht, Sem.deref_some]
  simp only []
  rw [Sem.bind_eq, Expression.toLvalueDefault_eq]
  rfl

/-- C15: the conditional `c ? a : b` over three `int` variables does not
convert to an lvalue. `CondExp::toLvalue()` takes the address of the branch `a`
and then calls `toLvalue()` on the address-of node `&a`, whose class has no
`toLvalue()` of its own: the pass ends there with the error
"'&a' is not an lvalue", the error counter at 1, and no pointer-dereference
node is returned. The assignment `(c ? a : b) = 1`, which calls `toLvalue()`
on its target, ends the same way. -/
theorem CondExp.toLvalue_not_lowered :
    Expression.toLvalue Env.programText
        (.CondExp Loc.example (some Typ.tint32)
          (.VarExp Loc.example (some Typ.tint32) 17)
          (.VarExp Loc.example (some Typ.tint32) 15)
          (.VarExp Loc.example (some Typ.tint32) 16)) State.initial =
      .exit { State.initial with
        global := { State.initial.global with errors := 1 }
        stdout := "'&a' is not an lvalue\n" } ∧
    AssignExp.semantic Env.programText Loc.example .TOKassign none
        (.CondExp Loc.example (some Typ.tint32)
          (.VarExp Loc.example (some Typ.tint32) 17)
          (.VarExp Loc.example (some Typ.tint32) 15)
          (.VarExp Loc.example (some Typ.tint32) 16))
        (.IntegerExp Loc.example (some Typ.tint32) 1) State.initial =
      .exit { State.initial with
        global := { State.initial.global with errors := 1 }
        stdout := "'&a' is not an lvalue\n" } :=
  ⟨rfl, rfl⟩

/-- C16: for every node of a class that has no `toLvalue()` of its own
(literals, arithmetic binary expressions, calls, address-of, ...), and every
state, `toLvalue()` and `modifiableLvalue(sc)` both end the pass with the error
"'X' is not an lvalue", where `X` is the rendering `toChars()` of the node;
neither returns. -/
theorem Expression.toLvalue_not_lvalue (env : Env) (e : Expression) (s : State)
    (h : e.overridesToLvalue = false) :
    Expression.toLvalue env e s =
      .exit (Expression.errorState env e.loc ("'" ++ env.expToChars e ++ "' is not an lvalue") s) ∧
    Expression.modifiableLvalue env e s =
      .exit (Expression.errorState env e.loc ("'" ++ env.expToChars e ++ "' is not an lvalue") s) := by
  cases e with
  | UnaExp cls loc type e1 =>
      cases cls <;>
        first
        | (simp only [Expression.toLvalue, Expression.modifiableLvalue,
            Expression.toLvalueDefault_eq, and_self]; done)
        | (simp [Expression.overridesToLvalue] at h)
  | BinExp cls loc op type e1 e2 =>
      cases cls <;>
        first
        | (simp only [Expression.toLvalue, Expression.modifiableLvalue,
            Expression.toLvalueDefault_eq, and_self]; done)
        | (simp [Expression.overridesToLvalue] at h)
  | _ =>
      first
      | (simp only [Expression.toLvalue, Expression.modifiableLvalue,
          Expression.toLvalueDefault_eq, and_self]; done)
      | (simp [Expression.overridesToLvalue] at h)

theorem Expression.toLvalue_not_lvalue_witness :
    -- the literal `5` and the address-of node `&a`
    (Expression.toLvalue Env.programText (.IntegerExp Loc.example (some Typ.tint32) 5)
        State.initial =
      .exit (Expression.errorState Env.programText Loc.example "'exp' is not an lvalue"
        State.initial) ∧
    Expression.modifiableLvalue Env.programText (.IntegerExp Loc.example (some Typ.tint32) 5)
        State.initial =
      .exit (Expression.errorState Env.programText Loc.example "'exp' is not an lvalue"
        State.initial)) ∧
    (Expression.toLvalue Env.programText
        (.UnaExp .AddrExp Loc.example (some (Typ.pointer Typ.tint32))
          (.VarExp Loc.example (some Typ.tint32) 15)) State.initial =
      .exit (Expression.errorState Env.programText Loc.example "'&a' is not an lvalue"
        State.initial) ∧
    Expression.modifiableLvalue Env.programText
        (.UnaExp .AddrExp Loc.example (some (Typ.pointer Typ.tint32))
          (.VarExp Loc.example (some Typ.tint32) 15)) State.initial =
      .exit (Expression.errorState Env.programText Loc.example "'&a' is not an lvalue"
        State.initial)) :=
  ⟨Expression.toLvalue_not_lvalue Env.programText
      (.IntegerExp Loc.example (some Typ.tint32) 5) State.initial rfl,
    Expression.toLvalue_not_lvalue Env.programText
      (.UnaExp .AddrExp Loc.example (some (Typ.pointer Typ.tint32))
        (.VarExp Loc.example (some Typ.tint32) 15)) State.initial rfl⟩

/-! ### Assignment forms -/

/-- Every compound assignment, `++` and `--`, analysing a node not yet typed
whose operands analyse and that no operator overload takes over, calls
`modifiableLvalue(sc)` on its analysed target next: if that call ends the pass,
the analysis of the node ends there. -/
theorem BinExp.semanticAssign_exit (env : Env) (cls : BinClass) (loc : Loc) (op : TOK)
    (e1 e2 e1a e2a : Expression) (s s1 s2 s3 s4 : State)
    (hcls : cls.isCompoundAssign = true)
    (h1 : env.semantic e1 s = .ok e1a s1) (h2 : env.semantic e2 s1 = .ok e2a s2)
    (ho : env.op_overload (.BinExp cls loc op none e1a e2a) s2 = .ok none s3)
    (hm : Expression.modifiableLvalue env e1a s3 = .exit s4) :
    BinExp.semanticAssign env cls loc op none e1 e2 s = .exit s4 := by
  have hb : BinExp.semantic env e1 e2 s = .ok (e1a, e2a) s2 := by
    unfold BinExp.semantic
    rw [Sem.bind_eq, h1]
    simp only []
    rw [Sem.bind_eq, h2]
    rfl
  cases cls <;> first
    | (exact absurd hcls (by decide))
    | (simp only [BinExp.semanticAssign, PostIncExp.semantic, PostDecExp.semantic,
        PostExp.semantic, BinExp.commonSemanticAssign, AddAssignExp.semantic,
        MinAssignExp.semantic, CatAssignExp.semantic, MulAssignExp.semantic,
        DivAssignExp.semantic, ShiftAssign.semantic, BinExp.assignPrefix]
       simp only [Sem.bind_eq, hb, ho, hm])

theorem VarExp.modifiableLvalue_guard (env : Env) (loc : Loc) (type : Option Typ)
    (var : Dsymbol) (s : State)
    (hg : (s.sc.incontract ≠ 0 ∧ env.isParameter var = true) ∨
      (∃ t, type = some t ∧ t.ty = .Tsarray)) :
    Expression.modifiableLvalue env (.VarExp loc type var) s =
      .exit (Expression.errorState env loc
        (if s.sc.incontract ≠ 0 ∧ env.isParameter var = true then
          "cannot modify parameter '" ++ env.symToChars var ++ "' in contract"
        else
          "cannot change reference to static array '" ++ env.symToChars var ++ "'") s) := by
  rw [Expression.modifiableLvalue]
  unfold VarExp.modifiableLvalue
  rw [Sem.get_bind]
  by_cases hc : s.sc.incontract ≠ 0 ∧ env.isParameter var = true
  · rw [if_pos hc, if_pos hc, Expression.error_bind]
  · rw [if_neg hc, if_neg hc]
    rcases hg with hg | ⟨t, ht, hty⟩
    · exact absurd hg hc
    · subst ht
      simp only [Sem.bind_eq, Sem.pure_eq, hty, decide_True, if_true, Expression.error_eq]

/-- C17, as the code stands, fails for plain assignment, which skips the guard
its siblings apply. Inside a contract, with `p` an `int` parameter: the guard
`modifiableLvalue` on `p` ends the pass with "cannot modify parameter 'p' in
contract", and so do the analysis of `p += 1` and, in `AssignExp::semantic`
itself, the array-length target `p.length = 1`; but `p = 1` is converted with
`toLvalue()` and comes back as the typed assignment, with nothing reported.
In the same way `a = b` with `a` of the fixed-size array type `int[3]` is
accepted. -/
theorem AssignExp.semantic_skips_contract_guard :
    Env.programText.isParameter 14 = true ∧ State.inContract.sc.incontract ≠ 0 ∧
    Expression.modifiableLvalue Env.programText
        (.VarExp Loc.example (some Typ.tint32) 14) State.inContract =
      .exit { State.inContract with
        global := { State.inContract.global with errors := 1 }
        stdout := "cannot modify parameter 'p' in contract\n" } ∧
    BinExp.semanticAssign Env.programText .AddAssignExp Loc.example .TOKaddass none
        (.VarExp Loc.example (some Typ.tint32) 14)
        (.IntegerExp Loc.example (some Typ.tint32) 1) State.inContract =
      .exit { State.inContract with
        global := { State.inContract.global with errors := 1 }
        stdout := "cannot modify parameter 'p' in contract\n" } ∧
    AssignExp.semantic Env.programText Loc.example .TOKassign none
        (.UnaExp .ArrayLengthExp Loc.example (some Typ.tint32)
          (.VarExp Loc.example (some (.darray Typ.tint32)) 14))
        (.IntegerExp Loc.example (some Typ.tint32) 1) State.inContract =
      .exit { State.inContract with
        global := { State.inContract.global with errors := 1 }
        stdout := "cannot modify parameter 'p' in contract\n" } ∧
    AssignExp.semantic Env.programText Loc.example .TOKassign none
        (.VarExp Loc.example (some Typ.tint32) 14)
        (.IntegerExp Loc.example (some Typ.tint32) 1) State.inContract =
      .ok (.BinExp .AssignExp Loc.example .TOKassign (some Typ.tint32)
        (.VarExp Loc.example (some Typ.tint32) 14)
        (.IntegerExp Loc.example (some Typ.tint32) 1)) State.inContract ∧
    AssignExp.semantic Env.programText Loc.example .TOKassign none
        (.VarExp Loc.example (some (.sarray Typ.tint32 3)) 15)
        (.VarExp Loc.example (some (.sarray Typ.tint32 3)) 16) State.initial =
      .ok (.BinExp .AssignExp Loc.example .TOKassign (some (.sarray Typ.tint32 3))
        (.VarExp Loc.example (some (.sarray Typ.tint32 3)) 15)
        (.VarExp Loc.example (some (.sarray Typ.tint32 3)) 16)) State.initial :=
  ⟨rfl, by decide, rfl, rfl, rfl, rfl, rfl⟩

/-- Modifiable-lvalue analysis guards the compound assignments `op=` and the
postfix `++` and `--`. For every node of one of these classes
that is analysed for the first time, whose operands analyse, that no operator
overload takes over and whose analysed target is a variable reference: if the
variable is a parameter and the scope is inside a contract, the pass ends with
"cannot modify parameter 'v' in contract"; otherwise, if the type of the
variable is a fixed-size array, it ends with
"cannot change reference to static array 'v'". -/
theorem BinExp.semanticAssign_guards_variable (env : Env) (cls : BinClass) (loc : Loc)
    (op : TOK) (e1 e2 e2a : Expression) (vloc : Loc) (vtype : Option Typ) (var : Dsymbol)
    (s s1 s2 s3 : State)
    (hcls : cls.isCompoundAssign = true)
    (h1 : env.semantic e1 s = .ok (.VarExp vloc vtype var) s1)
    (h2 : env.semantic e2 s1 = .ok e2a s2)
    (ho : env.op_overload (.BinExp cls loc op none (.VarExp vloc vtype var) e2a) s2 =
      .ok none s3)
    (hg : (s3.sc.incontract ≠ 0 ∧ env.isParameter var = true) ∨
      (∃ t, vtype = some t ∧ t.ty = .Tsarray)) :
    BinExp.semanticAssign env cls loc op none e1 e2 s =
      .exit (Expression.errorState env vloc
        (if s3.sc.incontract ≠ 0 ∧ env.isParameter var = true then
          "cannot modify parameter '" ++ env.symToChars var ++ "' in contract"
        else
          "cannot change reference to static array '" ++ env.symToChars var ++ "'") s3) :=
  BinExp.semanticAssign_exit env cls loc op e1 e2 _ e2a s s1 s2 s3 _ hcls h1 h2 ho
    (VarExp.modifiableLvalue_guard env vloc vtype var s3 hg)

theorem BinExp.semanticAssign_guards_variable_witness :
    -- `p += 1` inside a contract, `p` a parameter
    BinExp.semanticAssign Env.programText .AddAssignExp Loc.example .TOKaddass none
        (.VarExp Loc.example (some Typ.tint32) 14)
        (.IntegerExp Loc.example (some Typ.tint32) 1) State.inContract =
      .exit { State.inContract with
        global := { State.inContract.global with errors := 1 }
        stdout := "cannot modify parameter 'p' in contract\n" } ∧
    -- `a++` outside a contract, `a` of type `int[3]`
    BinExp.semanticAssign Env.programText .PostIncExp Loc.example .TOKplusplus none
        (.VarExp Loc.example (some (.sarray Typ.tint32 3)) 15)
        (.IntegerExp Loc.example (some Typ.tint32) 1) State.initial =
      .exit { State.initial with
        global := { State.initial.global with errors := 1 }
        stdout := "cannot change reference to static array 'a'\n" } :=
  ⟨BinExp.semanticAssign_guards_variable Env.programText .AddAssignExp Loc.example
      .TOKaddass (.VarExp Loc.example (some Typ.tint32) 14)
      (.IntegerExp Loc.example (some Typ.tint32) 1)
      (.IntegerExp Loc.example (some Typ.tint32) 1) Loc.example (some Typ.tint32) 14
      State.inContract State.inContract State.inContract State.inContract
      rfl rfl rfl rfl (Or.inl ⟨by decide, rfl⟩),
    BinExp.semanticAssign_guards_variable Env.programText .PostIncExp Loc.example
      .TOKplusplus (.VarExp Loc.example (some (.sarray Typ.tint32 3)) 15)
      (.IntegerExp Loc.example (some Typ.tint32) 1)
      (.IntegerExp Loc.example (some Typ.tint32) 1) Loc.example
      (some (.sarray Typ.tint32 3)) 15
      State.initial State.initial State.initial State.initial
      rfl rfl rfl rfl (Or.inr ⟨_, rfl, rfl⟩)⟩

/-! ### Range expressions -/

theorem ArrayRangeExp.modifiableLvalue_exit (env : Env) (loc : Loc) (type : Option Typ)
    (e1 : Expression) (lwr upr : Option Expression) (s : State) :
    Expression.modifiableLvalue env (.ArrayRangeExp loc type e1 lwr upr) s =
      .exit (Expression.errorState env loc
        ("cannot modify range expression " ++
          env.expToChars (.ArrayRangeExp loc type e1 lwr upr)) s) := by
  rw [Expression.modifiableLvalue]
  unfold ArrayRangeExp.modifiableLvalue
  rw [Expression.error_bind]
  rfl

/-- Plain assignment to a range: the target goes through `toLvalue()`, which
returns it, and the right operand is converted to the element type of the
range (a fill) or to its whole type (a copy). -/
theorem AssignExp.semantic_range (env : Env) (loc : Loc) (type : Option Typ)
    (e1 : Expression) (lwr upr : Option Expression) (aloc : Loc) (op : TOK)
    (atype : Option Typ) (t1 t2 t2a : Expression) (s0 s1 s2 : State) (ty n tt2 : Typ)
    (fill : Bool)
    (h1 : env.semantic t1 s0 = .ok (.ArrayRangeExp loc type e1 lwr upr) s1)
    (h2 : env.semantic t2 s1 = .ok t2a s2)
    (hty : type = some ty) (hn : ty.next = some n) (ht2 : t2a.type = some tt2)
    (hfill : fill = true ↔
      ((tt2.next ≠ some n ∧ ¬ (n.ty = .Tchar ∧ t2a.op = .TOKstring)) ∨
        (∃ sl sty str c, t2a = .StringExp sl sty str 1 c))) :
    AssignExp.semantic env aloc op atype t1 t2 s0 =
      (env.implicitCastTo t2a (if fill = true then n else ty) >>= fun e2b =>
        (pure (.BinExp .AssignExp aloc op (some ty) (.ArrayRangeExp loc type e1 lwr upr) e2b)
          : Sem Expression)) s2 := by
  have hb : BinExp.semantic env t1 t2 s0 = .ok (.ArrayRangeExp loc type e1 lwr upr, t2a) s2 := by
    unfold BinExp.semantic
    rw [Sem.bind_eq, h1]
    simp only []
    rw [Sem.bind_eq, h2]
    rfl
  subst hty
  have hop : (Expression.ArrayRangeExp loc (some ty) e1 lwr upr).op = .TOKrange := rfl
  have htyp : (Expression.ArrayRangeExp loc (some ty) e1 lwr upr).type = some ty := rfl
  have hlen : (t2a.op = .TOKstring ∧ StringExp.lenIs1 t2a = true) ↔
      ∃ sl sty str c, t2a = .StringExp sl sty str 1 c := by
    constructor
    · rintro ⟨_, hl⟩
      cases t2a <;> simp [StringExp.lenIs1] at hl
      subst hl
      exact ⟨_, _, _, _, rfl⟩
    · rintro ⟨sl, sty, str, c, rfl⟩
      exact ⟨rfl, rfl⟩
  unfold AssignExp.semantic
  rw [Sem.bind_eq, hb]
  simp only [hop, htyp, Expression.toLvalue, if_true,
    if_neg (show ¬ (TOK.TOKrange = TOK.TOKarraylength) by decide)]
  rw [Sem.bind_eq, Sem.pure_eq]
  simp only []
  rw [Sem.bind_eq, htyp, Sem.deref_some]
  simp only [hop, if_true]
  have key : (do
        let n1 ← Sem.deref ty.next
        let t2 ← Sem.deref t2a.type
        if (!(decide (t2.next = some n1) ||
            decide (n1.ty = TY.Tchar) && decide (t2a.op = TOK.TOKstring))) = true then
          env.implicitCastTo t2a n1
        else if t2a.op = TOK.TOKstring ∧ StringExp.lenIs1 t2a = true then
          env.implicitCastTo t2a n1
        else env.implicitCastTo t2a ty : Sem Expression) =
      env.implicitCastTo t2a (if fill = true then n else ty) := by
    funext st
    rw [Sem.bind_eq, hn, Sem.deref_some]
    simp only []
    rw [Sem.bind_eq, ht2, Sem.deref_some]
    simp only []
    by_cases hc1 : tt2.next ≠ some n ∧ ¬ (n.ty = .Tchar ∧ t2a.op = .TOKstring)
    · have hf : fill = true := hfill.mpr (Or.inl hc1)
      have hb1 : (!(decide (tt2.next = some n) ||
          decide (n.ty = TY.Tchar) && decide (t2a.op = TOK.TOKstring))) = true := by
        simp only [Bool.not_eq_true', Bool.or_eq_false_iff, Bool.and_eq_false_iff,
          decide_eq_false_iff_not]
        tauto
      rw [if_pos hb1, if_pos hf]
    · have hb1 : ¬ ((!(decide (tt2.next = some n) ||
          decide (n.ty = TY.Tchar) && decide (t2a.op = TOK.TOKstring))) = true) := by
        simp only [Bool.not_eq_true', Bool.or_eq_false_iff, Bool.and_eq_false_iff,
          decide_eq_false_iff_not]
        tauto
      rw [if_neg hb1]
      by_cases hc2 : t2a.op = TOK.TOKstring ∧ StringExp.lenIs1 t2a = true
      · have hf : fill = true := hfill.mpr (Or.inr (hlen.mp hc2))
        rw [if_pos hc2, if_pos hf]
      · have hf : ¬ fill = true := fun h =>
          (hfill.mp h).elim hc1 (fun h2 => hc2 (hlen.mpr h2))
        rw [if_neg hc2, if_neg hf]
  rw [key]

/-- C18: a range expression is an lvalue but never a modifiable one. For every
`ArrayRangeExp` node `r` typed `ty` with element type `n`: `toLvalue()` returns
`r` itself; `modifiableLvalue(sc)` ends the pass with
"cannot modify range expression X"; every compound assignment, `++` and `--`
whose analysed target is `r` (and that no operator overload takes over) ends
the pass with that error; and the plain assignment whose analysed target is `r`
keeps `r` as its target and converts the right operand to the element type `n`
(a fill) or to the whole type `ty` (a copy), the node being typed `ty`. -/
theorem ArrayRangeExp.lvalue_not_modifiable (env : Env) (loc : Loc) (type : Option Typ)
    (e1 : Expression) (lwr upr : Option Expression) (cls : BinClass) (aloc : Loc) (op aop : TOK)
    (atype : Option Typ) (t1 t2 t2a : Expression) (s s0 s1 s2 s3 : State) (ty n tt2 : Typ)
    (fill : Bool)
    (hcls : cls.isCompoundAssign = true)
    (h1 : env.semantic t1 s0 = .ok (.ArrayRangeExp loc type e1 lwr upr) s1)
    (h2 : env.semantic t2 s1 = .ok t2a s2)
    (ho : env.op_overload (.BinExp cls aloc op none (.ArrayRangeExp loc type e1 lwr upr) t2a) s2 =
      .ok none s3)
    (hty : type = some ty) (hn : ty.next = some n) (ht2 : t2a.type = some tt2)
    (hfill : fill = true ↔
      ((tt2.next ≠ some n ∧ ¬ (n.ty = .Tchar ∧ t2a.op = .TOKstring)) ∨
        (∃ sl sty str c, t2a = .StringExp sl sty str 1 c))) :
    Expression.toLvalue env (.ArrayRangeExp loc type e1 lwr upr) s =
      .ok (.ArrayRangeExp loc type e1 lwr upr) s ∧
    Expression.modifiableLvalue env (.ArrayRangeExp loc type e1 lwr upr) s =
      .exit (Expression.errorState env loc
        ("cannot modify range expression " ++
          env.expToChars (.ArrayRangeExp loc type e1 lwr upr)) s) ∧
    BinExp.semanticAssign env cls aloc op none t1 t2 s0 =
      .exit (Expression.errorState env loc
        ("cannot modify range expression " ++
          env.expToChars (.ArrayRangeExp loc type e1 lwr upr)) s3) ∧
    BinExp.semanticAssign env .AssignExp aloc aop atype t1 t2 s0 =
      (env.implicitCastTo t2a (if fill = true then n else ty) >>= fun e2b =>
        (pure (.BinExp .AssignExp aloc aop (some ty) (.ArrayRangeExp loc type e1 lwr upr) e2b)
          : Sem Expression)) s2 :=
  ⟨by rw [Expression.toLvalue, Sem.pure_eq],
    ArrayRangeExp.modifiableLvalue_exit env loc type e1 lwr upr s,
    BinExp.semanticAssign_exit env cls aloc op t1 t2 _ t2a s0 s1 s2 s3 _ hcls h1 h2 ho
      (ArrayRangeExp.modifiableLvalue_exit env loc type e1 lwr upr s3),
    AssignExp.semantic_range env loc type e1 lwr upr aloc aop atype t1 t2 t2a s0 s1 s2 ty n tt2
      fill h1 h2 hty hn ht2 hfill⟩

theorem ArrayRangeExp.lvalue_not_modifiable_witness :
    -- the slice `a[]` of `int[3] a`, typed `int[]`; `a[] += 1` and `a[] = 1`
    Expression.toLvalue Env.programText
        (.ArrayRangeExp Loc.example (some (.darray Typ.tint32))
          (.VarExp Loc.example (some (.sarray Typ.tint32 3)) 15) none none) State.initial =
      .ok (.ArrayRangeExp Loc.example (some (.darray Typ.tint32))
          (.VarExp Loc.example (some (.sarray Typ.tint32 3)) 15) none none) State.initial ∧
    Expression.modifiableLvalue Env.programText
        (.ArrayRangeExp Loc.example (some (.darray Typ.tint32))
          (.VarExp Loc.example (some (.sarray Typ.tint32 3)) 15) none none) State.initial =
      .exit { State.initial with
        global := { State.initial.global with errors := 1 }
        stdout := "cannot modify range expression a[]\n" } ∧
    BinExp.semanticAssign Env.programText .AddAssignExp Loc.example .TOKaddass none
        (.ArrayRangeExp Loc.example (some (.darray Typ.tint32))
          (.VarExp Loc.example (some (.sarray Typ.tint32 3)) 15) none none)
        (.IntegerExp Loc.example (some Typ.tint32) 1) State.initial =
      .exit { State.initial with
        global := { State.initial.global with errors := 1 }
        stdout := "cannot modify range expression a[]\n" } ∧
    BinExp.semanticAssign Env.programText .AssignExp Loc.example .TOKassign none
        (.ArrayRangeExp Loc.example (some (.darray Typ.tint32))
          (.VarExp Loc.example (some (.sarray Typ.tint32 3)) 15) none none)
        (.IntegerExp Loc.example (some Typ.tint32) 1) State.initial =
      .ok (.BinExp .AssignExp Loc.example .TOKassign (some (.darray Typ.tint32))
        (.ArrayRangeExp Loc.example (some (.darray Typ.tint32))
          (.VarExp Loc.example (some (.sarray Typ.tint32 3)) 15) none none)
        (.IntegerExp Loc.example (some Typ.tint32) 1)) State.initial :=
  ArrayRangeExp.lvalue_not_modifiable Env.programText Loc.example
    (some (.darray Typ.tint32)) (.VarExp Loc.example (some (.sarray Typ.tint32 3)) 15)
    none none .AddAssignExp Loc.example .TOKaddass .TOKassign none
    (.ArrayRangeExp Loc.example (some (.darray Typ.tint32))
      (.VarExp Loc.example (some (.sarray Typ.tint32 3)) 15) none none)
    (.IntegerExp Loc.example (some Typ.tint32) 1)
    (.IntegerExp Loc.example (some Typ.tint32) 1)
    State.initial State.initial State.initial State.initial State.initial
    (.darray Typ.tint32) Typ.tint32 Typ.tint32 true
    rfl rfl rfl rfl rfl rfl rfl
    ⟨fun _ => Or.inl ⟨by decide, by decide⟩, fun _ => rfl⟩

/-! ### Member access and uniform call syntax -/

/-- C19 (counterexample): the member `size` of a receiver of pointer type is
resolved on the pointer type itself. With `p` of type `long*`, `p.size` is the
literal 4, the size of the pointer, and the receiver is not dereferenced: the
size of the pointee `long` would be 8. -/
theorem DotIdExp.semantic_size_counterexample :
    DotIdExp.semantic Env.programText Loc.example none
        (.VarExp Loc.example (some (.pointer Typ.tint64)) 14) "size" State.initial =
      .ok (.IntegerExp Loc.example (some Typ.tint32) 4) State.initial ∧
    Env.programText.dotExp Typ.tint64
        (.UnaExp .PtrExp Loc.example (some Typ.tint64)
          (.VarExp Loc.example (some (.pointer Typ.tint64)) 14)) "size" State.initial =
      .ok (.IntegerExp Loc.example (some Typ.tint32) 8) State.initial :=
  ⟨rfl, rfl⟩

/-- C19 (amended): for every member access `e.id` whose analysed receiver is
not a scope and has a pointer type `t` with pointee type `n`: if `id` is not
the identifier `size`, `DotIdExp::semantic` wraps the receiver in a dereference
node typed `n` and returns what the member lookup of `id` on the pointee type
`n` gives for that node; if `id` is `size`, the member is looked up on the
pointer type `t` itself, with the receiver as it is, and the result is analysed. -/
theorem DotIdExp.semantic_pointer (env : Env) (loc : Loc) (type : Option Typ)
    (e1 e1a : Expression) (ident : Identifier) (s s1 : State) (t n : Typ)
    (h1 : env.semantic e1 s = .ok e1a s1)
    (hsc : ∀ l ty sds, e1a ≠ .ScopeExp l ty sds)
    (ht : e1a.type = some t) (hp : t.ty = .Tpointer) (hn : t.next = some n) :
    DotIdExp.semantic env loc type e1 ident s =
      if ident ≠ env.idSize then
        env.dotExp n (.UnaExp .PtrExp loc (some n) e1a) ident s1
      else
        (env.dotExp t e1a ident >>= fun e => env.semantic e) s1 := by
  unfold DotIdExp.semantic
  rw [Sem.bind_eq, h1]
  simp only []
  cases e1a with
  | ScopeExp l ty sds => exact absurd rfl (hsc l ty sds)
  | _ =>
      rw [Sem.bind_eq, ht, Sem.deref_some]
      simp only [hp, true_and]
      by_cases hid : ident ≠ env.idSize
      · rw [if_pos hid, if_pos hid]
        simp only [PtrExp.ctor, Expression.setType, hn]
        rw [Sem.bind_eq]
        rfl
      · rw [if_neg hid, if_neg hid]

theorem DotIdExp.semantic_pointer_witness :
    -- `p.x` with `p` of type `long*`: the lookup is made on `*p`, typed `long`
    DotIdExp.semantic Env.programText Loc.example none
        (.VarExp Loc.example (some (.pointer Typ.tint64)) 14) "x" State.initial =
      .ok (.UnaExp .PtrExp Loc.example (some Typ.tint64)
        (.VarExp Loc.example (some (.pointer Typ.tint64)) 14)) State.initial :=
  DotIdExp.semantic_pointer Env.programText Loc.example none
    (.VarExp Loc.example (some (.pointer Typ.tint64)) 14)
    (.VarExp Loc.example (some (.pointer Typ.tint64)) 14) "x" State.initial State.initial
    (.pointer Typ.tint64) Typ.tint64 rfl (fun _ _ _ h => Expression.noConfusion h) rfl rfl rfl

/-- C20: for every call `receiver.name(args)` analysed for the first time whose
analysed receiver has a dynamic, fixed-size or associative array type, the
rewrite at the head of `CallExp::semantic` makes the callee the bare identifier
`name` (at the location of the member access) and the argument list the
analysed receiver followed by the original arguments in their order, one
longer than before (the receiver alone when there was no list); the analysis
then goes on exactly as that of the call `name(receiver, args)`. -/
theorem CallExp.semantic_array_call (env : Env) (loc dloc : Loc) (dtype : Option Typ)
    (recv recva : Expression) (name : Identifier) (args : Option (List Expression))
    (s s1 : State) (t : Typ)
    (hr : env.semantic recv s = .ok recva s1) (ht : recva.type = some t)
    (harr : t.ty = .Tarray ∨ t.ty = .Tsarray ∨ t.ty = .Taarray) :
    CallExp.arrayCall env (.DotIdExp dloc dtype recv name) args s =
      .ok (.IdentifierExp dloc none name, some (recva :: args.getD [])) s1 ∧
    argsDim (some (recva :: args.getD [])) = argsDim args + 1 ∧
    CallExp.semantic env loc none (.DotIdExp dloc dtype recv name) args s =
      CallExp.semantic env loc none (.IdentifierExp dloc none name)
        (some (recva :: args.getD [])) s1 := by
  have ha : CallExp.arrayCall env (.DotIdExp dloc dtype recv name) args s =
      .ok (.IdentifierExp dloc none name, some (recva :: args.getD [])) s1 := by
    unfold CallExp.arrayCall
    rw [if_pos (show (Expression.DotIdExp dloc dtype recv name).op = .TOKdot from rfl)]
    simp only []
    rw [Sem.bind_eq, hr]
    simp only [ht, harr, if_true, Sem.pure_eq, Array.shift]
  have hi : ∀ l : Option (List Expression),
      CallExp.arrayCall env (.IdentifierExp dloc none name) l s1 =
        .ok (.IdentifierExp dloc none name, l) s1 := by
    intro l
    unfold CallExp.arrayCall
    rw [if_neg (show ¬ (Expression.IdentifierExp dloc none name).op = .TOKdot from
      fun h => TOK.noConfusion h)]
    rfl
  refine ⟨ha, ?_, ?_⟩
  · cases args <;> simp [argsDim]
  · unfold CallExp.semantic
    simp only []
    rw [Sem.bind_eq, ha, Sem.bind_eq, hi]

theorem CallExp.semantic_array_call_witness :
    -- `a.f(1)` with `a` of type `int[3]` becomes `f(a, 1)`, and `a.f()` becomes `f(a)`
    (CallExp.arrayCall Env.programText
        (.DotIdExp Loc.example none (.VarExp Loc.example (some (.sarray Typ.tint32 3)) 15) "f")
        (some [.IntegerExp Loc.example (some Typ.tint32) 1]) State.initial =
      .ok (.IdentifierExp Loc.example none "f",
        some [.VarExp Loc.example (some (.sarray Typ.tint32 3)) 15,
          .IntegerExp Loc.example (some Typ.tint32) 1]) State.initial ∧
    argsDim (some [.VarExp Loc.example (some (.sarray Typ.tint32 3)) 15,
        .IntegerExp Loc.example (some Typ.tint32) 1]) =
      argsDim (some [.IntegerExp Loc.example (some Typ.tint32) 1]) + 1 ∧
    CallExp.semantic Env.programText ⟨some 0, 9⟩ none
        (.DotIdExp Loc.example none (.VarExp Loc.example (some (.sarray Typ.tint32 3)) 15) "f")
        (some [.IntegerExp Loc.example (some Typ.tint32) 1]) State.initial =
      CallExp.semantic Env.programText ⟨some 0, 9⟩ none (.IdentifierExp Loc.example none "f")
        (some [.VarExp Loc.example (some (.sarray Typ.tint32 3)) 15,
          .IntegerExp Loc.example (some Typ.tint32) 1]) State.initial) ∧
    CallExp.arrayCall Env.programText
        (.DotIdExp Loc.example none (.VarExp Loc.example (some (.sarray Typ.tint32 3)) 15) "f")
        none State.initial =
      .ok (.IdentifierExp Loc.example none "f",
        some [.VarExp Loc.example (some (.sarray Typ.tint32 3)) 15]) State.initial :=
  ⟨CallExp.semantic_array_call Env.programText ⟨some 0, 9⟩ Loc.example none
      (.VarExp Loc.example (some (.sarray Typ.tint32 3)) 15)
      (.VarExp Loc.example (some (.sarray Typ.tint32 3)) 15) "f"
      (some [.IntegerExp Loc.example (some Typ.tint32) 1]) State.initial State.initial
      (.sarray Typ.tint32 3) rfl rfl (Or.inr (Or.inl rfl)),
    rfl⟩

/-! ### Source locations of replacement nodes -/

/-- `VarExp::semantic` on a constant variable whose initializer has the type of
the node returns the initializer node itself, whatever the location of the
`VarExp`. -/
theorem VarExp.semantic_initializer (env : Env) (loc : Loc) (type : Option Typ)
    (var : Dsymbol) (exp : Expression) (s : State)
    (hc : env.isConst var = true) (hv : env.dynClass var = .VarDeclaration)
    (hi : env.initExp var = some exp) (ht : exp.type = type) :
    VarExp.semantic env loc type var s = .ok exp s := by
  unfold VarExp.semantic
  rw [if_pos ⟨hc, hv⟩]
  simp only [hi, ht, if_true, Sem.pure_eq]

/-- C31: a variable reference on line 7 to the constant `K`, whose initializer
`3` was written on line 1, analyses to that initializer node with its own
location, line 1; and the identifier `E` on line 7, an enum member whose value
`1` was written on line 2, analyses to the value node located on line 2. Both
replacements are other nodes than the one analysed, neither is a comma
expression, and neither carries the location of the node it replaces. (The
identifier `K` on line 7 does: it analyses to a copy of the initializer
relocated to line 7.) -/
theorem VarExp.semantic_keeps_initializer_loc :
    VarExp.semantic Env.programCore Loc.example (some Typ.tint32) 12 State.initial =
      .ok (.IntegerExp ⟨some 0, 1⟩ (some Typ.tint32) 3) State.initial ∧
    (Expression.IntegerExp ⟨some 0, 1⟩ (some Typ.tint32) 3).loc ≠ Loc.example ∧
    IdentifierExp.semantic Env.programEnum Loc.example none "E" State.initial =
      .ok (.IntegerExp ⟨some 0, 2⟩ (some Typ.tint32) 1) State.initial ∧
    (Expression.IntegerExp ⟨some 0, 2⟩ (some Typ.tint32) 1).loc ≠ Loc.example ∧
    IdentifierExp.semantic Env.programCore Loc.example none "K" State.initial =
      .ok (.IntegerExp Loc.example (some Typ.tint32) 3) State.initial :=
  ⟨rfl, by decide, rfl, by decide, rfl⟩

/-! ### Argument binding -/

/-- The tail branch of the argument loop: for an argument at a position not
covered by a declared parameter, the loop body is integral promotion, then the
widening of `float` and `ifloat` when the linkage is not `LINKd`, then the cast
of a fixed-size array; the parameter list is not read and
`modifiableLvalue` is not called. -/
theorem bindArgument_tail (env : Env) (params : Option Arguments) (nproto : Nat)
    (linkage : LINK) (i : Nat) (arg : Expression) (hi : ¬ i < nproto) :
    bindArgument env params nproto linkage i arg =
      (env.integralPromotions arg >>= fun arg =>
        (if linkage ≠ .LINKd then
            (Sem.deref arg.type >>= fun t =>
              match t.ty with
              | .Tfloat32 => env.castTo arg Typ.tfloat64
              | .Timaginary32 => env.castTo arg Typ.timaginary64
              | _ => pure arg)
          else pure arg) >>= fun arg =>
        Sem.deref arg.type >>= fun t =>
          if t.ty = .Tsarray then env.castTo arg (env.arrayOf t) else pure arg) := by
  unfold bindArgument
  rw [if_neg hi]

/-- C32: a fixed-size array passed as a variadic tail argument is not converted
to the dynamic array of its element type. The variable `a` of type `int[3]`,
bound beyond the declared parameters of a function of C linkage, is cast to
`arrayOf()` of its own type, the dynamic array `int[3][]` whose elements are
fixed-size arrays, and not to `int[]`. -/
theorem bindArgument_tail_sarray :
    bindArgument Env.base none 0 .LINKc 0
        (.VarExp Loc.example (some (.sarray Typ.tint32 3)) 15) State.initial =
      .ok (.VarExp Loc.example (some (.darray (.sarray Typ.tint32 3))) 15) State.initial ∧
    Env.base.arrayOf (.sarray Typ.tint32 3) ≠ Env.base.arrayOf Typ.tint32 ∧
    bindArgument Env.base none 0 .LINKc 0
        (.VarExp Loc.example (some Typ.tfloat32) 15) State.initial =
      .ok (.VarExp Loc.example (some Typ.tfloat64) 15) State.initial ∧
    bindArgument Env.base none 0 .LINKd 0
        (.VarExp Loc.example (some Typ.tfloat32) 15) State.initial =
      .ok (.VarExp Loc.example (some Typ.tfloat32) 15) State.initial :=
  ⟨rfl, by decide, rfl, rfl⟩

/-- C33 (counterexample): an argument bound to an array-typed parameter is
decayed when that parameter type is a fixed-size array. The variable `a` of
type `int[3]` bound to a parameter of type `int[3]` becomes the address-of node
`&a` typed `int*`. -/
theorem bindArgument_sarray_param_counterexample :
    bindArgument Env.base (some (.cons (.sarray Typ.tint32 3) .In .nil)) 1 .LINKd 0
        (.VarExp Loc.example (some (.sarray Typ.tint32 3)) 15) State.initial =
      .ok (.UnaExp .AddrExp Loc.example (some (.pointer Typ.tint32))
        (.VarExp Loc.example (some (.sarray Typ.tint32 3)) 15)) State.initial :=
  rfl

/-- C33 (amended): for every argument at a position covered by a declared
parameter of type `pt` and passing mode `io`, argument binding first converts
the argument implicitly to `pt`, then calls `modifiableLvalue` on it exactly
when `io` is `out` or `inout`, and finally, exactly when the type `t` the
argument then has is a fixed-size array (whatever the type of the parameter),
replaces it by the address-of node around it typed pointer to the element type. -/
theorem bindArgument_positional (env : Env) (params : Arguments) (nproto : Nat)
    (linkage : LINK) (i : Nat) (arg a1 a2 : Expression) (pt t : Typ) (io : InOutKind)
    (s s1 s2 : State)
    (hi : i < nproto) (hp : params.get? i = some (pt, io))
    (hc : env.implicitCastTo arg pt s = .ok a1 s1)
    (hm : (if io = .Out ∨ io = .InOut then env.modifiableLvalue a1 else pure a1) s1 =
      .ok a2 s2)
    (ht : a2.type = some t) :
    bindArgument env (some params) nproto linkage i arg s =
      if t.ty = .Tsarray then
        match t.next with
        | some n => .ok (.UnaExp .AddrExp a2.loc (some n.pointerTo) a2) s2
        | none => .nullDeref s2
      else .ok a2 s2 := by
  unfold bindArgument
  rw [if_pos hi, Sem.bind_eq, Sem.deref_some]
  simp only []
  rw [Sem.bind_eq, hp, Sem.deref_some]
  simp only []
  rw [Sem.bind_eq, hc]
  simp only []
  rw [Sem.bind_eq, hm]
  simp only []
  rw [Sem.bind_eq, ht, Sem.deref_some]
  simp only []
  by_cases hs : t.ty = .Tsarray
  · rw [if_pos hs, if_pos hs]
    unfold Expression.checkToPointer
    rw [Sem.bind_eq, ht, Sem.deref_some]
    simp only [hs, if_true]
    cases hn : t.next with
    | none => rfl
    | some n => rfl
  · rw [if_neg hs, if_neg hs]
    rfl

theorem bindArgument_positional_witness :
    -- an `int` argument bound to an `out long` parameter, and `int[3]` bound to `int[]`
    bindArgument Env.base (some (.cons Typ.tint64 .Out .nil)) 1 .LINKd 0
        (.VarExp Loc.example (some Typ.tint32) 15) State.initial =
      .ok (.VarExp Loc.example (some Typ.tint64) 15) State.initial ∧
    bindArgument Env.base (some (.cons (.darray Typ.tint32) .In .nil)) 1 .LINKd 0
        (.VarExp Loc.example (some (.sarray Typ.tint32 3)) 15) State.initial =
      .ok (.VarExp Loc.example (some (.darray Typ.tint32)) 15) State.initial :=
  ⟨bindArgument_positional Env.base (.cons Typ.tint64 .Out .nil) 1 .LINKd 0
      (.VarExp Loc.example (some Typ.tint32) 15) (.VarExp Loc.example (some Typ.tint64) 15)
      (.VarExp Loc.example (some Typ.tint64) 15) Typ.tint64 Typ.tint64 .Out
      State.initial State.initial State.initial (by decide) rfl rfl rfl rfl,
    bindArgument_positional Env.base (.cons (.darray Typ.tint32) .In .nil) 1 .LINKd 0
      (.VarExp Loc.example (some (.sarray Typ.tint32 3)) 15)
      (.VarExp Loc.example (some (.darray Typ.tint32)) 15)
      (.VarExp Loc.example (some (.darray Typ.tint32)) 15) (.darray Typ.tint32)
      (.darray Typ.tint32) .In
      State.initial State.initial State.initial (by decide) rfl rfl rfl rfl⟩

/-- C36: the argument-processing code of `NewExp::semantic` (constructor
arguments) and that of `CallExp::semantic` agree. For every function type,
argument list and state: the loop body of `NewExp::semantic` is, at every
position and for every argument, the loop body of `CallExp::semantic`, so the
two loops produce the same converted list; both accept the argument count
exactly when `M = N` or the callee is variadic and `M >= N`, and then return
their node with the list the `CallExp` loop produces; otherwise both end the
pass with the count error (worded "function" and "constructor"). -/
theorem NewExp.argument_binding_agrees (env : Env) (loc : Loc) (e1 : Expression)
    (f : Dsymbol) (arguments : Option (List Expression)) (params : Option Arguments)
    (next : Typ) (varargs : Bool) (linkage : LINK) (s : State) :
    (∀ nproto i arg, NewExp.bindArgument env params nproto linkage i arg =
      Dmd.bindArgument env params nproto linkage i arg) ∧
    (∀ nproto i args, NewExp.bindArguments env params nproto linkage i args =
      Dmd.bindArguments env params nproto linkage i args) ∧
    CallExp.checkargs env loc e1 arguments (.function params next varargs linkage) s =
      (if argsDim arguments = protoDim params ∨
          (varargs = true ∧ argsDim arguments ≥ protoDim params) then
        (Dmd.bindArgs env params (protoDim params) linkage arguments >>= fun a =>
          (pure (.CallExp loc (some next) e1 a) : Sem Expression)) s
      else
        .exit (Expression.errorState env loc
          ("expected " ++ fmtSigned 32 (protoDim params) ++ " arguments to function, not "
            ++ fmtSigned 32 (argsDim arguments) ++ "\n") s)) ∧
    NewExp.checkargs env loc f arguments (.function params next varargs linkage) s =
      (if argsDim arguments = protoDim params ∨
          (varargs = true ∧ argsDim arguments ≥ protoDim params) then
        (Dmd.bindArgs env params (protoDim params) linkage arguments >>= fun a =>
          (pure (.NewExp loc (some next) a (some f)) : Sem Expression)) s
      else
        .exit (Expression.errorState env loc
          ("expected " ++ fmtSigned 32 (protoDim params) ++ " arguments to constructor, not "
            ++ fmtSigned 32 (argsDim arguments) ++ "\n") s)) := by
  refine ⟨fun n i arg => NewExp.bindArgument_eq env params n linkage i arg,
    fun n i args => NewExp.bindArguments_eq env params n linkage args i, ?_, ?_⟩
  · unfold CallExp.checkargs
    simp only []
    by_cases h1 : argsDim arguments = protoDim params
    · simp [h1, Sem.bind_eq, Sem.pure_eq]
    · by_cases h2 : argsDim arguments < protoDim params
      · have h3 : ¬ argsDim arguments ≥ protoDim params := by omega
        simp [h1, h2, h3, Expression.error_bind]
      · cases varargs
        · simp [h1, h2, Expression.error_bind]
        · have h3 : protoDim params ≤ argsDim arguments := by omega
          simp [h1, h2, h3, Sem.bind_eq, Sem.pure_eq]
  · unfold NewExp.checkargs
    simp only []
    by_cases h1 : argsDim arguments = protoDim params
    · simp only [h1, ne_eq, not_true_eq_false, if_false, true_or, if_true, Sem.bind_eq,
        Sem.pure_eq]
      rw [NewExp.bindArgs_eq]
    · by_cases h2 : argsDim arguments < protoDim params
      · have h3 : ¬ argsDim arguments ≥ protoDim params := by omega
        simp [h1, h2, h3, Expression.error_bind]
      · cases varargs
        · simp [h1, h2, Expression.error_bind]
        · have h3 : protoDim params ≤ argsDim arguments := by omega
          simp only [h1, h2, h3, ne_eq, not_false_eq_true, if_true, false_or, Bool.not_true,
            Bool.false_eq_true, if_false, ge_iff_le, and_self, or_true, Sem.bind_eq,
            Sem.pure_eq]
          rw [NewExp.bindArgs_eq]

/-! ### `IntegerExp::toInteger` and `IntegerExp::isBool` -/

theorem signExtend_idem (w v : Nat) (hw : w = 8 ∨ w = 16 ∨ w = 32 ∨ w = 64) :
    signExtend w (signExtend w v) = signExtend w v := by
  rcases hw with rfl | rfl | rfl | rfl <;>
    · simp only [signExtend]
      norm_num
      first | done | omega | (split_ifs <;> omega)

theorem IntegerExp.normalize_idem :
    ∀ (t : Typ) (v v' : Nat), IntegerExp.normalize t v = some v' →
      IntegerExp.normalize t v' = some v'
  | .basic ty, v, v', h => by
      cases ty <;> simp only [IntegerExp.normalize, Option.some.injEq, reduceCtorEq] at h ⊢ <;>
        subst h <;>
        first
        | exact signExtend_idem _ _ (by decide)
        | exact Nat.mod_mod _ _
        | (rw [Nat.and_assoc]; rfl)
  | .pointer _, v, v', h => by
      simp only [IntegerExp.normalize, Option.some.injEq] at h ⊢
      subst h
      exact Nat.mod_mod _ _
  | .enumT _ m, v, v', h => by
      rw [IntegerExp.normalize] at h ⊢
      exact IntegerExp.normalize_idem m v v' h
  | .typedefT _ b, v, v', h => by
      rw [IntegerExp.normalize] at h ⊢
      exact IntegerExp.normalize_idem b v v' h
  | .darray _, v, v', h => by simp [IntegerExp.normalize] at h
  | .sarray _ _, v, v', h => by simp [IntegerExp.normalize] at h
  | .aarray _ _ _, v, v', h => by simp [IntegerExp.normalize] at h
  | .reference _, v, v', h => by simp [IntegerExp.normalize] at h
  | .function _ _ _ _, v, v', h => by simp [IntegerExp.normalize] at h
  | .delegate _, v, v', h => by simp [IntegerExp.normalize] at h
  | .classT _, v, v', h => by simp [IntegerExp.normalize] at h
  | .structT _, v, v', h => by simp [IntegerExp.normalize] at h

theorem signExtend_lt (w v : Nat) (hw : w = 8 ∨ w = 16 ∨ w = 32 ∨ w = 64) :
    signExtend w v < 2 ^ 64 := by
  rcases hw with rfl | rfl | rfl | rfl <;>
    · simp only [signExtend]
      norm_num
      first | done | omega | (split_ifs <;> omega)

theorem IntegerExp.normalize_lt :
    ∀ (t : Typ) (v v' : Nat), IntegerExp.normalize t v = some v' → v' < 2 ^ 64
  | .basic ty, v, v', h => by
      cases ty <;> simp only [IntegerExp.normalize, Option.some.injEq, reduceCtorEq] at h <;>
        subst h <;>
        first
        | exact signExtend_lt _ _ (by decide)
        | exact lt_of_lt_of_le (Nat.mod_lt _ (by norm_num)) (by norm_num)
        | exact lt_of_le_of_lt Nat.and_le_right (by norm_num)
  | .pointer _, v, v', h => by
      simp only [IntegerExp.normalize, Option.some.injEq] at h
      subst h
      exact lt_of_lt_of_le (Nat.mod_lt _ (by norm_num)) (by norm_num)
  | .enumT _ m, v, v', h => by
      rw [IntegerExp.normalize] at h
      exact IntegerExp.normalize_lt m v v' h
  | .typedefT _ b, v, v', h => by
      rw [IntegerExp.normalize] at h
      exact IntegerExp.normalize_lt b v v' h
  | .darray _, v, v', h => by simp [IntegerExp.normalize] at h
  | .sarray _ _, v, v', h => by simp [IntegerExp.normalize] at h
  | .aarray _ _ _, v, v', h => by simp [IntegerExp.normalize] at h
  | .reference _, v, v', h => by simp [IntegerExp.normalize] at h
  | .function _ _ _ _, v, v', h => by simp [IntegerExp.normalize] at h
  | .delegate _, v, v', h => by simp [IntegerExp.normalize] at h
  | .classT _, v, v', h => by simp [IntegerExp.normalize] at h
  | .structT _, v, v', h => by simp [IntegerExp.normalize] at h

theorem IntegerExp.toInteger_of_normalize (env : Env) (loc : Loc) (t : Typ) (v v' : Nat)
    (s : State) (h : IntegerExp.normalize t v = some v') :
    IntegerExp.toInteger env loc (some t) v s = .ok (v', .IntegerExp loc (some t) v') s := by
  unfold IntegerExp.toInteger
  simp only [h, Sem.pure_eq]

/-- C38: `IntegerExp::toInteger` normalises the value to the type of the
literal. For every literal whose type `t` the loop resolves (so that the
normalised value `v'` exists) and whose stored value `v` is a 64-bit pattern:
the call returns `v'` and stores it back as the value; a second call returns
`v'` again; `v'` is a 64-bit pattern; an enum or typedef wrapper around `t`
gives the same result as `t`. The value `v'` is, by the tag the chain ends in:
the low bit for `bit`; the low 8, 16 or 32 bits zero-extended for the unsigned,
character (`ascii`, `wchar`) and pointer types; the low 8, 16 or 32 bits
sign-extended to 64 bits for `byte`, `short` and `int`; and `v` unchanged for
`long` and `ulong`. -/
theorem IntegerExp.toInteger_normalizes (env : Env) (loc : Loc) (t : Typ) (v v' : Nat)
    (s : State) (hv : v < 2 ^ 64) (h : IntegerExp.normalize t v = some v') :
    IntegerExp.toInteger env loc (some t) v s = .ok (v', .IntegerExp loc (some t) v') s ∧
    IntegerExp.toInteger env loc (some t) v' s = .ok (v', .IntegerExp loc (some t) v') s ∧
    v' < 2 ^ 64 ∧
    (∀ sym, IntegerExp.normalize (.enumT sym t) v = some v') ∧
    (∀ sym, IntegerExp.normalize (.typedefT sym t) v = some v') ∧
    IntegerExp.normalize (.basic .Tbit) v = some (v % 2) ∧
    IntegerExp.normalize (.basic .Tuns8) v = some (v % 2 ^ 8) ∧
    IntegerExp.normalize (.basic .Tascii) v = some (v % 2 ^ 8) ∧
    IntegerExp.normalize (.basic .Tuns16) v = some (v % 2 ^ 16) ∧
    IntegerExp.normalize (.basic .Twchar) v = some (v % 2 ^ 16) ∧
    IntegerExp.normalize (.basic .Tuns32) v = some (v % 2 ^ 32) ∧
    (∀ n, IntegerExp.normalize (.pointer n) v = some (v % 2 ^ 32)) ∧
    IntegerExp.normalize (.basic .Tint8) v =
      some (if v % 2 ^ 8 < 2 ^ 7 then v % 2 ^ 8 else v % 2 ^ 8 + (2 ^ 64 - 2 ^ 8)) ∧
    IntegerExp.normalize (.basic .Tint16) v =
      some (if v % 2 ^ 16 < 2 ^ 15 then v % 2 ^ 16 else v % 2 ^ 16 + (2 ^ 64 - 2 ^ 16)) ∧
    IntegerExp.normalize (.basic .Tint32) v =
      some (if v % 2 ^ 32 < 2 ^ 31 then v % 2 ^ 32 else v % 2 ^ 32 + (2 ^ 64 - 2 ^ 32)) ∧
    IntegerExp.normalize (.basic .Tint64) v = some v ∧
    IntegerExp.normalize (.basic .Tuns64) v = some v := by
  refine ⟨IntegerExp.toInteger_of_normalize env loc t v v' s h,
    IntegerExp.toInteger_of_normalize env loc t v' v' s (IntegerExp.normalize_idem t v v' h),
    IntegerExp.normalize_lt t v v' h, ?_, ?_, ?_, rfl, rfl, rfl, rfl, rfl, fun _ => rfl,
    rfl, rfl, rfl, ?_, ?_⟩
  · intro sym; rw [IntegerExp.normalize]; exact h
  · intro sym; rw [IntegerExp.normalize]; exact h
  · simp only [IntegerExp.normalize, Nat.and_one_is_mod]
  · simp only [IntegerExp.normalize, signExtend, Option.some.injEq]
    norm_num at hv ⊢
    omega
  · simp only [IntegerExp.normalize, Option.some.injEq]
    exact Nat.mod_eq_of_lt hv

theorem IntegerExp.toInteger_normalizes_witness :
    -- the pattern 0x1FF at type `byte` (typedef of an enum over `byte`) reads -1
    IntegerExp.toInteger Env.base Loc.example
        (some (.typedefT 1 (.enumT 2 (.basic .Tint8)))) 0x1FF State.initial =
      .ok (0xFFFFFFFFFFFFFFFF, .IntegerExp Loc.example
        (some (.typedefT 1 (.enumT 2 (.basic .Tint8)))) 0xFFFFFFFFFFFFFFFF) State.initial ∧
    IntegerExp.toInteger Env.base Loc.example
        (some (.typedefT 1 (.enumT 2 (.basic .Tint8)))) 0xFFFFFFFFFFFFFFFF State.initial =
      .ok (0xFFFFFFFFFFFFFFFF, .IntegerExp Loc.example
        (some (.typedefT 1 (.enumT 2 (.basic .Tint8)))) 0xFFFFFFFFFFFFFFFF) State.initial :=
  have h := IntegerExp.toInteger_normalizes Env.base Loc.example
    (.typedefT 1 (.enumT 2 (.basic .Tint8))) 0x1FF 0xFFFFFFFFFFFFFFFF State.initial
    (by norm_num) (by decide)
  ⟨h.1, h.2.1⟩

/-- C39: the static truth value of an integer literal does not follow its
value at its type. The literal with stored value `0x100` and type `ubyte` has
`toInteger()` equal to 0, yet `isBool(TRUE)` holds and `isBool(FALSE)` does not:
`isBool` tests the stored value, bits outside the width of the type included. -/
theorem IntegerExp.isBool_unnormalized :
    IntegerExp.toInteger Env.base Loc.example (some (.basic .Tuns8)) 0x100 State.initial =
      .ok (0, .IntegerExp Loc.example (some (.basic .Tuns8)) 0) State.initial ∧
    IntegerExp.isBool 0x100 true = true ∧
    IntegerExp.isBool 0x100 false = false :=
  ⟨rfl, rfl, rfl⟩

/-- `isBool` agrees with `toInteger()` on a literal whose stored value is
already normalised to its type. -/
theorem IntegerExp.isBool_normalized (t : Typ) (v : Nat)
    (h : IntegerExp.normalize t v = some v) :
    (IntegerExp.isBool v true = true ↔ IntegerExp.normalize t v ≠ some 0) ∧
    (IntegerExp.isBool v false = true ↔ IntegerExp.normalize t v = some 0) := by
  rw [h]
  simp [IntegerExp.isBool]

/-! ### `DivAssignExp` -/

/-- For every `a /= b` whose operands analyse, that no operator overload takes
over, whose target passes `modifiableLvalue` and `checkScalar`, and whose
operands after `typeCombine()` pass `checkArithmetic`: if the right operand is
imaginary and the left operand is real with a type tag that is none of the
three imaginary tags, the `switch` reaches `default: assert(0)`. -/
theorem DivAssignExp.semantic_assert (env : Env) (loc : Loc) (op : TOK) (type : Option Typ)
    (e1 e2 e1a e2a e1m e1c e2c : Expression) (ct : Option Typ) (t1 t2 : Typ)
    (s s1 s2 s3 s4 s5 s6 s7 s8 : State)
    (h1 : env.semantic e1 s = .ok e1a s1) (h2 : env.semantic e2 s1 = .ok e2a s2)
    (ho : env.op_overload (.BinExp .DivAssignExp loc op type e1a e2a) s2 = .ok none s3)
    (hm : Expression.modifiableLvalue env e1a s3 = .ok e1m s4)
    (hs : Expression.checkScalar env e1m s4 = .ok () s5)
    (hc : env.typeCombine (.BinExp .DivAssignExp loc op e1m.type e1m e2a) s5 =
      .ok (ct, e1c, e2c) s6)
    (ha1 : Expression.checkArithmetic env e1c s6 = .ok () s7)
    (ha2 : Expression.checkArithmetic env e2c s7 = .ok () s8)
    (ht1 : e1c.type = some t1) (ht2 : e2c.type = some t2)
    (hi : env.isimaginary t2 = true) (hr : env.isreal t1 = true)
    (hty : imaginaryToReal t1.ty = none) :
    DivAssignExp.semantic env loc op type e1 e2 s = .assertFailed s8 := by
  have hb : BinExp.semantic env e1 e2 s = .ok (e1a, e2a) s2 := by
    unfold BinExp.semantic
    rw [Sem.bind_eq, h1]
    simp only []
    rw [Sem.bind_eq, h2]
    rfl
  unfold DivAssignExp.semantic BinExp.assignPrefix
  simp only [Sem.bind_eq, hb, ho, hm, hs, hc, ha1, ha2, ht2, ht1, Sem.deref_some, hi, hr,
    true_or, if_true, hty, Sem.pure_eq]
  rfl

/-- C40: the assertion in `DivAssignExp::semantic` is violated by `a /= b` with
`a` a variable of the real type `double` and `b` a variable of the imaginary
type `idouble`. The target is modifiable and scalar, both operands are
arithmetic, the right operand is imaginary and the left is real, so the guard
`t1->isreal() || t1->isimaginary()` holds; the `switch (t1->ty)` has cases for
the three imaginary tags only, and `Tfloat64` reaches `default: assert(0)`. -/
theorem DivAssignExp.semantic_imaginary_divisor_asserts :
    DivAssignExp.semantic Env.programFloat Loc.example .TOKdivass none
        (.VarExp Loc.example (some Typ.tfloat64) 15)
        (.VarExp Loc.example (some Typ.timaginary64) 16) State.initial =
      .assertFailed State.initial ∧
    DivAssignExp.semantic Env.programFloat Loc.example .TOKdivass none
        (.VarExp Loc.example (some Typ.timaginary64) 15)
        (.VarExp Loc.example (some Typ.timaginary64) 16) State.initial =
      .ok (.BinExp .AssignExp Loc.example .TOKassign (some Typ.timaginary64)
        (.VarExp Loc.example (some Typ.timaginary64) 15)
        (.VarExp Loc.example (some Typ.tfloat64) 16)) State.initial :=
  ⟨rfl, rfl⟩

/-! ### `CatExp` -/

/-- For every concatenation analysed for the first time whose operands analyse
to typed nodes that are not fixed-size arrays, that no operator overload takes
over and whose left operand is still typed after `typeCombine()`:
`CatExp::semantic` returns a node (the folded node for two string literals,
the concatenation node otherwise) in the state `typeCombine()` left; no error
is reported, whatever the two types are. -/
theorem CatExp.semantic_no_error (env : Env) (loc : Loc) (op : TOK)
    (e1 e2 e1a e2a e1c e2c : Expression) (ct : Option Typ) (t1 t2 t1c : Typ)
    (s s1 s2 s3 s4 : State)
    (h1 : env.semantic e1 s = .ok e1a s1) (h2 : env.semantic e2 s1 = .ok e2a s2)
    (ho : env.op_overload (.BinExp .CatExp loc op none e1a e2a) s2 = .ok none s3)
    (ht1 : e1a.type = some t1) (ht2 : e2a.type = some t2)
    (hs1 : t1.ty ≠ .Tsarray) (hs2 : t2.ty ≠ .Tsarray)
    (hc : env.typeCombine (.BinExp .CatExp loc op none e1a e2a) s3 = .ok (ct, e1c, e2c) s4)
    (htc : e1c.type = some t1c) :
    CatExp.semantic env loc op none e1 e2 s =
      if e1c.op = .TOKstring ∧ e2c.op = .TOKstring then
        .ok (env.optimize (.BinExp .CatExp loc op ct e1c e2c)) s4
      else .ok (.BinExp .CatExp loc op ct e1c e2c) s4 := by
  have hb : BinExp.semantic env e1 e2 s = .ok (e1a, e2a) s2 := by
    unfold BinExp.semantic
    rw [Sem.bind_eq, h1]
    simp only []
    rw [Sem.bind_eq, h2]
    rfl
  unfold CatExp.semantic
  simp only [Sem.bind_eq, hb, ho, ht1, ht2, Sem.deref_some, hs1, hs2, if_false, Sem.pure_eq,
    hc, htc, Option.isSome_some, if_true]
  by_cases hstr : e1c.op = .TOKstring ∧ e2c.op = .TOKstring
  · rw [if_pos hstr, if_pos hstr]
    rfl
  · rw [if_neg hstr, if_neg hstr]
    rfl

/-- C34: the concatenation `1 ~ 2` of two `int` literals, which are neither
arrays nor string literals, is accepted: `CatExp::semantic` returns the
concatenation node typed `int` and reports nothing; and so is `a ~ 2` with `a`
of type `int[]`, whose operand types differ after combination. The error
"Can only concatenate arrays" is not reported. -/
theorem CatExp.semantic_accepts_non_arrays :
    CatExp.semantic Env.base Loc.example .TOKcat none
        (.IntegerExp Loc.example (some Typ.tint32) 1)
        (.IntegerExp Loc.example (some Typ.tint32) 2) State.initial =
      .ok (.BinExp .CatExp Loc.example .TOKcat (some Typ.tint32)
        (.IntegerExp Loc.example (some Typ.tint32) 1)
        (.IntegerExp Loc.example (some Typ.tint32) 2)) State.initial ∧
    CatExp.semantic Env.base Loc.example .TOKcat none
        (.VarExp Loc.example (some (.darray Typ.tint32)) 15)
        (.IntegerExp Loc.example (some Typ.tint32) 2) State.initial =
      .ok (.BinExp .CatExp Loc.example .TOKcat (some (.darray Typ.tint32))
        (.VarExp Loc.example (some (.darray Typ.tint32)) 15)
        (.IntegerExp Loc.example (some Typ.tint32) 2)) State.initial ∧
    (Typ.darray Typ.tint32) ≠ Typ.tint32 :=
  ⟨rfl, rfl, by decide⟩

/-! ### Rendering -/

/-- C35 (counterexample): rendering does not identify expressions. The trees
`(a + b) * c` and `a + (b * c)` are different, and `BinExp::toCBuffer`, which
writes no parentheses, renders both as `a + b * c`. -/
theorem Expression.toCBuffer_regroup_counterexample :
    Expression.toCBuffer Token.exampleChars (fun _ => "exp")
        (.BinExp .MulExp Loc.example .TOKmul (some Typ.tint32)
          (.BinExp .AddExp Loc.example .TOKadd (some Typ.tint32)
            (.IdentifierExp Loc.example (some Typ.tint32) "a")
            (.IdentifierExp Loc.example (some Typ.tint32) "b"))
          (.IdentifierExp Loc.example (some Typ.tint32) "c")) = "a + b * c" ∧
    Expression.toCBuffer Token.exampleChars (fun _ => "exp")
        (.BinExp .AddExp Loc.example .TOKadd (some Typ.tint32)
          (.IdentifierExp Loc.example (some Typ.tint32) "a")
          (.BinExp .MulExp Loc.example .TOKmul (some Typ.tint32)
            (.IdentifierExp Loc.example (some Typ.tint32) "b")
            (.IdentifierExp Loc.example (some Typ.tint32) "c"))) = "a + b * c" ∧
    Expression.BinExp .MulExp Loc.example .TOKmul (some Typ.tint32)
        (.BinExp .AddExp Loc.example .TOKadd (some Typ.tint32)
          (.IdentifierExp Loc.example (some Typ.tint32) "a")
          (.IdentifierExp Loc.example (some Typ.tint32) "b"))
        (.IdentifierExp Loc.example (some Typ.tint32) "c") ≠
      Expression.BinExp .AddExp Loc.example .TOKadd (some Typ.tint32)
        (.IdentifierExp Loc.example (some Typ.tint32) "a")
        (.BinExp .MulExp Loc.example .TOKmul (some Typ.tint32)
          (.IdentifierExp Loc.example (some Typ.tint32) "b")
          (.IdentifierExp Loc.example (some Typ.tint32) "c")) :=
  ⟨by decide, by decide, fun h => by injection h with h1; exact BinClass.noConfusion h1⟩

/-- C35 (amended): `BinExp::toCBuffer` renders a binary node as the rendering
of its left operand, a space, the spelling of its operator, a space and the
rendering of its right operand, with no parentheses. So, for all binary classes
`c1`, `c2` without a `toCBuffer` of their own and all operands, the two
groupings `(x op1 y) op2 z` and `x op1 (y op2 z)` have the same rendering: the
text gives the sequence of leaves and operators of a tree, not its shape. -/
theorem Expression.toCBuffer_regroup (tokToChars : TOK → String)
    (other : Expression → String) (c1 c2 : BinClass) (l1 l2 l3 l4 : Loc) (op1 op2 : TOK)
    (t1 t2 t3 t4 : Option Typ) (x y z : Expression)
    (h1 : c1.ownToCBuffer = false) (h2 : c2.ownToCBuffer = false) :
    Expression.toCBuffer tokToChars other (.BinExp c2 l2 op2 t2 (.BinExp c1 l1 op1 t1 x y) z) =
      Expression.toCBuffer tokToChars other x ++ " " ++ tokToChars op1 ++ " " ++
        Expression.toCBuffer tokToChars other y ++ " " ++ tokToChars op2 ++ " " ++
        Expression.toCBuffer tokToChars other z ∧
    Expression.toCBuffer tokToChars other (.BinExp c2 l2 op2 t2 (.BinExp c1 l1 op1 t1 x y) z) =
      Expression.toCBuffer tokToChars other (.BinExp c1 l3 op1 t3 x (.BinExp c2 l4 op2 t4 y z)) := by
  simp only [Expression.toCBuffer, h1, h2, Bool.false_eq_true, if_false, String.append_assoc,
    and_self]

theorem Expression.toCBuffer_regroup_witness :
    Expression.toCBuffer Token.exampleChars (fun _ => "exp")
        (.BinExp .MinExp Loc.example .TOKmin none
          (.BinExp .MinExp Loc.example .TOKmin none
            (.IdentifierExp Loc.example none "a") (.IdentifierExp Loc.example none "b"))
          (.IdentifierExp Loc.example none "c")) =
      Expression.toCBuffer Token.exampleChars (fun _ => "exp")
        (.BinExp .MinExp Loc.example .TOKmin none
          (.IdentifierExp Loc.example none "a")
          (.BinExp .MinExp Loc.example .TOKmin none
            (.IdentifierExp Loc.example none "b") (.IdentifierExp Loc.example none "c"))) :=
  (Expression.toCBuffer_regroup Token.exampleChars (fun _ => "exp") .MinExp .MinExp
    Loc.example Loc.example Loc.example Loc.example .TOKmin .TOKmin none none none none
    (.IdentifierExp Loc.example none "a") (.IdentifierExp Loc.example none "b")
    (.IdentifierExp Loc.example none "c") rfl rfl).2

/-! ### `StringExp::compare` -/

theorem wcscmp_self (a : List Nat) : wcscmp a a = 0 := by
  induction a with
  | nil => rfl
  | cons x s ih =>
      simp only [wcscmp, lt_self_iff_false, if_false]
      split_ifs
      · rfl
      · exact ih

theorem wcscmp_antisymm (a : List Nat) : ∀ b, wcscmp b a = - wcscmp a b := by
  induction a with
  | nil =>
      intro b
      cases b with
      | nil => rfl
      | cons y t =>
          simp only [wcscmp]
          split_ifs <;> rfl
  | cons x s ih =>
      intro b
      cases b with
      | nil =>
          simp only [wcscmp]
          split_ifs <;> rfl
      | cons y t =>
          simp only [wcscmp]
          by_cases h1 : x < y
          · have h2 : ¬ y < x := by omega
            simp [h1, h2]
          · by_cases h2 : y < x
            · simp [h1, h2]
            · have h3 : x = y := by omega
              subst h3
              by_cases h4 : x = 0
              · simp [h4]
              · simp [h4, ih t]

theorem wcscmp_eq_zero_iff (a : List Nat) (ha : ∀ x ∈ a, x ≠ 0) :
    ∀ b, (∀ x ∈ b, x ≠ 0) → (wcscmp a b = 0 ↔ a = b) := by
  induction a with
  | nil =>
      intro b hb
      cases b with
      | nil => simp [wcscmp]
      | cons y t =>
          have hy : y ≠ 0 := hb y (List.mem_cons_self _ _)
          simp [wcscmp, hy]
  | cons x s ih =>
      intro b hb
      have hx : x ≠ 0 := ha x (List.mem_cons_self _ _)
      cases b with
      | nil => simp [wcscmp, hx]
      | cons y t =>
          have hs : ∀ z ∈ s, z ≠ 0 := fun z hz => ha z (List.mem_cons_of_mem _ hz)
          have ht : ∀ z ∈ t, z ≠ 0 := fun z hz => hb z (List.mem_cons_of_mem _ hz)
          simp only [wcscmp]
          by_cases h1 : x < y
          · have : x ≠ y := by omega
            simp [h1, this]
          · by_cases h2 : y < x
            · have : x ≠ y := by omega
              simp [h1, h2, this]
            · have h3 : x = y := by omega
              subst h3
              simp [hx, ih hs t ht]

theorem wcscmp_trans (a : List Nat) (ha : ∀ x ∈ a, x ≠ 0) :
    ∀ b c, (∀ x ∈ b, x ≠ 0) → (∀ x ∈ c, x ≠ 0) →
      wcscmp a b ≤ 0 → wcscmp b c ≤ 0 → wcscmp a c ≤ 0 := by
  induction a with
  | nil =>
      intro b c _ _ _ _
      cases c with
      | nil => simp [wcscmp]
      | cons z u =>
          simp only [wcscmp]
          split_ifs <;> decide
  | cons x s ih =>
      intro b c hb hc hab hbc
      have hx : x ≠ 0 := ha x (List.mem_cons_self _ _)
      have hs : ∀ z ∈ s, z ≠ 0 := fun z hz => ha z (List.mem_cons_of_mem _ hz)
      cases b with
      | nil => simp [wcscmp, hx] at hab
      | cons y t =>
          have hy : y ≠ 0 := hb y (List.mem_cons_self _ _)
          have ht : ∀ z ∈ t, z ≠ 0 := fun z hz => hb z (List.mem_cons_of_mem _ hz)
          cases c with
          | nil => simp [wcscmp, hy] at hbc
          | cons z u =>
              have hu : ∀ w ∈ u, w ≠ 0 := fun w hw => hc w (List.mem_cons_of_mem _ hw)
              simp only [wcscmp] at hab hbc ⊢
              by_cases hxy : x < y
              · by_cases hyz : y < z
                · have : x < z := by omega
                  simp [this]
                · by_cases hzy : z < y
                  · simp [hyz, hzy] at hbc
                  · have : x < z := by omega
                    simp [this]
              · by_cases hyx : y < x
                · simp [hxy, hyx] at hab
                · have hxy' : x = y := by omega
                  subst hxy'
                  simp only [lt_self_iff_false, if_false, hx] at hab
                  by_cases hxz : x < z
                  · simp [hxz]
                  · by_cases hzx : z < x
                    · simp [hxz, hzx] at hbc
                    · have hxz' : x = z := by omega
                      subst hxz'
                      simp only [lt_self_iff_false, if_false, hx] at hbc ⊢
                      exact ih hs t u ht hu hab hbc

theorem toInt32_of_small (n : Int) (h1 : -(2 ^ 31) ≤ n) (h2 : n < 2 ^ 31) : toInt32 n = n := by
  unfold toInt32
  norm_num at h1 h2 ⊢
  split_ifs <;> omega

/-- The value of `StringExp::compare` on two literals whose `len` field is the
number of code units of the string and is below `2 ^ 31`. -/
theorem StringExp.compare_eq (a b : List Nat) (lb : Loc) (tb : Option Typ) (kb : Nat)
    (ha : a.length < 2 ^ 31) (hb : b.length < 2 ^ 31) :
    StringExp.compare a a.length (.StringExp lb tb b b.length kb) =
      some (if a.length = b.length then wcscmp a b
        else (a.length : Int) - (b.length : Int)) := by
  have h1 : toInt32 (a.length : Int) = a.length :=
    toInt32_of_small _ (by norm_num; omega) (by exact_mod_cast ha)
  have h2 : toInt32 (b.length : Int) = b.length :=
    toInt32_of_small _ (by norm_num; omega) (by exact_mod_cast hb)
  have ha' : (a.length : Int) < 2 ^ 31 := by exact_mod_cast ha
  have hb' : (b.length : Int) < 2 ^ 31 := by exact_mod_cast hb
  unfold StringExp.compare
  simp only [h1, h2, Nat.cast_inj]
  by_cases h : a.length = b.length
  · simp only [h, if_true]
  · simp only [h, if_false]
    rw [toInt32_of_small _ (by norm_num at ha' hb' ⊢; omega) (by norm_num at ha' hb' ⊢; omega)]

/-- C29 (counterexample): the literal "aa" does not order before "b". Its
content precedes that of "b" (`wcscmp` is negative), but `StringExp::compare`
compares the lengths first and returns `2 - 1 = 1`. -/
theorem StringExp.compare_aa_b_counterexample :
    StringExp.compare [0x61, 0x61] 2 (.StringExp Loc.example none [0x62] 1 0) = some 1 ∧
    wcscmp [0x61, 0x61] [0x62] = -1 :=
  ⟨by decide, by decide⟩

/-- C29 (amended): `StringExp::compare` orders two string literals (of fewer
than `2 ^ 31` code units) by length first and by content only as the
tie-break: the result is negative when the first is shorter, positive when it
is longer, and for equal lengths it is the result of `wcscmp` on the contents. -/
theorem StringExp.compare_length_first (a b : List Nat) (lb : Loc) (tb : Option Typ)
    (kb : Nat) (ha : a.length < 2 ^ 31) (hb : b.length < 2 ^ 31) :
    ∃ v : Int, StringExp.compare a a.length (.StringExp lb tb b b.length kb) = some v ∧
      (a.length < b.length → v < 0) ∧ (b.length < a.length → 0 < v) ∧
      (a.length = b.length → v = wcscmp a b) := by
  refine ⟨_, StringExp.compare_eq a b lb tb kb ha hb, ?_, ?_, ?_⟩
  · intro h
    rw [if_neg (by omega)]
    omega
  · intro h
    rw [if_neg (by omega)]
    omega
  · intro h
    rw [if_pos h]

theorem StringExp.compare_length_first_witness :
    ∃ v : Int, StringExp.compare [0x62] [0x62].length
        (.StringExp Loc.example none [0x61, 0x61] [0x61, 0x61].length 0) = some v ∧
      ([0x62].length < [0x61, 0x61].length → v < 0) ∧
      ([0x61, 0x61].length < [0x62].length → 0 < v) ∧
      ([0x62].length = [0x61, 0x61].length → v = wcscmp [0x62] [0x61, 0x61]) :=
  StringExp.compare_length_first [0x62] [0x61, 0x61] Loc.example none 0
    (by decide) (by decide)

/-- C37: `StringExp::compare` is a consistent ordering. For all string literals
`a`, `b`, `c` without embedded NUL whose `len` is the number of their code
units and is below `2 ^ 31`: `compare(a, a)` is 0; `compare(a, b)` and
`compare(b, a)` have opposite signs or are both 0; `compare(a, b)` is 0 exactly
when `a` and `b` have equal length and equal content; and `compare(a, b) <= 0`
with `compare(b, c) <= 0` gives `compare(a, c) <= 0`. -/
theorem StringExp.compare_ordering (a b c : List Nat) (la lb lc : Loc)
    (ta tb tc : Option Typ) (ka kb kc : Nat)
    (ha0 : ∀ x ∈ a, x ≠ 0) (hb0 : ∀ x ∈ b, x ≠ 0) (hc0 : ∀ x ∈ c, x ≠ 0)
    (ha : a.length < 2 ^ 31) (hb : b.length < 2 ^ 31) (hc : c.length < 2 ^ 31) :
    StringExp.compare a a.length (.StringExp la ta a a.length ka) = some 0 ∧
    (∃ x y : Int,
      StringExp.compare a a.length (.StringExp lb tb b b.length kb) = some x ∧
      StringExp.compare b b.length (.StringExp la ta a a.length ka) = some y ∧
      (x < 0 ↔ 0 < y) ∧ (0 < x ↔ y < 0) ∧ (x = 0 ↔ y = 0) ∧
      (x = 0 ↔ (a.length = b.length ∧ a = b))) ∧
    (∃ x y z : Int,
      StringExp.compare a a.length (.StringExp lb tb b b.length kb) = some x ∧
      StringExp.compare b b.length (.StringExp lc tc c c.length kc) = some y ∧
      StringExp.compare a a.length (.StringExp lc tc c c.length kc) = some z ∧
      (x ≤ 0 → y ≤ 0 → z ≤ 0)) := by
  refine ⟨?_, ?_, ?_⟩
  · rw [StringExp.compare_eq a a la ta ka ha ha, if_pos rfl, wcscmp_self]
  · refine ⟨_, _, StringExp.compare_eq a b lb tb kb ha hb,
      StringExp.compare_eq b a la ta ka hb ha, ?_⟩
    by_cases h : a.length = b.length
    · rw [if_pos h, if_pos h.symm, wcscmp_antisymm a b]
      refine ⟨by omega, by omega, by omega, ?_⟩
      rw [wcscmp_eq_zero_iff a ha0 b hb0]
      exact ⟨fun h' => ⟨h, h'⟩, fun h' => h'.2⟩
    · rw [if_neg h, if_neg (fun h' => h h'.symm)]
      refine ⟨by omega, by omega, by omega, ?_⟩
      constructor
      · intro h'
        omega
      · intro h'
        exact absurd h'.1 h
  · refine ⟨_, _, _, StringExp.compare_eq a b lb tb kb ha hb,
      StringExp.compare_eq b c lc tc kc hb hc, StringExp.compare_eq a c lc tc kc ha hc, ?_⟩
    by_cases hab : a.length = b.length
    · by_cases hbc : b.length = c.length
      · rw [if_pos hab, if_pos hbc, if_pos (hab.trans hbc)]
        exact wcscmp_trans a ha0 b c hb0 hc0
      · rw [if_pos hab, if_neg hbc, if_neg (by omega)]
        intro _ h2
        omega
    · by_cases hbc : b.length = c.length
      · rw [if_neg hab, if_pos hbc, if_neg (by omega)]
        intro h1 _
        omega
      · rw [if_neg hab, if_neg hbc]
        intro h1 h2
        have hlt : a.length < c.length := by omega
        rw [if_neg (by omega)]
        omega

theorem StringExp.compare_ordering_witness :
    -- "ab", "ac", "b"
    StringExp.compare [0x61, 0x62] 2 (.StringExp Loc.example none [0x61, 0x62] 2 0) = some 0 ∧
    StringExp.compare [0x61, 0x62] 2 (.StringExp Loc.example none [0x61, 0x63] 2 0) =
      some (-1) ∧
    StringExp.compare [0x61, 0x63] 2 (.StringExp Loc.example none [0x61, 0x62] 2 0) = some 1 :=
  ⟨(StringExp.compare_ordering [0x61, 0x62] [0x61, 0x63] [0x62] Loc.example Loc.example
      Loc.example none none none 0 0 0 (by decide) (by decide) (by decide)
      (by decide) (by decide) (by decide)).1,
    by decide, by decide⟩

/-! ### `StringExp::toCBuffer` -/

/-- C28 (counterexample): an embedded double quote is not doubled. The literal
with the three code units `a`, `"`, `b` renders as `"a\"b"`: the quote is
written after a backslash. -/
theorem StringExp.toCBuffer_quote_counterexample :
    StringExp.toCBuffer isprintC [0x61, 0x22, 0x62] = "\"a\\\"b\"" ∧
    StringExp.toCBuffer isprintC [0x61, 0x22, 0x62] ≠ "\"a\"\"b\"" :=
  ⟨by decide, by decide⟩

/-- C28 (amended): `StringExp::toCBuffer` writes an opening double quote, then
for each code unit up to the first NUL one piece, then a closing double quote.
The piece of a code unit `c` (not NUL, below `2 ^ 32`) is: `c` itself if it is
printable and not the double quote; a backslash followed by the double quote
if it is the double quote (and printable); the hex escape `\xNN` if it is not
printable and at most `0xFF`; the escape `\uNNNN` if it is not printable and
above `0xFF`. A NUL code unit ends the text. -/
theorem StringExp.toCBuffer_pieces (isprint : Nat → Bool) (c : Nat) (s : List Nat)
    (h0 : c ≠ 0) (h32 : c < 2 ^ 32) :
    StringExp.toCBuffer isprint (c :: s) =
      "\"" ++ StringExp.toCBufferLoop isprint (c :: s) ++ "\"" ∧
    StringExp.toCBufferLoop isprint (0 :: s) = "" ∧
    StringExp.toCBufferLoop isprint [] = "" ∧
    (isprint c = true → c ≠ 0x22 →
      StringExp.toCBufferLoop isprint (c :: s) =
        String.singleton (Char.ofNat (c % 256)) ++ StringExp.toCBufferLoop isprint s) ∧
    (isprint c = true → c = 0x22 →
      StringExp.toCBufferLoop isprint (c :: s) =
        "\\" ++ "\"" ++ StringExp.toCBufferLoop isprint s) ∧
    (isprint c = false → c ≠ 0x22 → c ≤ 0xFF →
      StringExp.toCBufferLoop isprint (c :: s) =
        "\\x" ++ fmtHex 2 c ++ StringExp.toCBufferLoop isprint s) ∧
    (isprint c = false → 0xFF < c →
      StringExp.toCBufferLoop isprint (c :: s) =
        "\\u" ++ fmtHex 4 c ++ StringExp.toCBufferLoop isprint s) := by
  have hhigh : c &&& 0xFFFFFF00 ≠ 0 ↔ 0xFF < c := by
    constructor
    · intro h
      by_contra hle
      apply h
      apply Nat.eq_of_testBit_eq
      intro i
      rw [Nat.testBit_and, Nat.zero_testBit]
      by_cases hi : i < 8
      · have : Nat.testBit 0xFFFFFF00 i = false := by
          interval_cases i <;> decide
        rw [this, Bool.and_false]
      · have : Nat.testBit c i = false :=
          Nat.testBit_eq_false_of_lt (lt_of_lt_of_le (by omega : c < 2 ^ 8)
            (Nat.pow_le_pow_right (by norm_num) (by omega)))
        rw [this, Bool.false_and]
    · intro h hz
      have hc : 2 ^ 8 ≤ c := by norm_num; omega
      obtain ⟨i, hi8, hit⟩ := Nat.ge_two_pow_implies_high_bit_true hc
      have hi32 : i < 32 := by
        by_contra hge
        have : Nat.testBit c i = false :=
          Nat.testBit_eq_false_of_lt (lt_of_lt_of_le h32
            (Nat.pow_le_pow_right (by norm_num) (by omega)))
        rw [this] at hit
        exact Bool.noConfusion hit
      have hbit : Nat.testBit (c &&& 0xFFFFFF00) i = true := by
        rw [Nat.testBit_and, hit, Bool.true_and]
        interval_cases i <;> decide
      rw [hz, Nat.zero_testBit] at hbit
      exact Bool.noConfusion hbit
  refine ⟨rfl, ?_, rfl, ?_, ?_, ?_, ?_⟩
  · simp [StringExp.toCBufferLoop]
  · intro hp hq
    simp [StringExp.toCBufferLoop, h0, hq, hp]
  · intro hp hq
    subst hq
    simp only [StringExp.toCBufferLoop, hp, if_true, if_neg h0]
    rfl
  · intro hp hq hle
    have hn : ¬ (c &&& 0xFFFFFF00 ≠ 0) := fun h => absurd (hhigh.mp h) (by omega)
    rw [StringExp.toCBufferLoop, if_neg h0, if_neg hq]
    simp only [hp, Bool.false_eq_true, if_false, if_neg hn, String.empty_append]
  · intro hp hgt
    have hq : c ≠ 0x22 := by omega
    rw [StringExp.toCBufferLoop, if_neg h0, if_neg hq]
    simp only [hp, Bool.false_eq_true, if_false, if_pos (hhigh.mpr hgt), String.empty_append]

theorem StringExp.toCBuffer_pieces_witness :
    -- `a`, a double quote, a line feed and the code unit 0x263A
    StringExp.toCBuffer isprintC [0x61, 0x22, 0x0A, 0x263A] = "\"a\\\"\\x0a\\u263a\"" ∧
    StringExp.toCBufferLoop isprintC (0x263A :: []) =
      "\\u" ++ fmtHex 4 0x263A ++ StringExp.toCBufferLoop isprintC [] :=
  ⟨by decide,
    (StringExp.toCBuffer_pieces isprintC 0x263A [] (by decide) (by decide)).2.2.2.2.2.2
      (by decide) (by decide)⟩

/-! ### Pointer arithmetic -/

theorem BinExp.semantic_ok (env : Env) (e1 e2 e1a e2a : Expression) (s s1 s2 : State)
    (h1 : env.semantic e1 s = .ok e1a s1) (h2 : env.semantic e2 s1 = .ok e2a s2) :
    BinExp.semantic env e1 e2 s = .ok (e1a, e2a) s2 := by
  unfold BinExp.semantic
  rw [Sem.bind_eq, h1]
  simp only []
  rw [Sem.bind_eq, h2]
  rfl

/-- C23: for every subtraction analysed for the first time whose two analysed
operands both have pointer type (and that no operator overload takes over),
`MinExp::semantic` returns the division node `(ptr1 - ptr2) / stride`: its left
operand is the subtraction node with the operands `typeCombine()` left, its
right operand an integer literal whose value is the size of the pointee type of
the right operand, and both the subtraction and the division are typed `int`. -/
theorem MinExp.semantic_pointer_difference (env : Env) (loc : Loc) (op : TOK)
    (e1 e2 e1a e2a e1c e2c : Expression) (ct : Option Typ) (t1 t2 t2c n2 : Typ)
    (s s1 s2 s3 s4 : State)
    (h1 : env.semantic e1 s = .ok e1a s1) (h2 : env.semantic e2 s1 = .ok e2a s2)
    (ho : env.op_overload (.BinExp .MinExp loc op none e1a e2a) s2 = .ok none s3)
    (ht1 : e1a.type = some t1) (ht2 : e2a.type = some t2)
    (hp1 : t1.ty = .Tpointer) (hp2 : t2.ty = .Tpointer)
    (hc : env.typeCombine (.BinExp .MinExp loc op none e1a e2a) s3 = .ok (ct, e1c, e2c) s4)
    (ht2c : e2c.type = some t2c) (hn : t2c.next = some n2)
    (hsz : env.typeSize n2 < 2 ^ 31) :
    MinExp.semantic env loc op none e1 e2 s =
      .ok (.BinExp .DivExp loc .TOKdiv (some Typ.tint32)
        (.BinExp .MinExp loc op (some Typ.tint32) e1c e2c)
        (.IntegerExp ⟨none, 0⟩ (some Typ.tint32) (env.typeSize n2))) s4 := by
  have hse : signExtend 32 (env.typeSize n2) = env.typeSize n2 := by
    unfold signExtend
    norm_num at hsz ⊢
    split_ifs <;> omega
  unfold MinExp.semantic
  simp only [Sem.bind_eq, BinExp.semantic_ok env e1 e2 e1a e2a s s1 s2 h1 h2, ho, ht1, ht2,
    Sem.deref_some, hp1, hp2, if_true, hc, ht2c, hn, hse, Sem.pure_eq]

theorem MinExp.semantic_pointer_difference_witness :
    -- `p - q` with `p`, `q` of type `long*`: the divisor is 8
    MinExp.semantic Env.base Loc.example .TOKmin none
        (.VarExp Loc.example (some (.pointer Typ.tint64)) 15)
        (.VarExp Loc.example (some (.pointer Typ.tint64)) 16) State.initial =
      .ok (.BinExp .DivExp Loc.example .TOKdiv (some Typ.tint32)
        (.BinExp .MinExp Loc.example .TOKmin (some Typ.tint32)
          (.VarExp Loc.example (some (.pointer Typ.tint64)) 15)
          (.VarExp Loc.example (some (.pointer Typ.tint64)) 16))
        (.IntegerExp ⟨none, 0⟩ (some Typ.tint32) 8)) State.initial :=
  MinExp.semantic_pointer_difference Env.base Loc.example .TOKmin
    (.VarExp Loc.example (some (.pointer Typ.tint64)) 15)
    (.VarExp Loc.example (some (.pointer Typ.tint64)) 16)
    (.VarExp Loc.example (some (.pointer Typ.tint64)) 15)
    (.VarExp Loc.example (some (.pointer Typ.tint64)) 16)
    (.VarExp Loc.example (some (.pointer Typ.tint64)) 15)
    (.VarExp Loc.example (some (.pointer Typ.tint64)) 16)
    (some (.pointer Typ.tint64)) (.pointer Typ.tint64) (.pointer Typ.tint64)
    (.pointer Typ.tint64) Typ.tint64
    State.initial State.initial State.initial State.initial State.initial
    rfl rfl rfl rfl rfl rfl rfl rfl rfl rfl (by decide)

/-- C24: pointer scaling, with `scaleFactor()` the rewrite of the spec. For
analysed operands typed `t1` and `t2` (and no operator overload): the addition
of a pointer to `n` and an integral operand, and the subtraction of an integral
operand from a pointer to `n`, return the node typed with the pointer type in
which the integral operand `i` has become the product of `i` and the literal of
the size of `n`; so does the addition of an integral operand and a pointer, in
that order. The operand types are not combined. A subtraction of a pointer from
a non-pointer ends the pass with "can't subtract pointer from T". -/
theorem AddMin.semantic_pointer_scaling (env : Env) (loc : Loc) (op : TOK)
    (e1 e2 e1a e2a : Expression) (t1 t2 : Typ) (s s1 s2 sa sm : State)
    (hsf : ∀ e st, env.scaleFactor e st = .ok (BinExp.scaleFactorSpec env.typeSize e) st)
    (h1 : env.semantic e1 s = .ok e1a s1) (h2 : env.semantic e2 s1 = .ok e2a s2)
    (hoa : env.op_overload (.BinExp .AddExp loc op none e1a e2a) s2 = .ok none sa)
    (hom : env.op_overload (.BinExp .MinExp loc op none e1a e2a) s2 = .ok none sm)
    (ht1 : e1a.type = some t1) (ht2 : e2a.type = some t2) :
    (∀ n, t1 = .pointer n → env.isintegral t2 = true →
      AddExp.semantic env loc op none e1 e2 s =
        .ok (.BinExp .AddExp loc op (some (.pointer n)) e1a
          (.BinExp .MulExp loc .TOKmul (some t2) e2a
            (.IntegerExp loc (some t2) (env.typeSize n)))) sa) ∧
    (∀ n, t2 = .pointer n → t1.ty ≠ .Tpointer → env.isintegral t1 = true →
      AddExp.semantic env loc op none e1 e2 s =
        .ok (.BinExp .AddExp loc op (some (.pointer n))
          (.BinExp .MulExp loc .TOKmul (some t1) e1a
            (.IntegerExp loc (some t1) (env.typeSize n))) e2a) sa) ∧
    (∀ n, t1 = .pointer n → t2.ty ≠ .Tpointer → env.isintegral t2 = true →
      MinExp.semantic env loc op none e1 e2 s =
        .ok (.BinExp .MinExp loc op (some (.pointer n)) e1a
          (.BinExp .MulExp loc .TOKmul (some t2) e2a
            (.IntegerExp loc (some t2) (env.typeSize n)))) sm) ∧
    (t1.ty ≠ .Tpointer → t2.ty = .Tpointer →
      MinExp.semantic env loc op none e1 e2 s =
        .exit (Expression.errorState env loc
          ("can't subtract pointer from " ++ env.typeToChars t1) sm)) := by
  have hb := BinExp.semantic_ok env e1 e2 e1a e2a s s1 s2 h1 h2
  refine ⟨?_, ?_, ?_, ?_⟩
  · intro n hn hi
    subst hn
    have hcond : ((Typ.pointer n).ty = .Tpointer ∧ env.isintegral t2 = true) ∨
        (t2.ty = .Tpointer ∧ env.isintegral (Typ.pointer n) = true) := Or.inl ⟨rfl, hi⟩
    have harr : ((Typ.pointer n).isArrayTy && t2.isArrayTy) = false := by
      simp [Typ.isArrayTy, Typ.ty]
    unfold AddExp.semantic
    simp only [Sem.bind_eq, hb, hoa, ht1, ht2, Sem.deref_some, harr, Bool.false_eq_true,
      if_false, Sem.pure_eq, if_pos hcond, hsf]
    simp only [BinExp.scaleFactorSpec, ht1, ht2]
  · intro n hn hp1 hi
    subst hn
    have hcond : (t1.ty = .Tpointer ∧ env.isintegral (Typ.pointer n) = true) ∨
        ((Typ.pointer n).ty = .Tpointer ∧ env.isintegral t1 = true) := Or.inr ⟨rfl, hi⟩
    have harr : (t1.isArrayTy && (Typ.pointer n).isArrayTy) = false := by
      simp [Typ.isArrayTy, Typ.ty]
    unfold AddExp.semantic
    simp only [Sem.bind_eq, hb, hoa, ht1, ht2, Sem.deref_some, harr, Bool.false_eq_true,
      if_false, Sem.pure_eq, if_pos hcond, hsf]
    cases t1 <;> first
      | exact absurd rfl hp1
      | simp only [BinExp.scaleFactorSpec, ht1, ht2]
  · intro n hn hp2 hi
    subst hn
    have hp1 : (Typ.pointer n).ty = .Tpointer := rfl
    unfold MinExp.semantic
    simp only [Sem.bind_eq, hb, hom, ht1, ht2, Sem.deref_some, hp1, hp2, if_true, if_false,
      hi, hsf]
    simp only [BinExp.scaleFactorSpec, ht1, ht2]
  · intro hp1 hp2
    unfold MinExp.semantic
    simp only [Sem.bind_eq, hb, hom, ht1, ht2, Sem.deref_some, hp1, hp2, if_true, if_false,
      Expression.error_eq]

/-- With `p` of type `long*` and 8-byte `long`: `p + 3` becomes `p + 3 * 8`,
an offset of 24 bytes, `3 + p` becomes `3 * 8 + p`, `p - 3` becomes
`p - 3 * 8`, and `3 - p` is rejected. -/
theorem AddMin.semantic_pointer_scaling_witness :
    AddExp.semantic Env.programPointer Loc.example .TOKadd none
        (.VarExp Loc.example (some (.pointer Typ.tint64)) 15)
        (.IntegerExp Loc.example (some Typ.tint32) 3) State.initial =
      .ok (.BinExp .AddExp Loc.example .TOKadd (some (.pointer Typ.tint64))
        (.VarExp Loc.example (some (.pointer Typ.tint64)) 15)
        (.BinExp .MulExp Loc.example .TOKmul (some Typ.tint32)
          (.IntegerExp Loc.example (some Typ.tint32) 3)
          (.IntegerExp Loc.example (some Typ.tint32) 8))) State.initial ∧
    3 * Env.programPointer.typeSize Typ.tint64 = 24 ∧
    AddExp.semantic Env.programPointer Loc.example .TOKadd none
        (.IntegerExp Loc.example (some Typ.tint32) 3)
        (.VarExp Loc.example (some (.pointer Typ.tint64)) 15) State.initial =
      .ok (.BinExp .AddExp Loc.example .TOKadd (some (.pointer Typ.tint64))
        (.BinExp .MulExp Loc.example .TOKmul (some Typ.tint32)
          (.IntegerExp Loc.example (some Typ.tint32) 3)
          (.IntegerExp Loc.example (some Typ.tint32) 8))
        (.VarExp Loc.example (some (.pointer Typ.tint64)) 15)) State.initial ∧
    MinExp.semantic Env.programPointer Loc.example .TOKmin none
        (.VarExp Loc.example (some (.pointer Typ.tint64)) 15)
        (.IntegerExp Loc.example (some Typ.tint32) 3) State.initial =
      .ok (.BinExp .MinExp Loc.example .TOKmin (some (.pointer Typ.tint64))
        (.VarExp Loc.example (some (.pointer Typ.tint64)) 15)
        (.BinExp .MulExp Loc.example .TOKmul (some Typ.tint32)
          (.IntegerExp Loc.example (some Typ.tint32) 3)
          (.IntegerExp Loc.example (some Typ.tint32) 8))) State.initial ∧
    MinExp.semantic Env.programPointer Loc.example .TOKmin none
        (.IntegerExp Loc.example (some Typ.tint32) 3)
        (.VarExp Loc.example (some (.pointer Typ.tint64)) 15) State.initial =
      .exit (Expression.errorState Env.programPointer Loc.example
        "can't subtract pointer from type" State.initial) :=
  ⟨(AddMin.semantic_pointer_scaling Env.programPointer Loc.example .TOKadd
      (.VarExp Loc.example (some (.pointer Typ.tint64)) 15)
      (.IntegerExp Loc.example (some Typ.tint32) 3)
      (.VarExp Loc.example (some (.pointer Typ.tint64)) 15)
      (.IntegerExp Loc.example (some Typ.tint32) 3)
      (.pointer Typ.tint64) Typ.tint32
      State.initial State.initial State.initial State.initial State.initial
      (fun _ _ => rfl) rfl rfl rfl rfl rfl rfl).1 Typ.tint64 rfl rfl,
    by decide,
    (AddMin.semantic_pointer_scaling Env.programPointer Loc.example .TOKadd
      (.IntegerExp Loc.example (some Typ.tint32) 3)
      (.VarExp Loc.example (some (.pointer Typ.tint64)) 15)
      (.IntegerExp Loc.example (some Typ.tint32) 3)
      (.VarExp Loc.example (some (.pointer Typ.tint64)) 15)
      Typ.tint32 (.pointer Typ.tint64)
      State.initial State.initial State.initial State.initial State.initial
      (fun _ _ => rfl) rfl rfl rfl rfl rfl rfl).2.1 Typ.tint64 rfl (by decide) rfl,
    (AddMin.semantic_pointer_scaling Env.programPointer Loc.example .TOKmin
      (.VarExp Loc.example (some (.pointer Typ.tint64)) 15)
      (.IntegerExp Loc.example (some Typ.tint32) 3)
      (.VarExp Loc.example (some (.pointer Typ.tint64)) 15)
      (.IntegerExp Loc.example (some Typ.tint32) 3)
      (.pointer Typ.tint64) Typ.tint32
      State.initial State.initial State.initial State.initial State.initial
      (fun _ _ => rfl) rfl rfl rfl rfl rfl rfl).2.2.1 Typ.tint64 rfl (by decide) rfl,
    (AddMin.semantic_pointer_scaling Env.programPointer Loc.example .TOKmin
      (.IntegerExp Loc.example (some Typ.tint32) 3)
      (.VarExp Loc.example (some (.pointer Typ.tint64)) 15)
      (.IntegerExp Loc.example (some Typ.tint32) 3)
      (.VarExp Loc.example (some (.pointer Typ.tint64)) 15)
      Typ.tint32 (.pointer Typ.tint64)
      State.initial State.initial State.initial State.initial State.initial
      (fun _ _ => rfl) rfl rfl rfl rfl rfl rfl).2.2.2 (by decide) rfl⟩

/-! ### Real, imaginary and complex operands -/

/-- C25: for every addition or subtraction analysed for the first time whose
analysed operands are neither arrays nor pointers (and that no operator
overload takes over), and in which, after `typeCombine()`, one operand is real
and the other imaginary: the node returned is the addition or subtraction
itself, with the operands `typeCombine()` left, typed with the complex type of
the precision of the combined type (`float`/`ifloat` give `cfloat`,
`double`/`idouble` give `cdouble`, `real`/`ireal` give `creal`). -/
theorem AddMin.semantic_real_imaginary (env : Env) (cls : BinClass) (loc : Loc) (op : TOK)
    (e1 e2 e1a e2a e1c e2c : Expression) (t1 t2 t1c t2c ct c : Typ)
    (s s1 s2 s3 s4 : State)
    (hcls : cls = .AddExp ∨ cls = .MinExp)
    (h1 : env.semantic e1 s = .ok e1a s1) (h2 : env.semantic e2 s1 = .ok e2a s2)
    (ho : env.op_overload (.BinExp cls loc op none e1a e2a) s2 = .ok none s3)
    (ht1 : e1a.type = some t1) (ht2 : e2a.type = some t2)
    (ha1 : t1.isArrayTy = false) (hp1 : t1.ty ≠ .Tpointer) (hp2 : t2.ty ≠ .Tpointer)
    (hc : env.typeCombine (.BinExp cls loc op none e1a e2a) s3 = .ok (some ct, e1c, e2c) s4)
    (ht1c : e1c.type = some t1c) (ht2c : e2c.type = some t2c)
    (hmix : (env.isreal t1c = true ∧ env.isimaginary t2c = true) ∨
      (env.isimaginary t1c = true ∧ env.isreal t2c = true))
    (hct : realImaginaryToComplex ct.ty = some c) :
    BinExp.semanticArith env cls loc op none e1 e2 s =
      .ok (.BinExp cls loc op (some c) e1c e2c) s4 ∧
    (c = Typ.tcomplex32 ∨ c = Typ.tcomplex64 ∨ c = Typ.tcomplex80) ∧
    (ct.ty = .Tfloat32 ∨ ct.ty = .Timaginary32 → c = Typ.tcomplex32) ∧
    (ct.ty = .Tfloat64 ∨ ct.ty = .Timaginary64 → c = Typ.tcomplex64) ∧
    (ct.ty = .Tfloat80 ∨ ct.ty = .Timaginary80 → c = Typ.tcomplex80) := by
  have hb := BinExp.semantic_ok env e1 e2 e1a e2a s s1 s2 h1 h2
  have hri : (env.isreal t1c = true ∨ env.isimaginary t1c = true) := by
    rcases hmix with ⟨h, _⟩ | ⟨h, _⟩
    · exact Or.inl h
    · exact Or.inr h
  have hm : ((env.isreal t1c && env.isimaginary t2c) ||
      (env.isimaginary t1c && env.isreal t2c)) = true := by
    rcases hmix with ⟨h, h'⟩ | ⟨h, h'⟩ <;> simp [h, h']
  have hcomb : AddMin.combine env cls loc op e1a e2a s3 =
      .ok (.BinExp cls loc op (some c) e1c e2c) s4 := by
    unfold AddMin.combine
    simp only [Sem.bind_eq, hc, ht1c, ht2c, Sem.deref_some, if_pos hri, Sem.pure_eq, hm,
      if_true, hct]
  refine ⟨?_, ?_, ?_, ?_, ?_⟩
  · rcases hcls with rfl | rfl
    · have harr : (t1.isArrayTy && t2.isArrayTy) = false := by simp [ha1]
      have hsc : ¬ ((t1.ty = .Tpointer ∧ env.isintegral t2 = true) ∨
          (t2.ty = .Tpointer ∧ env.isintegral t1 = true)) := by
        rintro (⟨h, _⟩ | ⟨h, _⟩)
        · exact hp1 h
        · exact hp2 h
      unfold BinExp.semanticArith AddExp.semantic
      simp only [Sem.bind_eq, hb, ho, ht1, ht2, Sem.deref_some, harr, Bool.false_eq_true,
        if_false, Sem.pure_eq, if_neg hsc, hcomb]
    · unfold BinExp.semanticArith MinExp.semantic
      simp only [Sem.bind_eq, hb, ho, ht1, ht2, Sem.deref_some, hp1, hp2, if_false, hcomb]
  · revert hct
    unfold realImaginaryToComplex
    cases ct.ty <;> simp <;> intro h <;> simp [← h]
  · revert hct
    unfold realImaginaryToComplex
    rintro hct (h | h) <;> rw [h] at hct <;> simp at hct <;> exact hct.symm
  · revert hct
    unfold realImaginaryToComplex
    rintro hct (h | h) <;> rw [h] at hct <;> simp at hct <;> exact hct.symm
  · revert hct
    unfold realImaginaryToComplex
    rintro hct (h | h) <;> rw [h] at hct <;> simp at hct <;> exact hct.symm

theorem AddMin.semantic_real_imaginary_witness :
    -- `x + y` with `x` of type `double` and `y` of type `idouble`
    BinExp.semanticArith Env.programFloat .AddExp Loc.example .TOKadd none
        (.VarExp Loc.example (some Typ.tfloat64) 15)
        (.VarExp Loc.example (some Typ.timaginary64) 16) State.initial =
      .ok (.BinExp .AddExp Loc.example .TOKadd (some Typ.tcomplex64)
        (.VarExp Loc.example (some Typ.tfloat64) 15)
        (.VarExp Loc.example (some Typ.timaginary64) 16)) State.initial :=
  (AddMin.semantic_real_imaginary Env.programFloat .AddExp Loc.example .TOKadd
    (.VarExp Loc.example (some Typ.tfloat64) 15)
    (.VarExp Loc.example (some Typ.timaginary64) 16)
    (.VarExp Loc.example (some Typ.tfloat64) 15)
    (.VarExp Loc.example (some Typ.timaginary64) 16)
    (.VarExp Loc.example (some Typ.tfloat64) 15)
    (.VarExp Loc.example (some Typ.timaginary64) 16)
    Typ.tfloat64 Typ.timaginary64 Typ.tfloat64 Typ.timaginary64 Typ.tfloat64 Typ.tcomplex64
    State.initial State.initial State.initial State.initial State.initial
    (Or.inl rfl) rfl rfl rfl rfl rfl rfl (by decide) (by decide) rfl rfl rfl
    (Or.inl ⟨rfl, rfl⟩) rfl).1

/-- `NegExp::semantic` on a node just built around the analysed node `m` typed
`r`, when the virtual call on `m` returns `m`, no operator overload takes over
and `r` is arithmetic: the negation of `m`, typed `r`. -/
theorem NegExp.semantic_of_typed (env : Env) (loc : Loc) (m : Expression) (r : Typ)
    (s s' : State)
    (hsem : env.semantic m s = .ok m s)
    (ho : env.op_overload (.UnaExp .NegExp loc none m) s = .ok none s')
    (hm : m.type = some r) (hf : env.isfloating r = true) :
    NegExp.semantic env loc none m s = .ok (.UnaExp .NegExp loc (some r) m) s' := by
  unfold NegExp.semantic
  simp only [Sem.bind_eq, hsem, ho]
  unfold Expression.checkArithmetic
  simp only [Sem.bind_eq, hm, Sem.deref_some, hf, Bool.not_true, Bool.and_false,
    Bool.false_eq_true, if_false, Sem.pure_eq]

/-- C26: for every multiplication analysed for the first time (no operator
overload) whose operands, after `typeCombine()`, pass `checkArithmetic` and are
both imaginary, of types that are not real, the left one of precision `r`
(`ifloat` gives `float`, `idouble` gives `double`, `ireal` gives `real`):
`MulExp::semantic` returns a negation node typed `r` whose operand is the
multiplication node, typed `r`, with both of its operands retyped to `r`. The
virtual call `semantic` on that typed multiplication node runs
`MulExp::semantic`, and no operator overload takes the negation over. -/
theorem MulExp.semantic_imaginary (env : Env) (loc : Loc) (op : TOK)
    (e1 e2 e1a e2a e1c e2c : Expression) (t1 t2 ct r : Typ)
    (s s1 s2 s3 s4 s5 s6 s7 : State)
    (h1 : env.semantic e1 s = .ok e1a s1) (h2 : env.semantic e2 s1 = .ok e2a s2)
    (ho : env.op_overload (.BinExp .MulExp loc op none e1a e2a) s2 = .ok none s3)
    (hc : env.typeCombine (.BinExp .MulExp loc op none e1a e2a) s3 =
      .ok (some ct, e1c, e2c) s4)
    (ha1 : Expression.checkArithmetic env e1c s4 = .ok () s5)
    (ha2 : Expression.checkArithmetic env e2c s5 = .ok () s6)
    (ht1 : e1c.type = some t1) (ht2 : e2c.type = some t2)
    (hfl : env.isfloating ct = true)
    (hi1 : env.isimaginary t1 = true) (hi2 : env.isimaginary t2 = true)
    (hr1 : env.isreal t1 = false) (hr2 : env.isreal t2 = false)
    (hr : imaginaryToReal t1.ty = some r) (hfr : env.isfloating r = true)
    (hsem : env.semantic
        (.BinExp .MulExp loc op (some r) (e1c.setType (some r)) (e2c.setType (some r))) s6 =
      MulExp.semantic env loc op (some r) (e1c.setType (some r)) (e2c.setType (some r)) s6)
    (hon : env.op_overload (.UnaExp .NegExp loc none
        (.BinExp .MulExp loc op (some r) (e1c.setType (some r)) (e2c.setType (some r)))) s6 =
      .ok none s7) :
    MulExp.semantic env loc op none e1 e2 s =
      .ok (.UnaExp .NegExp loc (some r)
        (.BinExp .MulExp loc op (some r) (e1c.setType (some r)) (e2c.setType (some r)))) s7 ∧
    (t1.ty = .Timaginary32 → r = Typ.tfloat32) ∧
    (t1.ty = .Timaginary64 → r = Typ.tfloat64) ∧
    (t1.ty = .Timaginary80 → r = Typ.tfloat80) := by
  have hb := BinExp.semantic_ok env e1 e2 e1a e2a s s1 s2 h1 h2
  have hneg := NegExp.semantic_of_typed env loc
    (.BinExp .MulExp loc op (some r) (e1c.setType (some r)) (e2c.setType (some r))) r s6 s7
    (by rw [hsem]; rfl) hon rfl hfr
  refine ⟨?_, ?_, ?_, ?_⟩
  · unfold MulExp.semantic
    simp only [Sem.bind_eq, hb, ho, hc, ha1, ha2, Sem.deref_some, hfl, if_true, ht1, ht2, hr1,
      hr2, Bool.false_eq_true, if_false, hi1, hi2, hr, hneg]
  · intro h; rw [h] at hr; simp [imaginaryToReal] at hr; exact hr.symm
  · intro h; rw [h] at hr; simp [imaginaryToReal] at hr; exact hr.symm
  · intro h; rw [h] at hr; simp [imaginaryToReal] at hr; exact hr.symm

theorem MulExp.semantic_imaginary_witness :
    -- `x * y` with `x`, `y` of type `idouble`
    MulExp.semantic Env.programFloat Loc.example .TOKmul none
        (.VarExp Loc.example (some Typ.timaginary64) 15)
        (.VarExp Loc.example (some Typ.timaginary64) 16) State.initial =
      .ok (.UnaExp .NegExp Loc.example (some Typ.tfloat64)
        (.BinExp .MulExp Loc.example .TOKmul (some Typ.tfloat64)
          (.VarExp Loc.example (some Typ.tfloat64) 15)
          (.VarExp Loc.example (some Typ.tfloat64) 16))) State.initial :=
  (MulExp.semantic_imaginary Env.programFloat Loc.example .TOKmul
    (.VarExp Loc.example (some Typ.timaginary64) 15)
    (.VarExp Loc.example (some Typ.timaginary64) 16)
    (.VarExp Loc.example (some Typ.timaginary64) 15)
    (.VarExp Loc.example (some Typ.timaginary64) 16)
    (.VarExp Loc.example (some Typ.timaginary64) 15)
    (.VarExp Loc.example (some Typ.timaginary64) 16)
    Typ.timaginary64 Typ.timaginary64 Typ.timaginary64 Typ.tfloat64
    State.initial State.initial State.initial State.initial State.initial State.initial
    State.initial State.initial
    rfl rfl rfl rfl rfl rfl rfl rfl rfl rfl rfl rfl rfl rfl rfl rfl rfl).1

/-- C27: for every division analysed for the first time (no operator overload)
whose operands, after `typeCombine()`, pass `checkArithmetic`, with a floating
combined type, the left operand of a real type `t1` and the right operand of an
imaginary type `t2`: `DivExp::semantic` returns a negation node typed `t2`
whose operand is the division node, typed `t2`, with its right operand retyped
to `t1`. For real by a non-imaginary type, non-real by real, and imaginary by
imaginary the division node itself is returned. -/
theorem DivExp.semantic_real_by_imaginary (env : Env) (loc : Loc) (op : TOK)
    (e1 e2 e1a e2a e1c e2c : Expression) (t1 t2 ct : Typ)
    (s s1 s2 s3 s4 s5 s6 s7 : State)
    (h1 : env.semantic e1 s = .ok e1a s1) (h2 : env.semantic e2 s1 = .ok e2a s2)
    (ho : env.op_overload (.BinExp .DivExp loc op none e1a e2a) s2 = .ok none s3)
    (hc : env.typeCombine (.BinExp .DivExp loc op none e1a e2a) s3 =
      .ok (some ct, e1c, e2c) s4)
    (ha1 : Expression.checkArithmetic env e1c s4 = .ok () s5)
    (ha2 : Expression.checkArithmetic env e2c s5 = .ok () s6)
    (ht1 : e1c.type = some t1) (ht2 : e2c.type = some t2)
    (hfl : env.isfloating ct = true) (hft2 : env.isfloating t2 = true)
    (hsem : env.semantic (.BinExp .DivExp loc op (some t2) e1c (e2c.setType (some t1))) s6 =
      DivExp.semantic env loc op (some t2) e1c (e2c.setType (some t1)) s6)
    (hon : env.op_overload (.UnaExp .NegExp loc none
        (.BinExp .DivExp loc op (some t2) e1c (e2c.setType (some t1)))) s6 = .ok none s7) :
    (env.isreal t1 = true → env.isimaginary t2 = true →
      DivExp.semantic env loc op none e1 e2 s =
        .ok (.UnaExp .NegExp loc (some t2)
          (.BinExp .DivExp loc op (some t2) e1c (e2c.setType (some t1)))) s7) ∧
    (env.isreal t1 = true → env.isimaginary t2 = false →
      DivExp.semantic env loc op none e1 e2 s =
        .ok (.BinExp .DivExp loc op (some t2) e1c e2c) s6) ∧
    (env.isreal t1 = false → env.isreal t2 = true →
      DivExp.semantic env loc op none e1 e2 s =
        .ok (.BinExp .DivExp loc op (some t1) e1c e2c) s6) ∧
    (env.isreal t1 = false → env.isreal t2 = false → env.isimaginary t1 = true →
        env.isimaginary t2 = true → ∀ r, imaginaryToReal t1.ty = some r →
      DivExp.semantic env loc op none e1 e2 s =
        .ok (.BinExp .DivExp loc op (some r) e1c e2c) s6) := by
  have hb := BinExp.semantic_ok env e1 e2 e1a e2a s s1 s2 h1 h2
  refine ⟨?_, ?_, ?_, ?_⟩
  · intro hr1 hi2
    have hneg := NegExp.semantic_of_typed env loc
      (.BinExp .DivExp loc op (some t2) e1c (e2c.setType (some t1))) t2 s6 s7
      (by rw [hsem]; rfl) hon rfl hft2
    unfold DivExp.semantic
    simp only [Sem.bind_eq, hb, ho, hc, ha1, ha2, Sem.deref_some, hfl, if_true, ht1, ht2, hr1,
      hi2, hneg]
  · intro hr1 hi2
    unfold DivExp.semantic
    simp only [Sem.bind_eq, hb, ho, hc, ha1, ha2, Sem.deref_some, hfl, if_true, ht1, ht2, hr1,
      hi2, Bool.false_eq_true, if_false, Sem.pure_eq]
  · intro hr1 hr2
    unfold DivExp.semantic
    simp only [Sem.bind_eq, hb, ho, hc, ha1, ha2, Sem.deref_some, hfl, if_true, ht1, ht2, hr1,
      hr2, Bool.false_eq_true, if_false, Sem.pure_eq]
  · intro hr1 hr2 hi1 hi2 r hr
    unfold DivExp.semantic
    simp only [Sem.bind_eq, hb, ho, hc, ha1, ha2, Sem.deref_some, hfl, if_true, ht1, ht2, hr1,
      hr2, hi1, hi2, hr, Bool.false_eq_true, if_false, Sem.pure_eq]

theorem DivExp.semantic_real_by_imaginary_witness :
    -- `x / y` with `x` of type `double` and `y` of type `idouble`
    DivExp.semantic Env.programFloat Loc.example .TOKdiv none
        (.VarExp Loc.example (some Typ.tfloat64) 15)
        (.VarExp Loc.example (some Typ.timaginary64) 16) State.initial =
      .ok (.UnaExp .NegExp Loc.example (some Typ.timaginary64)
        (.BinExp .DivExp Loc.example .TOKdiv (some Typ.timaginary64)
          (.VarExp Loc.example (some Typ.tfloat64) 15)
          (.VarExp Loc.example (some Typ.tfloat64) 16))) State.initial :=
  (DivExp.semantic_real_by_imaginary Env.programFloat Loc.example .TOKdiv
    (.VarExp Loc.example (some Typ.tfloat64) 15)
    (.VarExp Loc.example (some Typ.timaginary64) 16)
    (.VarExp Loc.example (some Typ.tfloat64) 15)
    (.VarExp Loc.example (some Typ.timaginary64) 16)
    (.VarExp Loc.example (some Typ.tfloat64) 15)
    (.VarExp Loc.example (some Typ.timaginary64) 16)
    Typ.tfloat64 Typ.timaginary64 Typ.tfloat64
    State.initial State.initial State.initial State.initial State.initial State.initial
    State.initial State.initial
    rfl rfl rfl rfl rfl rfl rfl rfl rfl rfl rfl rfl).1 rfl rfl

/-! ### Array comparisons -/

theorem arraysOfSameElement_eq (t1 t2 n1 : Typ) (s : State)
    (h1 : t1.isArrayTy = true) (h2 : t2.isArrayTy = true)
    (hn1 : t1.next = some n1) (hn2 : t2.next = some n1) :
    arraysOfSameElement t1 t2 s = .ok true s := by
  unfold arraysOfSameElement
  simp only [h1, h2, Bool.and_self, if_true, Sem.bind_eq, hn1, Sem.deref_some, hn2,
    decide_True, Sem.pure_eq]

/-- C21 (counterexample): `a == b` with `a`, `b` of type `char[]` is lowered to
a call of the generic helper `_adEq` with the type-info argument, the same
helper as for `int[]` operands: `EqualExp::semantic` has no helper for
character elements. -/
theorem EqualExp.semantic_char_counterexample :
    EqualExp.semantic Env.programHelpers Loc.example .TOKequal none
        (.VarExp Loc.example (some (.darray (.basic .Tchar))) 15)
        (.VarExp Loc.example (some (.darray (.basic .Tchar))) 16) State.initial =
      .ok (.CallExp Loc.example (some Env.programHelpers.tboolean)
        (.VarExp Loc.example none 40)
        (some [.VarExp Loc.example (some (.darray (.basic .Tchar))) 15,
          .VarExp Loc.example (some (.darray (.basic .Tchar))) 16,
          .TypeExp Loc.example (some (.basic .Tchar))])) State.initial ∧
    Env.programHelpers.symToChars 40 = "_adEq" ∧
    EqualExp.semantic Env.programHelpers Loc.example .TOKequal none
        (.VarExp Loc.example (some (.darray Typ.tint32)) 15)
        (.VarExp Loc.example (some (.darray Typ.tint32)) 16) State.initial =
      .ok (.CallExp Loc.example (some Env.programHelpers.tboolean)
        (.VarExp Loc.example none 40)
        (some [.VarExp Loc.example (some (.darray Typ.tint32)) 15,
          .VarExp Loc.example (some (.darray Typ.tint32)) 16,
          .TypeExp Loc.example (some Typ.tint32)])) State.initial :=
  ⟨rfl, rfl, rfl⟩

/-- C21 (amended): for every `==` or `!=` analysed for the first time (no
operator overload) whose operands, after `typeCombine()`, have base types that
are both arrays, fixed-size or dynamic, of the identical element type `n1`, and
are cast to the dynamic array of `n1`: `EqualExp::semantic` returns, typed
boolean, a call of a runtime helper on the two cast operands, wrapped in a
`NotExp` typed boolean for `!=`. The helper is `_adEqBit` when the base type of
the element type is `bit`, and `_adEq`, with the type-info of the element base
type as third argument, for every other element type, characters included. -/
theorem EqualExp.semantic_arrays (env : Env) (loc : Loc) (op : TOK)
    (e1 e2 e1a e2a e1c e2c a1 a2 : Expression) (ct : Option Typ) (r1 r2 n1 : Typ)
    (s s1 s2 s3 s4 s5 s6 : State)
    (h1 : env.semantic e1 s = .ok e1a s1) (h2 : env.semantic e2 s1 = .ok e2a s2)
    (ho : env.op_overload (.BinExp .EqualExp loc op none e1a e2a) s2 = .ok none s3)
    (hc : env.typeCombine (.BinExp .EqualExp loc op none e1a e2a) s3 = .ok (ct, e1c, e2c) s4)
    (ht1 : e1c.type = some r1) (ht2 : e2c.type = some r2)
    (ha1 : (env.toBasetype r1).isArrayTy = true) (ha2 : (env.toBasetype r2).isArrayTy = true)
    (hn1 : (env.toBasetype r1).next = some n1) (hn2 : (env.toBasetype r2).next = some n1)
    (hc1 : env.castTo e1c (env.arrayOf n1) s4 = .ok a1 s5)
    (hc2 : env.castTo e2c (env.arrayOf n1) s5 = .ok a2 s6) :
    EqualExp.semantic env loc op none e1 e2 s =
      ((if (env.toBasetype n1).ty ≠ .Tbit then
          env.getProperty (env.toBasetype n1) loc env.idTypeinfo >>= fun ti =>
            (pure [a1, a2, ti] : Sem (List Expression))
        else pure [a1, a2]) >>= fun arguments =>
        (pure (if op = .TOKnotequal then
            .UnaExp .NotExp loc (some env.tboolean)
              (.CallExp loc (some env.tboolean)
                (VarExp.ctor env loc (env.genCfunc env.tboolean
                  (if (env.toBasetype n1).ty = .Tbit then "_adEqBit" else "_adEq")))
                (some arguments))
          else
            .CallExp loc (some env.tboolean)
              (VarExp.ctor env loc (env.genCfunc env.tboolean
                (if (env.toBasetype n1).ty = .Tbit then "_adEqBit" else "_adEq")))
              (some arguments)) : Sem Expression)) s6 := by
  have hb := BinExp.semantic_ok env e1 e2 e1a e2a s s1 s2 h1 h2
  have harr := arraysOfSameElement_eq (env.toBasetype r1) (env.toBasetype r2) n1 s4
    ha1 ha2 hn1 hn2
  unfold EqualExp.semantic
  simp only [Sem.bind_eq, hb, ho, hc, ht1, ht2, Sem.deref_some, harr, if_true, hn1, hn2, hc1,
    hc2]
  by_cases hbit : (env.toBasetype n1).ty = .Tbit
  · simp only [hbit, ne_eq, not_true_eq_false, if_false, if_true, Sem.pure_eq]
    by_cases hne : op = .TOKnotequal
    · simp only [hne, if_true, Sem.pure_eq]
    · simp only [hne, if_false, Sem.pure_eq]
  · simp only [hbit, ne_eq, not_false_eq_true, if_true, if_false, Sem.bind_eq]
    cases hg : env.getProperty (env.toBasetype n1) loc env.idTypeinfo s6 with
    | ok ti s7 =>
        simp only [Sem.pure_eq]
        by_cases hne : op = .TOKnotequal
        · simp only [hne, if_true, Sem.pure_eq]
        · simp only [hne, if_false, Sem.pure_eq]
    | exit s7 => rfl
    | assertFailed s7 => rfl
    | nullDeref s7 => rfl

theorem EqualExp.semantic_arrays_witness :
    -- `a != b` with `a` of type `bit[3]` and `b` of type `bit[]`
    EqualExp.semantic Env.programHelpers Loc.example .TOKnotequal none
        (.VarExp Loc.example (some (.sarray (.basic .Tbit) 3)) 15)
        (.VarExp Loc.example (some (.darray (.basic .Tbit))) 16) State.initial =
      .ok (.UnaExp .NotExp Loc.example (some Env.programHelpers.tboolean)
        (.CallExp Loc.example (some Env.programHelpers.tboolean)
          (.VarExp Loc.example none 41)
          (some [.VarExp Loc.example (some (.darray (.basic .Tbit))) 15,
            .VarExp Loc.example (some (.darray (.basic .Tbit))) 16]))) State.initial :=
  EqualExp.semantic_arrays Env.programHelpers Loc.example .TOKnotequal
    (.VarExp Loc.example (some (.sarray (.basic .Tbit) 3)) 15)
    (.VarExp Loc.example (some (.darray (.basic .Tbit))) 16)
    (.VarExp Loc.example (some (.sarray (.basic .Tbit) 3)) 15)
    (.VarExp Loc.example (some (.darray (.basic .Tbit))) 16)
    (.VarExp Loc.example (some (.sarray (.basic .Tbit) 3)) 15)
    (.VarExp Loc.example (some (.darray (.basic .Tbit))) 16)
    (.VarExp Loc.example (some (.darray (.basic .Tbit))) 15)
    (.VarExp Loc.example (some (.darray (.basic .Tbit))) 16)
    (some (.sarray (.basic .Tbit) 3)) (.sarray (.basic .Tbit) 3) (.darray (.basic .Tbit))
    (.basic .Tbit)
    State.initial State.initial State.initial State.initial State.initial State.initial
    State.initial
    rfl rfl rfl rfl rfl rfl rfl rfl rfl rfl rfl rfl

/-- C22: for every relational comparison with operator `op` analysed for the
first time (no operator overload) whose operands, after `typeCombine()`, have
base types that are both arrays of the identical element type `n1`, and are
cast to the dynamic array of `n1`: `CmpExp::semantic` returns the comparison
node with the same operator `op`, typed boolean, whose left operand is the call
`helper(a1, a2 [, typeinfo])` typed `int` and whose right operand is the
literal 0 typed `int`. The helper is `_adCmpChar` for an element base type
`char`, `_adCmpBit` for `bit`, and `_adCmp` otherwise; the type-info of the
element base type is the third argument exactly in the last case. -/
theorem CmpExp.semantic_array_compare (env : Env) (loc : Loc) (op : TOK)
    (e1 e2 e1a e2a e1c e2c a1 a2 : Expression) (ct : Option Typ) (r1 r2 n1 : Typ)
    (s s1 s2 s3 s4 s5 s6 : State)
    (h1 : env.semantic e1 s = .ok e1a s1) (h2 : env.semantic e2 s1 = .ok e2a s2)
    (ho : env.op_overload (.BinExp .CmpExp loc op none e1a e2a) s2 = .ok none s3)
    (hc : env.typeCombine (.BinExp .CmpExp loc op none e1a e2a) s3 = .ok (ct, e1c, e2c) s4)
    (ht1 : e1c.type = some r1) (ht2 : e2c.type = some r2)
    (ha1 : (env.toBasetype r1).isArrayTy = true) (ha2 : (env.toBasetype r2).isArrayTy = true)
    (hn1 : (env.toBasetype r1).next = some n1) (hn2 : (env.toBasetype r2).next = some n1)
    (hc1 : env.castTo e1c (env.arrayOf n1) s4 = .ok a1 s5)
    (hc2 : env.castTo e2c (env.arrayOf n1) s5 = .ok a2 s6) :
    CmpExp.semantic env loc op none e1 e2 s =
      if (env.toBasetype n1).ty = .Tchar then
        .ok (.BinExp .CmpExp loc op (some env.tboolean)
          (.CallExp loc (some Typ.tint32)
            (VarExp.ctor env loc (env.genCfunc env.tboolean "_adCmpChar")) (some [a1, a2]))
          (.IntegerExp loc (some Typ.tint32) 0)) s6
      else if (env.toBasetype n1).ty = .Tbit then
        .ok (.BinExp .CmpExp loc op (some env.tboolean)
          (.CallExp loc (some Typ.tint32)
            (VarExp.ctor env loc (env.genCfunc env.tboolean "_adCmpBit")) (some [a1, a2]))
          (.IntegerExp loc (some Typ.tint32) 0)) s6
      else
        (env.getProperty (env.toBasetype n1) loc env.idTypeinfo >>= fun ti =>
          (pure (.BinExp .CmpExp loc op (some env.tboolean)
            (.CallExp loc (some Typ.tint32)
              (VarExp.ctor env loc (env.genCfunc env.tboolean "_adCmp")) (some [a1, a2, ti]))
            (.IntegerExp loc (some Typ.tint32) 0)) : Sem Expression)) s6 := by
  have hb := BinExp.semantic_ok env e1 e2 e1a e2a s s1 s2 h1 h2
  have harr := arraysOfSameElement_eq (env.toBasetype r1) (env.toBasetype r2) n1 s4
    ha1 ha2 hn1 hn2
  unfold CmpExp.semantic
  simp only [Sem.bind_eq, hb, ho, hc, ht1, ht2, Sem.deref_some, harr, if_true, hn1, hn2, hc1,
    hc2]
  by_cases hch : (env.toBasetype n1).ty = .Tchar
  · simp only [hch, if_true, Sem.pure_eq]
  · simp only [hch, if_false]
    by_cases hbit : (env.toBasetype n1).ty = .Tbit
    · simp only [hbit, ne_eq, not_true_eq_false, if_false, if_true, Sem.pure_eq]
    · simp only [hbit, ne_eq, not_false_eq_true, if_true, if_false, Sem.bind_eq]
      cases hg : env.getProperty (env.toBasetype n1) loc env.idTypeinfo s6 with
      | ok ti s7 => simp only [Sem.pure_eq]
      | exit s7 => rfl
      | assertFailed s7 => rfl
      | nullDeref s7 => rfl

theorem CmpExp.semantic_array_compare_witness :
    -- `a < b` with `a`, `b` of type `char[]`, and with `a`, `b` of type `int[]`
    CmpExp.semantic Env.programHelpers Loc.example .TOKlt none
        (.VarExp Loc.example (some (.darray (.basic .Tchar))) 15)
        (.VarExp Loc.example (some (.darray (.basic .Tchar))) 16) State.initial =
      .ok (.BinExp .CmpExp Loc.example .TOKlt (some Env.programHelpers.tboolean)
        (.CallExp Loc.example (some Typ.tint32) (.VarExp Loc.example none 43)
          (some [.VarExp Loc.example (some (.darray (.basic .Tchar))) 15,
            .VarExp Loc.example (some (.darray (.basic .Tchar))) 16]))
        (.IntegerExp Loc.example (some Typ.tint32) 0)) State.initial ∧
    CmpExp.semantic Env.programHelpers Loc.example .TOKge none
        (.VarExp Loc.example (some (.darray Typ.tint32)) 15)
        (.VarExp Loc.example (some (.darray Typ.tint32)) 16) State.initial =
      .ok (.BinExp .CmpExp Loc.example .TOKge (some Env.programHelpers.tboolean)
        (.CallExp Loc.example (some Typ.tint32) (.VarExp Loc.example none 42)
          (some [.VarExp Loc.example (some (.darray Typ.tint32)) 15,
            .VarExp Loc.example (some (.darray Typ.tint32)) 16,
            .TypeExp Loc.example (some Typ.tint32)]))
        (.IntegerExp Loc.example (some Typ.tint32) 0)) State.initial :=
  ⟨CmpExp.semantic_array_compare Env.programHelpers Loc.example .TOKlt
      (.VarExp Loc.example (some (.darray (.basic .Tchar))) 15)
      (.VarExp Loc.example (some (.darray (.basic .Tchar))) 16)
      (.VarExp Loc.example (some (.darray (.basic .Tchar))) 15)
      (.VarExp Loc.example (some (.darray (.basic .Tchar))) 16)
      (.VarExp Loc.example (some (.darray (.basic .Tchar))) 15)
      (.VarExp Loc.example (some (.darray (.basic .Tchar))) 16)
      (.VarExp Loc.example (some (.darray (.basic .Tchar))) 15)
      (.VarExp Loc.example (some (.darray (.basic .Tchar))) 16)
      (some (.darray (.basic .Tchar))) (.darray (.basic .Tchar)) (.darray (.basic .Tchar))
      (.basic .Tchar)
      State.initial State.initial State.initial State.initial State.initial State.initial
      State.initial
      rfl rfl rfl rfl rfl rfl rfl rfl rfl rfl rfl rfl,
    CmpExp.semantic_array_compare Env.programHelpers Loc.example .TOKge
      (.VarExp Loc.example (some (.darray Typ.tint32)) 15)
      (.VarExp Loc.example (some (.darray Typ.tint32)) 16)
      (.VarExp Loc.example (some (.darray Typ.tint32)) 15)
      (.VarExp Loc.example (some (.darray Typ.tint32)) 16)
      (.VarExp Loc.example (some (.darray Typ.tint32)) 15)
      (.VarExp Loc.example (some (.darray Typ.tint32)) 16)
      (.VarExp Loc.example (some (.darray Typ.tint32)) 15)
      (.VarExp Loc.example (some (.darray Typ.tint32)) 16)
      (some (.darray Typ.tint32)) (.darray Typ.tint32) (.darray Typ.tint32) Typ.tint32
      State.initial State.initial State.initial State.initial State.initial State.initial
      State.initial
      rfl rfl rfl rfl rfl rfl rfl rfl rfl rfl rfl rfl⟩

/-! ## `syntaxCopy` -/

mutual
theorem Obj.syntaxCopy_bounds (tcopy : Typ → Typ) (dcopy : Dsymbol → Dsymbol) :
    ∀ (o : Obj) (brk : Nat),
      brk ≤ (o.syntaxCopy tcopy dcopy brk).2 ∧
      ∀ a ∈ (o.syntaxCopy tcopy dcopy brk).1.addrs,
        brk ≤ a ∧ a < (o.syntaxCopy tcopy dcopy brk).2
  | .leaf _ _ _ _ _, brk => by
      simp only [Obj.syntaxCopy, Obj.addrs, List.mem_singleton]
      refine ⟨by omega, ?_⟩
      rintro a rfl
      omega
  | .declaration _ _ _ _, brk => by
      simp only [Obj.syntaxCopy, Obj.addrs, List.mem_singleton]
      refine ⟨by omega, ?_⟩
      rintro a rfl
      omega
  | .newExp _ _ _ args _, brk => by
      have h := ObjArray.syntaxCopy_array_bounds tcopy dcopy args brk
      simp only [Obj.syntaxCopy, Obj.addrs, List.mem_cons]
      refine ⟨by omega, ?_⟩
      rintro a (rfl | ha)
      · omega
      · have := h.2 a ha
        omega
  | .una _ _ _ _ e1 _, brk => by
      have h := Obj.syntaxCopy_bounds tcopy dcopy e1 (brk + 1)
      simp only [Obj.syntaxCopy, Obj.addrs, List.mem_cons]
      refine ⟨by omega, ?_⟩
      rintro a (rfl | ha)
      · omega
      · have := h.2 a ha
        omega
  | .call _ _ _ e1 args, brk => by
      have h := Obj.syntaxCopy_bounds tcopy dcopy e1 brk
      have h2 := ObjArray.syntaxCopy_array_bounds tcopy dcopy args
        (Obj.syntaxCopy tcopy dcopy e1 brk).2
      simp only [Obj.syntaxCopy, Obj.addrs, List.mem_cons, List.mem_append]
      refine ⟨by omega, ?_⟩
      rintro a (rfl | ha | ha)
      · omega
      · have := h.2 a ha
        omega
      · have := h2.2 a ha
        omega
  | .cast _ _ _ e1 _, brk => by
      have h := Obj.syntaxCopy_bounds tcopy dcopy e1 brk
      simp only [Obj.syntaxCopy, Obj.addrs, List.mem_cons]
      refine ⟨by omega, ?_⟩
      rintro a (rfl | ha)
      · omega
      · have := h.2 a ha
        omega
  | .range _ _ _ e1 lwr upr, brk => by
      have hl := ObjPtr.syntaxCopy_ptr_bounds tcopy dcopy lwr brk
      have hu := ObjPtr.syntaxCopy_ptr_bounds tcopy dcopy upr
        (ObjPtr.syntaxCopy tcopy dcopy lwr brk).2
      have h := Obj.syntaxCopy_bounds tcopy dcopy e1
        (ObjPtr.syntaxCopy tcopy dcopy upr (ObjPtr.syntaxCopy tcopy dcopy lwr brk).2).2
      simp only [Obj.syntaxCopy, Obj.addrs, List.mem_cons, List.mem_append]
      refine ⟨by omega, ?_⟩
      rintro a (rfl | ha | ha | ha)
      · omega
      · have := h.2 a ha
        omega
      · have := hl.2 a ha
        omega
      · have := hu.2 a ha
        omega
  | .bin _ _ _ _ e1 e2, brk => by
      have h1 := Obj.syntaxCopy_bounds tcopy dcopy e1 (brk + 1)
      have h2 := Obj.syntaxCopy_bounds tcopy dcopy e2
        (Obj.syntaxCopy tcopy dcopy e1 (brk + 1)).2
      simp only [Obj.syntaxCopy, Obj.addrs, List.mem_cons, List.mem_append]
      refine ⟨by omega, ?_⟩
      rintro a (rfl | ha | ha)
      · omega
      · have := h1.2 a ha
        omega
      · have := h2.2 a ha
        omega
  | .cond _ _ _ econd e1 e2, brk => by
      have hc := Obj.syntaxCopy_bounds tcopy dcopy econd brk
      have h1 := Obj.syntaxCopy_bounds tcopy dcopy e1
        (Obj.syntaxCopy tcopy dcopy econd brk).2
      have h2 := Obj.syntaxCopy_bounds tcopy dcopy e2
        (Obj.syntaxCopy tcopy dcopy e1 (Obj.syntaxCopy tcopy dcopy econd brk).2).2
      simp only [Obj.syntaxCopy, Obj.addrs, List.mem_cons, List.mem_append]
      refine ⟨by omega, ?_⟩
      rintro a (rfl | ha | ha | ha)
      · omega
      · have := hc.2 a ha
        omega
      · have := h1.2 a ha
        omega
      · have := h2.2 a ha
        omega
theorem ObjPtr.syntaxCopy_ptr_bounds (tcopy : Typ → Typ) (dcopy : Dsymbol → Dsymbol) :
    ∀ (p : ObjPtr) (brk : Nat),
      brk ≤ (p.syntaxCopy tcopy dcopy brk).2 ∧
      ∀ a ∈ (p.syntaxCopy tcopy dcopy brk).1.addrs,
        brk ≤ a ∧ a < (p.syntaxCopy tcopy dcopy brk).2
  | .null, brk => by
      simp [ObjPtr.syntaxCopy, ObjPtr.addrs]
  | .ptr o, brk => by
      have h := Obj.syntaxCopy_bounds tcopy dcopy o brk
      simp only [ObjPtr.syntaxCopy, ObjPtr.addrs]
      exact h
theorem ObjArray.syntaxCopy_array_bounds (tcopy : Typ → Typ) (dcopy : Dsymbol → Dsymbol) :
    ∀ (p : ObjArray) (brk : Nat),
      brk ≤ (p.syntaxCopy tcopy dcopy brk).2 ∧
      ∀ a ∈ (p.syntaxCopy tcopy dcopy brk).1.addrs,
        brk ≤ a ∧ a < (p.syntaxCopy tcopy dcopy brk).2
  | .null, brk => by
      simp [ObjArray.syntaxCopy, ObjArray.addrs]
  | .array _ elems, brk => by
      have h := ObjList.syntaxCopy_list_bounds tcopy dcopy elems (brk + 1)
      simp only [ObjArray.syntaxCopy, ObjArray.addrs, List.mem_cons]
      refine ⟨by omega, ?_⟩
      rintro a (rfl | ha)
      · omega
      · have := h.2 a ha
        omega
theorem ObjList.syntaxCopy_list_bounds (tcopy : Typ → Typ) (dcopy : Dsymbol → Dsymbol) :
    ∀ (p : ObjList) (brk : Nat),
      brk ≤ (p.syntaxCopy tcopy dcopy brk).2 ∧
      ∀ a ∈ (p.syntaxCopy tcopy dcopy brk).1.addrs,
        brk ≤ a ∧ a < (p.syntaxCopy tcopy dcopy brk).2
  | .nil, brk => by
      simp [ObjList.syntaxCopy, ObjList.addrs]
  | .cons o rest, brk => by
      have h := Obj.syntaxCopy_bounds tcopy dcopy o brk
      have h2 := ObjList.syntaxCopy_list_bounds tcopy dcopy rest
        (Obj.syntaxCopy tcopy dcopy o brk).2
      simp only [ObjList.syntaxCopy, ObjList.addrs, List.mem_append]
      refine ⟨by omega, ?_⟩
      rintro a (ha | ha)
      · have := h.2 a ha
        omega
      · have := h2.2 a ha
        omega
end

mutual
theorem Obj.syntaxCopy_sameShape (tcopy : Typ → Typ) (dcopy : Dsymbol → Dsymbol) :
    ∀ (o : Obj) (brk : Nat), o.sameShape (o.syntaxCopy tcopy dcopy brk).1 = true
  | .leaf _ _ _ _ _, brk => by
      simp [Obj.syntaxCopy, Obj.sameShape]
  | .declaration _ _ _ _, brk => by
      simp [Obj.syntaxCopy, Obj.sameShape]
  | .newExp _ _ _ args _, brk => by
      have h := ObjArray.syntaxCopy_array_sameShape tcopy dcopy args brk
      simp [Obj.syntaxCopy, Obj.sameShape, h]
  | .una _ _ _ _ e1 _, brk => by
      have h := Obj.syntaxCopy_sameShape tcopy dcopy e1 (brk + 1)
      simp [Obj.syntaxCopy, Obj.sameShape, h]
  | .call _ _ _ e1 args, brk => by
      have h := Obj.syntaxCopy_sameShape tcopy dcopy e1 brk
      have h2 := ObjArray.syntaxCopy_array_sameShape tcopy dcopy args
        (Obj.syntaxCopy tcopy dcopy e1 brk).2
      simp [Obj.syntaxCopy, Obj.sameShape, h, h2]
  | .cast _ _ _ e1 _, brk => by
      have h := Obj.syntaxCopy_sameShape tcopy dcopy e1 brk
      simp [Obj.syntaxCopy, Obj.sameShape, h]
  | .range _ _ _ e1 lwr upr, brk => by
      have hl := ObjPtr.syntaxCopy_ptr_sameShape tcopy dcopy lwr brk
      have hu := ObjPtr.syntaxCopy_ptr_sameShape tcopy dcopy upr
        (ObjPtr.syntaxCopy tcopy dcopy lwr brk).2
      have h := Obj.syntaxCopy_sameShape tcopy dcopy e1
        (ObjPtr.syntaxCopy tcopy dcopy upr (ObjPtr.syntaxCopy tcopy dcopy lwr brk).2).2
      simp [Obj.syntaxCopy, Obj.sameShape, h, hl, hu]
  | .bin _ _ _ _ e1 e2, brk => by
      have h1 := Obj.syntaxCopy_sameShape tcopy dcopy e1 (brk + 1)
      have h2 := Obj.syntaxCopy_sameShape tcopy dcopy e2
        (Obj.syntaxCopy tcopy dcopy e1 (brk + 1)).2
      simp [Obj.syntaxCopy, Obj.sameShape, h1, h2]
  | .cond _ _ _ econd e1 e2, brk => by
      have hc := Obj.syntaxCopy_sameShape tcopy dcopy econd brk
      have h1 := Obj.syntaxCopy_sameShape tcopy dcopy e1
        (Obj.syntaxCopy tcopy dcopy econd brk).2
      have h2 := Obj.syntaxCopy_sameShape tcopy dcopy e2
        (Obj.syntaxCopy tcopy dcopy e1 (Obj.syntaxCopy tcopy dcopy econd brk).2).2
      simp [Obj.syntaxCopy, Obj.sameShape, hc, h1, h2]
theorem ObjPtr.syntaxCopy_ptr_sameShape (tcopy : Typ → Typ) (dcopy : Dsymbol → Dsymbol) :
    ∀ (p : ObjPtr) (brk : Nat), p.sameShape (p.syntaxCopy tcopy dcopy brk).1 = true
  | .null, brk => by
      simp [ObjPtr.syntaxCopy, ObjPtr.sameShape]
  | .ptr o, brk => by
      have h := Obj.syntaxCopy_sameShape tcopy dcopy o brk
      simp [ObjPtr.syntaxCopy, ObjPtr.sameShape, h]
theorem ObjArray.syntaxCopy_array_sameShape (tcopy : Typ → Typ) (dcopy : Dsymbol → Dsymbol) :
    ∀ (p : ObjArray) (brk : Nat), p.sameShape (p.syntaxCopy tcopy dcopy brk).1 = true
  | .null, brk => by
      simp [ObjArray.syntaxCopy, ObjArray.sameShape]
  | .array _ elems, brk => by
      have h := ObjList.syntaxCopy_list_sameShape tcopy dcopy elems (brk + 1)
      simp [ObjArray.syntaxCopy, ObjArray.sameShape, h]
theorem ObjList.syntaxCopy_list_sameShape (tcopy : Typ → Typ) (dcopy : Dsymbol → Dsymbol) :
    ∀ (p : ObjList) (brk : Nat), p.sameShape (p.syntaxCopy tcopy dcopy brk).1 = true
  | .nil, brk => by
      simp [ObjList.syntaxCopy, ObjList.sameShape]
  | .cons o rest, brk => by
      have h := Obj.syntaxCopy_sameShape tcopy dcopy o brk
      have h2 := ObjList.syntaxCopy_list_sameShape tcopy dcopy rest
        (Obj.syntaxCopy tcopy dcopy o brk).2
      simp [ObjList.syntaxCopy, ObjList.sameShape, h, h2]
end

mutual
theorem Obj.storeType_of_not_mem (a : Nat) (ty : Typ) :
    ∀ (o : Obj), a ∉ o.addrs → o.storeType a ty = o
  | .leaf b _ _ _ _, h => by
      simp only [Obj.addrs, List.mem_singleton] at h
      have hb : ¬ b = a := fun e => h e.symm
      simp only [Obj.storeType, if_neg hb]
  | .declaration b _ _ _, h => by
      simp only [Obj.addrs, List.mem_singleton] at h
      have hb : ¬ b = a := fun e => h e.symm
      simp only [Obj.storeType, if_neg hb]
  | .newExp b _ _ args _, h => by
      simp only [Obj.addrs, List.mem_cons, not_or] at h
      have hb : ¬ b = a := fun e => h.1 e.symm
      simp only [Obj.storeType, if_neg hb, ObjArray.storeType_array_of_not_mem a ty args h.2]
  | .una b _ _ _ e1 _, h => by
      simp only [Obj.addrs, List.mem_cons, not_or] at h
      have hb : ¬ b = a := fun e => h.1 e.symm
      simp only [Obj.storeType, if_neg hb, Obj.storeType_of_not_mem a ty e1 h.2]
  | .call b _ _ e1 args, h => by
      simp only [Obj.addrs, List.mem_cons, List.mem_append, not_or] at h
      have hb : ¬ b = a := fun e => h.1 e.symm
      simp only [Obj.storeType, if_neg hb, Obj.storeType_of_not_mem a ty e1 h.2.1,
        ObjArray.storeType_array_of_not_mem a ty args h.2.2]
  | .cast b _ _ e1 _, h => by
      simp only [Obj.addrs, List.mem_cons, not_or] at h
      have hb : ¬ b = a := fun e => h.1 e.symm
      simp only [Obj.storeType, if_neg hb, Obj.storeType_of_not_mem a ty e1 h.2]
  | .range b _ _ e1 lwr upr, h => by
      simp only [Obj.addrs, List.mem_cons, List.mem_append, not_or] at h
      have hb : ¬ b = a := fun e => h.1 e.symm
      simp only [Obj.storeType, if_neg hb, Obj.storeType_of_not_mem a ty e1 h.2.1,
        ObjPtr.storeType_ptr_of_not_mem a ty lwr h.2.2.1,
        ObjPtr.storeType_ptr_of_not_mem a ty upr h.2.2.2]
  | .bin b _ _ _ e1 e2, h => by
      simp only [Obj.addrs, List.mem_cons, List.mem_append, not_or] at h
      have hb : ¬ b = a := fun e => h.1 e.symm
      simp only [Obj.storeType, if_neg hb, Obj.storeType_of_not_mem a ty e1 h.2.1,
        Obj.storeType_of_not_mem a ty e2 h.2.2]
  | .cond b _ _ econd e1 e2, h => by
      simp only [Obj.addrs, List.mem_cons, List.mem_append, not_or] at h
      have hb : ¬ b = a := fun e => h.1 e.symm
      simp only [Obj.storeType, if_neg hb, Obj.storeType_of_not_mem a ty econd h.2.1,
        Obj.storeType_of_not_mem a ty e1 h.2.2.1, Obj.storeType_of_not_mem a ty e2 h.2.2.2]
theorem ObjPtr.storeType_ptr_of_not_mem (a : Nat) (ty : Typ) :
    ∀ (p : ObjPtr), a ∉ p.addrs → p.storeType a ty = p
  | .null, _ => by
      simp only [ObjPtr.storeType]
  | .ptr o, h => by
      simp only [ObjPtr.addrs] at h
      simp only [ObjPtr.storeType, Obj.storeType_of_not_mem a ty o h]
theorem ObjArray.storeType_array_of_not_mem (a : Nat) (ty : Typ) :
    ∀ (p : ObjArray), a ∉ p.addrs → p.storeType a ty = p
  | .null, _ => by
      simp only [ObjArray.storeType]
  | .array _ elems, h => by
      simp only [ObjArray.addrs, List.mem_cons, not_or] at h
      simp only [ObjArray.storeType, ObjList.storeType_list_of_not_mem a ty elems h.2]
theorem ObjList.storeType_list_of_not_mem (a : Nat) (ty : Typ) :
    ∀ (p : ObjList), a ∉ p.addrs → p.storeType a ty = p
  | .nil, _ => by
      simp only [ObjList.storeType]
  | .cons o rest, h => by
      simp only [ObjList.addrs, List.mem_append, not_or] at h
      simp only [ObjList.storeType, Obj.storeType_of_not_mem a ty o h.1,
        ObjList.storeType_list_of_not_mem a ty rest h.2]
end

mutual
theorem Obj.syntaxCopy_nodup (tcopy : Typ → Typ) (dcopy : Dsymbol → Dsymbol) :
    ∀ (o : Obj) (brk : Nat), (o.syntaxCopy tcopy dcopy brk).1.addrs.Nodup
  | .leaf _ _ _ _ _, brk => by
      simp [Obj.syntaxCopy, Obj.addrs]
  | .declaration _ _ _ _, brk => by
      simp [Obj.syntaxCopy, Obj.addrs]
  | .newExp _ _ _ args _, brk => by
      have h := ObjArray.syntaxCopy_array_nodup tcopy dcopy args brk
      have hb := ObjArray.syntaxCopy_array_bounds tcopy dcopy args brk
      simp only [Obj.syntaxCopy, Obj.addrs, List.nodup_cons]
      exact ⟨fun hm => by have := hb.2 _ hm; omega, h⟩
  | .una _ _ _ _ e1 _, brk => by
      have h := Obj.syntaxCopy_nodup tcopy dcopy e1 (brk + 1)
      have hb := Obj.syntaxCopy_bounds tcopy dcopy e1 (brk + 1)
      simp only [Obj.syntaxCopy, Obj.addrs, List.nodup_cons]
      exact ⟨fun hm => by have := hb.2 _ hm; omega, h⟩
  | .call _ _ _ e1 args, brk => by
      have h := Obj.syntaxCopy_nodup tcopy dcopy e1 brk
      have hb := Obj.syntaxCopy_bounds tcopy dcopy e1 brk
      have h2 := ObjArray.syntaxCopy_array_nodup tcopy dcopy args
        (Obj.syntaxCopy tcopy dcopy e1 brk).2
      have hb2 := ObjArray.syntaxCopy_array_bounds tcopy dcopy args
        (Obj.syntaxCopy tcopy dcopy e1 brk).2
      simp only [Obj.syntaxCopy, Obj.addrs, List.nodup_cons, List.mem_append,
        List.nodup_append, List.Disjoint]
      refine ⟨?_, h, h2, ?_⟩
      · rintro (hm | hm)
        · have := hb.2 _ hm
          omega
        · have := hb2.2 _ hm
          omega
      · intro a hm hm2
        have := hb.2 _ hm
        have := hb2.2 _ hm2
        omega
  | .cast _ _ _ e1 _, brk => by
      have h := Obj.syntaxCopy_nodup tcopy dcopy e1 brk
      have hb := Obj.syntaxCopy_bounds tcopy dcopy e1 brk
      simp only [Obj.syntaxCopy, Obj.addrs, List.nodup_cons]
      exact ⟨fun hm => by have := hb.2 _ hm; omega, h⟩
  | .range _ _ _ e1 lwr upr, brk => by
      have hl := ObjPtr.syntaxCopy_ptr_nodup tcopy dcopy lwr brk
      have hbl := ObjPtr.syntaxCopy_ptr_bounds tcopy dcopy lwr brk
      have hu := ObjPtr.syntaxCopy_ptr_nodup tcopy dcopy upr
        (ObjPtr.syntaxCopy tcopy dcopy lwr brk).2
      have hbu := ObjPtr.syntaxCopy_ptr_bounds tcopy dcopy upr
        (ObjPtr.syntaxCopy tcopy dcopy lwr brk).2
      have h := Obj.syntaxCopy_nodup tcopy dcopy e1
        (ObjPtr.syntaxCopy tcopy dcopy upr (ObjPtr.syntaxCopy tcopy dcopy lwr brk).2).2
      have hb := Obj.syntaxCopy_bounds tcopy dcopy e1
        (ObjPtr.syntaxCopy tcopy dcopy upr (ObjPtr.syntaxCopy tcopy dcopy lwr brk).2).2
      simp only [Obj.syntaxCopy, Obj.addrs, List.nodup_cons, List.mem_append,
        List.nodup_append, List.Disjoint]
      refine ⟨?_, h, ⟨hl, hu, ?_⟩, ?_⟩
      · rintro (hm | hm | hm)
        · have := hb.2 _ hm
          omega
        · have := hbl.2 _ hm
          omega
        · have := hbu.2 _ hm
          omega
      · intro a hm hm2
        have := hbl.2 _ hm
        have := hbu.2 _ hm2
        omega
      · rintro a hm (hm2 | hm2)
        · have := hb.2 _ hm
          have := hbl.2 _ hm2
          omega
        · have := hb.2 _ hm
          have := hbu.2 _ hm2
          omega
  | .bin _ _ _ _ e1 e2, brk => by
      have h1 := Obj.syntaxCopy_nodup tcopy dcopy e1 (brk + 1)
      have hb1 := Obj.syntaxCopy_bounds tcopy dcopy e1 (brk + 1)
      have h2 := Obj.syntaxCopy_nodup tcopy dcopy e2
        (Obj.syntaxCopy tcopy dcopy e1 (brk + 1)).2
      have hb2 := Obj.syntaxCopy_bounds tcopy dcopy e2
        (Obj.syntaxCopy tcopy dcopy e1 (brk + 1)).2
      simp only [Obj.syntaxCopy, Obj.addrs, List.nodup_cons, List.mem_append,
        List.nodup_append, List.Disjoint]
      refine ⟨?_, h1, h2, ?_⟩
      · rintro (hm | hm)
        · have := hb1.2 _ hm
          omega
        · have := hb2.2 _ hm
          omega
      · intro a hm hm2
        have := hb1.2 _ hm
        have := hb2.2 _ hm2
        omega
  | .cond _ _ _ econd e1 e2, brk => by
      have hc := Obj.syntaxCopy_nodup tcopy dcopy econd brk
      have hbc := Obj.syntaxCopy_bounds tcopy dcopy econd brk
      have h1 := Obj.syntaxCopy_nodup tcopy dcopy e1
        (Obj.syntaxCopy tcopy dcopy econd brk).2
      have hb1 := Obj.syntaxCopy_bounds tcopy dcopy e1
        (Obj.syntaxCopy tcopy dcopy econd brk).2
      have h2 := Obj.syntaxCopy_nodup tcopy dcopy e2
        (Obj.syntaxCopy tcopy dcopy e1 (Obj.syntaxCopy tcopy dcopy econd brk).2).2
      have hb2 := Obj.syntaxCopy_bounds tcopy dcopy e2
        (Obj.syntaxCopy tcopy dcopy e1 (Obj.syntaxCopy tcopy dcopy econd brk).2).2
      simp only [Obj.syntaxCopy, Obj.addrs, List.nodup_cons, List.mem_append,
        List.nodup_append, List.Disjoint]
      refine ⟨?_, hc, ⟨h1, h2, ?_⟩, ?_⟩
      · rintro (hm | hm | hm)
        · have := hbc.2 _ hm
          omega
        · have := hb1.2 _ hm
          omega
        · have := hb2.2 _ hm
          omega
      · intro a hm hm2
        have := hb1.2 _ hm
        have := hb2.2 _ hm2
        omega
      · rintro a hm (hm2 | hm2)
        · have := hbc.2 _ hm
          have := hb1.2 _ hm2
          omega
        · have := hbc.2 _ hm
          have := hb1.1
          have := hb2.2 _ hm2
          omega
theorem ObjPtr.syntaxCopy_ptr_nodup (tcopy : Typ → Typ) (dcopy : Dsymbol → Dsymbol) :
    ∀ (p : ObjPtr) (brk : Nat), (p.syntaxCopy tcopy dcopy brk).1.addrs.Nodup
  | .null, brk => by
      simp [ObjPtr.syntaxCopy, ObjPtr.addrs]
  | .ptr o, brk => by
      have h := Obj.syntaxCopy_nodup tcopy dcopy o brk
      simp only [ObjPtr.syntaxCopy, ObjPtr.addrs]
      exact h
theorem ObjArray.syntaxCopy_array_nodup (tcopy : Typ → Typ) (dcopy : Dsymbol → Dsymbol) :
    ∀ (p : ObjArray) (brk : Nat), (p.syntaxCopy tcopy dcopy brk).1.addrs.Nodup
  | .null, brk => by
      simp [ObjArray.syntaxCopy, ObjArray.addrs]
  | .array _ elems, brk => by
      have h := ObjList.syntaxCopy_list_nodup tcopy dcopy elems (brk + 1)
      have hb := ObjList.syntaxCopy_list_bounds tcopy dcopy elems (brk + 1)
      simp only [ObjArray.syntaxCopy, ObjArray.addrs, List.nodup_cons]
      exact ⟨fun hm => by have := hb.2 _ hm; omega, h⟩
theorem ObjList.syntaxCopy_list_nodup (tcopy : Typ → Typ) (dcopy : Dsymbol → Dsymbol) :
    ∀ (p : ObjList) (brk : Nat), (p.syntaxCopy tcopy dcopy brk).1.addrs.Nodup
  | .nil, brk => by
      simp [ObjList.syntaxCopy, ObjList.addrs]
  | .cons o rest, brk => by
      have h := Obj.syntaxCopy_nodup tcopy dcopy o brk
      have hb := Obj.syntaxCopy_bounds tcopy dcopy o brk
      have h2 := ObjList.syntaxCopy_list_nodup tcopy dcopy rest
        (Obj.syntaxCopy tcopy dcopy o brk).2
      have hb2 := ObjList.syntaxCopy_list_bounds tcopy dcopy rest
        (Obj.syntaxCopy tcopy dcopy o brk).2
      simp only [ObjList.syntaxCopy, ObjList.addrs, List.nodup_append, List.Disjoint]
      refine ⟨h, h2, ?_⟩
      intro a hm hm2
      have := hb.2 _ hm
      have := hb2.2 _ hm2
      omega
end

theorem Obj.syntaxCopy_op (tcopy : Typ → Typ) (dcopy : Dsymbol → Dsymbol) (o : Obj)
    (brk : Nat) : (o.syntaxCopy tcopy dcopy brk).1.op = o.op := by
  cases o <;> simp only [Obj.syntaxCopy, Obj.op]

theorem Obj.syntaxCopy_example :
    (Obj.example.syntaxCopy id id 6).1 =
      .range 11 Loc.example none
        (.call 10 Loc.example none (.leaf 7 Loc.example .TOKidentifier none 102)
          (.array 8 (.cons (.leaf 9 Loc.example .TOKidentifier none 120) .nil)))
        (.ptr (.leaf 6 ⟨some 0, 8⟩ .TOKint64 (some Typ.tint32) 1)) .null := by
  simp [Obj.example, Obj.syntaxCopy, ObjPtr.syntaxCopy, ObjArray.syntaxCopy,
    ObjList.syntaxCopy]

/-- C30 (Invariant I2): for an expression tree `t` whose objects lie below the
first free address, `t->syntaxCopy()` is a tree of the same shape with the same
operator tag and source location at every node, in which the root, every
operand, every element of an argument list, the bounds of a range and the
condition are newly allocated objects: the addresses of the copy are pairwise
distinct, lie between the free address before and after the call, and none is
an address of `t`, so that a store through a pointer into the copy leaves `t`
as it was. -/
theorem Obj.syntaxCopy_independent (tcopy : Typ → Typ) (dcopy : Dsymbol → Dsymbol)
    (t : Obj) (brk : Nat) (ht : ∀ a ∈ t.addrs, a < brk) :
    t.sameShape (t.syntaxCopy tcopy dcopy brk).1 = true ∧
    (t.syntaxCopy tcopy dcopy brk).1.op = t.op ∧
    (t.syntaxCopy tcopy dcopy brk).1.addrs.Nodup ∧
    (∀ a ∈ (t.syntaxCopy tcopy dcopy brk).1.addrs,
      brk ≤ a ∧ a < (t.syntaxCopy tcopy dcopy brk).2 ∧ a ∉ t.addrs ∧
      ∀ ty, t.storeType a ty = t) := by
  refine ⟨Obj.syntaxCopy_sameShape tcopy dcopy t brk, Obj.syntaxCopy_op tcopy dcopy t brk,
    Obj.syntaxCopy_nodup tcopy dcopy t brk, ?_⟩
  intro a ha
  have hb := (Obj.syntaxCopy_bounds tcopy dcopy t brk).2 a ha
  have hn : a ∉ t.addrs := fun hm => by
    have := ht a hm
    omega
  exact ⟨hb.1, hb.2, hn, fun ty => Obj.storeType_of_not_mem a ty t hn⟩

/-- The copy of the tree of `f(x)[lo .. ]` made at the free address 6. -/
theorem Obj.syntaxCopy_independent_witness :
    (∀ a ∈ Obj.example.addrs, a < 6) ∧
    Obj.example.sameShape (Obj.example.syntaxCopy id id 6).1 = true ∧
    (Obj.example.syntaxCopy id id 6).1.op = Obj.example.op ∧
    (Obj.example.syntaxCopy id id 6).1.addrs.Nodup ∧
    (∀ a ∈ (Obj.example.syntaxCopy id id 6).1.addrs,
      6 ≤ a ∧ a < (Obj.example.syntaxCopy id id 6).2 ∧ a ∉ Obj.example.addrs ∧
      ∀ ty, Obj.example.storeType a ty = Obj.example) :=
  ⟨by simp [Obj.example, Obj.addrs, ObjPtr.addrs, ObjArray.addrs, ObjList.addrs],
    Obj.syntaxCopy_independent id id Obj.example 6
      (by simp [Obj.example, Obj.addrs, ObjPtr.addrs, ObjArray.addrs, ObjList.addrs])⟩

end Dmd
